import Mathlib

/-!
# The `bal` type catalog and interface encoding of tc-libs

A shallow embedding of `src/bal/codec.go`.

* Go pointers `*TypeInfo` are indices (`Ptr`) into an explicit heap that is part of the
  catalog state, so that the aliasing between the by-type index, the interface list and
  the implementers buckets is the one of the source.
* A Go `panic` is an outcome next to the state it leaves behind: the catalog is reused
  after a recovered panic (see the comment in `RegisterInterface` of the source).
* Go maps are association lists with unique keys; the order in which `range` visits a map
  is not fixed by Go and is a parameter (`RangeOrder`).
* What the Go program declares outside this file (method sets, struct fields, the
  SHA-256 function, the unicode tables) is the parameter `Env`.
-/

namespace Bal

/-! ## Bytes and tags -/

/-- One byte. -/
abbrev Byte := Fin 256

/-- Go `PrefixBytes`, a `[4]byte`. -/
structure PrefixBytes where
  b0 : Byte
  b1 : Byte
  b2 : Byte
  b3 : Byte
  deriving DecidableEq, Repr, Inhabited

/-- Go `DisambBytes`, a `[3]byte`. -/
structure DisambBytes where
  b0 : Byte
  b1 : Byte
  b2 : Byte
  deriving DecidableEq, Repr, Inhabited

/-- Go `DisfixBytes`, a `[7]byte`: Disamb followed by Prefix. -/
structure DisfixBytes where
  b0 : Byte
  b1 : Byte
  b2 : Byte
  b3 : Byte
  b4 : Byte
  b5 : Byte
  b6 : Byte
  deriving DecidableEq, Repr, Inhabited

/-- Go `PrefixBytes.Bytes`. -/
def PrefixBytes.Bytes (pb : PrefixBytes) : List Byte := [pb.b0, pb.b1, pb.b2, pb.b3]

/-- Go `DisambBytes.Bytes`. -/
def DisambBytes.Bytes (db : DisambBytes) : List Byte := [db.b0, db.b1, db.b2]

/-- Go `DisfixBytes.Bytes`. -/
def DisfixBytes.Bytes (df : DisfixBytes) : List Byte :=
  [df.b0, df.b1, df.b2, df.b3, df.b4, df.b5, df.b6]

/-- Go `toDisfix`: the two `copy` calls fill bytes 0..2 from Disamb and 3..6 from Prefix. -/
def toDisfix (db : DisambBytes) (pb : PrefixBytes) : DisfixBytes :=
  ⟨db.b0, db.b1, db.b2, pb.b0, pb.b1, pb.b2, pb.b3⟩

/-! ## Reflection: kinds and types -/

/-- Go `reflect.Kind`. -/
inductive Kind where
  | Invalid | Bool | Int | Int8 | Int16 | Int32 | Int64
  | Uint | Uint8 | Uint16 | Uint32 | Uint64 | Uintptr
  | Float32 | Float64 | Complex64 | Complex128
  | Array | Chan | Func | Interface | Map | Ptr | Slice | String | Struct | UnsafePointer
  deriving DecidableEq, Repr, Inhabited

/-- The kinds a type has when it is not itself a pointer, array or slice type. -/
inductive BaseKind where
  | Bool | Int | Int8 | Int16 | Int32 | Int64
  | Uint | Uint8 | Uint16 | Uint32 | Uint64 | Uintptr
  | Float32 | Float64 | Complex64 | Complex128
  | Chan | Func | Interface | Map | String | Struct | UnsafePointer
  deriving DecidableEq, Repr, Inhabited

/-- The `reflect.Kind` of a base kind. -/
def BaseKind.toKind : BaseKind → Kind
  | .Bool => .Bool | .Int => .Int | .Int8 => .Int8 | .Int16 => .Int16
  | .Int32 => .Int32 | .Int64 => .Int64
  | .Uint => .Uint | .Uint8 => .Uint8 | .Uint16 => .Uint16 | .Uint32 => .Uint32
  | .Uint64 => .Uint64 | .Uintptr => .Uintptr
  | .Float32 => .Float32 | .Float64 => .Float64
  | .Complex64 => .Complex64 | .Complex128 => .Complex128
  | .Chan => .Chan | .Func => .Func | .Interface => .Interface | .Map => .Map
  | .String => .String | .Struct => .Struct | .UnsafePointer => .UnsafePointer

/-- Go `reflect.Type`, up to identity: a declared type is known by its name and kind;
pointer, array and slice types are built from their element type. -/
inductive RType where
  | named (name : String) (kind : BaseKind)
  | ptr (elem : RType)
  | array (len : Nat) (elem : RType)
  | slice (elem : RType)
  deriving DecidableEq, Repr, Inhabited

/-- Go `reflect.Type.Kind`. -/
def RType.Kind : RType → Kind
  | .named _ k => k.toKind
  | .ptr _ => .Ptr
  | .array _ _ => .Array
  | .slice _ => .Slice

/-- Go `reflect.PtrTo`. -/
def RType.PtrTo (rt : RType) : RType := .ptr rt

/-- Go `derefPointersType`: the loop `for rt.Kind() == reflect.Ptr { rt = rt.Elem() }`. -/
def derefPointersType : RType → RType
  | .ptr e => derefPointersType e
  | rt => rt

/-- Go `errorType`. -/
def errorType : RType := .named "error" .Interface

/-- Go `reflect.StructField`, the parts the catalog reads; `Tag` lists the key/value
pairs that `Tag.Get` looks up. -/
structure StructField where
  Name : String
  PkgPath : String
  Typ : RType
  Tag : List (String × String)
  deriving DecidableEq, Repr, Inhabited

/-- Go `reflect.StructTag.Get`: the value of the key, or the empty string. -/
def tagGet : List (String × String) → String → String
  | [], _ => ""
  | (k, v) :: rest, key => if k = key then v else tagGet rest key

/-- The type of a Go method as `reflect.Method.Type` gives it: the receiver is the
first input. -/
structure Method where
  ins : List RType
  outs : List RType
  deriving DecidableEq, Repr, Inhabited

/-- What the surrounding Go program and its libraries fix: the SHA-256 function, which
types implement which interfaces, the declared fields and methods of a type, and
`unicode.IsUpper`. -/
structure Env where
  sha256 : String → List Byte
  implements : RType → RType → Bool
  fields : RType → List StructField
  methodByName : RType → String → Option Method
  isUpper : Char → Bool

/-! ## Panics and errors -/

/-- The reasons for which the code panics. -/
inductive Panic where
  | codecSealed
  | expectedPointer (rt : RType)
  | expectsInterface (rt : RType)
  | expectedNonInterface (rt : RType)
  | pointerPointers (rt : RType)
  | interfacePointers (rt : RType)
  | unexpectedPointerType
  | unexpectedInterfaceType
  | expectedInterfaceType (rt : RType)
  | expectedConcreteType (rt : RType)
  | disfixAlreadyRegistered (df : DisfixBytes) (existing : RType)
  | nameAlreadyRegistered (name : String) (existing : RType)
  | conflicts (ctype : RType) (count : Nat) (itype : RType)
  | shouldNotHappen
  | unsupportedFieldType (rt : RType)
  | floatingPointUnsafe
  | marshalAminoInputs
  | marshalAminoOutputs
  | marshalAminoErrorType (out : RType)
  | unmarshalAminoInputs
  | unmarshalAminoReceiver (in1 : RType)
  | unmarshalAminoOutputs
  | unmarshalAminoErrorType (out : RType)
  | reprPointer (rrt : RType)
  | indexOutOfRange
  | sliceBoundsOutOfRange
  | reflectPanic
  | collaborator (code : Nat)
  | divideByZero
  | negativeRepeatCount
  | wrongSignatureSize (got : Nat)
  deriving DecidableEq, Repr, Inhabited

/-! ## The Disfix name scheme -/

/-- The loop `for bz[0] == 0x00 { bz = bz[1:] }` of `nameToDisfix`; reading `bz[0]` of an
empty slice panics, which is `none`. -/
def stripLeadingZeros : List Byte → Option (List Byte)
  | [] => none
  | b :: rest => if b = 0 then stripLeadingZeros rest else some (b :: rest)

/-- The body of Go `nameToDisfix` after the digest `bz` has been computed. The digest
slice has no spare capacity, so `bz[0:3]` and `bz[0:4]` panic when too few bytes are
left. -/
def disfixOfDigest (bz : List Byte) : Except Panic (DisambBytes × PrefixBytes) :=
  match stripLeadingZeros bz with
  | none => .error .indexOutOfRange
  | some (d0 :: d1 :: d2 :: bz2) =>
    match stripLeadingZeros bz2 with
    | none => .error .indexOutOfRange
    | some (p0 :: p1 :: p2 :: p3 :: _) => .ok (⟨d0, d1, d2⟩, ⟨p0, p1, p2, p3⟩)
    | some _ => .error .sliceBoundsOutOfRange
  | some _ => .error .sliceBoundsOutOfRange

/-- Go `nameToDisfix`. -/
def nameToDisfix (env : Env) (name : String) : Except Panic (DisambBytes × PrefixBytes) :=
  disfixOfDigest (env.sha256 name)

/-- Go `NameToDisfix`. -/
def NameToDisfix (env : Env) (name : String) : Except Panic (DisambBytes × PrefixBytes) :=
  nameToDisfix env name

/-- Go `nameToDisamb`. -/
def nameToDisamb (env : Env) (name : String) : Except Panic DisambBytes :=
  (nameToDisfix env name).map Prod.fst

/-- Go `nameToPrefix`. -/
def nameToPrefix (env : Env) (name : String) : Except Panic PrefixBytes :=
  (nameToDisfix env name).map Prod.snd

/-! ## Wire categories and struct introspection -/

/-- Go `Typ3`. -/
inductive Typ3 where
  | Typ3_Varint
  | Typ3_8Byte
  | Typ3_ByteLength
  | Typ3_4Byte
  deriving DecidableEq, Repr, Inhabited

/-- Go `FieldOptions`. -/
structure FieldOptions where
  JSONName : String
  JSONOmitEmpty : Bool
  BinFixed64 : Bool
  BinFixed32 : Bool
  BinFieldNum : Nat
  Unsafe : Bool
  deriving DecidableEq, Repr, Inhabited

/-- The zero value `FieldOptions{}`. -/
def FieldOptions.zero : FieldOptions := ⟨"", false, false, false, 0, false⟩

/-- Go `FieldInfo`; `ZeroValue` is `reflect.Zero(Typ)` and is not stored. -/
structure FieldInfo where
  Name : String
  Typ : RType
  Index : Nat
  UnpackedList : Bool
  FieldOptions : FieldOptions
  deriving DecidableEq, Repr, Inhabited

/-- Go `typeToTyp3`. -/
def typeToTyp3 (rt : RType) (opts : FieldOptions) : Except Panic Typ3 :=
  match rt.Kind with
  | .Interface => .ok .Typ3_ByteLength
  | .Array | .Slice => .ok .Typ3_ByteLength
  | .String => .ok .Typ3_ByteLength
  | .Struct | .Map => .ok .Typ3_ByteLength
  | .Int64 | .Uint64 => if opts.BinFixed64 then .ok .Typ3_8Byte else .ok .Typ3_Varint
  | .Int32 | .Uint32 => if opts.BinFixed32 then .ok .Typ3_4Byte else .ok .Typ3_Varint
  | .Int16 | .Int8 | .Int | .Uint16 | .Uint8 | .Uint | .Bool => .ok .Typ3_Varint
  | .Float64 => .ok .Typ3_8Byte
  | .Float32 => .ok .Typ3_4Byte
  | _ => .error (.unsupportedFieldType rt)

/-- Go `checkUnsafe`: `none` when the field passes. -/
def checkUnsafe (field : FieldInfo) : Option Panic :=
  if field.FieldOptions.Unsafe then none
  else match field.Typ.Kind with
    | .Float32 | .Float64 => some .floatingPointUnsafe
    | _ => none

/-- Go `isExported`. The first rune of an empty name is the zero rune. -/
def isExported (env : Env) (field : StructField) : Bool :=
  if field.PkgPath ≠ "" then false
  else
    let first : Char := match field.Name.data with
      | [] => Char.ofNat 0
      | c :: _ => c
    if !env.isUpper first then false else true

/-- Go `strings.Split(s, ",")` on the characters of `s`. -/
def splitComma : List Char → List (List Char)
  | [] => [[]]
  | c :: cs =>
    match splitComma cs with
    | [] => [[c]]
    | p :: ps => if c = ',' then [] :: p :: ps else (c :: p) :: ps

/-- Go `Codec.parseFieldOptions`: the skip flag and the options. -/
def parseFieldOptions (field : StructField) : Bool × FieldOptions :=
  let binTag := tagGet field.Tag "binary"
  let aminoTag := tagGet field.Tag "amino"
  let jsonTag := tagGet field.Tag "json"
  if jsonTag = "-" then (true, FieldOptions.zero)
  else
    let jsonTagParts := (splitComma jsonTag.data).map String.mk
    let jsonName := if jsonTagParts.headD "" = "" then field.Name else jsonTagParts.headD ""
    let omitEmpty := match jsonTagParts with
      | _ :: p1 :: _ => decide (p1 = "omitempty")
      | _ => false
    let fixed64 := decide (binTag = "fixed64")
    let fixed32 := !fixed64 && decide (binTag = "fixed32")
    (false,
      { JSONName := jsonName, JSONOmitEmpty := omitEmpty, BinFixed64 := fixed64,
        BinFixed32 := fixed32, BinFieldNum := 0, Unsafe := decide (aminoTag = "unsafe") })

/-- The part of the loop body of `parseStructInfo` that sets `unpackedList`. -/
def unpackedListOf (ftype : RType) (fopts : FieldOptions) : Except Panic Bool :=
  match ftype with
  | .array _ elem | .slice elem =>
    if elem.Kind = .Uint8 then .ok false
    else (typeToTyp3 (derefPointersType elem) fopts).map fun typ3 =>
      decide (typ3 = .Typ3_ByteLength)
  | _ => .ok false

/-- The loop of Go `Codec.parseStructInfo` from field index `i` on, `infos` being the
entries appended so far. `BinFieldNum` is a `uint32`: the conversion
`uint32(len(infos) + 1)` keeps the low 32 bits. -/
def parseStructFields (env : Env) : List StructField → Nat → List FieldInfo →
    Except Panic (List FieldInfo)
  | [], _, infos => .ok infos
  | field :: rest, i, infos =>
    if !isExported env field then parseStructFields env rest (i + 1) infos
    else
      let (skip, fopts) := parseFieldOptions field
      if skip then parseStructFields env rest (i + 1) infos
      else
        match unpackedListOf field.Typ fopts with
        | .error e => .error e
        | .ok unpackedList =>
          let fieldInfo : FieldInfo :=
            { Name := field.Name, Index := i, Typ := field.Typ,
              UnpackedList := unpackedList,
              FieldOptions := { fopts with BinFieldNum := (infos.length + 1) % 2 ^ 32 } }
          match checkUnsafe fieldInfo with
          | some e => .error e
          | none => parseStructFields env rest (i + 1) (infos ++ [fieldInfo])

/-- Go `Codec.parseStructInfo`. -/
def parseStructInfo (env : Env) (rt : RType) : Except Panic (List FieldInfo) :=
  if rt.Kind ≠ .Struct then .error .shouldNotHappen
  else parseStructFields env (env.fields rt) 0 []

/-- Go `marshalAminoReprType`. -/
def marshalAminoReprType (rm : Method) : Except Panic RType :=
  if rm.ins.length ≠ 1 then .error .marshalAminoInputs
  else match rm.outs with
    | [rrt, out] =>
      if out ≠ errorType then .error (.marshalAminoErrorType out)
      else if rrt.Kind = .Ptr then .error (.reprPointer rrt)
      else .ok rrt
    | _ => .error .marshalAminoOutputs

/-- Go `unmarshalAminoReprType`. -/
def unmarshalAminoReprType (rm : Method) : Except Panic RType :=
  match rm.ins with
  | [in1, rrt] =>
    if in1.Kind ≠ .Ptr then .error (.unmarshalAminoReceiver in1)
    else match rm.outs with
      | [out] =>
        if out ≠ errorType then .error (.unmarshalAminoErrorType out)
        else if rrt.Kind = .Ptr then .error (.reprPointer rrt)
        else .ok rrt
      | _ => .error .unmarshalAminoOutputs
  | _ => .error .unmarshalAminoInputs

/-! ## Type descriptors and the catalog -/

/-- A Go `*TypeInfo`: the index of the descriptor in the heap of the catalog. -/
abbrev Ptr := Nat

/-- Go `InterfaceOptions`. -/
structure InterfaceOptions where
  Priority : List String
  AlwaysDisambiguate : Bool
  deriving DecidableEq, Repr, Inhabited

/-- Go `InterfaceInfo`. `Implementers` is a Go map, kept as an association list. -/
structure InterfaceInfo where
  Priority : List DisfixBytes
  Implementers : List (PrefixBytes × List Ptr)
  InterfaceOptions : InterfaceOptions
  deriving DecidableEq, Repr, Inhabited

/-- Go `ConcreteInfo`. -/
structure ConcreteInfo where
  Registered : Bool
  PointerPreferred : Bool
  Name : String
  Disamb : DisambBytes
  Prefix : PrefixBytes
  IsAminoMarshaler : Bool
  AminoMarshalReprType : Option RType
  IsAminoUnmarshaler : Bool
  AminoUnmarshalReprType : Option RType
  deriving DecidableEq, Repr, Inhabited

/-- Go `StructInfo`. -/
structure StructInfo where
  Fields : List FieldInfo
  deriving DecidableEq, Repr, Inhabited

/-- Go `TypeInfo`. `PtrToType` is `Typ.PtrTo`; the zero values are those of `Typ`. -/
structure TypeInfo where
  Typ : RType
  InterfaceInfo : InterfaceInfo
  ConcreteInfo : ConcreteInfo
  StructInfo : StructInfo
  deriving DecidableEq, Repr, Inhabited

/-- Go `TypeInfo.PtrToType`, set to `reflect.PtrTo(rt)` by every constructor. -/
def TypeInfo.PtrToType (info : TypeInfo) : RType := info.Typ.PtrTo

/-- Go `ConcreteInfo.GetDisfix`. -/
def ConcreteInfo.GetDisfix (cinfo : ConcreteInfo) : DisfixBytes :=
  toDisfix cinfo.Disamb cinfo.Prefix

/-- Go `Codec`, with the heap that holds the descriptors its pointers refer to. -/
structure Codec where
  sealed : Bool
  heap : List TypeInfo
  typeInfos : List (RType × Ptr)
  interfaceInfos : List Ptr
  concreteInfos : List Ptr
  disfixToTypeInfo : List (DisfixBytes × Ptr)
  nameToTypeInfo : List (String × Ptr)
  deriving DecidableEq, Repr, Inhabited

/-- Reading a Go map: `m[k]` with its `ok` flag. -/
def mapGet? {κ ν : Type} [DecidableEq κ] : List (κ × ν) → κ → Option ν
  | [], _ => none
  | (k0, v0) :: rest, k => if k0 = k then some v0 else mapGet? rest k

/-- Writing a Go map: `m[k] = v`. -/
def mapSet {κ ν : Type} [DecidableEq κ] : List (κ × ν) → κ → ν → List (κ × ν)
  | [], k, v => [(k, v)]
  | (k0, v0) :: rest, k, v =>
    if k0 = k then (k, v) :: rest else (k0, v0) :: mapSet rest k v

/-- The order in which a `range` loop visits the entries of the implementers map of the
descriptor behind a pointer: any rearrangement of the entries. -/
structure RangeOrder where
  order : Ptr → List (PrefixBytes × List Ptr) → List (PrefixBytes × List Ptr)
  perm : ∀ p m, (order p m).Perm m

/-- The visiting order that follows the association list. -/
def RangeOrder.inOrder : RangeOrder := ⟨fun _ m => m, fun _ m => List.Perm.refl m⟩

/-- The visiting order that follows the association list backwards. -/
def RangeOrder.backwards : RangeOrder :=
  ⟨fun _ m => m.reverse, fun _ m => List.reverse_perm m⟩

/-- Dereferencing a descriptor pointer in a heap. -/
def derefHeap (heap : List TypeInfo) (p : Ptr) : TypeInfo := heap.getD p default

/-- Dereferencing a descriptor pointer of the catalog. -/
def Codec.deref (cdc : Codec) (p : Ptr) : TypeInfo := derefHeap cdc.heap p

/-- Storing through a descriptor pointer. -/
def Codec.store (cdc : Codec) (p : Ptr) (info : TypeInfo) : Codec :=
  { cdc with heap := cdc.heap.set p info }

/-- Go `new(TypeInfo)` followed by filling it in: the descriptor is placed at the end of
the heap. -/
def Codec.alloc (cdc : Codec) (info : TypeInfo) : Ptr × Codec :=
  (cdc.heap.length, { cdc with heap := cdc.heap ++ [info] })

/-- Go `NewCodec`. -/
def NewCodec : Codec :=
  { sealed := false, heap := [], typeInfos := [], interfaceInfos := [],
    concreteInfos := [], disfixToTypeInfo := [], nameToTypeInfo := [] }

/-- Go `getTypeFromPointer`, on the type of its argument. -/
def getTypeFromPointer (rt : RType) : Except Panic RType :=
  match rt with
  | .ptr elem => .ok elem
  | _ => .error (.expectedPointer rt)

/-- Go `Codec.Seal`. -/
def Codec.Seal (cdc : Codec) : Codec := { cdc with sealed := true }

/-- Go `Codec.assertNotSealed`: `some` is the panic. -/
def Codec.assertNotSealed (cdc : Codec) : Option Panic :=
  if cdc.sealed then some .codecSealed else none

/-- Go `Codec.setTypeInfoNoLock` for the descriptor behind `p`: the panic, if any, and
the catalog as the call leaves it. -/
def Codec.setTypeInfoNoLock (cdc : Codec) (p : Ptr) : Option Panic × Codec :=
  let info := cdc.deref p
  if info.Typ.Kind = .Ptr then (some .unexpectedPointerType, cdc)
  else if (mapGet? cdc.typeInfos info.Typ).isSome then (none, cdc)
  else
    let cdc1 := { cdc with typeInfos := mapSet cdc.typeInfos info.Typ p }
    if info.Typ.Kind = .Interface then
      (none, { cdc1 with interfaceInfos := cdc1.interfaceInfos ++ [p] })
    else if info.ConcreteInfo.Registered then
      let cdc2 := { cdc1 with concreteInfos := cdc1.concreteInfos ++ [p] }
      let disfix := info.ConcreteInfo.GetDisfix
      match mapGet? cdc2.disfixToTypeInfo disfix with
      | some existing =>
        (some (.disfixAlreadyRegistered disfix (cdc2.deref existing).Typ), cdc2)
      | none =>
        match mapGet? cdc2.nameToTypeInfo info.ConcreteInfo.Name with
        | some existing =>
          (some (.nameAlreadyRegistered info.ConcreteInfo.Name (cdc2.deref existing).Typ), cdc2)
        | none =>
          (none, { cdc2 with
            disfixToTypeInfo := mapSet cdc2.disfixToTypeInfo disfix p
            nameToTypeInfo := mapSet cdc2.nameToTypeInfo info.ConcreteInfo.Name p })
    else (none, cdc1)

/-- The zero value `InterfaceInfo{}`. -/
def InterfaceInfo.zero : InterfaceInfo := ⟨[], [], ⟨[], false⟩⟩

/-- The zero value `ConcreteInfo{}`. -/
def ConcreteInfo.zero : ConcreteInfo :=
  { Registered := false, PointerPreferred := false, Name := "",
    Disamb := ⟨0, 0, 0⟩, Prefix := ⟨0, 0, 0, 0⟩,
    IsAminoMarshaler := false, AminoMarshalReprType := none,
    IsAminoUnmarshaler := false, AminoUnmarshalReprType := none }

/-- The `MethodByName` lookup of an amino method in `newTypeInfoUnregistered`, with the
check of its form: `none` when the type has no such method. -/
def aminoReprType (rm : Option Method) (check : Method → Except Panic RType) :
    Except Panic (Option RType) :=
  match rm with
  | none => .ok none
  | some m =>
    match check m with
    | .error e => .error e
    | .ok rrt => .ok (some rrt)

/-- Go `Codec.newTypeInfoUnregistered`. -/
def newTypeInfoUnregistered (env : Env) (rt : RType) : Except Panic TypeInfo :=
  if rt.Kind = .Ptr then .error .unexpectedPointerType
  else if rt.Kind = .Interface then .error .unexpectedInterfaceType
  else
    match (if rt.Kind = .Struct then parseStructInfo env rt else .ok []) with
    | .error e => .error e
    | .ok fields =>
      match aminoReprType (env.methodByName rt "MarshalAmino") marshalAminoReprType with
      | .error e => .error e
      | .ok marshal =>
        match aminoReprType (env.methodByName rt.PtrTo "UnmarshalAmino")
            unmarshalAminoReprType with
        | .error e => .error e
        | .ok unmarshal =>
          .ok { Typ := rt
                InterfaceInfo := InterfaceInfo.zero
                ConcreteInfo :=
                  { ConcreteInfo.zero with
                    IsAminoMarshaler := marshal.isSome, AminoMarshalReprType := marshal,
                    IsAminoUnmarshaler := unmarshal.isSome,
                    AminoUnmarshalReprType := unmarshal }
                StructInfo := ⟨fields⟩ }

/-- The loop of `newTypeInfoFromInterfaceType` that turns the priority names into
Disfix values. -/
def priorityDisfixes (env : Env) : List String → Except Panic (List DisfixBytes)
  | [] => .ok []
  | name :: rest =>
    match nameToDisfix env name with
    | .error e => .error e
    | .ok (disamb, pfx) =>
      match priorityDisfixes env rest with
      | .error e => .error e
      | .ok dfs => .ok (toDisfix disamb pfx :: dfs)

/-- Go `Codec.newTypeInfoFromInterfaceType`; `iopts = none` is the nil pointer. -/
def newTypeInfoFromInterfaceType (env : Env) (rt : RType) (iopts : Option InterfaceOptions) :
    Except Panic TypeInfo :=
  if rt.Kind ≠ .Interface then .error (.expectedInterfaceType rt)
  else
    match iopts with
    | none =>
      .ok { Typ := rt, InterfaceInfo := InterfaceInfo.zero,
            ConcreteInfo := ConcreteInfo.zero, StructInfo := ⟨[]⟩ }
    | some opts =>
      match priorityDisfixes env opts.Priority with
      | .error e => .error e
      | .ok prio =>
        .ok { Typ := rt, InterfaceInfo := ⟨prio, [], opts⟩,
              ConcreteInfo := ConcreteInfo.zero, StructInfo := ⟨[]⟩ }

/-- Go `Codec.newTypeInfoFromRegisteredConcreteType`. -/
def newTypeInfoFromRegisteredConcreteType (env : Env) (rt : RType) (pointerPreferred : Bool)
    (name : String) : Except Panic TypeInfo :=
  if rt.Kind = .Interface ∨ rt.Kind = .Ptr then .error (.expectedConcreteType rt)
  else
    match newTypeInfoUnregistered env rt with
    | .error e => .error e
    | .ok info =>
      match nameToDisamb env name with
      | .error e => .error e
      | .ok disamb =>
        match nameToPrefix env name with
        | .error e => .error e
        | .ok pfx =>
          .ok { info with ConcreteInfo :=
                  { info.ConcreteInfo with
                    Registered := true, PointerPreferred := pointerPreferred,
                    Name := name, Disamb := disamb, Prefix := pfx } }

/-! ## Registration -/

/-- The implementers bucket `info.Implementers[pb]`, nil when the key is absent. -/
def TypeInfo.bucket (info : TypeInfo) (pb : PrefixBytes) : List Ptr :=
  (mapGet? info.InterfaceInfo.Implementers pb).getD []

/-- The assignment `info.Implementers[pb] = cinfos`. -/
def TypeInfo.setBucket (info : TypeInfo) (pb : PrefixBytes) (cinfos : List Ptr) : TypeInfo :=
  { info with InterfaceInfo :=
      { info.InterfaceInfo with
        Implementers := mapSet info.InterfaceInfo.Implementers pb cinfos } }

/-- The body of the loop of `collectImplementersNolock`, for the concrete descriptor
behind `cp` and the interface descriptor behind `ip`. -/
def collectStep (env : Env) (ip : Ptr) (acc : Codec) (cp : Ptr) : Codec :=
  let cinfo := acc.deref cp
  let info := acc.deref ip
  if env.implements cinfo.PtrToType info.Typ then
    acc.store ip (info.setBucket cinfo.ConcreteInfo.Prefix
      (info.bucket cinfo.ConcreteInfo.Prefix ++ [cp]))
  else acc

/-- Go `Codec.collectImplementersNolock` for the interface descriptor behind `ip`. -/
def Codec.collectImplementersNolock (env : Env) (cdc : Codec) (ip : Ptr) : Codec :=
  cdc.concreteInfos.foldl (collectStep env ip) cdc

/-- The inner loops of `checkConflictsInPrioNolock`: whether the Disfix is in the
priority list. -/
def inPrio (prio : List DisfixBytes) (df : DisfixBytes) : Bool :=
  prio.any fun disfix => decide (df = disfix)

/-- The test `len(cinfos) == 2 && cinfos[0].Type == cinfos[1].Type`; the answer is
`cinfos[0]` when it holds. -/
def sameTypeTwice (heap : List TypeInfo) (cinfos : List Ptr) : Option Ptr :=
  match cinfos with
  | [c0, c1] => if (derefHeap heap c0).Typ = (derefHeap heap c1).Typ then some c0 else none
  | _ => none

/-- The `range` loop of Go `Codec.checkConflictsInPrioNolock` over the entries still to
visit: the error returned, if any, and the catalog as the call leaves it. -/
def checkConflictsLoop (cdc : Codec) (ip : Ptr) :
    List (PrefixBytes × List Ptr) → Option Panic × Codec
  | [] => (none, cdc)
  | (pb, cinfos) :: rest =>
    if cinfos.length < 2 then checkConflictsLoop cdc ip rest
    else
      match sameTypeTwice cdc.heap cinfos with
      | some c0 => (none, cdc.store ip ((cdc.deref ip).setBucket pb [c0]))
      | none =>
        match cinfos.find? fun cp =>
            !inPrio (cdc.deref ip).InterfaceInfo.Priority (cdc.deref cp).ConcreteInfo.GetDisfix with
        | some cp =>
          (some (.conflicts (cdc.deref cp).Typ cinfos.length (cdc.deref ip).Typ), cdc)
        | none => checkConflictsLoop cdc ip rest

/-- Go `Codec.checkConflictsInPrioNolock` for the interface descriptor behind `ip`. The
returned error is carried as the panic the two callers turn it into. -/
def Codec.checkConflictsInPrioNolock (ro : RangeOrder) (cdc : Codec) (ip : Ptr) :
    Option Panic × Codec :=
  checkConflictsLoop cdc ip (ro.order ip (cdc.deref ip).InterfaceInfo.Implementers)

/-- The loop of Go `Codec.addCheckConflictsWithConcreteNolock` over the interfaces still
to visit, for the concrete descriptor behind `cp`. -/
def addCheckConflictsLoop (env : Env) (ro : RangeOrder) (cp : Ptr) :
    List Ptr → Codec → Option Panic × Codec
  | [], cdc => (none, cdc)
  | ip :: rest, cdc =>
    let cinfo := cdc.deref cp
    let iinfo := cdc.deref ip
    if !env.implements cinfo.PtrToType iinfo.Typ then addCheckConflictsLoop env ro cp rest cdc
    else
      let origImpls := iinfo.bucket cinfo.ConcreteInfo.Prefix
      let cdc1 := cdc.store ip (iinfo.setBucket cinfo.ConcreteInfo.Prefix (origImpls ++ [cp]))
      match cdc1.checkConflictsInPrioNolock ro ip with
      | (some err, cdc2) =>
        (some err, cdc2.store ip ((cdc2.deref ip).setBucket cinfo.ConcreteInfo.Prefix origImpls))
      | (none, cdc2) => addCheckConflictsLoop env ro cp rest cdc2

/-- Go `Codec.addCheckConflictsWithConcreteNolock`. -/
def Codec.addCheckConflictsWithConcreteNolock (env : Env) (ro : RangeOrder) (cdc : Codec)
    (cp : Ptr) : Option Panic × Codec :=
  addCheckConflictsLoop env ro cp cdc.interfaceInfos cdc

/-- Go `Codec.RegisterInterface`; `ptr` is the type of the pointer argument. The result
is the panic, if any, and the catalog as the call leaves it. -/
def Codec.RegisterInterface (env : Env) (ro : RangeOrder) (cdc : Codec) (ptr : RType)
    (iopts : Option InterfaceOptions) : Option Panic × Codec :=
  match cdc.assertNotSealed with
  | some e => (some e, cdc)
  | none =>
    match getTypeFromPointer ptr with
    | .error e => (some e, cdc)
    | .ok rt =>
      if rt.Kind ≠ .Interface then (some (.expectsInterface rt), cdc)
      else
        match newTypeInfoFromInterfaceType env rt iopts with
        | .error e => (some e, cdc)
        | .ok info =>
          let (ip, cdc1) := cdc.alloc info
          let cdc2 := cdc1.collectImplementersNolock env ip
          match cdc2.checkConflictsInPrioNolock ro ip with
          | (some err, cdc3) => (some err, cdc3)
          | (none, cdc3) => cdc3.setTypeInfoNoLock ip

/-- The start of Go `Codec.RegisterConcrete`: the type to register and
`pointerPreferred`, from the type of the argument `o`. -/
def concreteTypeOf (o : RType) : Except Panic (RType × Bool) :=
  if o.Kind = .Interface then .error (.expectedNonInterface o)
  else
    match o with
    | .ptr rt =>
      if rt.Kind = .Ptr then .error (.pointerPointers rt)
      else if rt.Kind = .Interface then .error (.interfacePointers rt)
      else .ok (rt, true)
    | rt => .ok (rt, false)

/-- Go `Codec.RegisterConcrete`; `o` is the type of the value argument. The result is the
panic, if any, and the catalog as the call leaves it. -/
def Codec.RegisterConcrete (env : Env) (ro : RangeOrder) (cdc : Codec) (o : RType)
    (name : String) : Option Panic × Codec :=
  match cdc.assertNotSealed with
  | some e => (some e, cdc)
  | none =>
    match concreteTypeOf o with
    | .error e => (some e, cdc)
    | .ok (rt, pointerPreferred) =>
      match newTypeInfoFromRegisteredConcreteType env rt pointerPreferred name with
      | .error e => (some e, cdc)
      | .ok info =>
        let (cp, cdc1) := cdc.alloc info
        match cdc1.addCheckConflictsWithConcreteNolock env ro cp with
        | (some err, cdc2) => (some err, cdc2)
        | (none, cdc2) => cdc2.setTypeInfoNoLock cp

/-! ## Lookups -/

/-- The errors the code returns to its caller. -/
inductive Err where
  | unregisteredInterface (rt : RType)
  | unrecognizedPrefixBytes (pb : PrefixBytes)
  | conflictingConcreteTypes (pb : PrefixBytes) (t0 t1 : RType)
  | unrecognizedDisfixBytes (df : DisfixBytes)
  | unrecognizedName (name : String)
  | cannotEncodeUnregistered (crt : RType)
  | cannotDecodeEmptyBytes
  | expectsPointer
  | wantsToDecode (want found : String)
  | EOL
  | unexpectedEOF
  | collaborator (code : Nat)
  | paddingLengthWrong
  | notValidPublicKey
  | notValidPoint (name : String)
  deriving DecidableEq, Repr, Inhabited

/-- How a call ends: with a value, with an error returned to the caller, or with a
panic. -/
inductive Outcome (α : Type) where
  | ok (a : α)
  | err (e : Err)
  | panic (p : Panic)
  deriving DecidableEq, Repr

/-- Go `Codec.getRegistedTypeInfoWLock`: the descriptor pointer, `none` when the `ok`
flag is false. -/
def Codec.getRegistedTypeInfoWLock (cdc : Codec) (rt : RType) : Option Ptr :=
  mapGet? cdc.typeInfos (derefPointersType rt)

/-- Go `Codec.getTypeInfoWlock`, with the catalog as the call leaves it. -/
def Codec.getTypeInfoWlock (env : Env) (cdc : Codec) (rt : RType) : Outcome Ptr × Codec :=
  let rt := derefPointersType rt
  match mapGet? cdc.typeInfos rt with
  | some p => (.ok p, cdc)
  | none =>
    if rt.Kind = .Interface then (.err (.unregisteredInterface rt), cdc)
    else
      match newTypeInfoUnregistered env rt with
      | .error e => (.panic e, cdc)
      | .ok info =>
        let (p, cdc1) := cdc.alloc info
        match cdc1.setTypeInfoNoLock p with
        | (some e, cdc2) => (.panic e, cdc2)
        | (none, cdc2) => (.ok p, cdc2)

/-- Go `Codec.getTypeInfoFromPrefixRlock`; reading `infos[0]` of an empty bucket
panics. -/
def Codec.getTypeInfoFromPrefixRlock (cdc : Codec) (ip : Ptr) (pb : PrefixBytes) :
    Outcome Ptr :=
  match mapGet? (cdc.deref ip).InterfaceInfo.Implementers pb with
  | none => .err (.unrecognizedPrefixBytes pb)
  | some infos =>
    match infos with
    | i0 :: i1 :: _ => .err (.conflictingConcreteTypes pb (cdc.deref i0).Typ (cdc.deref i1).Typ)
    | [i0] => .ok i0
    | [] => .panic .indexOutOfRange

/-- Go `Codec.getTypeInfoFromDisfixRlock`. -/
def Codec.getTypeInfoFromDisfixRlock (cdc : Codec) (df : DisfixBytes) : Except Err Ptr :=
  match mapGet? cdc.disfixToTypeInfo df with
  | none => .error (.unrecognizedDisfixBytes df)
  | some p => .ok p

/-- Go `Codec.getTypeInfoFromNameRlock`. -/
def Codec.getTypeInfoFromNameRlock (cdc : Codec) (name : String) : Except Err Ptr :=
  match mapGet? cdc.nameToTypeInfo name with
  | none => .error (.unrecognizedName name)
  | some p => .ok p

/-! ## Reachable catalogs -/

/-- The catalogs that calls of the exported operations produce from `NewCodec`, the
calls that panic included: a recovered panic leaves the catalog in use. The lookups by
Disfix, by name and by prefix do not write to the catalog. -/
inductive Reachable (env : Env) : Codec → Prop where
  | newCodec : Reachable env NewCodec
  | registerInterface (ro : RangeOrder) (cdc : Codec) (ptr : RType)
      (iopts : Option InterfaceOptions) :
      Reachable env cdc → Reachable env (cdc.RegisterInterface env ro ptr iopts).2
  | registerConcrete (ro : RangeOrder) (cdc : Codec) (o : RType) (name : String) :
      Reachable env cdc → Reachable env (cdc.RegisterConcrete env ro o name).2
  | sealCall (cdc : Codec) : Reachable env cdc → Reachable env cdc.Seal
  | getTypeInfo (cdc : Codec) (rt : RType) :
      Reachable env cdc → Reachable env (cdc.getTypeInfoWlock env rt).2

/-! ## Values, buffers and streams -/

/-- A Go value as seen through `reflect.Value`. The contents of a value that is neither
a pointer nor an interface are carried as bytes that only the payload codec reads; the
zero value has no bytes. -/
inductive Value where
  | concrete (t : RType) (data : List Byte)
  | nilPtr (elem : RType)
  | ptrTo (v : Value)
  | nilIface (t : RType)
  | iface (t : RType) (dyn : Value)
  deriving DecidableEq, Repr, Inhabited

/-- Go `reflect.Value.Type`. -/
def Value.Type : Value → RType
  | .concrete t _ => t
  | .nilPtr elem => .ptr elem
  | .ptrTo v => .ptr v.Type
  | .nilIface t => t
  | .iface t _ => t

/-- Go `reflect.Value.Kind`. -/
def Value.Kind (rv : Value) : Kind := rv.Type.Kind

/-- Go `reflect.Value.IsNil` on a pointer or interface value. -/
def Value.IsNil : Value → Bool
  | .nilPtr _ => true
  | .nilIface _ => true
  | _ => false

/-- Go `reflect.Zero(rt)` for the types of the model. -/
def Value.Zero : RType → Value
  | .ptr elem => .nilPtr elem
  | .named name .Interface => .nilIface (.named name .Interface)
  | rt => .concrete rt []

/-- Go `reflect.New(rt).Elem()`: a fresh zero value that can be written to. -/
def Value.New (rt : RType) : Value := Value.Zero rt

/-- Go `derefPointers`: the value behind all pointer levels, `none` when a nil pointer is
met on the way (`isNilPtr`). -/
def derefPointers : Value → Option Value
  | .nilPtr _ => none
  | .ptrTo v => derefPointers v
  | rv => some rv

/-- Go `constructConcreteType`: the fresh instance to decode into and, from the decoded
instance, the value to set on the interface. -/
def constructConcreteType (cinfo : TypeInfo) : Value × (Value → Value) :=
  if cinfo.ConcreteInfo.PointerPreferred then (Value.New cinfo.Typ, Value.ptrTo)
  else (Value.New cinfo.Typ, fun crv => crv)

/-- Go `listpos`, an entry of the list stack of a stream. -/
structure ListPos where
  pos : Nat
  size : Nat
  deriving DecidableEq, Repr, Inhabited

/-- Go `Stream`: the input that has not been read yet and the stack of the lists being
read, the innermost last. -/
structure Stream where
  input : List Byte
  stack : List ListPos
  deriving DecidableEq, Repr, Inhabited

/-- Modelled from the spec: `Stream.readByte`, which the sources do not contain. Reading
takes the next byte of the input; a short read is an error returned to the caller. -/
def Stream.readByte (s : Stream) : Except Err (Byte × Stream) :=
  match s.input with
  | [] => .error .unexpectedEOF
  | b :: rest => .ok (b, { s with input := rest })

/-- The test `tos != nil && tos.pos == tos.size` of `decodeCDCInterface`. -/
def Stream.atListEnd (s : Stream) : Bool :=
  match s.stack.getLast? with
  | some tos => decide (tos.pos = tos.size)
  | none => false

/-- The functions of package `bal` that this file calls and the sources do not contain:
the generic interface codec, the payload writer and decoder that `cachedTypeInfo1` gives
for a type, and the JSON helpers. A writer gets the buffer `w.str` and returns it as it
leaves it; a decoder gets the stream and the value to fill. -/
structure Collab where
  writeInterface : Value → List Byte → Outcome Unit × List Byte
  decodeInterface : Stream → Value → Outcome Unit × Stream × Value
  writer : RType → Value → List Byte → Outcome Unit × List Byte
  decoder : RType → Stream → Value → Outcome Unit × Stream × Value
  encodeReflectJSON : TypeInfo → Value → Outcome String
  decodeReflectJSON : String → TypeInfo → Value → Outcome Value
  decodeInterfaceJSON : String → Except Err (String × String)

/-- The loop of `decodeCDCInterface` and of `consumeDisfix` that reads `n` bytes: the
bytes read, or the error of the read that failed, and the stream as the loop leaves
it. -/
def readBytes : Nat → Stream → Except Err (List Byte) × Stream
  | 0, s => (.ok [], s)
  | n + 1, s =>
    match s.readByte with
    | .error e => (.error e, s)
    | .ok (b, s1) =>
      match readBytes n s1 with
      | (.error e, s2) => (.error e, s2)
      | (.ok bs, s2) => (.ok (b :: bs), s2)

/-- The statement `copy(disfixbyte[:], bz[:])` of `decodeCDCInterface`, for the first
byte and the six read after it. -/
def disfixOfBytes (b0 : Byte) (bs : List Byte) : DisfixBytes :=
  ⟨b0, bs.getD 0 0, bs.getD 1 0, bs.getD 2 0, bs.getD 3 0, bs.getD 4 0, bs.getD 5 0⟩

/-- Go `reflect.Value.Set` on an interface destination; `none` is the panic for a value
that is not assignable to the type of the destination. -/
def Value.Set (env : Env) (rv : Value) (x : Value) : Option Value :=
  if env.implements x.Type rv.Type then some (.iface rv.Type x) else none

/-- Go `writeCDCInterface` on the catalog `cdc` (the package variable of the source):
how the call ends and `w.str` as it leaves it. -/
def writeCDCInterface (K : Collab) (cdc : Codec) (rv : Value) (w : List Byte) :
    Outcome Unit × List Byte :=
  let drt := derefPointersType rv.Type
  match cdc.getRegistedTypeInfoWLock drt with
  | none => K.writeInterface rv w
  | some _ =>
    match rv with
    | .nilPtr _ | .nilIface _ => (.ok (), w ++ [0x00])
    | .concrete _ _ => (.panic .reflectPanic, w)
    | .ptrTo elem | .iface _ elem =>
      match derefPointers elem with
      | none => (.panic .shouldNotHappen, w)
      | some crv =>
        if crv.Kind = .Interface then (.panic .shouldNotHappen, w)
        else
          let crt := crv.Type
          match cdc.getRegistedTypeInfoWLock crt with
          | none => (.err (.cannotEncodeUnregistered crt), w)
          | some cp =>
            let cinfo := cdc.deref cp
            if !cinfo.ConcreteInfo.Registered then (.err (.cannotEncodeUnregistered crt), w)
            else
              K.writer crt crv
                (w ++ cinfo.ConcreteInfo.Disamb.Bytes ++ cinfo.ConcreteInfo.Prefix.Bytes)

/-- Go `decodeCDCInterface` on the catalog `cdc`: how the call ends, the stream and the
destination as it leaves them. An error returned by the payload decoder is dropped by
the source; a panic of the decoder goes on to the caller. -/
def decodeCDCInterface (K : Collab) (env : Env) (cdc : Codec) (s : Stream) (rv : Value) :
    Outcome Unit × Stream × Value :=
  let drt := derefPointersType rv.Type
  match cdc.getRegistedTypeInfoWLock drt with
  | none => K.decodeInterface s rv
  | some _ =>
    if s.atListEnd then (.err .EOL, s, rv)
    else
      match s.readByte with
      | .error e => (.err e, s, rv)
      | .ok (b0, s1) =>
        if b0 = 0x00 then (.ok (), s1, Value.Zero rv.Type)
        else
          match readBytes 6 s1 with
          | (.error e, s2) => (.err e, s2, rv)
          | (.ok bs, s2) =>
            match cdc.getTypeInfoFromDisfixRlock (disfixOfBytes b0 bs) with
            | .error e => (.err e, s2, rv)
            | .ok cp =>
              let cinfo := cdc.deref cp
              let (crv, irvSet) := constructConcreteType cinfo
              match K.decoder crv.Type s2 crv with
              | (.panic e, s3, _) => (.panic e, s3, rv)
              | (_, s3, crv1) =>
                match rv.Set env (irvSet crv1) with
                | none => (.panic .reflectPanic, s3, rv)
                | some rv1 => (.ok (), s3, rv1)

/-! ## The JSON adapter -/

/-- Go `Codec.MarshalJSON`; `o = none` is the nil interface value. The result is how the
call ends, with the bytes written, and the catalog as the call leaves it. -/
def Codec.MarshalJSON (K : Collab) (env : Env) (cdc : Codec) (o : Option Value) :
    Outcome String × Codec :=
  match o with
  | none => (.ok "null", cdc)
  | some rv =>
    match cdc.getTypeInfoWlock env rv.Type with
    | (.err e, cdc1) => (.err e, cdc1)
    | (.panic e, cdc1) => (.panic e, cdc1)
    | (.ok p, cdc1) =>
      let info := cdc1.deref p
      match K.encodeReflectJSON info rv with
      | .err e => (.err e, cdc1)
      | .panic e => (.panic e, cdc1)
      | .ok body =>
        if info.ConcreteInfo.Registered then
          (.ok ("\x7b\"type\":\"" ++ info.ConcreteInfo.Name ++ "\",\"value\":" ++ body ++ "\x7d"),
            cdc1)
        else (.ok body, cdc1)

/-- Go `Codec.UnmarshalJSON`: how the call ends, with the value of the destination that
`ptr` points to after decoding, and the catalog as the call leaves it. -/
def Codec.UnmarshalJSON (K : Collab) (env : Env) (cdc : Codec) (bz : String) (ptr : Value) :
    Outcome Value × Codec :=
  if bz.length = 0 then (.err .cannotDecodeEmptyBytes, cdc)
  else
    match ptr with
    | .ptrTo rv =>
      match cdc.getTypeInfoWlock env rv.Type with
      | (.err e, cdc1) => (.err e, cdc1)
      | (.panic e, cdc1) => (.panic e, cdc1)
      | (.ok p, cdc1) =>
        let info := cdc1.deref p
        if info.ConcreteInfo.Registered then
          match K.decodeInterfaceJSON bz with
          | .error e => (.err e, cdc1)
          | .ok (name, bz1) =>
            if name ≠ info.ConcreteInfo.Name then
              (.err (.wantsToDecode info.ConcreteInfo.Name name), cdc1)
            else (K.decodeReflectJSON bz1 info rv, cdc1)
        else (K.decodeReflectJSON bz info rv, cdc1)
    | .nilPtr _ => (.panic .reflectPanic, cdc)
    | _ => (.err .expectsPointer, cdc)

/-! ## The specification's wording of the name scheme -/

/-- The name scheme as the specification words it, on the digest `h`: strip the leading
zero bytes, take the next 3 bytes as Disamb, strip the leading zero bytes of the
remainder, take the next 4 bytes as Prefix; there is no result when the digest is
exhausted before either segment is filled. -/
def specNameToDisfix (h : List Byte) : Option (List Byte × List Byte) :=
  let rest := h.dropWhile fun b => decide (b = 0)
  let rest2 := (rest.drop 3).dropWhile fun b => decide (b = 0)
  if rest.length < 3 ∨ rest2.length < 4 then none
  else some (rest.take 3, rest2.take 4)

/-! ## Catalogs after a call of `Seal` -/

/-- The catalogs met once `Seal` has been called: what `Seal` returns and what every
later call leaves. -/
inductive AfterSeal (env : Env) : Codec → Prop where
  | sealCall (cdc : Codec) : AfterSeal env cdc.Seal
  | registerInterface (ro : RangeOrder) (cdc : Codec) (ptr : RType)
      (iopts : Option InterfaceOptions) :
      AfterSeal env cdc → AfterSeal env (cdc.RegisterInterface env ro ptr iopts).2
  | registerConcrete (ro : RangeOrder) (cdc : Codec) (o : RType) (name : String) :
      AfterSeal env cdc → AfterSeal env (cdc.RegisterConcrete env ro o name).2
  | getTypeInfo (cdc : Codec) (rt : RType) :
      AfterSeal env cdc → AfterSeal env (cdc.getTypeInfoWlock env rt).2

/-! ## A small Go program for the examples -/

/-- SHA-256 on the names the examples use; the digests are those of the real function.
The table has no digest for any other name. -/
def demoSha256 (name : String) : List Byte :=
  if name = "int" then
    [109, 168, 140, 52, 186, 18, 76, 65, 249, 119, 219, 102, 164, 252, 92, 26,
     149, 23, 8, 210, 133, 200, 27, 176, 212, 124, 50, 6, 244, 194, 124, 168]
  else if name = "n" then
    [27, 22, 177, 223, 83, 139, 161, 45, 195, 249, 126, 219, 184, 92, 170, 112,
     80, 212, 108, 20, 129, 52, 41, 15, 235, 168, 15, 130, 54, 200, 61, 185]
  else if name = "m" then
    [98, 198, 106, 122, 93, 215, 12, 49, 70, 97, 128, 99, 195, 68, 229, 49,
     230, 212, 181, 158, 55, 152, 8, 68, 60, 233, 98, 179, 171, 214, 60, 90]
  else if name = "pkg/T83812" then
    [203, 242, 230, 8, 135, 95, 43, 82, 223, 225, 216, 53, 124, 203, 1, 49,
     77, 38, 242, 20, 21, 209, 90, 167, 145, 149, 6, 81, 64, 137, 86, 86]
  else if name = "pkg/T123317" then
    [126, 14, 211, 8, 135, 95, 43, 149, 74, 113, 165, 183, 24, 174, 16, 2,
     8, 66, 26, 204, 96, 42, 180, 85, 31, 29, 38, 205, 211, 55, 50, 119]
  else []

/-- The interface type `Foo` of the examples, declared `interface{}`. -/
def demoFoo : RType := .named "Foo" .Interface

/-- The interface type `Bar` of the examples, declared `interface{}`. -/
def demoBar : RType := .named "Bar" .Interface

/-- The interface type `Shape` of the examples, declared with one method. -/
def demoShape : RType := .named "Shape" .Interface

/-- The struct type `A` of the examples, declared without fields and methods. -/
def demoA : RType := .named "A" .Struct

/-- The struct type `B` of the examples, declared without fields and with the method of
`Shape`. -/
def demoB : RType := .named "B" .Struct

/-- A Go program for the examples: `Foo` and `Bar` are `interface{}`, which every type
implements; the method of `Shape` is declared on `B` alone, so that `B` and `*B` are the
types that implement `Shape`. No type has fields or amino methods. -/
def demoEnv : Env :=
  { sha256 := demoSha256
    implements := fun t i =>
      decide (i.Kind = .Interface) &&
        (decide (i ≠ demoShape) || decide (t = demoB) || decide (t = demoB.PtrTo))
    fields := fun _ => []
    methodByName := fun _ _ => none
    isUpper := Char.isUpper }

/-- The catalog of the examples in which only the interface `Foo` is registered. -/
def demoCdcFoo : Codec := (NewCodec.RegisterInterface demoEnv .inOrder (.ptr demoFoo) none).2

/-- The catalog of the examples after `RegisterInterface((*Foo)(nil), nil)` and
`RegisterConcrete(A{}, "n", nil)`. -/
def demoCdcFooA : Codec := (demoCdcFoo.RegisterConcrete demoEnv .inOrder demoA "n").2

/-- The characters before the name in the JSON envelope. -/
def envelopeOpen : List Char := "\x7b\"type\":\"".data

/-- The characters between the name and the payload in the JSON envelope. -/
def envelopeMiddle : List Char := "\",\"value\":".data

/-- Removes the characters `pre` from the front of `cs`, if they are there. -/
def stripFront : List Char → List Char → Option (List Char)
  | [], cs => some cs
  | _ :: _, [] => none
  | p :: ps, c :: cs => if p = c then stripFront ps cs else none

/-- Splits `cs` at its first double quote: the characters before it and from it on. -/
def splitAtQuote : List Char → List Char × List Char
  | [] => ([], [])
  | c :: cs =>
    if c = '"' then ([], c :: cs)
    else ((c :: (splitAtQuote cs).1), (splitAtQuote cs).2)

/-- A reader of the JSON envelope for the examples: the name and the payload of
an input of the form written by `MarshalJSON`. -/
def demoDecodeInterfaceJSON (bz : String) : Except Err (String × String) :=
  match stripFront envelopeOpen bz.data with
  | none => .error (.collaborator 3)
  | some afterOpen =>
    match stripFront envelopeMiddle (splitAtQuote afterOpen).2 with
    | none => .error (.collaborator 3)
    | some body =>
      if body.getLast? = some '\x7d' then
        .ok (String.mk (splitAtQuote afterOpen).1, String.mk body.dropLast)
      else .error (.collaborator 3)

/-- Collaborators for the examples. The payload of a value is its bytes; the payload
decoder takes the rest of the input. The JSON of a value without bytes is the empty
object. -/
def demoCollab : Collab :=
  { writeInterface := fun _ w => (.err (.collaborator 0), w)
    decodeInterface := fun s rv => (.err (.collaborator 0), s, rv)
    writer := fun _ crv w =>
      match crv with
      | .concrete _ data => (.ok (), w ++ data)
      | _ => (.err (.collaborator 1), w)
    decoder := fun t s _ => (.ok (), { s with input := [] }, .concrete t s.input)
    encodeReflectJSON := fun _ rv =>
      match derefPointers rv with
      | some (.concrete _ []) => .ok "\x7b\x7d"
      | _ => .err (.collaborator 2)
    decodeReflectJSON := fun bz info rv =>
      if bz = "\x7b\x7d" then
        match rv with
        | .concrete _ _ => .ok (.concrete info.Typ [])
        | _ => .err (.collaborator 2)
      else .err (.collaborator 2)
    decodeInterfaceJSON := demoDecodeInterfaceJSON }

/-! ## What registration never changes -/

/-- The parts of a descriptor that are fixed when it is built: everything but the
implementers map. -/
def TypeInfo.frozen (info : TypeInfo) : TypeInfo :=
  { info with InterfaceInfo := { info.InterfaceInfo with Implementers := [] } }

/-- The two catalogs differ at most in the implementers maps of their descriptors. -/
def Codec.SameButImpl (cdc cdc1 : Codec) : Prop :=
  cdc1.sealed = cdc.sealed ∧ cdc1.typeInfos = cdc.typeInfos ∧
  cdc1.interfaceInfos = cdc.interfaceInfos ∧ cdc1.concreteInfos = cdc.concreteInfos ∧
  cdc1.disfixToTypeInfo = cdc.disfixToTypeInfo ∧ cdc1.nameToTypeInfo = cdc.nameToTypeInfo ∧
  cdc1.heap.length = cdc.heap.length ∧ ∀ p, (cdc1.deref p).frozen = (cdc.deref p).frozen

/-- The catalog of the examples after `RegisterConcrete(A{}, "n", nil)` alone. -/
def demoCdcA : Codec := (NewCodec.RegisterConcrete demoEnv .inOrder demoA "n").2

/-- The catalog of the examples after `RegisterInterface((*Shape)(nil), nil)` and
`RegisterConcrete(A{}, "n", nil)`; `A` does not implement `Shape`. -/
def demoCdcShapeA : Codec :=
  ((NewCodec.RegisterInterface demoEnv .inOrder (.ptr demoShape) none).2.RegisterConcrete
    demoEnv .inOrder demoA "n").2

/-- The catalog of the examples in which `Foo` is registered with the priority list
`pkg/T83812`, `pkg/T123317`, two names with the same Prefix `08 87 5F 2B`, and then `A`
and `B` are registered under these names. -/
def demoCdcPrio : Codec :=
  (((NewCodec.RegisterInterface demoEnv .inOrder (.ptr demoFoo)
      (some ⟨["pkg/T83812", "pkg/T123317"], false⟩)).2.RegisterConcrete
      demoEnv .inOrder demoA "pkg/T83812").2.RegisterConcrete
      demoEnv .inOrder demoB "pkg/T123317").2

/-! ## The invariant of reachable catalogs -/

/-- The Disfix of the concrete descriptor behind `cp` is in the priority list of the
interface descriptor behind `ip`. -/
def Codec.covered (cdc : Codec) (ip cp : Ptr) : Bool :=
  inPrio (cdc.deref ip).InterfaceInfo.Priority (cdc.deref cp).ConcreteInfo.GetDisfix

/-- A bucket of the interface behind `ip` that `checkConflictsInPrioNolock` passes
without writing to it: it is not one type held twice, and when it holds two or more
descriptors each of them is in the priority list. -/
def Codec.BucketOk (cdc : Codec) (ip : Ptr) (cinfos : List Ptr) : Prop :=
  sameTypeTwice cdc.heap cinfos = none ∧
  (2 ≤ cinfos.length → ∀ cp ∈ cinfos, cdc.covered ip cp = true)

/-- What holds of every reachable catalog: the pointers of the two lists and of the
buckets are allocated, no interface is listed twice, the listed concrete descriptors are
keyed in the by-type index and have pairwise different types, and every bucket of every
listed interface passes the conflict check. -/
structure Codec.Inv (cdc : Codec) : Prop where
  ifaceValid : ∀ ip ∈ cdc.interfaceInfos, ip < cdc.heap.length
  ifaceNodup : cdc.interfaceInfos.Nodup
  concValid : ∀ cp ∈ cdc.concreteInfos, cp < cdc.heap.length
  concKeyed : ∀ cp ∈ cdc.concreteInfos, (mapGet? cdc.typeInfos (cdc.deref cp).Typ).isSome = true
  concTypes : (cdc.concreteInfos.map fun cp => (cdc.deref cp).Typ).Nodup
  bucketValid : ∀ ip ∈ cdc.interfaceInfos, ∀ e ∈ (cdc.deref ip).InterfaceInfo.Implementers,
    ∀ cp ∈ e.2, cp < cdc.heap.length
  bucketOk : ∀ ip ∈ cdc.interfaceInfos, ∀ e ∈ (cdc.deref ip).InterfaceInfo.Implementers,
    cdc.BucketOk ip e.2

/-- The three ways in which a run of the conflict check over the entries `l` of the
interface behind `ip` can end with `r`: with an error for an entry that is not one type
twice and holds a descriptor outside the priority list, the catalog untouched; with the
collapse of an entry that is one type twice; or having passed every entry, nothing
written. -/
def Codec.CheckCases (cdc : Codec) (ip : Ptr) (l : List (PrefixBytes × List Ptr))
    (r : Option Panic × Codec) : Prop :=
  (∃ e ∈ l, ∃ cp ∈ e.2, 2 ≤ e.2.length ∧ sameTypeTwice cdc.heap e.2 = none ∧
      cdc.covered ip cp = false ∧
      r = (some (.conflicts (cdc.deref cp).Typ e.2.length (cdc.deref ip).Typ), cdc)) ∨
  (∃ e ∈ l, ∃ c0, sameTypeTwice cdc.heap e.2 = some c0 ∧
      r = (none, cdc.store ip ((cdc.deref ip).setBucket e.1 [c0]))) ∨
  (r = (none, cdc) ∧
    ∀ e ∈ l, e.2.length < 2 ∨
      (sameTypeTwice cdc.heap e.2 = none ∧ ∀ cp ∈ e.2, cdc.covered ip cp = true))

/-- Whether the concrete descriptor behind `c` belongs in the bucket `pb` of an interface
of type `itype`: its pointer type implements the interface and its Prefix is `pb`. -/
def Codec.implementsUnder (env : Env) (cdc : Codec) (itype : RType) (pb : PrefixBytes)
    (c : Ptr) : Bool :=
  env.implements (cdc.deref c).PtrToType itype && decide ((cdc.deref c).ConcreteInfo.Prefix = pb)

/-- The catalog of the examples after `RegisterInterface((*Foo)(nil), nil)`,
`RegisterInterface((*Bar)(nil), nil)` and `RegisterConcrete(A{}, "pkg/T83812", nil)`. -/
def demoCdcFooBarA : Codec :=
  (((NewCodec.RegisterInterface demoEnv .inOrder (.ptr demoFoo) none).2.RegisterInterface
      demoEnv .inOrder (.ptr demoBar) none).2.RegisterConcrete
      demoEnv .inOrder demoA "pkg/T83812").2

/-- The catalog of the examples after `RegisterConcrete(A{}, "pkg/T83812", nil)` and
`RegisterConcrete(B{}, "pkg/T123317", nil)`, no interface being registered. -/
def demoCdcAB : Codec :=
  ((NewCodec.RegisterConcrete demoEnv .inOrder demoA "pkg/T83812").2.RegisterConcrete
      demoEnv .inOrder demoB "pkg/T123317").2

/-- The descriptor that `RegisterConcrete(B{}, "pkg/T123317", nil)` builds. -/
def demoInfoB : TypeInfo :=
  { Typ := demoB
    InterfaceInfo := InterfaceInfo.zero
    ConcreteInfo :=
      { ConcreteInfo.zero with
        Registered := true, Name := "pkg/T123317",
        Disamb := ⟨126, 14, 211⟩, Prefix := ⟨8, 135, 95, 43⟩ }
    StructInfo := ⟨[]⟩ }

/-- The descriptor that `RegisterInterface((*Bar)(nil), nil)` builds. -/
def demoInfoBar : TypeInfo :=
  { Typ := demoBar, InterfaceInfo := InterfaceInfo.zero, ConcreteInfo := ConcreteInfo.zero,
    StructInfo := ⟨[]⟩ }

/-- What holds of every reachable catalog besides `Codec.Inv`: the by-type index maps a
type to an allocated descriptor of that type, and the tag of every descriptor marked
`Registered` is the one the name scheme gives for its name. -/
structure Codec.Keyed (env : Env) (cdc : Codec) : Prop where
  byType : ∀ t p, mapGet? cdc.typeInfos t = some p →
    p < cdc.heap.length ∧ (cdc.deref p).Typ = t
  tagged : ∀ p, (cdc.deref p).ConcreteInfo.Registered = true →
    NameToDisfix env (cdc.deref p).ConcreteInfo.Name =
      .ok ((cdc.deref p).ConcreteInfo.Disamb, (cdc.deref p).ConcreteInfo.Prefix)

/-! ## The indexes by Disfix and by name -/

/-- What holds of every reachable catalog besides `Codec.Inv` and `Codec.Keyed`: a
descriptor that the by-Disfix index or the by-name index yields is allocated, is marked
`Registered`, has the Disfix or the name it is filed under, is the entry of the by-type
index for its own type and stands in the concrete list. -/
structure Codec.Indexed (cdc : Codec) : Prop where
  byDisfix : ∀ df p, mapGet? cdc.disfixToTypeInfo df = some p →
    p < cdc.heap.length ∧ (cdc.deref p).ConcreteInfo.Registered = true ∧
    (cdc.deref p).ConcreteInfo.GetDisfix = df ∧
    mapGet? cdc.typeInfos (cdc.deref p).Typ = some p ∧ p ∈ cdc.concreteInfos
  byName : ∀ n p, mapGet? cdc.nameToTypeInfo n = some p →
    p < cdc.heap.length ∧ (cdc.deref p).ConcreteInfo.Registered = true ∧
    (cdc.deref p).ConcreteInfo.Name = n ∧
    mapGet? cdc.typeInfos (cdc.deref p).Typ = some p ∧ p ∈ cdc.concreteInfos

/-! ## More of the program of the examples -/

/-- The catalog of the examples in which `Foo` is registered and `A` has only been looked
up by type, so that its descriptor is cached without being registered. -/
def demoCdcFooLazyA : Codec := (demoCdcFoo.getTypeInfoWlock demoEnv demoA).2

/-- The catalog of the examples after `RegisterInterface((*Foo)(nil), nil)` and
`RegisterConcrete(&A{}, "n", nil)`. -/
def demoCdcFooPtrA : Codec := (demoCdcFoo.RegisterConcrete demoEnv .inOrder (.ptr demoA) "n").2

/-- Collaborators for the examples whose payload is a length byte followed by that many
bytes. The payload decoder fills the instance with the bytes it finds and returns an
error when the input ends before the announced length. -/
def demoStrictCollab : Collab :=
  { demoCollab with
    writer := fun _ crv w =>
      match crv with
      | .concrete _ data => (.ok (), w ++ (Fin.ofNat data.length :: data))
      | _ => (.err (.collaborator 1), w)
    decoder := fun t s crv =>
      match s.input with
      | [] => (.err .unexpectedEOF, s, crv)
      | n :: rest =>
        if rest.length < n.val then
          (.err .unexpectedEOF, { s with input := [] }, .concrete t rest)
        else (.ok (), { s with input := rest.drop n.val }, .concrete t (rest.take n.val)) }

/-! ## Catalogs met after a given catalog -/

/-- The catalogs that calls of the exported operations produce from the catalog `c0`,
the calls that panic included. -/
inductive Later (env : Env) (c0 : Codec) : Codec → Prop where
  | now : Later env c0 c0
  | registerInterface (ro : RangeOrder) (cdc : Codec) (ptr : RType)
      (iopts : Option InterfaceOptions) :
      Later env c0 cdc → Later env c0 (cdc.RegisterInterface env ro ptr iopts).2
  | registerConcrete (ro : RangeOrder) (cdc : Codec) (o : RType) (name : String) :
      Later env c0 cdc → Later env c0 (cdc.RegisterConcrete env ro o name).2
  | sealCall (cdc : Codec) : Later env c0 cdc → Later env c0 cdc.Seal
  | getTypeInfo (cdc : Codec) (rt : RType) :
      Later env c0 cdc → Later env c0 (cdc.getTypeInfoWlock env rt).2

/-- The catalog `c` keeps what `c0` holds: the heap is at least as long, every entry of
the by-type index of `c0` is an entry of the by-type index of `c`, and the descriptors
of `c0` are as they were but for their implementers maps. -/
def Codec.Extends (c0 c : Codec) : Prop :=
  c0.heap.length ≤ c.heap.length ∧
  (∀ t p, mapGet? c0.typeInfos t = some p → mapGet? c.typeInfos t = some p) ∧
  ∀ p, p < c0.heap.length → (c.deref p).frozen = (c0.deref p).frozen

/-! ## The fields that struct introspection keeps -/

/-- The fields of a struct that the specification keeps, with their positions in the
declaration counted from `i`: those that are exported and whose json tag is not `-`. -/
def specKeptFields (env : Env) : List StructField → Nat → List (Nat × StructField)
  | [], _ => []
  | f :: rest, i =>
    if isExported env f && decide (tagGet f.Tag "json" ≠ "-") then
      (i, f) :: specKeptFields env rest (i + 1)
    else specKeptFields env rest (i + 1)

/-- A struct of the examples with an unexported field, a skipped field and two kept
fields. -/
def demoStruct : RType := .named "S" .Struct

/-- A struct of the examples with a floating-point field that lacks the opt-in. -/
def demoFloatStruct : RType := .named "F" .Struct

/-- A struct of the examples with a floating-point field that carries the opt-in. -/
def demoUnsafeStruct : RType := .named "U" .Struct

/-- The program of the examples with the fields of `S`, `F` and `U`:
`S{a int; B string; C int json:"-"; D int64 binary:"fixed64"}`, `F{X int; Y float64}` and
`U{Y float64 amino:"unsafe"}`. -/
def demoFieldsEnv : Env :=
  { demoEnv with
    fields := fun rt =>
      if rt = demoStruct then
        [⟨"a", "pkg", .named "int" .Int, []⟩,
         ⟨"B", "", .named "string" .String, []⟩,
         ⟨"C", "", .named "int" .Int, [("json", "-")]⟩,
         ⟨"D", "", .named "int64" .Int64, [("binary", "fixed64")]⟩]
      else if rt = demoFloatStruct then
        [⟨"X", "", .named "int" .Int, []⟩,
         ⟨"Y", "", .named "float64" .Float64, []⟩]
      else if rt = demoUnsafeStruct then
        [⟨"Y", "", .named "float64" .Float64, [("amino", "unsafe")]⟩]
      else [] }

/-! ## The table of registered types -/

/-- What `reflect` tells about a type besides its kind: Go `reflect.Type.Name` and
`reflect.Type.Size`. -/
structure TypeFacts where
  Name : RType → String
  Size : RType → Nat

/-- One upper-case hexadecimal digit. -/
def hexDigitUpper (d : Nat) : Char := (Nat.digitChar d).toUpper

/-- Go `fmt.Sprintf("%X", n)` for an unsigned integer. -/
def sprintfX (n : Nat) : String := String.mk ((Nat.toDigits 16 n).map Char.toUpper)

/-- Go `fmt.Sprintf("%X", bz)` for a byte array: two digits for every byte. -/
def sprintfXBytes (bz : List Byte) : String :=
  String.mk (bz.flatMap fun b => [hexDigitUpper (b.val / 16), hexDigitUpper (b.val % 16)])

/-- Go `getLengthStr`. -/
def getLengthStr (R : TypeFacts) (info : TypeInfo) : String :=
  match info.Typ.Kind with
  | .Array | .Int8 | .Int16 | .Int32 | .Int64 | .Float32 | .Float64
  | .Complex64 | .Complex128 => "0x" ++ sprintfX (R.Size info.Typ)
  | _ => "variable"

/-- Go `io.WriteString(out, s)` for the writer that `PrintTypes` is given: the error, if
any, and the writer as the call leaves it. -/
abbrev WriteString (σ : Type) := σ → String → Option Err × σ

/-- The statements `if _, err := io.WriteString(out, s); err != nil { return err }` for
the strings of the list, in order. -/
def writeChecked {σ : Type} (write : WriteString σ) : List String → σ → Option Err × σ
  | [], out => (none, out)
  | s :: rest, out =>
    match write out s with
    | (some err, out1) => (some err, out1)
    | (none, out1) => writeChecked write rest out1

/-- The body of the loop of `PrintTypes` for the descriptor `i`; the errors of the first
and of the last write are not looked at. -/
def printTypesRow {σ : Type} (R : TypeFacts) (write : WriteString σ) (i : TypeInfo) (out : σ) :
    Option Err × σ :=
  let out1 := (write out "| ").2
  match writeChecked write
      [R.Name i.Typ, " | ", i.ConcreteInfo.Name, " | ",
       "0x" ++ sprintfXBytes i.ConcreteInfo.Prefix.Bytes, " | ", getLengthStr R i, " | "] out1 with
  | (some err, out2) => (some err, out2)
  | (none, out2) => (none, (write out2 " |\n").2)

/-- The loop of `PrintTypes` over the concrete list. -/
def printTypesRows {σ : Type} (R : TypeFacts) (write : WriteString σ) :
    List TypeInfo → σ → Option Err × σ
  | [], out => (none, out)
  | i :: rest, out =>
    match printTypesRow R write i out with
    | (some err, out1) => (some err, out1)
    | (none, out1) => printTypesRows R write rest out1

/-- Go `Codec.PrintTypes`: the error returned, if any, and the writer as the call leaves
it. -/
def Codec.PrintTypes {σ : Type} (R : TypeFacts) (write : WriteString σ) (cdc : Codec)
    (out : σ) : Option Err × σ :=
  match writeChecked write
      ["| Type | Name | Prefix | Length | Notes |\n",
       "| ---- | ---- | ------ | ----- | ------ |\n"] out with
  | (some err, out1) => (some err, out1)
  | (none, out1) => printTypesRows R write (cdc.concreteInfos.map cdc.deref) out1

/-- The writer that appends to a string and never fails, as `bytes.Buffer` does. -/
def bufferWrite : WriteString String := fun out s => (none, out ++ s)

/-- The strings of the list, one after the other. -/
def concatStrings : List String → String
  | [] => ""
  | s :: rest => s ++ concatStrings rest

/-- The row of the table for a descriptor, as the specification words it but with the
size column of `getLengthStr`. -/
def specRow (R : TypeFacts) (i : TypeInfo) : String :=
  "| " ++ R.Name i.Typ ++ " | " ++ i.ConcreteInfo.Name ++ " | " ++
    "0x" ++ sprintfXBytes i.ConcreteInfo.Prefix.Bytes ++ " | " ++ getLengthStr R i ++ " | " ++
    " |\n"

/-- The names and sizes of the types of the examples, for a 64-bit platform. -/
def demoTypeFacts : TypeFacts :=
  { Name := fun rt =>
      match rt with
      | .named name _ => name
      | _ => ""
    Size := fun rt =>
      match rt with
      | .named _ .Bool | .named _ .Int8 | .named _ .Uint8 => 1
      | .named _ .Int16 | .named _ .Uint16 => 2
      | .named _ .Int32 | .named _ .Uint32 | .named _ .Float32 => 4
      | .named _ .Complex128 | .named _ .String => 16
      | .array len (.named _ .Uint8) => len
      | .named _ .Struct => 0
      | _ => 8 }

/-- The catalog of the examples after `RegisterConcrete(MyInt32(0), "n", nil)` and
`RegisterConcrete(MyUint32(0), "m", nil)`. -/
def demoCdcInts : Codec :=
  ((NewCodec.RegisterConcrete demoEnv .inOrder (.named "MyInt32" .Int32) "n").2.RegisterConcrete
    demoEnv .inOrder (.named "MyUint32" .Uint32) "m").2

/-! ## Package `regulation`: padding and the symmetric cipher -/

/-- Go `CommonIV`. -/
def CommonIV : List Byte :=
  [0x00, 0x01, 0x02, 0x03, 0x04, 0x05, 0x06, 0x07, 0x08, 0x09, 0x0a, 0x0b, 0x0c, 0x0d, 0x0e, 0x0f]

/-- Go `PKCS5Padding`. `blockSize` is an `int`: the remainder by zero panics, and
`bytes.Repeat` panics for a negative count; `byte(padding)` keeps the low 8 bits. -/
def PKCS5Padding (plainText : List Byte) (blockSize : Int) : Except Panic (List Byte) :=
  if blockSize = 0 then .error .divideByZero
  else
    let padding : Int := blockSize - (plainText.length : Int) % blockSize
    if padding < 0 then .error .negativeRepeatCount
    else .ok (plainText ++ List.replicate padding.toNat (Fin.ofNat (padding % 256).toNat))

/-- Go `PKCS5UnPadding`; reading `plainText[length-1]` of an empty slice panics. -/
def PKCS5UnPadding (plainText : List Byte) : Outcome (List Byte) :=
  let length := plainText.length
  match plainText.getLast? with
  | none => .panic .indexOutOfRange
  | some last =>
    let number := last.val
    if number > length then .err .paddingLengthWrong
    else .ok (plainText.take (length - number))

/-- What the packages `crypto/aes` and `crypto/cipher` give to `AesCipher`:
`aes.NewCipher`, the block size of the CBC mode made from a cipher, and `CryptBlocks`
of `cipher.NewCBCEncrypter(c, iv)` and of `cipher.NewCBCDecrypter(c, iv)`, which panic
for an input that is not made of full blocks. -/
structure CipherLib (C : Type) where
  NewCipher : List Byte → Except Err C
  BlockSize : C → Int
  EncryptBlocks : C → List Byte → List Byte → Except Panic (List Byte)
  DecryptBlocks : C → List Byte → List Byte → Except Panic (List Byte)

/-- Go `AesCipher.Encrypt`. -/
def AesCipher.Encrypt {C : Type} (L : CipherLib C) (plainText : List Byte) (secret : List Byte) :
    Outcome (List Byte) :=
  match L.NewCipher secret with
  | .error err => .err err
  | .ok c =>
    match PKCS5Padding plainText (L.BlockSize c) with
    | .error p => .panic p
    | .ok paddedText =>
      match L.EncryptBlocks c CommonIV paddedText with
      | .error p => .panic p
      | .ok cipherText => .ok cipherText

/-- Go `AesCipher.Decrypt`. -/
def AesCipher.Decrypt {C : Type} (L : CipherLib C) (cipherText : List Byte) (secret : List Byte) :
    Outcome (List Byte) :=
  match L.NewCipher secret with
  | .error err => .err err
  | .ok c =>
    match L.DecryptBlocks c CommonIV cipherText with
    | .error p => .panic p
    | .ok paddedText => PKCS5UnPadding paddedText

/-- The contract of the CBC mode that the round trip of `AesCipher` rests on, for the
cipher `c`: the block size is between 1 and 255, and on an input made of full blocks
the encrypter returns a text that the decrypter, with the same initial vector, turns
back into the input. -/
def CipherLib.Inverts {C : Type} (L : CipherLib C) (c : C) : Prop :=
  1 ≤ L.BlockSize c ∧ L.BlockSize c ≤ 255 ∧
  ∀ iv x, (x.length : Int) % L.BlockSize c = 0 →
    ∃ y, L.EncryptBlocks c iv x = .ok y ∧ L.DecryptBlocks c iv y = .ok x

/-- A cipher for the examples with blocks of 16 bytes: a key of 32 bytes is accepted, and
a text of full blocks is encrypted by adding the first byte of the key to every byte. -/
def demoCipherLib : CipherLib Byte :=
  { NewCipher := fun secret =>
      if secret.length = 32 then .ok (secret.headD 0) else .error (.collaborator 4)
    BlockSize := fun _ => 16
    EncryptBlocks := fun c _ x =>
      if x.length % 16 = 0 then .ok (x.map (· + c)) else .error (.collaborator 5)
    DecryptBlocks := fun c _ y =>
      if y.length % 16 = 0 then .ok (y.map (· - c)) else .error (.collaborator 5) }

/-! ## Package `regulation`: the escrow of the symmetric key -/

/-- What the package `go-ristretto` gives to `regulation`, over a group of points `P`
with scalars `S`: the base point, and the encodings of points and scalars in 32 bytes
(`Point.BytesInto`, `Point.SetBytes`, which refuses bytes that encode no point,
`Scalar.BytesInto` and `Scalar.SetBytes`). `PublicScalarMultBase(s)` is `s • base`,
`PublicScalarMult(p, s)` is `s • p`, `Add` and `Sub` are those of the group. -/
structure CurveLib (S P : Type) where
  base : P
  PointBytes : P → List Byte
  PointSetBytes : List Byte → Option P
  ScalarBytes : S → List Byte
  ScalarSetBytes : List Byte → S

/-- The encodings are faithful: decoding the bytes of a point or of a scalar yields that
point or scalar. -/
def CurveLib.Faithful {S P : Type} (L : CurveLib S P) : Prop :=
  (∀ p, L.PointSetBytes (L.PointBytes p) = some p) ∧
  (∀ s, L.ScalarSetBytes (L.ScalarBytes s) = s)

/-- Go `GenerateRegulationKey`, for the scalar `x` that `Rand` draws: the private and
the public key. -/
def GenerateRegulationKey {S P : Type} [CommRing S] [AddCommGroup P] [Module S P]
    (L : CurveLib S P) (x : S) : List Byte × List Byte :=
  (L.ScalarBytes x, L.PointBytes (x • L.base))

/-- Go `GenerateAndEncryptSymmetricKey`, for the scalars `seed` and `k` that `Rand`
draws: `(k, C1, C2, symk)`. -/
def GenerateAndEncryptSymmetricKey {S P : Type} [CommRing S] [AddCommGroup P] [Module S P]
    (L : CurveLib S P) (seed k : S) (Y : List Byte) :
    Except Err (List Byte × List Byte × List Byte × List Byte) :=
  let M := seed • L.base
  let symk := L.PointBytes M
  let kBytes := L.ScalarBytes k
  let C1 := L.PointBytes (k • L.base)
  match L.PointSetBytes Y with
  | none => .error .notValidPublicKey
  | some YPoint =>
    let kY := k • YPoint
    .ok (kBytes, C1, L.PointBytes (M + kY), symk)

/-- Go `GetSymmetricKeyWithK`. -/
def GetSymmetricKeyWithK {S P : Type} [CommRing S] [AddCommGroup P] [Module S P]
    (L : CurveLib S P) (C2 Y k : List Byte) : Except Err (List Byte) :=
  match L.PointSetBytes C2 with
  | none => .error (.notValidPoint "C2")
  | some C2Point =>
    match L.PointSetBytes Y with
    | none => .error .notValidPublicKey
    | some YPoint =>
      let kY := L.ScalarSetBytes k • YPoint
      .ok (L.PointBytes (C2Point - kY))

/-- Go `GetSymmetricKeyWithX`. -/
def GetSymmetricKeyWithX {S P : Type} [CommRing S] [AddCommGroup P] [Module S P]
    (L : CurveLib S P) (C1 C2 x : List Byte) : Except Err (List Byte) :=
  match L.PointSetBytes C1 with
  | none => .error (.notValidPoint "C1")
  | some C1Point =>
    match L.PointSetBytes C2 with
    | none => .error (.notValidPoint "C2")
    | some C2Point =>
      let xC1 := L.ScalarSetBytes x • C1Point
      .ok (L.PointBytes (C2Point - xC1))

/-- A group for the examples: the integers modulo 7 with the base point 1, a point or
scalar being encoded in one byte. -/
def demoCurveLib : CurveLib (ZMod 7) (ZMod 7) :=
  { base := 1
    PointBytes := fun p => [Fin.ofNat p.val]
    PointSetBytes := fun bz =>
      match bz with
      | [b] => if b.val < 7 then some (b.val : ZMod 7) else none
      | _ => none
    ScalarBytes := fun s => [Fin.ofNat s.val]
    ScalarSetBytes := fun bz => ((bz.headD 0).val : ZMod 7) }

/-! ## Package `crypto`: the values of a signature -/

/-- Go `secp256k1N`. -/
def secp256k1N : Int := 0xfffffffffffffffffffffffffffffffebaaedce6af48a03bbfd25e8cd0364141

/-- Go `secp256k1halfN`. -/
def secp256k1halfN : Int := secp256k1N / 2

/-- Go `SM2Magic`. -/
def SM2Magic : Byte := 0x8

/-- Go `ValidateSignatureValues`; `r` and `s` are the values of the two `*big.Int`. -/
def ValidateSignatureValues (v : Byte) (r s : Int) (homestead : Bool) : Bool :=
  if r < 1 ∨ s < 1 then false
  else if v = 0 ∨ v = 1 then
    if homestead = true ∧ s > secp256k1halfN then false
    else decide (r < secp256k1N) && decide (s < secp256k1N) && decide (v = 0 ∨ v = 1)
  else decide (v = SM2Magic ∨ v = SM2Magic + 1)

/-! ## Package `types`: the signers -/

/-- Go `big.Int.SetBytes`: the bytes read as a big-endian unsigned integer. -/
def bigSetBytes : List Byte → Int
  | [] => 0
  | b :: rest => (b.val : Int) * 256 ^ rest.length + bigSetBytes rest

/-- Go `STDEIP155Signer`, with the values of the two `*big.Int`. -/
structure STDEIP155Signer where
  signParam : Int
  signParamMul : Int
  deriving DecidableEq, Repr

/-- Go `NewSTDEIP155Signer`; `none` is the nil pointer. -/
def NewSTDEIP155Signer (signParam : Option Int) : STDEIP155Signer :=
  let signParam := match signParam with
    | none => 0
    | some c => c
  { signParam := signParam, signParamMul := signParam * 2 }

/-- Go `STDFrontierSigner.SignatureValues`: `(R, S, V)`; the sum `sig[64] + 27` is one
of bytes. -/
def STDFrontierSigner.SignatureValues (sig : List Byte) : Outcome (Int × Int × Int) :=
  if sig.length ≠ 65 then .panic (.wrongSignatureSize sig.length)
  else
    .ok (bigSetBytes (sig.take 32), bigSetBytes ((sig.drop 32).take 32),
      bigSetBytes [sig.getD 64 0 + 27])

/-- Go `STDHomesteadSigner.SignatureValues`. -/
def STDHomesteadSigner.SignatureValues (sig : List Byte) : Outcome (Int × Int × Int) :=
  STDFrontierSigner.SignatureValues sig

/-- Go `STDEIP155Signer.SignatureValues`; the sum `sig[64] + 35` is one of bytes. -/
def STDEIP155Signer.SignatureValues (s : STDEIP155Signer) (sig : List Byte) :
    Outcome (Int × Int × Int) :=
  match STDHomesteadSigner.SignatureValues sig with
  | .panic p => .panic p
  | .err err => .err err
  | .ok (R, S, V) =>
    if s.signParam ≠ 0 then .ok (R, S, ((sig.getD 64 0 + 35 : Byte).val : Int) + s.signParamMul)
    else .ok (R, S, V)

/-! ## Goroutines and the lock of the catalog -/

/-- The statements of Go `Codec.RegisterInterface` that follow `cdc.assertNotSealed()`:
the descriptor is built from the arguments alone, then the function literal takes
`cdc.mtx`, collects the implementers, checks the conflicts, commits and releases the
lock. -/
def Codec.registerInterfaceBody (env : Env) (ro : RangeOrder) (cdc : Codec) (ptr : RType)
    (iopts : Option InterfaceOptions) : Option Panic × Codec :=
  match getTypeFromPointer ptr with
  | .error e => (some e, cdc)
  | .ok rt =>
    if rt.Kind ≠ .Interface then (some (.expectsInterface rt), cdc)
    else
      match newTypeInfoFromInterfaceType env rt iopts with
      | .error e => (some e, cdc)
      | .ok info =>
        let (ip, cdc1) := cdc.alloc info
        let cdc2 := cdc1.collectImplementersNolock env ip
        match cdc2.checkConflictsInPrioNolock ro ip with
        | (some err, cdc3) => (some err, cdc3)
        | (none, cdc3) => cdc3.setTypeInfoNoLock ip

/-- The statements of Go `Codec.RegisterConcrete` that follow `cdc.assertNotSealed()`:
the descriptor is built from the arguments alone, then the function literal takes
`cdc.mtx`, adds the descriptor to the implementers with the conflict check, commits and
releases the lock. -/
def Codec.registerConcreteBody (env : Env) (ro : RangeOrder) (cdc : Codec) (o : RType)
    (name : String) : Option Panic × Codec :=
  match concreteTypeOf o with
  | .error e => (some e, cdc)
  | .ok (rt, pointerPreferred) =>
    match newTypeInfoFromRegisteredConcreteType env rt pointerPreferred name with
    | .error e => (some e, cdc)
    | .ok info =>
      let (cp, cdc1) := cdc.alloc info
      match cdc1.addCheckConflictsWithConcreteNolock env ro cp with
      | (some err, cdc2) => (some err, cdc2)
      | (none, cdc2) => cdc2.setTypeInfoNoLock cp

/-- A call of an exported operation of the catalog. -/
inductive Call where
  | registerInterface (ptr : RType) (iopts : Option InterfaceOptions)
  | registerConcrete (o : RType) (name : String)
  | sealCall
  | getTypeInfo (rt : RType)
  deriving DecidableEq, Repr

/-- Where a goroutine stands in its call: it has not taken `cdc.mtx` yet; its
`assertNotSealed` has returned and it holds no lock; or its call is over, with a panic,
an error or a result, which for a lookup is the descriptor found. -/
inductive Goroutine where
  | start (c : Call)
  | checked (c : Call)
  | returned (r : Outcome (Option Ptr))
  deriving DecidableEq, Repr

/-- How a registration ends. -/
def registrationResult (r : Option Panic) : Outcome (Option Ptr) :=
  match r with
  | some e => .panic e
  | none => .ok none

/-- How a lookup by type ends. -/
def lookupResult (r : Outcome Ptr) : Outcome (Option Ptr) :=
  match r with
  | .ok p => .ok (some p)
  | .err e => .err e
  | .panic e => .panic e

/-- One step of a goroutine on the catalog: what it does from one acquisition of
`cdc.mtx` to the release, with the statements before it that read no field of the
catalog. A registration takes two steps, `assertNotSealed` and the commit; `Seal` and
the lookup by type take one. -/
def Goroutine.step (env : Env) (ro : RangeOrder) (cdc : Codec) : Goroutine → Goroutine × Codec
  | .start (.registerInterface ptr iopts) =>
    match cdc.assertNotSealed with
    | some e => (.returned (.panic e), cdc)
    | none => (.checked (.registerInterface ptr iopts), cdc)
  | .start (.registerConcrete o name) =>
    match cdc.assertNotSealed with
    | some e => (.returned (.panic e), cdc)
    | none => (.checked (.registerConcrete o name), cdc)
  | .start .sealCall => (.returned (.ok none), cdc.Seal)
  | .start (.getTypeInfo rt) =>
    (.returned (lookupResult (cdc.getTypeInfoWlock env rt).1), (cdc.getTypeInfoWlock env rt).2)
  | .checked (.registerInterface ptr iopts) =>
    (.returned (registrationResult (cdc.registerInterfaceBody env ro ptr iopts).1),
      (cdc.registerInterfaceBody env ro ptr iopts).2)
  | .checked (.registerConcrete o name) =>
    (.returned (registrationResult (cdc.registerConcreteBody env ro o name).1),
      (cdc.registerConcreteBody env ro o name).2)
  | .checked c => (.checked c, cdc)
  | .returned r => (.returned r, cdc)

/-- The catalog and the goroutines that use it. -/
structure Sys where
  cdc : Codec
  goroutines : List Goroutine

/-- The goroutine `i` takes its next step. -/
def Sys.step (env : Env) (ro : RangeOrder) (s : Sys) (i : Nat) : Sys :=
  match s.goroutines[i]? with
  | none => s
  | some g =>
    { cdc := (g.step env ro s.cdc).2
      goroutines := s.goroutines.set i (g.step env ro s.cdc).1 }

/-- An interleaving: the goroutines named by the schedule take their steps in that
order. -/
def Sys.run (env : Env) (ro : RangeOrder) (s : Sys) (schedule : List Nat) : Sys :=
  schedule.foldl (Sys.step env ro) s

/-! ## A struct of the examples with list fields -/

/-- A struct of the examples with list fields. -/
def demoListStruct : RType := .named "L" .Struct

/-- The program of the examples with the fields of
`L{Names []string; Raw []byte; Nums []int64; Ptrs [2]*S; N int}`. -/
def demoListEnv : Env :=
  { demoEnv with
    fields := fun rt =>
      if rt = demoListStruct then
        [⟨"Names", "", .slice (.named "string" .String), []⟩,
         ⟨"Raw", "", .slice (.named "uint8" .Uint8), []⟩,
         ⟨"Nums", "", .slice (.named "int64" .Int64), []⟩,
         ⟨"Ptrs", "", .array 2 (.ptr (.named "S" .Struct)), []⟩,
         ⟨"N", "", .named "int" .Int, []⟩]
      else [] }

/-! ## The parts of a json tag, as the documentation words them -/

/-- The text of a tag before its first comma, the whole tag when it has no comma. -/
def specBeforeComma (s : List Char) : List Char := s.takeWhile (· ≠ ',')

/-- The second comma-separated part of a tag: the text after the first comma up to the
next comma or the end; `none` when the tag has no comma. -/
def specSecondPart (s : List Char) : Option (List Char) :=
  if ',' ∈ s then some (specBeforeComma ((s.dropWhile (· ≠ ',')).drop 1)) else none

/-! ## The tag of a registered concrete outside an interface field -/

/-- Go `addDisfix`: the error, which is always nil, and the buffer `w.str` as the call
leaves it. -/
def Codec.addDisfix (cdc : Codec) (val : Value) (w : List Byte) : Option Err × List Byte :=
  match cdc.getRegistedTypeInfoWLock val.Type with
  | some cp =>
    if (cdc.deref cp).ConcreteInfo.Registered then
      (none, w ++ (cdc.deref cp).ConcreteInfo.Disamb.Bytes ++ (cdc.deref cp).ConcreteInfo.Prefix.Bytes)
    else (none, w)
  | none => (none, w)

/-- Go `consumeDisfix`: the error and the stream as the call leaves it. The seven bytes
read into `bz` are not used. -/
def Codec.consumeDisfix (cdc : Codec) (s : Stream) (rv : Value) : Option Err × Stream :=
  match cdc.getRegistedTypeInfoWLock rv.Type with
  | some cp =>
    if (cdc.deref cp).ConcreteInfo.Registered then
      match readBytes 7 s with
      | (.error e, s1) => (some e, s1)
      | (.ok _, s1) => (none, s1)
    else (none, s)
  | none => (none, s)

/-- The test `registed && cinfo.Registered` of `addDisfix` and `consumeDisfix`: the
by-type index holds a descriptor for the type, pointers removed, and the descriptor is
marked `Registered`. -/
def Codec.isRegisteredConcrete (cdc : Codec) (rt : RType) : Bool :=
  match cdc.getRegistedTypeInfoWLock rt with
  | some cp => (cdc.deref cp).ConcreteInfo.Registered
  | none => false

/-! ## Package `crypto`: signatures of the GM curve -/

/-- Go `SignatureGMSize`. -/
def SignatureGMSize : Nat := 65

/-- The loop behind Go `big.Int.Bytes`: the base-256 digits of `n` are put in front of
`acc`, the lowest first, until nothing is left; `fuel` bounds the number of rounds. -/
def natBytesAux : Nat → Nat → List Byte → List Byte
  | 0, _, acc => acc
  | fuel + 1, n, acc =>
    if n = 0 then acc else natBytesAux fuel (n / 256) (Fin.ofNat (n % 256) :: acc)

/-- Go `big.Int.Bytes`: the absolute value as a big-endian byte slice without leading
zeros; the slice of zero is empty. -/
def bigBytes (x : Int) : List Byte := natBytesAux x.natAbs x.natAbs []

/-- Go `copy(dst[lo:hi], src)` on a byte array: as many bytes as both sides hold are
written from `lo` on. -/
def copyAt (dst : List Byte) (lo hi : Nat) (src : List Byte) : List Byte :=
  dst.take lo ++ src.take (hi - lo) ++ dst.drop (lo + min (hi - lo) src.length)

/-- Go `makeSignatureGM`. A slice expression with a negative bound panics;
`byte(v.Uint64())` keeps the low 8 bits of the low 64 bits of the absolute value, and
the sum with `SM2Magic` is one of bytes. -/
def makeSignatureGM (r s v : Int) : Except Panic (List Byte) :=
  let ss : List Byte := List.replicate SignatureGMSize 0
  let rb := bigBytes r
  let sb := bigBytes s
  if 32 < rb.length then .error .sliceBoundsOutOfRange
  else
    let ss := copyAt ss (32 - rb.length) 32 rb
    if 64 < sb.length then .error .sliceBoundsOutOfRange
    else
      let ss := copyAt ss (64 - sb.length) 64 sb
      .ok (ss.set 64 (SM2Magic + Fin.ofNat (v.natAbs % 2 ^ 64 % 256)))

/-- Go `ParseSignatureGM`: `(r, s, v, ok)`, the three integers being nil when `ok` is
false. The difference `sig[64] - byte(SM2Magic)` is one of bytes. -/
def ParseSignatureGM (sig : List Byte) : Option Int × Option Int × Option Int × Bool :=
  if sig.length ≠ SignatureGMSize then (none, none, none, false)
  else
    (some (bigSetBytes (sig.take 32)), some (bigSetBytes ((sig.drop 32).take 32)),
      some (((sig.getD 64 0 - SM2Magic : Byte).val : Int)), true)

/-- Go `NewSignatureGM`: the array and the `ok` flag. -/
def NewSignatureGM (data : List Byte) : List Byte × Bool :=
  if data.length ≠ SignatureGMSize then (List.replicate SignatureGMSize 0, false)
  else (data.take SignatureGMSize, true)

/-- The documentation's "32-byte big-endian value left-padded with zeros": byte `i` of
the 32 is the digit of weight `256 ^ (31 - i)`. -/
def specBigEndian32 (n : Nat) : List Byte :=
  (List.range 32).map fun i => Fin.ofNat (n / 256 ^ (31 - i) % 256)

/-! ## Package `types`: the hash of a list of receipts -/

/-- What `receipt.go` uses from the packages `common` and `merkle`, which the sources do
not contain, and from `BalHash`: `common.EmptyHash`, `common.Hash.Bytes`,
`common.BytesToHash`, `merkle.SimpleHashFromTwoHashes` and Go `Receipt.Hash`, which is
`BalHash(r)`. -/
structure HashLib (Hash Receipt : Type) where
  EmptyHash : Hash
  Bytes : Hash → List Byte
  BytesToHash : List Byte → Hash
  SimpleHashFromTwoHashes : List Byte → List Byte → List Byte
  receiptHash : Receipt → Hash

/-- Go `HashList.Hash`. The recursion is on the two slices `hl[:(len(hl)+1)/2]` and
`hl[(len(hl)+1)/2:]`, both shorter than `hl` when `hl` has two elements or more. -/
def HashList.Hash {Hash Receipt : Type} (L : HashLib Hash Receipt) (hl : List Hash) : Hash :=
  match hl with
  | [] => L.EmptyHash
  | [h] => h
  | a :: b :: rest =>
    let left := L.Bytes (HashList.Hash L ((a :: b :: rest).take (((a :: b :: rest).length + 1) / 2)))
    let right := L.Bytes (HashList.Hash L ((a :: b :: rest).drop (((a :: b :: rest).length + 1) / 2)))
    L.BytesToHash (L.SimpleHashFromTwoHashes left right)
termination_by hl.length
decreasing_by
  all_goals simp only [List.length_take, List.length_drop, List.length_cons]
  all_goals omega

/-- Go `ReceiptList.Hash`. -/
def ReceiptList.Hash {Hash Receipt : Type} (L : HashLib Hash Receipt) (r : List Receipt) : Hash :=
  match r with
  | [] => L.EmptyHash
  | [r0] => L.receiptHash r0
  | a :: b :: rest =>
    let left := L.Bytes (ReceiptList.Hash L ((a :: b :: rest).take (((a :: b :: rest).length + 1) / 2)))
    let right := L.Bytes (ReceiptList.Hash L ((a :: b :: rest).drop (((a :: b :: rest).length + 1) / 2)))
    L.BytesToHash (L.SimpleHashFromTwoHashes left right)
termination_by r.length
decreasing_by
  all_goals simp only [List.length_take, List.length_drop, List.length_cons]
  all_goals omega

/-! ## The two indexes of registered concretes, one against the other -/

/-- What holds of every reachable catalog besides `Codec.Indexed`: a descriptor that the
by-Disfix index yields is the entry of the by-name index for its own name, and a
descriptor that the by-name index yields is the entry of the by-Disfix index for its own
Disfix. -/
structure Codec.Coherent (cdc : Codec) : Prop where
  indexed : cdc.Indexed
  nameOfDisfix : ∀ df p, mapGet? cdc.disfixToTypeInfo df = some p →
    mapGet? cdc.nameToTypeInfo (cdc.deref p).ConcreteInfo.Name = some p
  disfixOfName : ∀ n p, mapGet? cdc.nameToTypeInfo n = some p →
    mapGet? cdc.disfixToTypeInfo (cdc.deref p).ConcreteInfo.GetDisfix = some p

/-! ## Implementers maps for the conflict check taken alone -/

/-- The catalog of the examples in which `Foo` alone is registered, with the priority
list `pkg/T83812`, `pkg/T123317`. -/
def demoCdcFooPrio : Codec :=
  (NewCodec.RegisterInterface demoEnv .inOrder (.ptr demoFoo)
    (some ⟨["pkg/T83812", "pkg/T123317"], false⟩)).2

/-- The descriptor that `RegisterConcrete(A{}, "pkg/T83812", nil)` builds. -/
def demoInfoAPrio : TypeInfo :=
  { Typ := demoA
    InterfaceInfo := InterfaceInfo.zero
    ConcreteInfo :=
      { ConcreteInfo.zero with
        Registered := true, Name := "pkg/T83812",
        Disamb := ⟨203, 242, 230⟩, Prefix := ⟨8, 135, 95, 43⟩ }
    StructInfo := ⟨[]⟩ }

/-- The catalog of the examples after `Foo` is registered with the priority list
`pkg/T83812`, `pkg/T123317`, `Bar` without a priority list, and `A` under
`pkg/T83812`. -/
def demoCdcPrioBarA : Codec :=
  ((demoCdcFooPrio.RegisterInterface demoEnv .inOrder (.ptr demoBar) none).2.RegisterConcrete
    demoEnv .inOrder demoA "pkg/T83812").2

/-! ## Three names with one Prefix -/

/-- SHA-256 on three names whose digests share the bytes 4 to 7, `0B 47 85 12`; the
digests are those of the real function. The table has no digest for any other name. -/
def demoSha256Three (name : String) : List Byte :=
  if name = "pkg/U1631166" then
    [239, 179, 101, 11, 71, 133, 18, 222, 5, 106, 208, 95, 135, 75, 169, 247,
     149, 214, 89, 112, 5, 37, 110, 120, 74, 48, 96, 67, 165, 84, 78, 231]
  else if name = "pkg/U1747074" then
    [251, 59, 80, 11, 71, 133, 18, 237, 128, 247, 115, 124, 12, 223, 3, 38,
     247, 99, 80, 173, 75, 98, 190, 10, 219, 108, 11, 47, 206, 162, 129, 56]
  else if name = "pkg/U3528201" then
    [24, 221, 193, 11, 71, 133, 18, 168, 239, 164, 0, 207, 159, 65, 215, 169,
     212, 29, 95, 206, 50, 189, 151, 43, 40, 179, 76, 104, 209, 138, 253, 101]
  else []

/-- The program of the examples with the three names of one Prefix. -/
def demoEnvThree : Env := { demoEnv with sha256 := demoSha256Three }

/-- The catalog of the examples after `RegisterInterface((*Shape)(nil), nil)`,
`RegisterInterface((*Foo)(nil), &InterfaceOptions{Priority: ...})` with the priority list
`pkg/U1631166`, `pkg/U3528201`, and `RegisterConcrete(A{}, "pkg/U1631166", nil)`. Only
`B` implements `Shape`. -/
def demoCdcShapeFooA : Codec :=
  (((NewCodec.RegisterInterface demoEnvThree .inOrder (.ptr demoShape) none).2.RegisterInterface
      demoEnvThree .inOrder (.ptr demoFoo)
      (some ⟨["pkg/U1631166", "pkg/U3528201"], false⟩)).2.RegisterConcrete
      demoEnvThree .inOrder demoA "pkg/U1631166").2

/-- The catalog `demoCdcShapeFooA` after `RegisterConcrete(B{}, "pkg/U1747074", nil)`,
which panics, and `RegisterConcrete(B{}, "pkg/U3528201", nil)`, which returns. -/
def demoCdcShadowed : Codec :=
  ((demoCdcShapeFooA.RegisterConcrete demoEnvThree .inOrder demoB "pkg/U1747074").2.RegisterConcrete
      demoEnvThree .inOrder demoB "pkg/U3528201").2

/-- Whether the bucket `old` is a single descriptor of the type `T`: a descriptor of `T`
appended to it makes the bucket that `checkConflictsInPrioNolock` calls "the same type
register twice". -/
def Codec.singleOf (cdc : Codec) (old : List Ptr) (T : RType) : Bool :=
  match old with
  | [ap] => decide ((cdc.deref ap).Typ = T)
  | _ => false

/-- Whether the bucket `old` of the interface behind `j` takes a new descriptor of the
type `T` with the Disfix `df` without a conflict: it is empty, or it is a single
descriptor of `T`, or every Disfix of it and `df` are in the priority list of the
interface. -/
def Codec.admits (cdc : Codec) (j : Ptr) (old : List Ptr) (T : RType) (df : DisfixBytes) :
    Bool :=
  old.isEmpty || cdc.singleOf old T ||
    (old.all (fun ap => cdc.covered j ap) &&
      inPrio (cdc.deref j).InterfaceInfo.Priority df)

/-! ## More catalogs of the examples: a third type under one Prefix -/

/-- The struct type `C` of the examples, declared without fields and methods. -/
def demoC : RType := .named "C" .Struct

/-- The catalog of the examples after `Foo` is registered with the priority list of the
three names of one Prefix and `C` under the second of them, `pkg/U1747074`. -/
def demoCdcFooThreeC : Codec :=
  ((NewCodec.RegisterInterface demoEnvThree .inOrder (.ptr demoFoo)
      (some ⟨["pkg/U1631166", "pkg/U1747074", "pkg/U3528201"], false⟩)).2.RegisterConcrete
    demoEnvThree .inOrder demoC "pkg/U1747074").2

/-- The catalog of the examples after `Foo` is registered with the priority list
`pkg/U1631166`, `pkg/U3528201` and `C` under a third name of the same Prefix,
`pkg/U1747074`. -/
def demoCdcFooTwoC : Codec :=
  ((NewCodec.RegisterInterface demoEnvThree .inOrder (.ptr demoFoo)
      (some ⟨["pkg/U1631166", "pkg/U3528201"], false⟩)).2.RegisterConcrete
    demoEnvThree .inOrder demoC "pkg/U1747074").2

/-- The catalog `demoCdcFooPrio` after `RegisterConcrete(C{}, "pkg/T83812", nil)`. -/
def demoCdcFooPrioC : Codec :=
  (demoCdcFooPrio.RegisterConcrete demoEnv .inOrder demoC "pkg/T83812").2

/-- The descriptor that `RegisterConcrete(A{}, "pkg/U1631166", nil)` builds. -/
def demoInfoAThree : TypeInfo :=
  { Typ := demoA
    InterfaceInfo := InterfaceInfo.zero
    ConcreteInfo :=
      { ConcreteInfo.zero with
        Registered := true, Name := "pkg/U1631166",
        Disamb := ⟨239, 179, 101⟩, Prefix := ⟨11, 71, 133, 18⟩ }
    StructInfo := ⟨[]⟩ }

/-- The descriptor that `RegisterConcrete(B{}, "pkg/U3528201", nil)` builds. -/
def demoInfoBThree : TypeInfo :=
  { Typ := demoB
    InterfaceInfo := InterfaceInfo.zero
    ConcreteInfo :=
      { ConcreteInfo.zero with
        Registered := true, Name := "pkg/U3528201",
        Disamb := ⟨24, 221, 193⟩, Prefix := ⟨11, 71, 133, 18⟩ }
    StructInfo := ⟨[]⟩ }

/-! # Theorems -/

/-! ## Sealing -/

theorem setTypeInfoNoLock_sealed (cdc : Codec) (p : Ptr) :
    (cdc.setTypeInfoNoLock p).2.sealed = cdc.sealed := by
  unfold Codec.setTypeInfoNoLock
  simp only
  split_ifs <;> try rfl
  split <;> try rfl
  split <;> rfl

theorem getTypeInfoWlock_sealed (env : Env) (cdc : Codec) (rt : RType) :
    (cdc.getTypeInfoWlock env rt).2.sealed = cdc.sealed := by
  unfold Codec.getTypeInfoWlock
  simp only
  split
  · rfl
  · split_ifs
    · rfl
    · split
      · rfl
      · simp only [Codec.alloc]
        rename_i info _
        have := setTypeInfoNoLock_sealed { cdc with heap := cdc.heap ++ [info] } cdc.heap.length
        split <;> rename_i h <;> (rw [h] at this; simpa using this)

theorem registerInterface_of_sealed (env : Env) (ro : RangeOrder) (cdc : Codec)
    (h : cdc.sealed = true) (ptr : RType) (iopts : Option InterfaceOptions) :
    cdc.RegisterInterface env ro ptr iopts = (some .codecSealed, cdc) := by
  simp [Codec.RegisterInterface, Codec.assertNotSealed, h]

theorem registerConcrete_of_sealed (env : Env) (ro : RangeOrder) (cdc : Codec)
    (h : cdc.sealed = true) (o : RType) (name : String) :
    cdc.RegisterConcrete env ro o name = (some .codecSealed, cdc) := by
  simp [Codec.RegisterConcrete, Codec.assertNotSealed, h]

theorem afterSeal_sealed (env : Env) (cdc : Codec) (h : AfterSeal env cdc) :
    cdc.sealed = true := by
  induction h with
  | sealCall cdc => rfl
  | registerInterface ro cdc ptr iopts _ ih => rw [registerInterface_of_sealed env ro cdc ih]; exact ih
  | registerConcrete ro cdc o name _ ih => rw [registerConcrete_of_sealed env ro cdc ih]; exact ih
  | getTypeInfo cdc rt _ ih => rw [getTypeInfoWlock_sealed]; exact ih


/-- C1: once `Seal` has been called on a catalog, every later `RegisterInterface` call
and every later `RegisterConcrete` call panics with "codec sealed", whatever its
arguments, and leaves the whole catalog as it was: the three indexes, the two lists and
the descriptors of the heap, hence every implementers map. -/
theorem C1_registration_after_seal_fails (env : Env) (ro : RangeOrder) (cdc : Codec)
    (h : AfterSeal env cdc) (ptr o : RType) (iopts : Option InterfaceOptions) (name : String) :
    cdc.RegisterInterface env ro ptr iopts = (some .codecSealed, cdc) ∧
    cdc.RegisterConcrete env ro o name = (some .codecSealed, cdc) :=
  ⟨registerInterface_of_sealed env ro cdc (afterSeal_sealed env cdc h) ptr iopts,
   registerConcrete_of_sealed env ro cdc (afterSeal_sealed env cdc h) o name⟩

/-- The scenario of `TestCodecSeal`: `Foo` is registered, the catalog is sealed, and the
registrations of `Bar` and of `int` panic and change nothing. -/
theorem C1_registration_after_seal_fails_witness :
    AfterSeal demoEnv (NewCodec.RegisterInterface demoEnv .inOrder (.ptr demoFoo) none).2.Seal ∧
    ((NewCodec.RegisterInterface demoEnv .inOrder (.ptr demoFoo) none).2.Seal.RegisterInterface
        demoEnv .inOrder (.ptr demoBar) none =
      (some .codecSealed, (NewCodec.RegisterInterface demoEnv .inOrder (.ptr demoFoo) none).2.Seal) ∧
     (NewCodec.RegisterInterface demoEnv .inOrder (.ptr demoFoo) none).2.Seal.RegisterConcrete
        demoEnv .inOrder (.named "int" .Int) "int" =
      (some .codecSealed, (NewCodec.RegisterInterface demoEnv .inOrder (.ptr demoFoo) none).2.Seal)) :=
  ⟨AfterSeal.sealCall _,
   C1_registration_after_seal_fails demoEnv .inOrder _ (AfterSeal.sealCall _)
     (.ptr demoBar) (.named "int" .Int) none "int"⟩

/-! ## The name scheme -/

theorem stripLeadingZeros_eq (bz : List Byte) :
    stripLeadingZeros bz =
      if bz.dropWhile (fun b => decide (b = 0)) = [] then none
      else some (bz.dropWhile fun b => decide (b = 0)) := by
  induction bz with
  | nil => rfl
  | cons b rest ih =>
    by_cases hb : b = 0
    · simp [stripLeadingZeros, hb, ih, List.dropWhile]
    · simp [stripLeadingZeros, hb, List.dropWhile]

theorem stripLeadingZeros_head (bz rest : List Byte) (b : Byte)
    (h : stripLeadingZeros bz = some (b :: rest)) : b ≠ 0 := by
  induction bz with
  | nil => simp [stripLeadingZeros] at h
  | cons c cs ih =>
    by_cases hc : c = 0
    · simp [stripLeadingZeros, hc] at h; exact ih h
    · simp [stripLeadingZeros, hc] at h
      rw [← h.1]; exact hc

theorem disfixOfDigest_spec (h : List Byte) :
    (disfixOfDigest h).toOption.map (fun r => (r.1.Bytes, r.2.Bytes)) = specNameToDisfix h := by
  unfold disfixOfDigest specNameToDisfix
  rw [stripLeadingZeros_eq]
  generalize h.dropWhile (fun b => decide (b = 0)) = r1
  match r1 with
  | [] => simp [Except.toOption]
  | [_] => simp [Except.toOption]
  | [_, _] => simp [Except.toOption]
  | d0 :: d1 :: d2 :: bz2 =>
    simp only [List.drop_succ_cons, List.drop_zero, reduceCtorEq, if_false]
    rw [stripLeadingZeros_eq]
    generalize bz2.dropWhile (fun b => decide (b = 0)) = r2
    match r2 with
    | [] => simp [Except.toOption]
    | [_] => simp [Except.toOption]
    | [_, _] => simp [Except.toOption]
    | [_, _, _] => simp [Except.toOption]
    | p0 :: p1 :: p2 :: p3 :: _ =>
      simp [Except.toOption, DisambBytes.Bytes, PrefixBytes.Bytes]

theorem disfixOfDigest_nonzero (h : List Byte) (db : DisambBytes) (pb : PrefixBytes)
    (hr : disfixOfDigest h = .ok (db, pb)) : db.b0 ≠ 0 ∧ pb.b0 ≠ 0 := by
  unfold disfixOfDigest at hr
  split at hr
  · cases hr
  · rename_i d0 d1 d2 bz2 h1
    split at hr
    · cases hr
    · rename_i p0 p1 p2 p3 _ h2
      simp only [Except.ok.injEq, Prod.mk.injEq] at hr
      obtain ⟨rfl, rfl⟩ := hr
      exact ⟨stripLeadingZeros_head _ _ _ h1, stripLeadingZeros_head _ _ _ h2⟩
    · cases hr
  · cases hr

/-- C8: for every name, `NameToDisfix` returns exactly what the specification's wording
gives on the SHA-256 digest of the name (Disamb is the first 3 bytes after the leading
zero bytes, Prefix the first 4 bytes of what follows after its leading zero bytes), and
it panics, returning no tag at all, exactly when fewer than 3 bytes are left for Disamb
or fewer than 4 for Prefix. The digest is an arbitrary byte string. -/
theorem C8_nameToDisfix_refines_spec (env : Env) (name : String) :
    (NameToDisfix env name).toOption.map (fun r => (r.1.Bytes, r.2.Bytes)) =
        specNameToDisfix (env.sha256 name) ∧
    ((∃ e, NameToDisfix env name = .error e) ↔
      (((env.sha256 name).dropWhile fun b => decide (b = 0)).length < 3 ∨
       ((((env.sha256 name).dropWhile fun b => decide (b = 0)).drop 3).dropWhile
          fun b => decide (b = 0)).length < 4)) := by
  have h := disfixOfDigest_spec (env.sha256 name)
  refine ⟨h, ?_⟩
  unfold NameToDisfix nameToDisfix
  unfold specNameToDisfix at h
  cases hd : disfixOfDigest (env.sha256 name) with
  | error e =>
    rw [hd] at h
    simp only [Except.toOption, Option.map_none'] at h
    constructor
    · intro _
      by_contra hc
      rw [if_neg hc] at h
      cases h
    · intro _
      exact ⟨e, rfl⟩
  | ok r =>
    rw [hd] at h
    simp only [Except.toOption, Option.map_some'] at h
    constructor
    · rintro ⟨e, he⟩
      cases he
    · intro hc
      rw [if_pos hc] at h
      cases h

/-- C9: whenever `NameToDisfix` returns, Disamb has exactly 3 bytes and Prefix exactly
4, the first byte of each is non-zero, and the tag `toDisfix` builds is Disamb followed
by Prefix, so that its first byte is not the nil sentinel `0x00`; the tag of every
descriptor that `newTypeInfoFromRegisteredConcreteType` builds for the name is this
tag. -/
theorem C9_disfix_never_starts_with_zero (env : Env) (name : String) (db : DisambBytes)
    (pb : PrefixBytes) (h : NameToDisfix env name = .ok (db, pb)) :
    db.Bytes.length = 3 ∧ pb.Bytes.length = 4 ∧ db.Bytes.head? ≠ some 0 ∧
    pb.Bytes.head? ≠ some 0 ∧ (toDisfix db pb).Bytes = db.Bytes ++ pb.Bytes ∧
    (toDisfix db pb).Bytes.head? ≠ some 0 ∧
    ∀ (rt : RType) (pointerPreferred : Bool) (info : TypeInfo),
      newTypeInfoFromRegisteredConcreteType env rt pointerPreferred name = .ok info →
      info.ConcreteInfo.Registered = true ∧ info.ConcreteInfo.GetDisfix = toDisfix db pb := by
  have hz := disfixOfDigest_nonzero (env.sha256 name) db pb h
  refine ⟨rfl, rfl, ?_, ?_, rfl, ?_, ?_⟩
  · simpa [DisambBytes.Bytes] using hz.1
  · simpa [PrefixBytes.Bytes] using hz.2
  · simpa [DisfixBytes.Bytes, toDisfix] using hz.1
  · intro rt pp info hinfo
    unfold newTypeInfoFromRegisteredConcreteType at hinfo
    have hn : nameToDisfix env name = .ok (db, pb) := h
    simp only [nameToDisamb, nameToPrefix, hn, Except.map] at hinfo
    split_ifs at hinfo
    split at hinfo
    · cases hinfo
    · simp only [Except.ok.injEq] at hinfo
      subst hinfo
      exact ⟨rfl, rfl⟩

/-- The name `n`: its tag is `1B 16 B1` followed by `DF 53 8B A1`. -/
theorem C9_disfix_never_starts_with_zero_witness :
    NameToDisfix demoEnv "n" = .ok (⟨27, 22, 177⟩, ⟨223, 83, 139, 161⟩) ∧
    (toDisfix ⟨27, 22, 177⟩ ⟨223, 83, 139, 161⟩).Bytes.head? ≠ some 0 :=
  ⟨rfl,
   (C9_disfix_never_starts_with_zero demoEnv "n" ⟨27, 22, 177⟩ ⟨223, 83, 139, 161⟩
     rfl).2.2.2.2.2.1⟩

/-! ## Go maps -/

section maps
variable {κ ν : Type} [DecidableEq κ]

theorem mapGet?_mapSet_self (m : List (κ × ν)) (k : κ) (v : ν) :
    mapGet? (mapSet m k v) k = some v := by
  induction m with
  | nil => simp [mapSet, mapGet?]
  | cons e rest ih =>
    obtain ⟨k0, v0⟩ := e
    by_cases h : k0 = k
    · simp [mapSet, mapGet?, h]
    · simp [mapSet, mapGet?, h, ih]

theorem mapGet?_mapSet_ne (m : List (κ × ν)) (k k1 : κ) (v : ν) (hne : k1 ≠ k) :
    mapGet? (mapSet m k v) k1 = mapGet? m k1 := by
  induction m with
  | nil => simp [mapSet, mapGet?, Ne.symm hne]
  | cons e rest ih =>
    obtain ⟨k0, v0⟩ := e
    by_cases h : k0 = k
    · subst h
      simp [mapSet, mapGet?, Ne.symm hne]
    · by_cases h1 : k0 = k1
      · subst h1
        simp [mapSet, mapGet?, h]
      · simp [mapSet, mapGet?, h, h1, ih]

theorem mem_mapSet (m : List (κ × ν)) (k : κ) (v : ν) (e : κ × ν) (he : e ∈ mapSet m k v) :
    e = (k, v) ∨ e ∈ m := by
  induction m with
  | nil => simp [mapSet] at he; exact Or.inl he
  | cons e0 rest ih =>
    obtain ⟨k0, v0⟩ := e0
    by_cases h : k0 = k
    · simp only [mapSet, h, if_true, List.mem_cons] at he
      rcases he with he | he
      · exact Or.inl he
      · exact Or.inr (List.mem_cons_of_mem _ he)
    · simp only [mapSet, h, if_false, List.mem_cons] at he
      rcases he with he | he
      · exact Or.inr (he ▸ List.mem_cons_self _ _)
      · rcases ih he with h1 | h1
        · exact Or.inl h1
        · exact Or.inr (List.mem_cons_of_mem _ h1)

theorem mapSet_mem_self (m : List (κ × ν)) (k : κ) (v : ν) : (k, v) ∈ mapSet m k v := by
  induction m with
  | nil => simp [mapSet]
  | cons e0 rest ih =>
    obtain ⟨k0, v0⟩ := e0
    by_cases h : k0 = k
    · simp [mapSet, h]
    · simp only [mapSet, h, if_false]
      exact List.mem_cons_of_mem _ ih

theorem mapGet?_mem (m : List (κ × ν)) (k : κ) (v : ν) (h : mapGet? m k = some v) :
    (k, v) ∈ m := by
  induction m with
  | nil => simp [mapGet?] at h
  | cons e0 rest ih =>
    obtain ⟨k0, v0⟩ := e0
    by_cases h0 : k0 = k
    · simp only [mapGet?, h0, if_true, Option.some.injEq] at h
      subst h0 h
      exact List.mem_cons_self _ _
    · simp only [mapGet?, h0, if_false] at h
      exact List.mem_cons_of_mem _ (ih h)

theorem mapSet_mapSet (m : List (κ × ν)) (k : κ) (v v1 : ν) :
    mapSet (mapSet m k v) k v1 = mapSet m k v1 := by
  induction m with
  | nil => simp [mapSet]
  | cons e0 rest ih =>
    obtain ⟨k0, v0⟩ := e0
    by_cases h : k0 = k
    · simp [mapSet, h]
    · simp [mapSet, h, ih]

theorem mapSet_of_get (m : List (κ × ν)) (k : κ) (v : ν) (h : mapGet? m k = some v) :
    mapSet m k v = m := by
  induction m with
  | nil => simp [mapGet?] at h
  | cons e0 rest ih =>
    obtain ⟨k0, v0⟩ := e0
    by_cases h0 : k0 = k
    · simp only [mapGet?, h0, if_true, Option.some.injEq] at h
      simp [mapSet, h0, h]
    · simp only [mapGet?, h0, if_false] at h
      simp [mapSet, h0, ih h]

theorem mapSet_of_absent (m : List (κ × ν)) (k : κ) (v : ν) (h : mapGet? m k = none) :
    mapSet m k v = m ++ [(k, v)] := by
  induction m with
  | nil => rfl
  | cons e0 rest ih =>
    obtain ⟨k0, v0⟩ := e0
    by_cases h0 : k0 = k
    · simp [mapGet?, h0] at h
    · simp only [mapGet?, h0, if_false] at h
      simp [mapSet, h0, ih h]

end maps

/-! ## The heap -/

theorem derefHeap_set_self (heap : List TypeInfo) (p : Ptr) (info : TypeInfo)
    (h : p < heap.length) : derefHeap (heap.set p info) p = info := by
  simp [derefHeap, List.getD_eq_getElem?_getD, List.getElem?_set, h]

theorem derefHeap_set_ne (heap : List TypeInfo) (p q : Ptr) (info : TypeInfo) (h : q ≠ p) :
    derefHeap (heap.set p info) q = derefHeap heap q := by
  simp [derefHeap, List.getD_eq_getElem?_getD, List.getElem?_set, Ne.symm h]

theorem derefHeap_set_beyond (heap : List TypeInfo) (p : Ptr) (info : TypeInfo)
    (h : heap.length ≤ p) : heap.set p info = heap := by
  apply List.ext_getElem?
  intro i
  rw [List.getElem?_set]
  split_ifs with h1 h2
  · subst h1; omega
  · subst h1
    exact (List.getElem?_eq_none h).symm
  · rfl

theorem derefHeap_append_lt (heap : List TypeInfo) (info : TypeInfo) (p : Ptr)
    (h : p < heap.length) : derefHeap (heap ++ [info]) p = derefHeap heap p := by
  simp [derefHeap, List.getD_eq_getElem?_getD, List.getElem?_append_left h]

theorem derefHeap_append_self (heap : List TypeInfo) (info : TypeInfo) :
    derefHeap (heap ++ [info]) heap.length = info := by
  simp [derefHeap, List.getD_eq_getElem?_getD]

theorem frozen_setBucket (info : TypeInfo) (pb : PrefixBytes) (l : List Ptr) :
    (info.setBucket pb l).frozen = info.frozen := rfl

theorem frozen_typ (a b : TypeInfo) (h : a.frozen = b.frozen) : a.Typ = b.Typ := by
  have := congrArg TypeInfo.Typ h
  exact this

theorem frozen_concrete (a b : TypeInfo) (h : a.frozen = b.frozen) :
    a.ConcreteInfo = b.ConcreteInfo := by
  have := congrArg TypeInfo.ConcreteInfo h
  exact this

theorem frozen_priority (a b : TypeInfo) (h : a.frozen = b.frozen) :
    a.InterfaceInfo.Priority = b.InterfaceInfo.Priority := by
  have := congrArg (fun i => i.InterfaceInfo.Priority) h
  exact this

/-- Storing a changed bucket changes implementers maps only. -/
theorem sameButImpl_store (cdc : Codec) (p : Ptr) (pb : PrefixBytes) (l : List Ptr) :
    cdc.SameButImpl (cdc.store p ((cdc.deref p).setBucket pb l)) := by
  refine ⟨rfl, rfl, rfl, rfl, rfl, rfl, by simp [Codec.store], ?_⟩
  intro q
  by_cases hq : q = p
  · subst hq
    by_cases hlt : q < cdc.heap.length
    · simp only [Codec.deref, Codec.store]
      rw [derefHeap_set_self _ _ _ hlt]
      rfl
    · simp only [Codec.deref, Codec.store]
      rw [derefHeap_set_beyond _ _ _ (Nat.le_of_not_lt hlt)]
  · simp only [Codec.deref, Codec.store]
    rw [derefHeap_set_ne _ _ _ _ hq]

theorem sameButImpl_refl (cdc : Codec) : cdc.SameButImpl cdc :=
  ⟨rfl, rfl, rfl, rfl, rfl, rfl, rfl, fun _ => rfl⟩

theorem sameButImpl_trans (a b c : Codec) (h1 : a.SameButImpl b) (h2 : b.SameButImpl c) :
    a.SameButImpl c := by
  obtain ⟨a1, a2, a3, a4, a5, a6, a7, a8⟩ := h1
  obtain ⟨b1, b2, b3, b4, b5, b6, b7, b8⟩ := h2
  exact ⟨b1.trans a1, b2.trans a2, b3.trans a3, b4.trans a4, b5.trans a5, b6.trans a6,
    b7.trans a7, fun p => (b8 p).trans (a8 p)⟩

theorem sameButImpl_checkLoop (cdc : Codec) (ip : Ptr) (l : List (PrefixBytes × List Ptr)) :
    cdc.SameButImpl (checkConflictsLoop cdc ip l).2 := by
  induction l with
  | nil => exact sameButImpl_refl cdc
  | cons e rest ih =>
    obtain ⟨pb, cinfos⟩ := e
    unfold checkConflictsLoop
    split_ifs
    · exact ih
    · split
      · exact sameButImpl_store cdc ip pb _
      · split
        · exact sameButImpl_refl cdc
        · exact ih

theorem sameButImpl_check (ro : RangeOrder) (cdc : Codec) (ip : Ptr) :
    cdc.SameButImpl (cdc.checkConflictsInPrioNolock ro ip).2 :=
  sameButImpl_checkLoop cdc ip _

theorem sameButImpl_addCheckLoop (env : Env) (ro : RangeOrder) (cp : Ptr) (l : List Ptr)
    (cdc : Codec) : cdc.SameButImpl (addCheckConflictsLoop env ro cp l cdc).2 := by
  induction l generalizing cdc with
  | nil => exact sameButImpl_refl cdc
  | cons ip rest ih =>
    unfold addCheckConflictsLoop
    simp only
    split_ifs
    · exact ih cdc
    · have h1 := sameButImpl_store cdc ip (cdc.deref cp).ConcreteInfo.Prefix
        ((cdc.deref ip).bucket (cdc.deref cp).ConcreteInfo.Prefix ++ [cp])
      have h2 := sameButImpl_check ro
        (cdc.store ip ((cdc.deref ip).setBucket (cdc.deref cp).ConcreteInfo.Prefix
          ((cdc.deref ip).bucket (cdc.deref cp).ConcreteInfo.Prefix ++ [cp]))) ip
      split
      · rename_i err cdc2 heq
        rw [heq] at h2
        exact sameButImpl_trans _ _ _ (sameButImpl_trans _ _ _ h1 h2)
          (sameButImpl_store cdc2 ip _ _)
      · rename_i cdc2 heq
        rw [heq] at h2
        exact sameButImpl_trans _ _ _ (sameButImpl_trans _ _ _ h1 h2) (ih cdc2)

theorem sameButImpl_addCheck (env : Env) (ro : RangeOrder) (cdc : Codec) (cp : Ptr) :
    cdc.SameButImpl (cdc.addCheckConflictsWithConcreteNolock env ro cp).2 :=
  sameButImpl_addCheckLoop env ro cp _ cdc

theorem sameButImpl_collectStep (env : Env) (ip : Ptr) (acc : Codec) (cp : Ptr) :
    acc.SameButImpl (collectStep env ip acc cp) := by
  unfold collectStep
  simp only
  split_ifs
  · exact sameButImpl_store acc ip _ _
  · exact sameButImpl_refl acc

theorem sameButImpl_foldCollect (env : Env) (ip : Ptr) (l : List Ptr) (acc : Codec) :
    acc.SameButImpl (l.foldl (collectStep env ip) acc) := by
  induction l generalizing acc with
  | nil => exact sameButImpl_refl acc
  | cons cp rest ih =>
    simp only [List.foldl_cons]
    exact sameButImpl_trans _ _ _ (sameButImpl_collectStep env ip acc cp) (ih _)

theorem sameButImpl_collect (env : Env) (cdc : Codec) (ip : Ptr) :
    cdc.SameButImpl (cdc.collectImplementersNolock env ip) :=
  sameButImpl_foldCollect env ip _ cdc

/-! ## The nil interface value -/

/-- C10, as amended: for every registered interface type, encoding a nil value of the
interface appends exactly the byte `0x00`; decoding from a stream whose next byte is
`0x00` takes exactly that byte, sets the destination to the nil value of the interface
and returns no error, unless the stream stands at the end of the list it is reading, in
which case the call returns `EOL` and leaves stream and destination as they are. -/
theorem C10_nil_interface_is_one_zero_byte (K : Collab) (env : Env) (cdc : Codec)
    (iname : String) (ip : Ptr) (w : List Byte) (s : Stream) (rest : List Byte) (rv : Value)
    (hreg : cdc.getRegistedTypeInfoWLock (.named iname .Interface) = some ip)
    (hrv : rv.Type = .named iname .Interface) (hin : s.input = 0x00 :: rest) :
    writeCDCInterface K cdc (.nilIface (.named iname .Interface)) w = (.ok (), w ++ [0x00]) ∧
    decodeCDCInterface K env cdc s rv =
      if s.atListEnd then (.err .EOL, s, rv)
      else (.ok (), { s with input := rest }, .nilIface (.named iname .Interface)) := by
  constructor
  · simp [writeCDCInterface, Value.Type, derefPointersType, hreg]
  · unfold decodeCDCInterface
    simp only [hrv, derefPointersType, hreg]
    split_ifs with he
    · rfl
    · simp [Stream.readByte, hin, Value.Zero]

/-- The interface `Foo`: a nil value is written as `00`, and `00 05` decodes to nil
with `05` left in the stream. -/
theorem C10_nil_interface_is_one_zero_byte_witness :
    demoCdcFoo.getRegistedTypeInfoWLock (.named "Foo" .Interface) = some 0 ∧
    writeCDCInterface demoCollab demoCdcFoo (.nilIface (.named "Foo" .Interface)) [] =
      (.ok (), [0x00]) ∧
    decodeCDCInterface demoCollab demoEnv demoCdcFoo ⟨[0x00, 5], []⟩
        (.iface (.named "Foo" .Interface) (.concrete demoA [])) =
      (.ok (), ⟨[5], []⟩, .nilIface (.named "Foo" .Interface)) :=
  ⟨rfl,
   (C10_nil_interface_is_one_zero_byte demoCollab demoEnv demoCdcFoo "Foo" 0 [] ⟨[0x00, 5], []⟩ [5]
      (.iface (.named "Foo" .Interface) (.concrete demoA [])) rfl rfl rfl).1,
   (C10_nil_interface_is_one_zero_byte demoCollab demoEnv demoCdcFoo "Foo" 0 [] ⟨[0x00, 5], []⟩ [5]
      (.iface (.named "Foo" .Interface) (.concrete demoA [])) rfl rfl rfl).2⟩

/-- C10 as stated fails: `Foo` is registered and the next byte of the stream is `0x00`,
but the stream stands at the end of the list it is reading (`pos = size = 2`); the call
returns the error `EOL`, takes no byte and leaves the destination, which holds an `A`,
as it is. -/
theorem C10_counterexample :
    demoCdcFoo.getRegistedTypeInfoWLock demoFoo = some 0 ∧
    decodeCDCInterface demoCollab demoEnv demoCdcFoo ⟨[0x00], [⟨2, 2⟩]⟩
        (.iface demoFoo (.concrete demoA [])) =
      (.err .EOL, ⟨[0x00], [⟨2, 2⟩]⟩, .iface demoFoo (.concrete demoA [])) :=
  ⟨rfl, rfl⟩

/-! ## Registration of concrete types -/

theorem reachable_demoCdcA : Reachable demoEnv demoCdcA :=
  Reachable.registerConcrete _ _ _ _ Reachable.newCodec

theorem reachable_demoCdcFooA : Reachable demoEnv demoCdcFooA :=
  Reachable.registerConcrete _ _ _ _ (Reachable.registerInterface _ _ _ _ Reachable.newCodec)

theorem reachable_demoCdcShapeA : Reachable demoEnv demoCdcShapeA :=
  Reachable.registerConcrete _ _ _ _ (Reachable.registerInterface _ _ _ _ Reachable.newCodec)

theorem reachable_demoCdcPrio : Reachable demoEnv demoCdcPrio :=
  Reachable.registerConcrete _ _ _ _ (Reachable.registerConcrete _ _ _ _
    (Reachable.registerInterface _ _ _ _ Reachable.newCodec))

/-- C3, the code at the failing input: `A` is registered under `n`, then
`RegisterConcrete(B{}, "n", nil)` panics in `setTypeInfoNoLock` on the Disfix that is
already taken, after it has appended the descriptor of `B` to the concrete list. In the
catalog that a recovered panic leaves, the concrete list holds two entries with the same
name and the same Disfix. -/
theorem C3_recovered_duplicate_name_stays_in_concrete_list :
    Reachable demoEnv (demoCdcA.RegisterConcrete demoEnv .inOrder demoB "n").2 ∧
    (demoCdcA.RegisterConcrete demoEnv .inOrder demoB "n").1 =
      some (.disfixAlreadyRegistered ⟨27, 22, 177, 223, 83, 139, 161⟩ demoA) ∧
    (demoCdcA.RegisterConcrete demoEnv .inOrder demoB "n").2.concreteInfos = [0, 1] ∧
    ((demoCdcA.RegisterConcrete demoEnv .inOrder demoB "n").2.concreteInfos.map fun p =>
      (((demoCdcA.RegisterConcrete demoEnv .inOrder demoB "n").2.deref p).Typ,
       ((demoCdcA.RegisterConcrete demoEnv .inOrder demoB "n").2.deref p).ConcreteInfo.Name,
       ((demoCdcA.RegisterConcrete demoEnv .inOrder demoB "n").2.deref p).ConcreteInfo.GetDisfix)) =
      [(demoA, "n", ⟨27, 22, 177, 223, 83, 139, 161⟩),
       (demoB, "n", ⟨27, 22, 177, 223, 83, 139, 161⟩)] :=
  ⟨Reachable.registerConcrete _ _ _ _ reachable_demoCdcA, by decide, by decide, by decide⟩

/-- C5, the code at the failing input: `Shape` and then `A` under `n` are registered;
`RegisterConcrete(B{}, "n", nil)` panics on the Disfix that is already taken. The call
leaves the descriptor of `B` in the by-type index, in the concrete list and in the
implementers bucket of `Shape`, none of which held it before. -/
theorem C5_failed_registration_leaves_traces :
    demoCdcShapeA.sealed = false ∧
    (demoCdcShapeA.RegisterConcrete demoEnv .inOrder demoB "n").1 =
      some (.disfixAlreadyRegistered ⟨27, 22, 177, 223, 83, 139, 161⟩ demoA) ∧
    (demoCdcShapeA.typeInfos = [(demoShape, 0), (demoA, 1)] ∧
     (demoCdcShapeA.RegisterConcrete demoEnv .inOrder demoB "n").2.typeInfos =
       [(demoShape, 0), (demoA, 1), (demoB, 2)]) ∧
    (demoCdcShapeA.concreteInfos = [1] ∧
     (demoCdcShapeA.RegisterConcrete demoEnv .inOrder demoB "n").2.concreteInfos = [1, 2]) ∧
    ((demoCdcShapeA.deref 0).InterfaceInfo.Implementers = [] ∧
     ((demoCdcShapeA.RegisterConcrete demoEnv .inOrder demoB "n").2.deref 0).InterfaceInfo.Implementers =
       [(⟨223, 83, 139, 161⟩, [2])]) ∧
    ((demoCdcShapeA.RegisterConcrete demoEnv .inOrder demoB "n").2.deref 2).Typ = demoB :=
  ⟨by decide, by decide, ⟨by decide, by decide⟩, ⟨by decide, by decide⟩, ⟨by decide, by decide⟩, by decide⟩

/-- C6, the code at the failing input: `Foo` lists the names `pkg/T83812` and
`pkg/T123317`, which share their Prefix, in its priority list, and `A` and `B` are
registered under them. Registering `A` under `pkg/T83812` once more returns without
error, but the implementers bucket of `Foo` grows from two entries to three, in either
visiting order. -/
theorem C6_second_registration_grows_covered_bucket :
    Reachable demoEnv demoCdcPrio ∧ demoCdcPrio.sealed = false ∧
    demoCdcPrio.getTypeInfoFromNameRlock "pkg/T83812" = .ok 1 ∧
    (demoCdcPrio.deref 1).Typ = demoA ∧
    (demoCdcPrio.RegisterConcrete demoEnv .inOrder demoA "pkg/T83812").1 = none ∧
    (demoCdcPrio.RegisterConcrete demoEnv .backwards demoA "pkg/T83812").1 = none ∧
    (demoCdcPrio.deref 0).InterfaceInfo.Implementers = [(⟨8, 135, 95, 43⟩, [1, 2])] ∧
    ((demoCdcPrio.RegisterConcrete demoEnv .inOrder demoA "pkg/T83812").2.deref 0).InterfaceInfo.Implementers =
      [(⟨8, 135, 95, 43⟩, [1, 2, 3])] ∧
    ((demoCdcPrio.RegisterConcrete demoEnv .backwards demoA "pkg/T83812").2.deref 0).InterfaceInfo.Implementers =
      [(⟨8, 135, 95, 43⟩, [1, 2, 3])] :=
  ⟨reachable_demoCdcPrio, by decide, rfl, by decide, by decide, by decide, by decide, by decide, by decide⟩


theorem deref_alloc_self (cdc : Codec) (info : TypeInfo) :
    (cdc.alloc info).2.deref (cdc.alloc info).1 = info := by
  simp [Codec.alloc, Codec.deref, derefHeap_append_self]

theorem concreteTypeOf_deref (o rt : RType) (pp : Bool) (h : concreteTypeOf o = .ok (rt, pp)) :
    derefPointersType o = rt ∧ rt.Kind ≠ .Ptr ∧ pp = decide (o.Kind = .Ptr) := by
  unfold concreteTypeOf at h
  split_ifs at h with h1
  cases o with
  | ptr e =>
    simp only at h
    split_ifs at h with h2 h3
    simp only [Except.ok.injEq, Prod.mk.injEq] at h
    obtain ⟨rfl, rfl⟩ := h
    refine ⟨?_, h2, by simp [RType.Kind]⟩
    cases e <;> simp_all [derefPointersType, RType.Kind]
  | named n k =>
    simp only [Except.ok.injEq, Prod.mk.injEq] at h
    obtain ⟨rfl, rfl⟩ := h
    refine ⟨rfl, ?_, ?_⟩ <;> cases k <;> simp [RType.Kind, BaseKind.toKind]
  | array n e =>
    simp only [Except.ok.injEq, Prod.mk.injEq] at h
    obtain ⟨rfl, rfl⟩ := h
    exact ⟨rfl, by simp [RType.Kind], by simp [RType.Kind]⟩
  | slice e =>
    simp only [Except.ok.injEq, Prod.mk.injEq] at h
    obtain ⟨rfl, rfl⟩ := h
    exact ⟨rfl, by simp [RType.Kind], by simp [RType.Kind]⟩

theorem newTypeInfoUnregistered_typ (env : Env) (rt : RType) (info : TypeInfo)
    (h : newTypeInfoUnregistered env rt = .ok info) :
    info.Typ = rt ∧ info.ConcreteInfo.Registered = false ∧ rt.Kind ≠ .Ptr ∧
    rt.Kind ≠ .Interface ∧ info.InterfaceInfo = InterfaceInfo.zero := by
  unfold newTypeInfoUnregistered at h
  by_cases h1 : rt.Kind = .Ptr
  · simp [h1] at h
  by_cases h2 : rt.Kind = .Interface
  · simp [h1, h2] at h
  simp only [h1, h2, if_false] at h
  split at h
  · cases h
  · split at h
    · cases h
    · split at h
      · cases h
      · simp only [Except.ok.injEq] at h
        subst h
        exact ⟨rfl, rfl, h1, h2, rfl⟩

theorem newTypeInfoFromRegistered_spec (env : Env) (rt : RType) (pp : Bool) (name : String)
    (info : TypeInfo) (h : newTypeInfoFromRegisteredConcreteType env rt pp name = .ok info) :
    info.Typ = rt ∧ rt.Kind ≠ .Ptr ∧ rt.Kind ≠ .Interface ∧
    info.ConcreteInfo.Registered = true ∧ info.ConcreteInfo.PointerPreferred = pp ∧
    info.ConcreteInfo.Name = name ∧
    NameToDisfix env name = .ok (info.ConcreteInfo.Disamb, info.ConcreteInfo.Prefix) ∧
    info.InterfaceInfo = InterfaceInfo.zero := by
  unfold newTypeInfoFromRegisteredConcreteType at h
  split_ifs at h with h1
  split at h
  · cases h
  · rename_i info0 h0
    have hu := newTypeInfoUnregistered_typ env rt info0 h0
    unfold nameToDisamb nameToPrefix at h
    cases hn : nameToDisfix env name with
    | error e => simp [hn, Except.map] at h
    | ok r =>
      obtain ⟨db, pb⟩ := r
      simp only [hn, Except.map, Except.ok.injEq] at h
      subst h
      exact ⟨hu.1, hu.2.2.1, hu.2.2.2.1, rfl, rfl, rfl, hn, hu.2.2.2.2⟩

/-- What a call of `setTypeInfoNoLock` that returns does for a registered concrete
descriptor whose type is not in the by-type index. -/
theorem setTypeInfoNoLock_fresh_registered (cdc cdc1 : Codec) (p : Ptr)
    (hk : (cdc.deref p).Typ.Kind ≠ .Ptr) (hi : (cdc.deref p).Typ.Kind ≠ .Interface)
    (hr : (cdc.deref p).ConcreteInfo.Registered = true)
    (hfresh : mapGet? cdc.typeInfos (cdc.deref p).Typ = none)
    (h : cdc.setTypeInfoNoLock p = (none, cdc1)) :
    cdc1.heap = cdc.heap ∧
    mapGet? cdc1.typeInfos (cdc.deref p).Typ = some p ∧
    mapGet? cdc1.disfixToTypeInfo (cdc.deref p).ConcreteInfo.GetDisfix = some p ∧
    mapGet? cdc1.nameToTypeInfo (cdc.deref p).ConcreteInfo.Name = some p ∧
    cdc1.concreteInfos = cdc.concreteInfos ++ [p] := by
  unfold Codec.setTypeInfoNoLock at h
  simp only [hk, hi, hr, hfresh, if_false, if_true, Option.isSome_none, Bool.false_eq_true] at h
  split at h
  · cases h
  · split at h
    · cases h
    · simp only [Prod.mk.injEq, true_and] at h
      subst h
      exact ⟨rfl, mapGet?_mapSet_self _ _ _, mapGet?_mapSet_self _ _ _,
        mapGet?_mapSet_self _ _ _, rfl⟩

/-- What `RegisterConcrete` does when the type of the argument, with its pointers
removed, is already in the by-type index, however the call ends: the three indexes, the
two lists and the sealed flag are as before, and the descriptor that the by-type index
yields, when it is allocated, is as before but for its implementers map. -/
theorem registerConcrete_present (env : Env) (ro : RangeOrder) (cdc : Codec) (o : RType)
    (name : String) (p0 : Ptr) (hp : cdc.getRegistedTypeInfoWLock o = some p0) :
    (cdc.RegisterConcrete env ro o name).2.typeInfos = cdc.typeInfos ∧
    (cdc.RegisterConcrete env ro o name).2.disfixToTypeInfo = cdc.disfixToTypeInfo ∧
    (cdc.RegisterConcrete env ro o name).2.nameToTypeInfo = cdc.nameToTypeInfo ∧
    (cdc.RegisterConcrete env ro o name).2.concreteInfos = cdc.concreteInfos ∧
    (cdc.RegisterConcrete env ro o name).2.interfaceInfos = cdc.interfaceInfos ∧
    (cdc.RegisterConcrete env ro o name).2.sealed = cdc.sealed ∧
    (p0 < cdc.heap.length →
      ((cdc.RegisterConcrete env ro o name).2.deref p0).frozen = (cdc.deref p0).frozen) := by
  unfold Codec.RegisterConcrete
  split
  · exact ⟨rfl, rfl, rfl, rfl, rfl, rfl, fun _ => rfl⟩
  · split
    · exact ⟨rfl, rfl, rfl, rfl, rfl, rfl, fun _ => rfl⟩
    · rename_i rt pp hct
      split
      · exact ⟨rfl, rfl, rfl, rfl, rfl, rfl, fun _ => rfl⟩
      · rename_i info hinfo
        obtain ⟨hd, hkp, _⟩ := concreteTypeOf_deref o rt pp hct
        obtain ⟨hty, _, _, _, _, _, _, _⟩ :=
          newTypeInfoFromRegistered_spec env rt pp name info hinfo
        have hs := sameButImpl_addCheck env ro (cdc.alloc info).2 (cdc.alloc info).1
        have hold : ∀ q, q < cdc.heap.length → (cdc.alloc info).2.deref q = cdc.deref q := by
          intro q hq
          simp [Codec.alloc, Codec.deref, derefHeap_append_lt _ _ _ hq]
        simp only
        split
        · rename_i err cdc2 hadd
          rw [hadd] at hs
          obtain ⟨h1, h2, h3, h4, h5, h6, _, hfz⟩ := hs
          exact ⟨h2, h5, h6, h4, h3, h1, fun hlt => by rw [hfz, hold p0 hlt]⟩
        · rename_i cdc2 hadd
          rw [hadd] at hs
          obtain ⟨h1, h2, h3, h4, h5, h6, _, hfz⟩ := hs
          have hT : (cdc2.deref (cdc.alloc info).1).Typ = rt := by
            rw [frozen_typ _ _ (hfz _), deref_alloc_self, hty]
          have hpres : (mapGet? cdc2.typeInfos rt).isSome = true := by
            rw [h2]
            have : mapGet? cdc.typeInfos rt = some p0 := by
              simpa [Codec.getRegistedTypeInfoWLock, hd] using hp
            simp [Codec.alloc, this]
          have hret : cdc2.setTypeInfoNoLock (cdc.alloc info).1 = (none, cdc2) := by
            unfold Codec.setTypeInfoNoLock
            simp only [hT, hkp, if_false, hpres, if_true]
          rw [hret]
          exact ⟨h2, h5, h6, h4, h3, h1, fun hlt => by rw [hfz, hold p0 hlt]⟩

/-! ## The conflict check and the invariant of reachable catalogs -/

theorem sameTypeTwice_length (heap : List TypeInfo) (cinfos : List Ptr) (c0 : Ptr)
    (h : sameTypeTwice heap cinfos = some c0) : cinfos.length = 2 ∧ c0 ∈ cinfos := by
  unfold sameTypeTwice at h
  split at h
  · split_ifs at h
    simp only [Option.some.injEq] at h
    subst h
    simp
  · cases h

theorem sameTypeTwice_congr (heap heap1 : List TypeInfo) (cinfos : List Ptr)
    (h : ∀ cp ∈ cinfos, (derefHeap heap1 cp).Typ = (derefHeap heap cp).Typ) :
    sameTypeTwice heap1 cinfos = sameTypeTwice heap cinfos := by
  unfold sameTypeTwice
  split
  · rename_i c0 c1
    rw [h c0 (by simp), h c1 (by simp)]
  · rfl

theorem checkCases_cons_pass (cdc : Codec) (ip : Ptr) (e0 : PrefixBytes × List Ptr)
    (rest : List (PrefixBytes × List Ptr)) (r : Option Panic × Codec)
    (hhead : e0.2.length < 2 ∨
      (sameTypeTwice cdc.heap e0.2 = none ∧ ∀ cp ∈ e0.2, cdc.covered ip cp = true))
    (ih : cdc.CheckCases ip rest r) : cdc.CheckCases ip (e0 :: rest) r := by
  rcases ih with ⟨e, he, cp, hcp, h1, h2, h3, h4⟩ | ⟨e, he, c0, h1, h2⟩ | ⟨h1, h2⟩
  · exact Or.inl ⟨e, List.mem_cons_of_mem _ he, cp, hcp, h1, h2, h3, h4⟩
  · exact Or.inr (Or.inl ⟨e, List.mem_cons_of_mem _ he, c0, h1, h2⟩)
  · refine Or.inr (Or.inr ⟨h1, ?_⟩)
    intro e he
    rcases List.mem_cons.mp he with rfl | he
    · exact hhead
    · exact h2 e he

/-- The loop of `checkConflictsInPrioNolock` ends in one of the three ways. -/
theorem checkConflictsLoop_cases (cdc : Codec) (ip : Ptr) (l : List (PrefixBytes × List Ptr)) :
    cdc.CheckCases ip l (checkConflictsLoop cdc ip l) := by
  induction l with
  | nil => exact Or.inr (Or.inr ⟨rfl, by simp⟩)
  | cons e rest ih =>
    obtain ⟨pb, cinfos⟩ := e
    by_cases hlen : cinfos.length < 2
    · have heq : checkConflictsLoop cdc ip ((pb, cinfos) :: rest) =
          checkConflictsLoop cdc ip rest := by
        rw [checkConflictsLoop]; simp [hlen]
      rw [heq]
      exact checkCases_cons_pass cdc ip (pb, cinfos) rest _ (Or.inl hlen) ih
    · cases hst : sameTypeTwice cdc.heap cinfos with
      | some c0 =>
        refine Or.inr (Or.inl ⟨(pb, cinfos), List.mem_cons_self _ _, c0, hst, ?_⟩)
        rw [checkConflictsLoop]
        simp [hlen, hst]
      | none =>
        cases hf : cinfos.find? (fun cp => !cdc.covered ip cp) with
        | some cp =>
          refine Or.inl ⟨(pb, cinfos), List.mem_cons_self _ _, cp, List.mem_of_find?_eq_some hf,
            Nat.le_of_not_lt hlen, hst, ?_, ?_⟩
          · have := List.find?_some hf
            simpa using this
          · rw [checkConflictsLoop]
            simp only [hlen, if_false, hst]
            unfold Codec.covered at hf
            simp only [hf]
        | none =>
          have hall : ∀ cp ∈ cinfos, cdc.covered ip cp = true := by
            intro cp hcp
            have := List.find?_eq_none.mp hf cp hcp
            simpa using this
          have heq : checkConflictsLoop cdc ip ((pb, cinfos) :: rest) =
              checkConflictsLoop cdc ip rest := by
            rw [checkConflictsLoop]
            simp only [hlen, if_false, hst]
            unfold Codec.covered at hf
            simp only [hf]
          rw [heq]
          exact checkCases_cons_pass cdc ip (pb, cinfos) rest _ (Or.inr ⟨hst, hall⟩) ih

/-- `checkConflictsInPrioNolock` ends in one of the three ways, whatever the visiting
order: the entries are those of the implementers map. -/
theorem checkConflicts_cases (ro : RangeOrder) (cdc : Codec) (ip : Ptr) :
    cdc.CheckCases ip (cdc.deref ip).InterfaceInfo.Implementers
      (cdc.checkConflictsInPrioNolock ro ip) := by
  have hmem : ∀ e, e ∈ ro.order ip (cdc.deref ip).InterfaceInfo.Implementers ↔
      e ∈ (cdc.deref ip).InterfaceInfo.Implementers := fun e => (ro.perm ip _).mem_iff
  unfold Codec.checkConflictsInPrioNolock
  rcases checkConflictsLoop_cases cdc ip (ro.order ip (cdc.deref ip).InterfaceInfo.Implementers)
    with ⟨e, he, r⟩ | ⟨e, he, r⟩ | ⟨h1, h2⟩
  · exact Or.inl ⟨e, (hmem e).mp he, r⟩
  · exact Or.inr (Or.inl ⟨e, (hmem e).mp he, r⟩)
  · exact Or.inr (Or.inr ⟨h1, fun e he => h2 e ((hmem e).mpr he)⟩)

theorem sameButImpl_symm (a b : Codec) (h : a.SameButImpl b) : b.SameButImpl a := by
  obtain ⟨a1, a2, a3, a4, a5, a6, a7, a8⟩ := h
  exact ⟨a1.symm, a2.symm, a3.symm, a4.symm, a5.symm, a6.symm, a7.symm, fun p => (a8 p).symm⟩

theorem sameButImpl_typ (a b : Codec) (h : a.SameButImpl b) (p : Ptr) :
    (b.deref p).Typ = (a.deref p).Typ := frozen_typ _ _ (h.2.2.2.2.2.2.2 p)

theorem sameButImpl_concrete (a b : Codec) (h : a.SameButImpl b) (p : Ptr) :
    (b.deref p).ConcreteInfo = (a.deref p).ConcreteInfo := frozen_concrete _ _ (h.2.2.2.2.2.2.2 p)

theorem sameButImpl_covered (a b : Codec) (h : a.SameButImpl b) (ip cp : Ptr) :
    b.covered ip cp = a.covered ip cp := by
  unfold Codec.covered
  rw [frozen_priority _ _ (h.2.2.2.2.2.2.2 ip), sameButImpl_concrete a b h cp]

theorem sameButImpl_sameTypeTwice (a b : Codec) (h : a.SameButImpl b) (l : List Ptr) :
    sameTypeTwice b.heap l = sameTypeTwice a.heap l :=
  sameTypeTwice_congr _ _ _ fun cp _ => sameButImpl_typ a b h cp

theorem sameButImpl_bucketOk (a b : Codec) (h : a.SameButImpl b) (ip : Ptr) (l : List Ptr)
    (hok : a.BucketOk ip l) : b.BucketOk ip l := by
  refine ⟨by rw [sameButImpl_sameTypeTwice a b h]; exact hok.1, ?_⟩
  intro h2 cp hcp
  rw [sameButImpl_covered a b h]
  exact hok.2 h2 cp hcp

/-- The invariant carries over to a catalog that differs in implementers maps only,
once the buckets of the listed interfaces are known to be allocated and to pass. -/
theorem inv_of_sameButImpl (a b : Codec) (ha : a.Inv) (h : a.SameButImpl b)
    (hb : ∀ ip ∈ a.interfaceInfos, ∀ e ∈ (b.deref ip).InterfaceInfo.Implementers,
      (∀ cp ∈ e.2, cp < a.heap.length) ∧ b.BucketOk ip e.2) : b.Inv := by
  obtain ⟨_, h2, h3, h4, _, _, h7, _⟩ := id h
  refine ⟨?_, ?_, ?_, ?_, ?_, ?_, ?_⟩
  · intro ip hip; rw [h3] at hip; rw [h7]; exact ha.ifaceValid ip hip
  · rw [h3]; exact ha.ifaceNodup
  · intro cp hcp; rw [h4] at hcp; rw [h7]; exact ha.concValid cp hcp
  · intro cp hcp; rw [h4] at hcp; rw [h2, sameButImpl_typ a b h]; exact ha.concKeyed cp hcp
  · rw [h4]
    have : (fun cp => (b.deref cp).Typ) = fun cp => (a.deref cp).Typ :=
      funext fun cp => sameButImpl_typ a b h cp
    rw [this]; exact ha.concTypes
  · intro ip hip e he cp hcp; rw [h3] at hip; rw [h7]; exact (hb ip hip e he).1 cp hcp
  · intro ip hip e he; rw [h3] at hip; exact (hb ip hip e he).2

theorem deref_store_self (cdc : Codec) (p : Ptr) (info : TypeInfo) (h : p < cdc.heap.length) :
    (cdc.store p info).deref p = info := by
  simp [Codec.store, Codec.deref, derefHeap_set_self _ _ _ h]

theorem deref_store_ne (cdc : Codec) (p q : Ptr) (info : TypeInfo) (h : q ≠ p) :
    (cdc.store p info).deref q = cdc.deref q := by
  simp [Codec.store, Codec.deref, derefHeap_set_ne _ _ _ _ h]

theorem store_store (cdc : Codec) (p : Ptr) (x y : TypeInfo) :
    (cdc.store p x).store p y = cdc.store p y := by
  simp [Codec.store, List.set_set]

theorem setBucket_setBucket (info : TypeInfo) (pb : PrefixBytes) (l l1 : List Ptr) :
    (info.setBucket pb l).setBucket pb l1 = info.setBucket pb l1 := by
  simp [TypeInfo.setBucket, mapSet_mapSet]

theorem bucketOk_of_short (cdc : Codec) (ip : Ptr) (l : List Ptr) (h : l.length < 2) :
    cdc.BucketOk ip l := by
  refine ⟨?_, fun h2 => by omega⟩
  cases hs : sameTypeTwice cdc.heap l with
  | none => rfl
  | some c0 => have := (sameTypeTwice_length _ _ _ hs).1; omega

/-- Replacing one bucket of a listed interface by an allocated bucket that passes the
check keeps the invariant. -/
theorem inv_store_bucket (cdc : Codec) (hinv : cdc.Inv) (ip : Ptr) (hip : ip ∈ cdc.interfaceInfos)
    (pb : PrefixBytes) (l : List Ptr) (hv : ∀ cp ∈ l, cp < cdc.heap.length)
    (hok : cdc.BucketOk ip l) :
    (cdc.store ip ((cdc.deref ip).setBucket pb l)).Inv := by
  have hs := sameButImpl_store cdc ip pb l
  apply inv_of_sameButImpl cdc _ hinv hs
  intro jp hjp e he
  by_cases hj : jp = ip
  · subst hj
    rw [deref_store_self _ _ _ (hinv.ifaceValid jp hip)] at he
    rcases mem_mapSet _ _ _ _ he with rfl | he
    · exact ⟨hv, sameButImpl_bucketOk _ _ hs jp l hok⟩
    · exact ⟨hinv.bucketValid jp hip e he, sameButImpl_bucketOk _ _ hs jp e.2
        (hinv.bucketOk jp hip e he)⟩
  · rw [deref_store_ne _ _ _ _ hj] at he
    exact ⟨hinv.bucketValid jp hjp e he, sameButImpl_bucketOk _ _ hs jp e.2
      (hinv.bucketOk jp hjp e he)⟩

/-- Writing a bucket of a descriptor that is not a listed interface keeps the
invariant. -/
theorem inv_store_unlisted (cdc : Codec) (hinv : cdc.Inv) (ip : Ptr)
    (hip : ip ∉ cdc.interfaceInfos) (pb : PrefixBytes) (l : List Ptr) :
    (cdc.store ip ((cdc.deref ip).setBucket pb l)).Inv := by
  have hs := sameButImpl_store cdc ip pb l
  apply inv_of_sameButImpl cdc _ hinv hs
  intro jp hjp e he
  have hj : jp ≠ ip := fun h => hip (h ▸ hjp)
  rw [deref_store_ne _ _ _ _ hj] at he
  exact ⟨hinv.bucketValid jp hjp e he, sameButImpl_bucketOk _ _ hs jp e.2
    (hinv.bucketOk jp hjp e he)⟩

theorem deref_alloc_lt (cdc : Codec) (info : TypeInfo) (p : Ptr) (h : p < cdc.heap.length) :
    (cdc.alloc info).2.deref p = cdc.deref p := by
  simp [Codec.alloc, Codec.deref, derefHeap_append_lt _ _ _ h]

/-- Allocating a descriptor keeps the invariant. -/
theorem inv_alloc (cdc : Codec) (hinv : cdc.Inv) (info : TypeInfo) : (cdc.alloc info).2.Inv := by
  have hlen : (cdc.alloc info).2.heap.length = cdc.heap.length + 1 := by simp [Codec.alloc]
  have hd : ∀ p, p < cdc.heap.length → (cdc.alloc info).2.deref p = cdc.deref p :=
    fun p hp => deref_alloc_lt cdc info p hp
  refine ⟨?_, hinv.ifaceNodup, ?_, ?_, ?_, ?_, ?_⟩
  · intro ip hip; rw [hlen]; exact Nat.lt_succ_of_lt (hinv.ifaceValid ip hip)
  · intro cp hcp; rw [hlen]; exact Nat.lt_succ_of_lt (hinv.concValid cp hcp)
  · intro cp hcp
    have hcp1 : cp ∈ cdc.concreteInfos := hcp
    rw [hd cp (hinv.concValid cp hcp1)]
    exact hinv.concKeyed cp hcp1
  · have : (cdc.alloc info).2.concreteInfos.map (fun cp => ((cdc.alloc info).2.deref cp).Typ) =
        cdc.concreteInfos.map fun cp => (cdc.deref cp).Typ := by
      apply List.map_congr_left
      intro cp hcp
      rw [hd cp (hinv.concValid cp hcp)]
    rw [this]; exact hinv.concTypes
  · intro ip hip e he cp hcp
    have hip1 : ip ∈ cdc.interfaceInfos := hip
    rw [hd ip (hinv.ifaceValid ip hip1)] at he
    rw [hlen]; exact Nat.lt_succ_of_lt (hinv.bucketValid ip hip1 e he cp hcp)
  · intro ip hip e he
    have hip1 : ip ∈ cdc.interfaceInfos := hip
    rw [hd ip (hinv.ifaceValid ip hip1)] at he
    have hok := hinv.bucketOk ip hip1 e he
    have hval := hinv.bucketValid ip hip1 e he
    refine ⟨?_, ?_⟩
    · rw [← hok.1]
      apply sameTypeTwice_congr
      intro cp hcp
      exact congrArg TypeInfo.Typ (hd cp (hval cp hcp))
    · intro h2 cp hcp
      have := hok.2 h2 cp hcp
      unfold Codec.covered at this ⊢
      rw [hd ip (hinv.ifaceValid ip hip1), hd cp (hval cp hcp)]
      exact this

theorem mapGet?_mapSet_isSome {κ ν : Type} [DecidableEq κ] (m : List (κ × ν)) (k k1 : κ) (v : ν)
    (h : (mapGet? m k1).isSome = true) : (mapGet? (mapSet m k v) k1).isSome = true := by
  by_cases hk : k1 = k
  · subst hk; rw [mapGet?_mapSet_self]; rfl
  · rw [mapGet?_mapSet_ne _ _ _ _ hk]; exact h

/-- The catalog that `setTypeInfoNoLock` leaves, panic or not, keeps the invariant, when
the descriptor is allocated and, for an interface, is not yet listed and has buckets
that are allocated and pass the check. -/
theorem inv_setTypeInfoNoLock (cdc : Codec) (hinv : cdc.Inv) (p : Ptr)
    (hp : p < cdc.heap.length)
    (hi : (cdc.deref p).Typ.Kind = .Interface →
      p ∉ cdc.interfaceInfos ∧ ∀ e ∈ (cdc.deref p).InterfaceInfo.Implementers,
        (∀ cp ∈ e.2, cp < cdc.heap.length) ∧ cdc.BucketOk p e.2) :
    (cdc.setTypeInfoNoLock p).2.Inv := by
  unfold Codec.setTypeInfoNoLock
  simp only
  by_cases hk : (cdc.deref p).Typ.Kind = .Ptr
  · simp only [hk, if_true]; exact hinv
  simp only [hk, if_false]
  cases hpres : mapGet? cdc.typeInfos (cdc.deref p).Typ with
  | some q => simp only [Option.isSome_some, if_true]; exact hinv
  | none =>
    simp only [Option.isSome_none, Bool.false_eq_true, if_false]
    have hkeyed : ∀ cp ∈ cdc.concreteInfos,
        (mapGet? (mapSet cdc.typeInfos (cdc.deref p).Typ p) (cdc.deref cp).Typ).isSome = true :=
      fun cp hcp => mapGet?_mapSet_isSome _ _ _ _ (hinv.concKeyed cp hcp)
    by_cases hif : (cdc.deref p).Typ.Kind = .Interface
    · simp only [hif, if_true]
      obtain ⟨hnot, hb⟩ := hi hif
      refine ⟨?_, ?_, hinv.concValid, hkeyed, hinv.concTypes, ?_, ?_⟩
      · intro ip hip
        rcases List.mem_append.mp hip with h | h
        · exact hinv.ifaceValid ip h
        · rw [List.mem_singleton.mp h]; exact hp
      · exact List.Nodup.append hinv.ifaceNodup (List.nodup_singleton p)
          (by simpa using hnot)
      · intro ip hip e he
        rcases List.mem_append.mp hip with h | h
        · exact hinv.bucketValid ip h e he
        · rw [List.mem_singleton.mp h] at he; exact (hb e he).1
      · intro ip hip e he
        rcases List.mem_append.mp hip with h | h
        · exact hinv.bucketOk ip h e he
        · rw [List.mem_singleton.mp h] at he ⊢; exact (hb e he).2
    · simp only [hif, if_false]
      by_cases hr : (cdc.deref p).ConcreteInfo.Registered = true
      · rw [if_pos hr]
        have hcv : ∀ cp ∈ cdc.concreteInfos ++ [p], cp < cdc.heap.length := by
          intro cp hcp
          rcases List.mem_append.mp hcp with h | h
          · exact hinv.concValid cp h
          · rw [List.mem_singleton.mp h]; exact hp
        have hck : ∀ cp ∈ cdc.concreteInfos ++ [p],
            (mapGet? (mapSet cdc.typeInfos (cdc.deref p).Typ p) (cdc.deref cp).Typ).isSome = true := by
          intro cp hcp
          rcases List.mem_append.mp hcp with h | h
          · exact hkeyed cp h
          · rw [List.mem_singleton.mp h, mapGet?_mapSet_self]; rfl
        have hct : ((cdc.concreteInfos ++ [p]).map fun cp => (cdc.deref cp).Typ).Nodup := by
          rw [List.map_append]
          refine List.Nodup.append hinv.concTypes (by simp) ?_
          intro t ht1 ht2
          simp only [List.map_cons, List.map_nil, List.mem_singleton] at ht2
          obtain ⟨cp, hcp, rfl⟩ := List.mem_map.mp ht1
          have := hinv.concKeyed cp hcp
          rw [ht2, hpres] at this
          cases this
        split
        · exact ⟨hinv.ifaceValid, hinv.ifaceNodup, hcv, hck, hct, hinv.bucketValid, hinv.bucketOk⟩
        · split
          · exact ⟨hinv.ifaceValid, hinv.ifaceNodup, hcv, hck, hct, hinv.bucketValid,
              hinv.bucketOk⟩
          · exact ⟨hinv.ifaceValid, hinv.ifaceNodup, hcv, hck, hct, hinv.bucketValid,
              hinv.bucketOk⟩
      · rw [if_neg hr]
        exact ⟨hinv.ifaceValid, hinv.ifaceNodup, hinv.concValid, hkeyed, hinv.concTypes,
          hinv.bucketValid, hinv.bucketOk⟩

theorem bucket_mem_entry (info : TypeInfo) (pb : PrefixBytes) (c : Ptr)
    (h : c ∈ info.bucket pb) : (pb, info.bucket pb) ∈ info.InterfaceInfo.Implementers := by
  unfold TypeInfo.bucket at h ⊢
  cases hg : mapGet? info.InterfaceInfo.Implementers pb with
  | none => rw [hg] at h; simp at h
  | some l => exact mapGet?_mem _ _ _ hg

theorem bucket_entry_or_nil (info : TypeInfo) (pb : PrefixBytes) :
    (pb, info.bucket pb) ∈ info.InterfaceInfo.Implementers ∨ info.bucket pb = [] := by
  unfold TypeInfo.bucket
  cases hg : mapGet? info.InterfaceInfo.Implementers pb with
  | none => exact Or.inr rfl
  | some l => exact Or.inl (mapGet?_mem _ _ _ hg)

/-- In a catalog that satisfies the invariant, every bucket of a listed interface, read
as the code reads it, is allocated and passes the check. -/
theorem inv_bucket (cdc : Codec) (hinv : cdc.Inv) (ip : Ptr) (hip : ip ∈ cdc.interfaceInfos)
    (pb : PrefixBytes) :
    (∀ c ∈ (cdc.deref ip).bucket pb, c < cdc.heap.length) ∧
    cdc.BucketOk ip ((cdc.deref ip).bucket pb) := by
  rcases bucket_entry_or_nil (cdc.deref ip) pb with h | h
  · exact ⟨hinv.bucketValid ip hip _ h, hinv.bucketOk ip hip _ h⟩
  · rw [h]; exact ⟨by simp, bucketOk_of_short cdc ip [] (by simp)⟩

/-- One turn of the loop of `addCheckConflictsWithConcreteNolock` for a listed interface
that the concrete type implements: after the descriptor is appended to its bucket, the
check either reports a conflict for that very bucket, or collapses that bucket, or
passes and the longer bucket passes the check. -/
theorem checkAfterAppend_cases (ro : RangeOrder) (cdc : Codec) (hinv : cdc.Inv) (ip cp : Ptr)
    (hip : ip ∈ cdc.interfaceInfos) (pb : PrefixBytes) :
    (∃ xp ∈ (cdc.deref ip).bucket pb ++ [cp],
        2 ≤ ((cdc.deref ip).bucket pb).length + 1 ∧
        sameTypeTwice cdc.heap ((cdc.deref ip).bucket pb ++ [cp]) = none ∧
        cdc.covered ip xp = false ∧
        (cdc.store ip ((cdc.deref ip).setBucket pb
            ((cdc.deref ip).bucket pb ++ [cp]))).checkConflictsInPrioNolock ro ip =
          (some (.conflicts (cdc.deref xp).Typ (((cdc.deref ip).bucket pb).length + 1)
              (cdc.deref ip).Typ),
            cdc.store ip ((cdc.deref ip).setBucket pb ((cdc.deref ip).bucket pb ++ [cp])))) ∨
    (∃ c0, sameTypeTwice cdc.heap ((cdc.deref ip).bucket pb ++ [cp]) = some c0 ∧
        (cdc.store ip ((cdc.deref ip).setBucket pb
            ((cdc.deref ip).bucket pb ++ [cp]))).checkConflictsInPrioNolock ro ip =
          (none, cdc.store ip ((cdc.deref ip).setBucket pb [c0]))) ∨
    ((cdc.store ip ((cdc.deref ip).setBucket pb
          ((cdc.deref ip).bucket pb ++ [cp]))).checkConflictsInPrioNolock ro ip =
        (none, cdc.store ip ((cdc.deref ip).setBucket pb ((cdc.deref ip).bucket pb ++ [cp]))) ∧
      cdc.BucketOk ip ((cdc.deref ip).bucket pb ++ [cp])) := by
  have hval := hinv.ifaceValid ip hip
  have hs := sameButImpl_store cdc ip pb ((cdc.deref ip).bucket pb ++ [cp])
  have hd := deref_store_self cdc ip ((cdc.deref ip).setBucket pb ((cdc.deref ip).bucket pb ++ [cp]))
    hval
  have himpl : ((cdc.store ip ((cdc.deref ip).setBucket pb
      ((cdc.deref ip).bucket pb ++ [cp]))).deref ip).InterfaceInfo.Implementers =
      mapSet (cdc.deref ip).InterfaceInfo.Implementers pb ((cdc.deref ip).bucket pb ++ [cp]) := by
    rw [hd]; rfl
  rcases checkConflicts_cases ro _ ip with
    ⟨e, he, xp, hxp, h1, h2, h3, h4⟩ | ⟨e, he, c0, h1, h2⟩ | ⟨h1, h2⟩
  · rw [himpl] at he
    rw [sameButImpl_sameTypeTwice _ _ hs] at h2
    rw [sameButImpl_covered _ _ hs] at h3
    rcases mem_mapSet _ _ _ _ he with rfl | he
    · refine Or.inl ⟨xp, hxp, by simpa using h1, h2, h3, ?_⟩
      rw [h4, sameButImpl_typ _ _ hs, sameButImpl_typ _ _ hs]
      simp
    · have := (hinv.bucketOk ip hip e he).2 h1 xp hxp
      rw [h3] at this; cases this
  · rw [himpl] at he
    rw [sameButImpl_sameTypeTwice _ _ hs] at h1
    rcases mem_mapSet _ _ _ _ he with rfl | he
    · refine Or.inr (Or.inl ⟨c0, h1, ?_⟩)
      rw [h2, hd, store_store, setBucket_setBucket]
    · have := (hinv.bucketOk ip hip e he).1
      rw [h1] at this; cases this
  · refine Or.inr (Or.inr ⟨h1, ?_⟩)
    rw [himpl] at h2
    rcases h2 _ (mapSet_mem_self _ _ _) with h | ⟨h3, h4⟩
    · exact bucketOk_of_short cdc ip _ h
    · refine ⟨by rw [← sameButImpl_sameTypeTwice _ _ hs]; exact h3, ?_⟩
      intro _ c hc
      rw [← sameButImpl_covered _ _ hs]
      exact h4 c hc

theorem addCheckConflictsLoop_skip (env : Env) (ro : RangeOrder) (cp ip : Ptr) (rest : List Ptr)
    (cdc : Codec) (h : env.implements (cdc.deref cp).PtrToType (cdc.deref ip).Typ = false) :
    addCheckConflictsLoop env ro cp (ip :: rest) cdc = addCheckConflictsLoop env ro cp rest cdc := by
  rw [addCheckConflictsLoop]
  simp [h]

theorem addCheckConflictsLoop_err (env : Env) (ro : RangeOrder) (cp ip : Ptr) (rest : List Ptr)
    (cdc cdc2 : Codec) (err : Panic)
    (h : env.implements (cdc.deref cp).PtrToType (cdc.deref ip).Typ = true)
    (hc : (cdc.store ip ((cdc.deref ip).setBucket (cdc.deref cp).ConcreteInfo.Prefix
        ((cdc.deref ip).bucket (cdc.deref cp).ConcreteInfo.Prefix ++ [cp]))).checkConflictsInPrioNolock
          ro ip = (some err, cdc2)) :
    addCheckConflictsLoop env ro cp (ip :: rest) cdc =
      (some err, cdc2.store ip ((cdc2.deref ip).setBucket (cdc.deref cp).ConcreteInfo.Prefix
        ((cdc.deref ip).bucket (cdc.deref cp).ConcreteInfo.Prefix))) := by
  rw [addCheckConflictsLoop]
  simp [h, hc]

theorem addCheckConflictsLoop_pass (env : Env) (ro : RangeOrder) (cp ip : Ptr) (rest : List Ptr)
    (cdc cdc2 : Codec)
    (h : env.implements (cdc.deref cp).PtrToType (cdc.deref ip).Typ = true)
    (hc : (cdc.store ip ((cdc.deref ip).setBucket (cdc.deref cp).ConcreteInfo.Prefix
        ((cdc.deref ip).bucket (cdc.deref cp).ConcreteInfo.Prefix ++ [cp]))).checkConflictsInPrioNolock
          ro ip = (none, cdc2)) :
    addCheckConflictsLoop env ro cp (ip :: rest) cdc =
      addCheckConflictsLoop env ro cp rest cdc2 := by
  rw [addCheckConflictsLoop]
  simp [h, hc]

/-- The loop of `addCheckConflictsWithConcreteNolock` keeps the invariant, whether it
ends with a panic or not. -/
theorem inv_addCheckLoop (env : Env) (ro : RangeOrder) (cp : Ptr) (l : List Ptr) (cdc : Codec)
    (hinv : cdc.Inv) (hcp : cp < cdc.heap.length) (hl : ∀ ip ∈ l, ip ∈ cdc.interfaceInfos) :
    (addCheckConflictsLoop env ro cp l cdc).2.Inv := by
  induction l generalizing cdc with
  | nil => exact hinv
  | cons ip rest ih =>
    have hip := hl ip (List.mem_cons_self _ _)
    have hrest : ∀ jp ∈ rest, jp ∈ cdc.interfaceInfos :=
      fun jp hjp => hl jp (List.mem_cons_of_mem _ hjp)
    cases himp : env.implements (cdc.deref cp).PtrToType (cdc.deref ip).Typ with
    | false =>
      rw [addCheckConflictsLoop_skip env ro cp ip rest cdc himp]
      exact ih cdc hinv hcp hrest
    | true =>
      have hb := inv_bucket cdc hinv ip hip (cdc.deref cp).ConcreteInfo.Prefix
      have hvalid : ∀ c ∈ (cdc.deref ip).bucket (cdc.deref cp).ConcreteInfo.Prefix ++ [cp],
          c < cdc.heap.length := by
        intro c hc
        rcases List.mem_append.mp hc with h | h
        · exact hb.1 c h
        · rw [List.mem_singleton.mp h]; exact hcp
      rcases checkAfterAppend_cases ro cdc hinv ip cp hip (cdc.deref cp).ConcreteInfo.Prefix with
        ⟨xp, _, _, _, _, h4⟩ | ⟨c0, h1, h2⟩ | ⟨h1, h2⟩
      · rw [addCheckConflictsLoop_err env ro cp ip rest cdc _ _ himp h4]
        rw [deref_store_self _ _ _ (hinv.ifaceValid ip hip), store_store, setBucket_setBucket]
        exact inv_store_bucket cdc hinv ip hip _ _ hb.1 hb.2
      · rw [addCheckConflictsLoop_pass env ro cp ip rest cdc _ himp h2]
        have hc0 := (sameTypeTwice_length _ _ _ h1).2
        have hinv2 := inv_store_bucket cdc hinv ip hip (cdc.deref cp).ConcreteInfo.Prefix [c0]
          (by intro c hc; rw [List.mem_singleton.mp hc]; exact hvalid c0 hc0)
          (bucketOk_of_short cdc ip [c0] (by simp))
        exact ih _ hinv2 (by simpa [Codec.store] using hcp) hrest
      · rw [addCheckConflictsLoop_pass env ro cp ip rest cdc _ himp h1]
        have hinv2 := inv_store_bucket cdc hinv ip hip (cdc.deref cp).ConcreteInfo.Prefix _
          hvalid h2
        exact ih _ hinv2 (by simpa [Codec.store] using hcp) hrest

/-- The catalog that `RegisterConcrete` leaves, panic or not, keeps the invariant. -/
theorem inv_registerConcrete (env : Env) (ro : RangeOrder) (cdc : Codec) (hinv : cdc.Inv)
    (o : RType) (name : String) : (cdc.RegisterConcrete env ro o name).2.Inv := by
  unfold Codec.RegisterConcrete
  split
  · exact hinv
  · split
    · exact hinv
    · split
      · exact hinv
      · rename_i _ rt pp _ _ info hinfo
        have hspec := newTypeInfoFromRegistered_spec env rt pp name info hinfo
        have hinv1 := inv_alloc cdc hinv info
        have hcp : (cdc.alloc info).1 < (cdc.alloc info).2.heap.length := by simp [Codec.alloc]
        have hinv2 := inv_addCheckLoop env ro (cdc.alloc info).1 (cdc.alloc info).2.interfaceInfos
          (cdc.alloc info).2 hinv1 hcp (fun _ h => h)
        have hs := sameButImpl_addCheck env ro (cdc.alloc info).2 (cdc.alloc info).1
        simp only
        unfold Codec.addCheckConflictsWithConcreteNolock at hs ⊢
        split
        · rename_i err cdc2 heq
          rw [heq] at hinv2; exact hinv2
        · rename_i cdc2 heq
          rw [heq] at hinv2 hs
          apply inv_setTypeInfoNoLock cdc2 hinv2
          · rw [hs.2.2.2.2.2.2.1]; exact hcp
          · intro hk
            rw [sameButImpl_typ _ _ hs, deref_alloc_self, hspec.1] at hk
            exact absurd hk hspec.2.2.1

section maps
variable {κ ν : Type} [DecidableEq κ]

theorem mapSet_keys_nodup (m : List (κ × ν)) (k : κ) (v : ν) (h : (m.map Prod.fst).Nodup) :
    ((mapSet m k v).map Prod.fst).Nodup := by
  induction m with
  | nil => simp [mapSet]
  | cons e rest ih =>
    obtain ⟨k0, v0⟩ := e
    simp only [List.map_cons, List.nodup_cons] at h
    by_cases hk : k0 = k
    · subst hk
      simp only [mapSet, if_true, List.map_cons, List.nodup_cons]
      exact h
    · simp only [mapSet, hk, if_false, List.map_cons, List.nodup_cons]
      refine ⟨?_, ih h.2⟩
      intro hmem
      obtain ⟨e, he, hek⟩ := List.mem_map.mp hmem
      rcases mem_mapSet _ _ _ _ he with rfl | he1
      · exact hk hek.symm
      · exact h.1 (List.mem_map.mpr ⟨e, he1, hek⟩)

theorem mapGet?_of_mem_nodup (m : List (κ × ν)) (h : (m.map Prod.fst).Nodup) (e : κ × ν)
    (he : e ∈ m) : mapGet? m e.1 = some e.2 := by
  induction m with
  | nil => simp at he
  | cons e0 rest ih =>
    obtain ⟨k0, v0⟩ := e0
    simp only [List.map_cons, List.nodup_cons] at h
    rcases List.mem_cons.mp he with rfl | he1
    · simp [mapGet?]
    · have hne : k0 ≠ e.1 := by
        intro hk
        exact h.1 (List.mem_map.mpr ⟨e, he1, hk.symm⟩)
      simp only [mapGet?, hne, if_false]
      exact ih h.2 he1

end maps

theorem bucket_setBucket (info : TypeInfo) (pb pb1 : PrefixBytes) (l : List Ptr) :
    (info.setBucket pb l).bucket pb1 = if pb1 = pb then l else info.bucket pb1 := by
  unfold TypeInfo.bucket TypeInfo.setBucket
  by_cases h : pb1 = pb
  · subst h; simp [mapGet?_mapSet_self]
  · simp [h, mapGet?_mapSet_ne _ _ _ _ h]

/-- What the loop of `collectImplementersNolock` has built once it has gone through the
listed concrete descriptors `done`: every bucket of the interface holds the descriptors
of `done` that belong in it, in order, and no key occurs twice. -/
theorem foldCollect_buckets (env : Env) (ip : Ptr) (l done : List Ptr) (acc : Codec)
    (hip : ip < acc.heap.length)
    (hk : ((acc.deref ip).InterfaceInfo.Implementers.map Prod.fst).Nodup)
    (hb : ∀ pb, (acc.deref ip).bucket pb =
      done.filter (acc.implementsUnder env (acc.deref ip).Typ pb)) :
    (((l.foldl (collectStep env ip) acc).deref ip).InterfaceInfo.Implementers.map Prod.fst).Nodup ∧
    ∀ pb, ((l.foldl (collectStep env ip) acc).deref ip).bucket pb =
      (done ++ l).filter (acc.implementsUnder env (acc.deref ip).Typ pb) := by
  induction l generalizing acc done with
  | nil => simpa using ⟨hk, hb⟩
  | cons c rest ih =>
    simp only [List.foldl_cons]
    have hs := sameButImpl_collectStep env ip acc c
    have hP : ∀ pb, (collectStep env ip acc c).implementsUnder env
        ((collectStep env ip acc c).deref ip).Typ pb = acc.implementsUnder env (acc.deref ip).Typ pb := by
      intro pb
      funext x
      unfold Codec.implementsUnder TypeInfo.PtrToType
      rw [sameButImpl_typ _ _ hs, sameButImpl_typ _ _ hs, sameButImpl_concrete _ _ hs]
    have step : (((collectStep env ip acc c).deref ip).InterfaceInfo.Implementers.map Prod.fst).Nodup ∧
        ∀ pb, ((collectStep env ip acc c).deref ip).bucket pb =
          (done ++ [c]).filter (acc.implementsUnder env (acc.deref ip).Typ pb) := by
      unfold collectStep
      simp only
      cases himp : env.implements (acc.deref c).PtrToType (acc.deref ip).Typ with
      | false =>
        simp only [Bool.false_eq_true, if_false]
        refine ⟨hk, fun pb => ?_⟩
        rw [hb pb, List.filter_append]
        simp [Codec.implementsUnder, himp]
      | true =>
        simp only [if_true]
        rw [deref_store_self _ _ _ hip]
        refine ⟨mapSet_keys_nodup _ _ _ hk, fun pb => ?_⟩
        rw [bucket_setBucket, List.filter_append]
        by_cases hpb : pb = (acc.deref c).ConcreteInfo.Prefix
        · subst hpb
          simp [Codec.implementsUnder, himp, hb]
        · have : (acc.deref c).ConcreteInfo.Prefix ≠ pb := fun h => hpb h.symm
          simp [Codec.implementsUnder, himp, hb, hpb, this]
    have := ih (done ++ [c]) (collectStep env ip acc c)
      (by rw [hs.2.2.2.2.2.2.1]; exact hip) step.1
      (by intro pb; rw [hP pb]; exact step.2 pb)
    simp only [hP, List.append_assoc, List.singleton_append] at this
    exact this

theorem newTypeInfoFromInterfaceType_spec (env : Env) (rt : RType)
    (iopts : Option InterfaceOptions) (info : TypeInfo)
    (h : newTypeInfoFromInterfaceType env rt iopts = .ok info) :
    info.Typ = rt ∧ rt.Kind = .Interface ∧ info.InterfaceInfo.Implementers = [] := by
  unfold newTypeInfoFromInterfaceType at h
  split_ifs at h with hk
  have hk1 : rt.Kind = .Interface := by simpa using hk
  split at h
  · simp only [Except.ok.injEq] at h
    subst h
    exact ⟨rfl, hk1, rfl⟩
  · split at h
    · cases h
    · simp only [Except.ok.injEq] at h
      subst h
      exact ⟨rfl, hk1, rfl⟩

theorem sameTypeTwice_none_of_sublist (cdc : Codec) (hinv : cdc.Inv) (l : List Ptr)
    (hsub : l.Sublist cdc.concreteInfos) : sameTypeTwice cdc.heap l = none := by
  unfold sameTypeTwice
  split
  · rename_i c0 c1
    have h1 := (hsub.map fun cp => (cdc.deref cp).Typ)
    have h2 := hinv.concTypes.sublist h1
    simp only [List.map_cons, List.map_nil, List.nodup_cons, List.mem_singleton,
      List.not_mem_nil, not_false_eq_true, List.nodup_nil, and_true] at h2
    simp only [Codec.deref] at h2
    simp [h2]
  · rfl

/-- The catalog after the descriptor of an interface has been allocated and
`collectImplementersNolock` has run: the invariant holds, and every bucket of the new
descriptor holds exactly the listed concrete descriptors that belong in it, in
registration order. -/
theorem collect_spec (env : Env) (cdc : Codec) (hinv : cdc.Inv) (info : TypeInfo)
    (himpl : info.InterfaceInfo.Implementers = []) :
    ((cdc.alloc info).2.collectImplementersNolock env (cdc.alloc info).1).Inv ∧
    (cdc.alloc info).2.SameButImpl
      ((cdc.alloc info).2.collectImplementersNolock env (cdc.alloc info).1) ∧
    (∀ pb, (((cdc.alloc info).2.collectImplementersNolock env (cdc.alloc info).1).deref
        (cdc.alloc info).1).bucket pb =
      cdc.concreteInfos.filter (cdc.implementsUnder env info.Typ pb)) ∧
    (∀ e ∈ (((cdc.alloc info).2.collectImplementersNolock env (cdc.alloc info).1).deref
        (cdc.alloc info).1).InterfaceInfo.Implementers,
      e.2 = cdc.concreteInfos.filter (cdc.implementsUnder env info.Typ e.1)) := by
  have hinv1 := inv_alloc cdc hinv info
  have hip : (cdc.alloc info).1 < (cdc.alloc info).2.heap.length := by simp [Codec.alloc]
  have hunl : (cdc.alloc info).1 ∉ (cdc.alloc info).2.interfaceInfos := by
    intro h
    have := hinv.ifaceValid _ h
    simp [Codec.alloc] at this
  have hs := sameButImpl_collect env (cdc.alloc info).2 (cdc.alloc info).1
  -- the invariant through the loop
  have hinvL : ∀ (l : List Ptr) (acc : Codec), acc.Inv → (cdc.alloc info).1 ∉ acc.interfaceInfos →
      (l.foldl (collectStep env (cdc.alloc info).1) acc).Inv := by
    intro l
    induction l with
    | nil => intro acc h _; exact h
    | cons c rest ih =>
      intro acc h hn
      simp only [List.foldl_cons]
      have hs1 := sameButImpl_collectStep env (cdc.alloc info).1 acc c
      apply ih
      · unfold collectStep
        simp only
        split_ifs
        · exact inv_store_unlisted acc h _ hn _ _
        · exact h
      · rw [hs1.2.2.1]; exact hn
  have hself := deref_alloc_self cdc info
  have hfold := foldCollect_buckets env (cdc.alloc info).1 (cdc.alloc info).2.concreteInfos []
    (cdc.alloc info).2 hip (by rw [hself, himpl]; simp)
    (by intro pb; rw [hself]; simp [TypeInfo.bucket, himpl, mapGet?])
  have hfilter : ∀ pb, (cdc.alloc info).2.concreteInfos.filter
      ((cdc.alloc info).2.implementsUnder env ((cdc.alloc info).2.deref (cdc.alloc info).1).Typ pb) =
      cdc.concreteInfos.filter (cdc.implementsUnder env info.Typ pb) := by
    intro pb
    rw [hself]
    show cdc.concreteInfos.filter _ = _
    apply List.filter_congr
    intro c hc
    unfold Codec.implementsUnder
    rw [deref_alloc_lt cdc info c (hinv.concValid c hc)]
  have hbucket : ∀ pb, (((cdc.alloc info).2.collectImplementersNolock env (cdc.alloc info).1).deref
      (cdc.alloc info).1).bucket pb =
      cdc.concreteInfos.filter (cdc.implementsUnder env info.Typ pb) := by
    intro pb
    have := hfold.2 pb
    simp only [List.nil_append] at this
    rw [← hfilter pb]
    exact this
  refine ⟨hinvL _ _ hinv1 hunl, hs, hbucket, ?_⟩
  intro e he
  have hget := mapGet?_of_mem_nodup _ hfold.1 e he
  have := hbucket e.1
  unfold TypeInfo.bucket at this
  unfold Codec.collectImplementersNolock at this
  rw [hget] at this
  exact this

/-- The catalog that `RegisterInterface` leaves, panic or not, keeps the invariant. -/
theorem inv_registerInterface (env : Env) (ro : RangeOrder) (cdc : Codec) (hinv : cdc.Inv)
    (ptr : RType) (iopts : Option InterfaceOptions) :
    (cdc.RegisterInterface env ro ptr iopts).2.Inv := by
  unfold Codec.RegisterInterface
  split
  · exact hinv
  · split
    · exact hinv
    · split_ifs
      · exact hinv
      · split
        · exact hinv
        · rename_i info hinfo
          obtain ⟨_, _, himpl⟩ := newTypeInfoFromInterfaceType_spec env _ iopts info hinfo
          obtain ⟨hinv2, hs, hb, he⟩ := collect_spec env cdc hinv info himpl
          have hinv1 := inv_alloc cdc hinv info
          have hsub : ∀ e ∈ (((cdc.alloc info).2.collectImplementersNolock env
              (cdc.alloc info).1).deref (cdc.alloc info).1).InterfaceInfo.Implementers,
              e.2.Sublist (cdc.alloc info).2.concreteInfos := by
            intro e hmem
            rw [he e hmem]
            exact List.filter_sublist _
          have hnone : ∀ e ∈ (((cdc.alloc info).2.collectImplementersNolock env
              (cdc.alloc info).1).deref (cdc.alloc info).1).InterfaceInfo.Implementers,
              sameTypeTwice ((cdc.alloc info).2.collectImplementersNolock env
                (cdc.alloc info).1).heap e.2 = none := by
            intro e hmem
            rw [sameButImpl_sameTypeTwice _ _ hs]
            exact sameTypeTwice_none_of_sublist _ hinv1 _ (hsub e hmem)
          simp only
          rcases checkConflicts_cases ro ((cdc.alloc info).2.collectImplementersNolock env
              (cdc.alloc info).1) (cdc.alloc info).1 with
            ⟨e, _, xp, _, _, _, _, h4⟩ | ⟨e, hmem, c0, h1, _⟩ | ⟨h1, h2⟩
          · rw [h4]; exact hinv2
          · rw [hnone e hmem] at h1; cases h1
          · rw [h1]
            apply inv_setTypeInfoNoLock _ hinv2
            · rw [hs.2.2.2.2.2.2.1]; simp [Codec.alloc]
            · intro _
              refine ⟨?_, ?_⟩
              · rw [hs.2.2.1]
                intro h
                have := hinv.ifaceValid _ h
                simp [Codec.alloc] at this
              · intro e hmem
                refine ⟨?_, ?_⟩
                · intro c hc
                  rw [hs.2.2.2.2.2.2.1]
                  exact hinv1.concValid c ((hsub e hmem).subset hc)
                · rcases h2 e hmem with h | ⟨h3, h4⟩
                  · exact bucketOk_of_short _ _ _ h
                  · exact ⟨h3, fun _ c hc => h4 c hc⟩

/-- The catalog that `getTypeInfoWlock` leaves keeps the invariant. -/
theorem inv_getTypeInfoWlock (env : Env) (cdc : Codec) (hinv : cdc.Inv) (rt : RType) :
    (cdc.getTypeInfoWlock env rt).2.Inv := by
  unfold Codec.getTypeInfoWlock
  simp only
  split
  · exact hinv
  · split_ifs
    · exact hinv
    · split
      · exact hinv
      · rename_i info hinfo
        have hu := newTypeInfoUnregistered_typ env _ info hinfo
        have hinv1 := inv_alloc cdc hinv info
        have := inv_setTypeInfoNoLock (cdc.alloc info).2 hinv1 (cdc.alloc info).1
          (by simp [Codec.alloc])
          (by
            intro hk
            rw [deref_alloc_self, hu.1] at hk
            exact absurd hk hu.2.2.2.1)
        split <;> rename_i heq <;> (rw [heq] at this; exact this)

/-- Every reachable catalog satisfies the invariant. -/
theorem inv_of_reachable (env : Env) (cdc : Codec) (h : Reachable env cdc) : cdc.Inv := by
  induction h with
  | newCodec =>
    exact ⟨by simp [NewCodec], by simp [NewCodec], by simp [NewCodec], by simp [NewCodec],
      by simp [NewCodec], by simp [NewCodec], by simp [NewCodec]⟩
  | registerInterface ro cdc ptr iopts _ ih => exact inv_registerInterface env ro cdc ih ptr iopts
  | registerConcrete ro cdc o name _ ih => exact inv_registerConcrete env ro cdc ih o name
  | sealCall cdc _ ih =>
    exact ⟨ih.ifaceValid, ih.ifaceNodup, ih.concValid, ih.concKeyed, ih.concTypes,
      ih.bucketValid, ih.bucketOk⟩
  | getTypeInfo cdc rt _ ih => exact inv_getTypeInfoWlock env cdc ih rt

theorem sameTypeTwice_pair (heap : List TypeInfo) (a b c0 : Ptr)
    (h : sameTypeTwice heap [a, b] = some c0) : (derefHeap heap a).Typ = (derefHeap heap b).Typ := by
  unfold sameTypeTwice at h
  simp only at h
  split_ifs at h with ht
  exact ht

/-- The loop of `addCheckConflictsWithConcreteNolock` panics when it meets an interface
that the concrete type implements and whose bucket for the Prefix already holds a
descriptor of another type, one of the two being outside the priority list. The panic
comes from the first interface of the list at which the check fails, which is at or
before that interface. -/
theorem addCheckLoop_conflict (env : Env) (ro : RangeOrder) (cp : Ptr) (pre : List Ptr)
    (ip : Ptr) (post : List Ptr) (cdc : Codec) (hinv : cdc.Inv) (hcp : cp < cdc.heap.length)
    (hl : ∀ j ∈ pre ++ ip :: post, j ∈ cdc.interfaceInfos) (hnd : (pre ++ ip :: post).Nodup)
    (himp : env.implements (cdc.deref cp).PtrToType (cdc.deref ip).Typ = true)
    (ap : Ptr) (hap : ap ∈ (cdc.deref ip).bucket (cdc.deref cp).ConcreteInfo.Prefix)
    (hAB : (cdc.deref ap).Typ ≠ (cdc.deref cp).Typ)
    (hprio : cdc.covered ip ap = false ∨ cdc.covered ip cp = false) :
    ∃ jp ∈ pre ++ [ip], ∃ xp cdc1,
      addCheckConflictsLoop env ro cp (pre ++ ip :: post) cdc =
        (some (.conflicts (cdc.deref xp).Typ
          (((cdc.deref jp).bucket (cdc.deref cp).ConcreteInfo.Prefix).length + 1)
          (cdc.deref jp).Typ), cdc1) ∧
      env.implements (cdc.deref cp).PtrToType (cdc.deref jp).Typ = true ∧
      1 ≤ ((cdc.deref jp).bucket (cdc.deref cp).ConcreteInfo.Prefix).length ∧
      xp ∈ (cdc.deref jp).bucket (cdc.deref cp).ConcreteInfo.Prefix ++ [cp] ∧
      cdc.covered jp xp = false ∧
      ((∀ j ∈ pre, env.implements (cdc.deref cp).PtrToType (cdc.deref j).Typ = false) →
        jp = ip) := by
  induction pre generalizing cdc with
  | nil =>
    have hip : ip ∈ cdc.interfaceInfos := hl ip (by simp)
    simp only [List.nil_append]
    rcases checkAfterAppend_cases ro cdc hinv ip cp hip (cdc.deref cp).ConcreteInfo.Prefix with
      ⟨xp, hxp, h1, _, h3, h4⟩ | ⟨c0, h1, _⟩ | ⟨_, h2⟩
    · refine ⟨ip, by simp, xp, _, addCheckConflictsLoop_err env ro cp ip post cdc _ _ himp h4,
        himp, by omega, hxp, h3, fun _ => rfl⟩
    · exfalso
      have hlen := (sameTypeTwice_length _ _ _ h1).1
      cases hb : (cdc.deref ip).bucket (cdc.deref cp).ConcreteInfo.Prefix with
      | nil => rw [hb] at hap; simp at hap
      | cons a rest =>
        rw [hb] at hlen hap h1
        cases rest with
        | nil =>
          simp only [List.mem_singleton] at hap
          subst hap
          exact hAB (sameTypeTwice_pair _ _ _ _ h1)
        | cons b rest2 => simp at hlen
    · exfalso
      have hlen : 2 ≤ ((cdc.deref ip).bucket (cdc.deref cp).ConcreteInfo.Prefix ++ [cp]).length := by
        have := List.length_pos_of_mem hap
        simp only [List.length_append, List.length_singleton]
        omega
      have hall := h2.2 hlen
      rcases hprio with h | h
      · have := hall ap (List.mem_append_left _ hap)
        rw [h] at this; cases this
      · have := hall cp (by simp)
        rw [h] at this; cases this
  | cons j pre1 ih =>
    have hj : j ∈ cdc.interfaceInfos := hl j (by simp)
    simp only [List.cons_append, List.nodup_cons, List.mem_append, List.mem_cons, not_or] at hnd
    obtain ⟨⟨hjpre, hjip, hjpost⟩, hnd1⟩ := hnd
    have hl1 : ∀ q ∈ pre1 ++ ip :: post, q ∈ cdc.interfaceInfos :=
      fun q hq => hl q (by simp only [List.cons_append, List.mem_cons]; exact Or.inr hq)
    -- continuing in a catalog that differs in the bucket of `j` only
    have key : ∀ (cdc1 : Codec), cdc1.Inv → cdc.SameButImpl cdc1 →
        (∀ q, q ≠ j → cdc1.deref q = cdc.deref q) →
        env.implements (cdc.deref cp).PtrToType (cdc.deref j).Typ = true →
        addCheckConflictsLoop env ro cp (j :: pre1 ++ ip :: post) cdc =
          addCheckConflictsLoop env ro cp (pre1 ++ ip :: post) cdc1 →
        ∃ jp ∈ j :: pre1 ++ [ip], ∃ xp cdc2,
          addCheckConflictsLoop env ro cp (j :: pre1 ++ ip :: post) cdc =
            (some (.conflicts (cdc.deref xp).Typ
              (((cdc.deref jp).bucket (cdc.deref cp).ConcreteInfo.Prefix).length + 1)
              (cdc.deref jp).Typ), cdc2) ∧
          env.implements (cdc.deref cp).PtrToType (cdc.deref jp).Typ = true ∧
          1 ≤ ((cdc.deref jp).bucket (cdc.deref cp).ConcreteInfo.Prefix).length ∧
          xp ∈ (cdc.deref jp).bucket (cdc.deref cp).ConcreteInfo.Prefix ++ [cp] ∧
          cdc.covered jp xp = false ∧
          ((∀ q ∈ j :: pre1, env.implements (cdc.deref cp).PtrToType (cdc.deref q).Typ = false) →
            jp = ip) := by
      intro cdc1 hinv1 hs hd himpj heq
      have hC := sameButImpl_concrete cdc cdc1 hs
      have hT := sameButImpl_typ cdc cdc1 hs
      have hPT : ∀ q, (cdc1.deref q).PtrToType = (cdc.deref q).PtrToType := by
        intro q; unfold TypeInfo.PtrToType; rw [hT]
      obtain ⟨jp, hjp, xp, cdc2, h1, h2, h3, h4, h5, _⟩ := ih cdc1 hinv1
        (by rw [hs.2.2.2.2.2.2.1]; exact hcp)
        (by intro q hq; rw [hs.2.2.1]; exact hl1 q hq) hnd1
        (by rw [hPT, hT]; exact himp)
        (by rw [hd ip (Ne.symm hjip), hC]; exact hap)
        (by rw [hT, hT]; exact hAB)
        (by rw [sameButImpl_covered _ _ hs, sameButImpl_covered _ _ hs]; exact hprio)
      have hjne : jp ≠ j := by
        intro h
        subst h
        rcases List.mem_append.mp hjp with h | h
        · exact hjpre h
        · exact hjip (List.mem_singleton.mp h)
      rw [hd jp hjne, hC, hT] at h1
      rw [hPT, hT] at h2
      rw [hd jp hjne, hC] at h3 h4
      rw [sameButImpl_covered _ _ hs] at h5
      refine ⟨jp, List.mem_cons_of_mem _ hjp, xp, cdc2, heq.trans h1, h2, h3, h4, h5, ?_⟩
      intro hall
      have := hall j (by simp)
      rw [himpj] at this; cases this
    cases himpj : env.implements (cdc.deref cp).PtrToType (cdc.deref j).Typ with
    | false =>
      obtain ⟨jp, hjp, xp, cdc2, h1, h2, h3, h4, h5, h6⟩ := ih cdc hinv hcp hl1 hnd1 himp hap hAB hprio
      refine ⟨jp, List.mem_cons_of_mem _ hjp, xp, cdc2, ?_, h2, h3, h4, h5, ?_⟩
      · rw [← h1]
        exact addCheckConflictsLoop_skip env ro cp j _ cdc himpj
      · intro hall
        exact h6 fun q hq => hall q (List.mem_cons_of_mem _ hq)
    | true =>
      have hb := inv_bucket cdc hinv j hj (cdc.deref cp).ConcreteInfo.Prefix
      have hvalid : ∀ c ∈ (cdc.deref j).bucket (cdc.deref cp).ConcreteInfo.Prefix ++ [cp],
          c < cdc.heap.length := by
        intro c hc
        rcases List.mem_append.mp hc with h | h
        · exact hb.1 c h
        · rw [List.mem_singleton.mp h]; exact hcp
      rcases checkAfterAppend_cases ro cdc hinv j cp hj (cdc.deref cp).ConcreteInfo.Prefix with
        ⟨xp, hxp, h1, _, h3, h4⟩ | ⟨c0, h1, h2⟩ | ⟨h1, h2⟩
      · refine ⟨j, by simp, xp, _,
          addCheckConflictsLoop_err env ro cp j _ cdc _ _ himpj h4, himpj, by omega, hxp, h3, ?_⟩
        intro hall
        have := hall j (by simp)
        rw [himpj] at this; cases this
      · have hc0 := (sameTypeTwice_length _ _ _ h1).2
        exact key _ (inv_store_bucket cdc hinv j hj (cdc.deref cp).ConcreteInfo.Prefix [c0]
            (by intro c hc; rw [List.mem_singleton.mp hc]; exact hvalid c0 hc0)
            (bucketOk_of_short cdc j [c0] (by simp)))
          (sameButImpl_store cdc j _ _) (fun q hq => deref_store_ne cdc j q _ hq) himpj
          (addCheckConflictsLoop_pass env ro cp j _ cdc _ himpj h2)
      · exact key _ (inv_store_bucket cdc hinv j hj (cdc.deref cp).ConcreteInfo.Prefix _ hvalid h2)
          (sameButImpl_store cdc j _ _) (fun q hq => deref_store_ne cdc j q _ hq) himpj
          (addCheckConflictsLoop_pass env ro cp j _ cdc _ himpj h1)

theorem two_le_length_of_mem_ne {α : Type} (l : List α) (a b : α) (ha : a ∈ l) (hb : b ∈ l)
    (hne : a ≠ b) : 2 ≤ l.length := by
  match l, ha, hb with
  | [], ha, _ => simp at ha
  | [x], ha, hb =>
    simp only [List.mem_singleton] at ha hb
    exact absurd (ha.trans hb.symm) hne
  | _ :: _ :: _, _, _ => simp

/-- `RegisterConcrete` of `B` when an interface that `B` implements already holds a
descriptor of another type in the bucket of `B`'s Prefix, one of the two being outside
the priority list. -/
theorem registerConcrete_conflict (env : Env) (ro : RangeOrder) (cdc : Codec)
    (hinv : cdc.Inv) (hs : cdc.sealed = false)
    (o B : RType) (pp : Bool) (nB : String) (info : TypeInfo)
    (pre post : List Ptr) (ip ap : Ptr)
    (ho : concreteTypeOf o = .ok (B, pp))
    (hinfo : newTypeInfoFromRegisteredConcreteType env B pp nB = .ok info)
    (hsplit : cdc.interfaceInfos = pre ++ ip :: post)
    (himp : env.implements B.PtrTo (cdc.deref ip).Typ = true)
    (hap : ap ∈ (cdc.deref ip).bucket info.ConcreteInfo.Prefix)
    (hAB : (cdc.deref ap).Typ ≠ B)
    (hprio : ¬ (cdc.covered ip ap = true ∧
      inPrio (cdc.deref ip).InterfaceInfo.Priority info.ConcreteInfo.GetDisfix = true)) :
    ∃ jp ∈ pre ++ [ip], ∃ (t : RType) (cdc1 : Codec),
      cdc.RegisterConcrete env ro o nB =
        (some (.conflicts t (((cdc.deref jp).bucket info.ConcreteInfo.Prefix).length + 1)
          (cdc.deref jp).Typ), cdc1) ∧
      env.implements B.PtrTo (cdc.deref jp).Typ = true ∧
      1 ≤ ((cdc.deref jp).bucket info.ConcreteInfo.Prefix).length ∧
      ((t = B ∧
          inPrio (cdc.deref jp).InterfaceInfo.Priority info.ConcreteInfo.GetDisfix = false) ∨
        (∃ xp ∈ (cdc.deref jp).bucket info.ConcreteInfo.Prefix,
          t = (cdc.deref xp).Typ ∧ cdc.covered jp xp = false)) ∧
      ((∀ j ∈ pre, env.implements B.PtrTo (cdc.deref j).Typ = false) → jp = ip) := by
  have hspec := newTypeInfoFromRegistered_spec env B pp nB info hinfo
  have hinv1 := inv_alloc cdc hinv info
  have hcp : (cdc.alloc info).1 < (cdc.alloc info).2.heap.length := by simp [Codec.alloc]
  have hself := deref_alloc_self cdc info
  have hlt := deref_alloc_lt cdc info
  have hmemI : ∀ j ∈ pre ++ ip :: post, j ∈ cdc.interfaceInfos := by
    intro j hj; rw [hsplit]; exact hj
  have hvI : ∀ j ∈ pre ++ ip :: post, j < cdc.heap.length :=
    fun j hj => hinv.ifaceValid j (hmemI j hj)
  have hipm : ip ∈ pre ++ ip :: post := by simp
  have hipv := hvI ip hipm
  have hapv : ap < cdc.heap.length :=
    (inv_bucket cdc hinv ip (hmemI ip hipm) info.ConcreteInfo.Prefix).1 ap hap
  have hPT : (cdc.alloc info).2.deref (cdc.alloc info).1 = info := hself
  obtain ⟨jp, hjp, xp, cdc1, h1, h2, h3, h4, h5, h6⟩ :=
    addCheckLoop_conflict env ro (cdc.alloc info).1 pre ip post (cdc.alloc info).2 hinv1 hcp
      (fun j hj => hmemI j hj)
      (by rw [← hsplit]; exact hinv.ifaceNodup)
      (by rw [hPT, hlt ip hipv]; unfold TypeInfo.PtrToType; rw [hspec.1]; exact himp)
      ap
      (by rw [hPT, hlt ip hipv]; exact hap)
      (by rw [hPT, hlt ap hapv, hspec.1]; exact hAB)
      (by
        unfold Codec.covered
        rw [hPT, hlt ip hipv, hlt ap hapv]
        by_cases hc : cdc.covered ip ap = true
        · right
          cases hq : inPrio (cdc.deref ip).InterfaceInfo.Priority info.ConcreteInfo.GetDisfix with
          | false => rfl
          | true => exact absurd ⟨hc, hq⟩ hprio
        · left
          unfold Codec.covered at hc
          simpa using hc)
  have hjpm : jp ∈ pre ++ ip :: post := by
    rcases List.mem_append.mp hjp with h | h
    · exact List.mem_append_left _ h
    · rw [List.mem_singleton.mp h]; exact hipm
  have hjpv := hvI jp hjpm
  rw [hPT, hlt jp hjpv] at h1 h3 h4
  rw [hPT, hlt jp hjpv] at h2
  unfold TypeInfo.PtrToType at h2
  rw [hspec.1] at h2
  have hbv := (inv_bucket cdc hinv jp (hmemI jp hjpm) info.ConcreteInfo.Prefix).1
  refine ⟨jp, hjp, ((cdc.alloc info).2.deref xp).Typ, ?_⟩
  have hrun : cdc.RegisterConcrete env ro o nB =
      (some (.conflicts ((cdc.alloc info).2.deref xp).Typ
        (((cdc.deref jp).bucket info.ConcreteInfo.Prefix).length + 1) (cdc.deref jp).Typ), cdc1) := by
    unfold Codec.RegisterConcrete
    simp only [Codec.assertNotSealed, hs, Bool.false_eq_true, if_false, ho, hinfo]
    unfold Codec.addCheckConflictsWithConcreteNolock
    have : (cdc.alloc info).2.interfaceInfos = pre ++ ip :: post := hsplit
    rw [this, h1]
  refine ⟨cdc1, hrun, h2, h3, ?_, ?_⟩
  · rcases List.mem_append.mp h4 with h | h
    · right
      refine ⟨xp, h, ?_, ?_⟩
      · rw [hlt xp (hbv xp h)]
      · unfold Codec.covered at h5 ⊢
        rw [hlt jp hjpv, hlt xp (hbv xp h)] at h5
        exact h5
    · left
      rw [List.mem_singleton.mp h] at h5 ⊢
      refine ⟨by rw [hPT, hspec.1], ?_⟩
      unfold Codec.covered at h5
      rw [hlt jp hjpv, hPT] at h5
      exact h5
  · intro hall
    apply h6
    intro j hj
    rw [hPT, hlt j (hvI j (List.mem_append_left _ hj))]
    unfold TypeInfo.PtrToType
    rw [hspec.1]
    exact hall j hj

/-- `RegisterInterface` of `I` when two listed concrete descriptors of different types
implement `I` under the same Prefix, one of the two being outside the priority list. -/
theorem registerInterface_conflict (env : Env) (ro : RangeOrder) (cdc : Codec)
    (hinv : cdc.Inv) (hs : cdc.sealed = false)
    (I : RType) (iopts : Option InterfaceOptions) (info : TypeInfo) (ap bp : Ptr)
    (hinfo : newTypeInfoFromInterfaceType env I iopts = .ok info)
    (hap : ap ∈ cdc.concreteInfos) (hbp : bp ∈ cdc.concreteInfos)
    (hAB : (cdc.deref ap).Typ ≠ (cdc.deref bp).Typ)
    (hia : env.implements (cdc.deref ap).PtrToType I = true)
    (hib : env.implements (cdc.deref bp).PtrToType I = true)
    (hpfx : (cdc.deref ap).ConcreteInfo.Prefix = (cdc.deref bp).ConcreteInfo.Prefix)
    (hprio : ¬ (inPrio info.InterfaceInfo.Priority (cdc.deref ap).ConcreteInfo.GetDisfix = true ∧
      inPrio info.InterfaceInfo.Priority (cdc.deref bp).ConcreteInfo.GetDisfix = true)) :
    ∃ xp ∈ cdc.concreteInfos, ∃ cdc1 : Codec,
      cdc.RegisterInterface env ro (.ptr I) iopts =
        (some (.conflicts (cdc.deref xp).Typ
          (cdc.concreteInfos.filter
            (cdc.implementsUnder env I (cdc.deref xp).ConcreteInfo.Prefix)).length I), cdc1) ∧
      env.implements (cdc.deref xp).PtrToType I = true ∧
      2 ≤ (cdc.concreteInfos.filter
            (cdc.implementsUnder env I (cdc.deref xp).ConcreteInfo.Prefix)).length ∧
      inPrio info.InterfaceInfo.Priority (cdc.deref xp).ConcreteInfo.GetDisfix = false := by
  obtain ⟨hty, hkind, himpl⟩ := newTypeInfoFromInterfaceType_spec env I iopts info hinfo
  obtain ⟨hinv2, hsb, hb, he⟩ := collect_spec env cdc hinv info himpl
  have hinv1 := inv_alloc cdc hinv info
  have hself := deref_alloc_self cdc info
  have hlt := deref_alloc_lt cdc info
  -- the catalog after the collection
  generalize hc2 : (cdc.alloc info).2.collectImplementersNolock env (cdc.alloc info).1 = cdc2
    at hinv2 hsb hb he
  have hT : ∀ c, c < cdc.heap.length → (cdc2.deref c).Typ = (cdc.deref c).Typ := by
    intro c hc; rw [sameButImpl_typ _ _ hsb, hlt c hc]
  have hC : ∀ c, c < cdc.heap.length → (cdc2.deref c).ConcreteInfo = (cdc.deref c).ConcreteInfo := by
    intro c hc; rw [sameButImpl_concrete _ _ hsb, hlt c hc]
  have hTi : (cdc2.deref (cdc.alloc info).1).Typ = I := by
    rw [sameButImpl_typ _ _ hsb, hself, hty]
  have hPi : (cdc2.deref (cdc.alloc info).1).InterfaceInfo.Priority = info.InterfaceInfo.Priority := by
    rw [frozen_priority _ _ (hsb.2.2.2.2.2.2.2 _), hself]
  have hcov : ∀ c, c < cdc.heap.length → cdc2.covered (cdc.alloc info).1 c =
      inPrio info.InterfaceInfo.Priority (cdc.deref c).ConcreteInfo.GetDisfix := by
    intro c hc; unfold Codec.covered; rw [hPi, hC c hc]
  have hsub : ∀ e ∈ (cdc2.deref (cdc.alloc info).1).InterfaceInfo.Implementers,
      e.2.Sublist (cdc.alloc info).2.concreteInfos := by
    intro e hmem; rw [he e hmem]; exact List.filter_sublist _
  have hrun : cdc.RegisterInterface env ro (.ptr I) iopts =
      (match cdc2.checkConflictsInPrioNolock ro (cdc.alloc info).1 with
       | (some err, cdc3) => (some err, cdc3)
       | (none, cdc3) => cdc3.setTypeInfoNoLock (cdc.alloc info).1) := by
    unfold Codec.RegisterInterface
    simp only [Codec.assertNotSealed, hs, Bool.false_eq_true, if_false, getTypeFromPointer,
      hkind, ne_eq, not_true_eq_false, hinfo, hc2]
  rw [hty] at hb he
  rcases checkConflicts_cases ro cdc2 (cdc.alloc info).1 with
    ⟨e, hmem, xp, hxp, h1, _, h3, h4⟩ | ⟨e, hmem, c0, h1, _⟩ | ⟨_, h2⟩
  · have hxf : xp ∈ cdc.concreteInfos.filter (cdc.implementsUnder env I e.1) := by
      rw [← he e hmem]; exact hxp
    obtain ⟨hxc, hxi⟩ := List.mem_filter.mp hxf
    unfold Codec.implementsUnder at hxi
    simp only [Bool.and_eq_true, decide_eq_true_eq] at hxi
    have hxv := hinv.concValid xp hxc
    refine ⟨xp, hxc, cdc2, ?_, hxi.1, ?_, ?_⟩
    · rw [hrun, h4, hT xp hxv, hTi, he e hmem, hxi.2]
    · rw [hxi.2, ← he e hmem]; exact h1
    · rw [← hcov xp hxv]; exact h3
  · exfalso
    have := sameTypeTwice_none_of_sublist _ hinv1 _ (hsub e hmem)
    rw [← sameButImpl_sameTypeTwice _ _ hsb, h1] at this
    cases this
  · exfalso
    have hba : ap ∈ (cdc2.deref (cdc.alloc info).1).bucket (cdc.deref ap).ConcreteInfo.Prefix := by
      rw [hb]
      exact List.mem_filter.mpr ⟨hap, by simp [Codec.implementsUnder, hia]⟩
    have hbb : bp ∈ (cdc2.deref (cdc.alloc info).1).bucket (cdc.deref ap).ConcreteInfo.Prefix := by
      rw [hb]
      exact List.mem_filter.mpr ⟨hbp, by simp [Codec.implementsUnder, hib, hpfx]⟩
    have hne : ap ≠ bp := fun h => hAB (by rw [h])
    have hlen := two_le_length_of_mem_ne _ ap bp hba hbb hne
    rcases h2 _ (bucket_mem_entry _ _ ap hba) with h | ⟨_, h4⟩
    · simp only at h; omega
    · have ha := h4 ap hba
      have hb2 := h4 bp hbb
      rw [hcov ap (hinv.concValid ap hap)] at ha
      rw [hcov bp (hinv.concValid bp hbp)] at hb2
      exact hprio ⟨ha, hb2⟩

/-! ## Prefix collisions outside the priority list -/

theorem reachable_demoCdcFooBarA : Reachable demoEnv demoCdcFooBarA :=
  Reachable.registerConcrete _ _ _ _ (Reachable.registerInterface _ _ _ _
    (Reachable.registerInterface _ _ _ _ Reachable.newCodec))

theorem reachable_demoCdcAB : Reachable demoEnv demoCdcAB :=
  Reachable.registerConcrete _ _ _ _ (Reachable.registerConcrete _ _ _ _ Reachable.newCodec)

/-- C4, as amended: in every reachable unsealed catalog, (1) if a listed interface `I`
that `B` implements holds, in its bucket for the Prefix of `B`'s name, the descriptor of
another type `A`, and the priority list of `I` does not contain the Disfix of both, then
`RegisterConcrete` of `B` panics with a conflict error; the error names the first listed
interface `J`, at or before `I` in registration order, under which `B` collides (`I`
itself when `B` implements no interface listed before `I`), a type of `J`'s conflict
bucket whose Disfix is not in `J`'s priority list, and the number of entries of that
bucket, `B` included; (2) if two listed concrete descriptors of different types
implement `I` under the same Prefix and the priority list given for `I` does not contain
the Disfix of both, then `RegisterInterface` of `I` panics with a conflict error that
names `I`, a colliding concrete type whose Disfix is not in the priority list, and the
number of listed implementers of `I` with that type's Prefix, which is at least 2. -/
theorem C4_uncovered_prefix_collision_fails (env : Env) (ro : RangeOrder) (cdc : Codec)
    (hr : Reachable env cdc) (hs : cdc.sealed = false) :
    (∀ (o B : RType) (pp : Bool) (nB : String) (info : TypeInfo) (pre post : List Ptr)
        (ip ap : Ptr),
      concreteTypeOf o = .ok (B, pp) →
      newTypeInfoFromRegisteredConcreteType env B pp nB = .ok info →
      cdc.interfaceInfos = pre ++ ip :: post →
      env.implements B.PtrTo (cdc.deref ip).Typ = true →
      ap ∈ (cdc.deref ip).bucket info.ConcreteInfo.Prefix →
      (cdc.deref ap).Typ ≠ B →
      ¬ (cdc.covered ip ap = true ∧
        inPrio (cdc.deref ip).InterfaceInfo.Priority info.ConcreteInfo.GetDisfix = true) →
      ∃ jp ∈ pre ++ [ip], ∃ (t : RType) (cdc1 : Codec),
        cdc.RegisterConcrete env ro o nB =
          (some (.conflicts t (((cdc.deref jp).bucket info.ConcreteInfo.Prefix).length + 1)
            (cdc.deref jp).Typ), cdc1) ∧
        env.implements B.PtrTo (cdc.deref jp).Typ = true ∧
        1 ≤ ((cdc.deref jp).bucket info.ConcreteInfo.Prefix).length ∧
        ((t = B ∧
            inPrio (cdc.deref jp).InterfaceInfo.Priority info.ConcreteInfo.GetDisfix = false) ∨
          (∃ xp ∈ (cdc.deref jp).bucket info.ConcreteInfo.Prefix,
            t = (cdc.deref xp).Typ ∧ cdc.covered jp xp = false)) ∧
        ((∀ j ∈ pre, env.implements B.PtrTo (cdc.deref j).Typ = false) → jp = ip)) ∧
    (∀ (I : RType) (iopts : Option InterfaceOptions) (info : TypeInfo) (ap bp : Ptr),
      newTypeInfoFromInterfaceType env I iopts = .ok info →
      ap ∈ cdc.concreteInfos → bp ∈ cdc.concreteInfos →
      (cdc.deref ap).Typ ≠ (cdc.deref bp).Typ →
      env.implements (cdc.deref ap).PtrToType I = true →
      env.implements (cdc.deref bp).PtrToType I = true →
      (cdc.deref ap).ConcreteInfo.Prefix = (cdc.deref bp).ConcreteInfo.Prefix →
      ¬ (inPrio info.InterfaceInfo.Priority (cdc.deref ap).ConcreteInfo.GetDisfix = true ∧
        inPrio info.InterfaceInfo.Priority (cdc.deref bp).ConcreteInfo.GetDisfix = true) →
      ∃ xp ∈ cdc.concreteInfos, ∃ cdc1 : Codec,
        cdc.RegisterInterface env ro (.ptr I) iopts =
          (some (.conflicts (cdc.deref xp).Typ
            (cdc.concreteInfos.filter
              (cdc.implementsUnder env I (cdc.deref xp).ConcreteInfo.Prefix)).length I), cdc1) ∧
        env.implements (cdc.deref xp).PtrToType I = true ∧
        2 ≤ (cdc.concreteInfos.filter
              (cdc.implementsUnder env I (cdc.deref xp).ConcreteInfo.Prefix)).length ∧
        inPrio info.InterfaceInfo.Priority (cdc.deref xp).ConcreteInfo.GetDisfix = false) :=
  ⟨fun o B pp nB info pre post ip ap ho hinfo hsplit himp hap hAB hprio =>
      registerConcrete_conflict env ro cdc (inv_of_reachable env cdc hr) hs o B pp nB info
        pre post ip ap ho hinfo hsplit himp hap hAB hprio,
   fun I iopts info ap bp hinfo hap hbp hAB hia hib hpfx hprio =>
      registerInterface_conflict env ro cdc (inv_of_reachable env cdc hr) hs I iopts info ap bp
        hinfo hap hbp hAB hia hib hpfx hprio⟩

/-- `Foo`, `Bar` and `A` under `pkg/T83812` are registered: the registration of `B` under
`pkg/T123317` panics; and `A`, `B` are registered under these names: the registration of
`Bar` panics. -/
theorem C4_uncovered_prefix_collision_fails_witness :
    (Reachable demoEnv demoCdcFooBarA ∧ demoCdcFooBarA.sealed = false ∧
      ∃ jp ∈ [0] ++ [1], ∃ (t : RType) (cdc1 : Codec),
        demoCdcFooBarA.RegisterConcrete demoEnv .inOrder demoB "pkg/T123317" =
          (some (.conflicts t
            (((demoCdcFooBarA.deref jp).bucket demoInfoB.ConcreteInfo.Prefix).length + 1)
            (demoCdcFooBarA.deref jp).Typ), cdc1) ∧
        demoEnv.implements demoB.PtrTo (demoCdcFooBarA.deref jp).Typ = true ∧
        1 ≤ ((demoCdcFooBarA.deref jp).bucket demoInfoB.ConcreteInfo.Prefix).length ∧
        ((t = demoB ∧ inPrio (demoCdcFooBarA.deref jp).InterfaceInfo.Priority
            demoInfoB.ConcreteInfo.GetDisfix = false) ∨
          (∃ xp ∈ (demoCdcFooBarA.deref jp).bucket demoInfoB.ConcreteInfo.Prefix,
            t = (demoCdcFooBarA.deref xp).Typ ∧ demoCdcFooBarA.covered jp xp = false)) ∧
        ((∀ j ∈ [0], demoEnv.implements demoB.PtrTo (demoCdcFooBarA.deref j).Typ = false) →
          jp = 1)) ∧
    (Reachable demoEnv demoCdcAB ∧ demoCdcAB.sealed = false ∧
      ∃ xp ∈ demoCdcAB.concreteInfos, ∃ cdc1 : Codec,
        demoCdcAB.RegisterInterface demoEnv .inOrder (.ptr demoBar) none =
          (some (.conflicts (demoCdcAB.deref xp).Typ
            (demoCdcAB.concreteInfos.filter
              (demoCdcAB.implementsUnder demoEnv demoBar
                (demoCdcAB.deref xp).ConcreteInfo.Prefix)).length demoBar), cdc1) ∧
        demoEnv.implements (demoCdcAB.deref xp).PtrToType demoBar = true ∧
        2 ≤ (demoCdcAB.concreteInfos.filter
              (demoCdcAB.implementsUnder demoEnv demoBar
                (demoCdcAB.deref xp).ConcreteInfo.Prefix)).length ∧
        inPrio demoInfoBar.InterfaceInfo.Priority (demoCdcAB.deref xp).ConcreteInfo.GetDisfix =
          false) :=
  ⟨⟨reachable_demoCdcFooBarA, by decide,
     (C4_uncovered_prefix_collision_fails demoEnv .inOrder demoCdcFooBarA
        reachable_demoCdcFooBarA (by decide)).1
      demoB demoB false "pkg/T123317" demoInfoB [0] [] 1 2 rfl rfl (by decide) (by decide)
      (by decide) (by decide) (by decide)⟩,
   ⟨reachable_demoCdcAB, by decide,
     (C4_uncovered_prefix_collision_fails demoEnv .inOrder demoCdcAB
        reachable_demoCdcAB (by decide)).2
      demoBar none demoInfoBar 0 1 rfl (by decide) (by decide) (by decide) (by decide)
      (by decide) (by decide) (by decide)⟩⟩

/-- C4 as stated fails: `Foo` and `Bar`, both without priority list, and `A` under
`pkg/T83812` are registered; `B` implements both and its name `pkg/T123317` has the
Prefix of `A`'s name. For `I = Bar` the premises hold (`A` is in `Bar`'s bucket), and the
registration of `B` does fail, but the error names `Foo`, not `Bar`. -/
theorem C4_counterexample :
    Reachable demoEnv demoCdcFooBarA ∧ demoCdcFooBarA.sealed = false ∧
    demoCdcFooBarA.interfaceInfos = [0, 1] ∧
    (demoCdcFooBarA.deref 1).Typ = demoBar ∧
    (demoCdcFooBarA.deref 1).InterfaceInfo.Priority = [] ∧
    (demoCdcFooBarA.deref 1).bucket ⟨8, 135, 95, 43⟩ = [2] ∧
    (demoCdcFooBarA.deref 2).Typ = demoA ∧
    (demoCdcFooBarA.deref 2).ConcreteInfo.Name = "pkg/T83812" ∧
    nameToPrefix demoEnv "pkg/T123317" = .ok ⟨8, 135, 95, 43⟩ ∧
    demoEnv.implements demoB.PtrTo demoBar = true ∧
    demoEnv.implements demoA.PtrTo demoBar = true ∧
    (demoCdcFooBarA.RegisterConcrete demoEnv .inOrder demoB "pkg/T123317").1 =
      some (.conflicts demoA 2 demoFoo) ∧
    demoFoo ≠ demoBar :=
  ⟨reachable_demoCdcFooBarA, by decide, by decide, by decide, by decide, by decide, by decide,
   by decide, rfl, by decide, by decide, by decide, by decide⟩

/-! ## Keys and tags of reachable catalogs -/

theorem deref_alloc_beyond (cdc : Codec) (info : TypeInfo) (p : Ptr)
    (h : cdc.heap.length < p) : (cdc.alloc info).2.deref p = default := by
  simp only [Codec.alloc, Codec.deref, derefHeap, List.getD_eq_getElem?_getD]
  rw [List.getElem?_eq_none (by simp; omega)]
  rfl

theorem deref_beyond (cdc : Codec) (p : Ptr) (h : cdc.heap.length ≤ p) :
    cdc.deref p = default := by
  simp only [Codec.deref, derefHeap, List.getD_eq_getElem?_getD]
  rw [List.getElem?_eq_none h]
  rfl

theorem keyed_alloc (env : Env) (cdc : Codec) (hk : cdc.Keyed env) (info : TypeInfo)
    (hinfo : info.ConcreteInfo.Registered = true →
      NameToDisfix env info.ConcreteInfo.Name =
        .ok (info.ConcreteInfo.Disamb, info.ConcreteInfo.Prefix)) :
    (cdc.alloc info).2.Keyed env := by
  refine ⟨?_, ?_⟩
  · intro t p hp
    obtain ⟨h1, h2⟩ := hk.byType t p hp
    have hlen : (cdc.alloc info).2.heap.length = cdc.heap.length + 1 := by simp [Codec.alloc]
    refine ⟨by rw [hlen]; exact Nat.lt_succ_of_lt h1, ?_⟩
    rw [deref_alloc_lt cdc info p h1]; exact h2
  · intro p hp
    rcases Nat.lt_trichotomy p cdc.heap.length with h | h | h
    · rw [deref_alloc_lt cdc info p h] at hp ⊢
      exact hk.tagged p hp
    · subst h
      have hself : (cdc.alloc info).2.deref cdc.heap.length = info := deref_alloc_self cdc info
      rw [hself] at hp ⊢
      exact hinfo hp
    · rw [deref_alloc_beyond cdc info p h] at hp
      cases hp

theorem keyed_sameButImpl (env : Env) (a b : Codec) (hk : a.Keyed env) (h : a.SameButImpl b) :
    b.Keyed env := by
  refine ⟨?_, ?_⟩
  · intro t p hp
    rw [h.2.1] at hp
    obtain ⟨h1, h2⟩ := hk.byType t p hp
    exact ⟨by rw [h.2.2.2.2.2.2.1]; exact h1, by rw [sameButImpl_typ a b h]; exact h2⟩
  · intro p hp
    rw [sameButImpl_concrete a b h] at hp ⊢
    exact hk.tagged p hp

theorem setTypeInfoNoLock_frame (cdc : Codec) (p : Ptr) :
    (cdc.setTypeInfoNoLock p).2.heap = cdc.heap ∧
    ((cdc.setTypeInfoNoLock p).2.typeInfos = cdc.typeInfos ∨
     (cdc.setTypeInfoNoLock p).2.typeInfos = mapSet cdc.typeInfos (cdc.deref p).Typ p) := by
  unfold Codec.setTypeInfoNoLock
  simp only
  split_ifs
  · exact ⟨rfl, Or.inl rfl⟩
  · exact ⟨rfl, Or.inl rfl⟩
  · exact ⟨rfl, Or.inr rfl⟩
  · split
    · exact ⟨rfl, Or.inr rfl⟩
    · split
      · exact ⟨rfl, Or.inr rfl⟩
      · exact ⟨rfl, Or.inr rfl⟩
  · exact ⟨rfl, Or.inr rfl⟩

theorem keyed_setTypeInfoNoLock (env : Env) (cdc : Codec) (hk : cdc.Keyed env) (p : Ptr)
    (hp : p < cdc.heap.length) : (cdc.setTypeInfoNoLock p).2.Keyed env := by
  obtain ⟨hheap, hti⟩ := setTypeInfoNoLock_frame cdc p
  have hd : ∀ q, (cdc.setTypeInfoNoLock p).2.deref q = cdc.deref q := by
    intro q; simp only [Codec.deref, hheap]
  refine ⟨?_, ?_⟩
  · intro t q hq
    rw [hheap, hd]
    rcases hti with h | h
    · rw [h] at hq; exact hk.byType t q hq
    · rw [h] at hq
      by_cases ht : t = (cdc.deref p).Typ
      · subst ht
        rw [mapGet?_mapSet_self] at hq
        cases hq
        exact ⟨hp, rfl⟩
      · rw [mapGet?_mapSet_ne _ _ _ _ ht] at hq
        exact hk.byType t q hq
  · intro q hq
    rw [hd] at hq ⊢
    exact hk.tagged q hq

theorem keyed_registerConcrete (env : Env) (ro : RangeOrder) (cdc : Codec) (hk : cdc.Keyed env)
    (o : RType) (name : String) : (cdc.RegisterConcrete env ro o name).2.Keyed env := by
  unfold Codec.RegisterConcrete
  split
  · exact hk
  · split
    · exact hk
    · split
      · exact hk
      · rename_i _ rt pp _ _ info hinfo
        have hspec := newTypeInfoFromRegistered_spec env rt pp name info hinfo
        have hk1 := keyed_alloc env cdc hk info (fun _ => by rw [hspec.2.2.2.2.2.1]; exact hspec.2.2.2.2.2.2.1)
        have hs := sameButImpl_addCheck env ro (cdc.alloc info).2 (cdc.alloc info).1
        have hk2 := keyed_sameButImpl env _ _ hk1 hs
        simp only
        split
        · rename_i err cdc2 heq
          rw [heq] at hk2; exact hk2
        · rename_i cdc2 heq
          rw [heq] at hk2 hs
          exact keyed_setTypeInfoNoLock env cdc2 hk2 _
            (by rw [hs.2.2.2.2.2.2.1]; simp [Codec.alloc])

theorem keyed_registerInterface (env : Env) (ro : RangeOrder) (cdc : Codec) (hk : cdc.Keyed env)
    (ptr : RType) (iopts : Option InterfaceOptions) :
    (cdc.RegisterInterface env ro ptr iopts).2.Keyed env := by
  unfold Codec.RegisterInterface
  split
  · exact hk
  · split
    · exact hk
    · split_ifs
      · exact hk
      · split
        · exact hk
        · rename_i info hinfo
          have hreg : info.ConcreteInfo.Registered = false := by
            unfold newTypeInfoFromInterfaceType at hinfo
            split_ifs at hinfo
            split at hinfo
            · cases hinfo; rfl
            · split at hinfo
              · cases hinfo
              · cases hinfo; rfl
          have hk1 := keyed_alloc env cdc hk info (fun h => by rw [hreg] at h; cases h)
          have hs1 := sameButImpl_collect env (cdc.alloc info).2 (cdc.alloc info).1
          have hk2 := keyed_sameButImpl env _ _ hk1 hs1
          have hs2 := sameButImpl_check ro
            ((cdc.alloc info).2.collectImplementersNolock env (cdc.alloc info).1) (cdc.alloc info).1
          have hk3 := keyed_sameButImpl env _ _ hk2 hs2
          simp only
          split
          · rename_i err cdc3 heq
            rw [heq] at hk3; exact hk3
          · rename_i cdc3 heq
            rw [heq] at hk3 hs2
            exact keyed_setTypeInfoNoLock env cdc3 hk3 _
              (by rw [hs2.2.2.2.2.2.2.1, hs1.2.2.2.2.2.2.1]; simp [Codec.alloc])

theorem keyed_getTypeInfoWlock (env : Env) (cdc : Codec) (hk : cdc.Keyed env) (rt : RType) :
    (cdc.getTypeInfoWlock env rt).2.Keyed env := by
  unfold Codec.getTypeInfoWlock
  simp only
  split
  · exact hk
  · split_ifs
    · exact hk
    · split
      · exact hk
      · rename_i info hinfo
        have hu := newTypeInfoUnregistered_typ env _ info hinfo
        have hk1 := keyed_alloc env cdc hk info (fun h => by rw [hu.2.1] at h; cases h)
        have := keyed_setTypeInfoNoLock env (cdc.alloc info).2 hk1 (cdc.alloc info).1
          (by simp [Codec.alloc])
        split <;> rename_i heq <;> (rw [heq] at this; exact this)

/-- Every reachable catalog is keyed and tagged by the name scheme. -/
theorem keyed_of_reachable (env : Env) (cdc : Codec) (h : Reachable env cdc) : cdc.Keyed env := by
  induction h with
  | newCodec =>
    refine ⟨by intro t p hp; simp [NewCodec, mapGet?] at hp, ?_⟩
    intro p hp
    rw [deref_beyond NewCodec p (by simp [NewCodec])] at hp
    cases hp
  | registerInterface ro cdc ptr iopts _ ih => exact keyed_registerInterface env ro cdc ih ptr iopts
  | registerConcrete ro cdc o name _ ih => exact keyed_registerConcrete env ro cdc ih o name
  | sealCall cdc _ ih => exact ⟨ih.byType, ih.tagged⟩
  | getTypeInfo cdc rt _ ih => exact keyed_getTypeInfoWlock env cdc ih rt

/-! ## C7: what a registration that returns has indexed -/

/-- C7, as amended: for every catalog, every argument type and every name, when
`RegisterConcrete` returns without panicking. If the type with its pointer removed was
not yet in the by-type index, then afterwards the by-type lookup yields a descriptor of
that type with `Registered = true`, `Name = n`, `(Disamb, Prefix) = NameToDisfix(n)` and
`PointerPreferred` set exactly for a pointer argument, and the lookups by that Disfix and
by the name `n` yield the same descriptor. If the type was already in the by-type index,
registered or lazily cached, the call leaves the existing entry in place: the by-type
lookup yields the descriptor it yielded before, the three indexes and the concrete list
are as they were, and that descriptor, when it is allocated, as it is in every reachable
catalog, has the type and the concrete part (name, tag, `Registered`,
`PointerPreferred`) it had. -/
theorem C7_fresh_registration_is_indexed (env : Env) (ro : RangeOrder) (cdc cdc1 : Codec)
    (o : RType) (name : String)
    (hok : cdc.RegisterConcrete env ro o name = (none, cdc1)) :
    (cdc.getRegistedTypeInfoWLock o = none →
      ∃ (p : Ptr) (db : DisambBytes) (pb : PrefixBytes),
        NameToDisfix env name = .ok (db, pb) ∧
        cdc1.getRegistedTypeInfoWLock o = some p ∧
        (cdc1.deref p).Typ = derefPointersType o ∧
        (cdc1.deref p).ConcreteInfo.Registered = true ∧
        (cdc1.deref p).ConcreteInfo.Name = name ∧
        (cdc1.deref p).ConcreteInfo.Disamb = db ∧
        (cdc1.deref p).ConcreteInfo.Prefix = pb ∧
        (cdc1.deref p).ConcreteInfo.PointerPreferred = decide (o.Kind = .Ptr) ∧
        cdc1.getTypeInfoFromDisfixRlock (toDisfix db pb) = .ok p ∧
        cdc1.getTypeInfoFromNameRlock name = .ok p) ∧
    (∀ p0, cdc.getRegistedTypeInfoWLock o = some p0 →
      cdc1.getRegistedTypeInfoWLock o = some p0 ∧
      cdc1.typeInfos = cdc.typeInfos ∧
      cdc1.disfixToTypeInfo = cdc.disfixToTypeInfo ∧
      cdc1.nameToTypeInfo = cdc.nameToTypeInfo ∧
      cdc1.concreteInfos = cdc.concreteInfos ∧
      (Reachable env cdc → p0 < cdc.heap.length) ∧
      (p0 < cdc.heap.length →
        (cdc1.deref p0).Typ = (cdc.deref p0).Typ ∧
        (cdc1.deref p0).ConcreteInfo = (cdc.deref p0).ConcreteInfo)) := by
  refine ⟨fun hfresh => ?_, fun p0 hp0 => ?_⟩
  swap
  · obtain ⟨h1, h2, h3, h4, _, _, h7⟩ := registerConcrete_present env ro cdc o name p0 hp0
    rw [hok] at h1 h2 h3 h4 h7
    simp only at h1 h2 h3 h4 h7
    refine ⟨?_, h1, h2, h3, h4,
      fun hr => ((keyed_of_reachable env cdc hr).byType _ p0 hp0).1,
      fun hlt => ⟨frozen_typ _ _ (h7 hlt), frozen_concrete _ _ (h7 hlt)⟩⟩
    unfold Codec.getRegistedTypeInfoWLock at hp0 ⊢
    rw [h1]
    exact hp0
  unfold Codec.RegisterConcrete at hok
  split at hok
  · cases hok
  · split at hok
    · cases hok
    · rename_i rt pp hct
      split at hok
      · cases hok
      · rename_i info hinfo
        obtain ⟨hd, hkp, hpp⟩ := concreteTypeOf_deref o rt pp hct
        obtain ⟨hty, _, hki, hreg, hpref, hname, htag, _⟩ :=
          newTypeInfoFromRegistered_spec env rt pp name info hinfo
        simp only at hok
        split at hok
        · cases hok
        · rename_i cdc2 hadd
          have hs := sameButImpl_addCheck env ro (cdc.alloc info).2 (cdc.alloc info).1
          rw [hadd] at hs
          obtain ⟨_, hti, _, _, _, _, _, hfz⟩ := hs
          have hself : (cdc2.deref (cdc.alloc info).1).frozen = info.frozen := by
            rw [hfz, deref_alloc_self]
          have hT : (cdc2.deref (cdc.alloc info).1).Typ = rt := by
            rw [frozen_typ _ _ hself, hty]
          have hC : (cdc2.deref (cdc.alloc info).1).ConcreteInfo = info.ConcreteInfo :=
            frozen_concrete _ _ hself
          have hfr : mapGet? cdc2.typeInfos (cdc2.deref (cdc.alloc info).1).Typ = none := by
            rw [hT, hti]
            simpa [Codec.getRegistedTypeInfoWLock, hd, Codec.alloc] using hfresh
          obtain ⟨hheap, h1, h2, h3, _⟩ := setTypeInfoNoLock_fresh_registered cdc2 cdc1
            (cdc.alloc info).1 (by rw [hT]; exact hkp) (by rw [hT]; exact hki)
            (by rw [hC]; exact hreg) hfr hok
          have hderef : cdc1.deref (cdc.alloc info).1 = cdc2.deref (cdc.alloc info).1 := by
            simp [Codec.deref, hheap]
          refine ⟨(cdc.alloc info).1, info.ConcreteInfo.Disamb, info.ConcreteInfo.Prefix, htag,
            ?_, ?_, ?_, ?_, ?_, ?_, ?_, ?_, ?_⟩
          · simpa [Codec.getRegistedTypeInfoWLock, hd, hT] using h1
          · rw [hderef, hT, hd]
          · rw [hderef, hC]; exact hreg
          · rw [hderef, hC]; exact hname
          · rw [hderef, hC]
          · rw [hderef, hC]
          · rw [hderef, hC, hpref, hpp]
          · simp only [Codec.getTypeInfoFromDisfixRlock]
            rw [hC] at h2
            simp only [ConcreteInfo.GetDisfix] at h2
            rw [h2]
          · simp only [Codec.getTypeInfoFromNameRlock]
            rw [hC, hname] at h3
            rw [h3]

/-- The registration of `A` under `n` in the catalog that holds `Foo`, and then the
registration of `A` under `m`, which leaves the entry of `A` in place. -/
theorem C7_fresh_registration_is_indexed_witness :
    demoCdcFoo.getRegistedTypeInfoWLock demoA = none ∧
    demoCdcFoo.RegisterConcrete demoEnv .inOrder demoA "n" = (none, demoCdcFooA) ∧
    (∃ (p : Ptr) (db : DisambBytes) (pb : PrefixBytes),
      NameToDisfix demoEnv "n" = .ok (db, pb) ∧
      demoCdcFooA.getRegistedTypeInfoWLock demoA = some p ∧
      (demoCdcFooA.deref p).Typ = derefPointersType demoA ∧
      (demoCdcFooA.deref p).ConcreteInfo.Registered = true ∧
      (demoCdcFooA.deref p).ConcreteInfo.Name = "n" ∧
      (demoCdcFooA.deref p).ConcreteInfo.Disamb = db ∧
      (demoCdcFooA.deref p).ConcreteInfo.Prefix = pb ∧
      (demoCdcFooA.deref p).ConcreteInfo.PointerPreferred = decide (demoA.Kind = .Ptr) ∧
      demoCdcFooA.getTypeInfoFromDisfixRlock (toDisfix db pb) = .ok p ∧
      demoCdcFooA.getTypeInfoFromNameRlock "n" = .ok p) ∧
    demoCdcFooA.getRegistedTypeInfoWLock demoA = some 1 ∧
    (demoCdcFooA.RegisterConcrete demoEnv .inOrder demoA "m").1 = none ∧
    (demoCdcFooA.RegisterConcrete demoEnv .inOrder demoA "m").2.getRegistedTypeInfoWLock demoA =
      some 1 ∧
    (demoCdcFooA.RegisterConcrete demoEnv .inOrder demoA "m").2.nameToTypeInfo =
      demoCdcFooA.nameToTypeInfo :=
  ⟨rfl, rfl,
   (C7_fresh_registration_is_indexed demoEnv .inOrder demoCdcFoo demoCdcFooA demoA "n" rfl).1 rfl,
   rfl, by decide,
   ((C7_fresh_registration_is_indexed demoEnv .inOrder demoCdcFooA
      (demoCdcFooA.RegisterConcrete demoEnv .inOrder demoA "m").2 demoA "m"
      (Prod.ext (by decide) rfl)).2 1 rfl).1,
   ((C7_fresh_registration_is_indexed demoEnv .inOrder demoCdcFooA
      (demoCdcFooA.RegisterConcrete demoEnv .inOrder demoA "m").2 demoA "m"
      (Prod.ext (by decide) rfl)).2 1 rfl).2.2.2.1⟩

/-- C7 as stated fails: `A` is registered under `n`; `RegisterConcrete(A{}, "m", nil)`
returns without panicking, and afterwards the by-type lookup of `A` still yields the
descriptor named `n`, and the lookup by the name `m` finds nothing. -/
theorem C7_counterexample :
    Reachable demoEnv demoCdcFooA ∧ demoCdcFooA.sealed = false ∧
    (demoCdcFooA.RegisterConcrete demoEnv .inOrder demoA "m").1 = none ∧
    (demoCdcFooA.RegisterConcrete demoEnv .inOrder demoA "m").2.getRegistedTypeInfoWLock demoA = some 1 ∧
    ((demoCdcFooA.RegisterConcrete demoEnv .inOrder demoA "m").2.deref 1).ConcreteInfo.Name = "n" ∧
    ((demoCdcFooA.RegisterConcrete demoEnv .inOrder demoA "m").2.deref 1).ConcreteInfo.Name ≠ "m" ∧
    (demoCdcFooA.RegisterConcrete demoEnv .inOrder demoA "m").2.getTypeInfoFromNameRlock "m" =
      .error (.unrecognizedName "m") :=
  ⟨reachable_demoCdcFooA, by decide, by decide, by decide, by decide, by decide, rfl⟩

/-! ## Round trips -/

theorem derefPointersType_of_kind (T : RType) (h : T.Kind ≠ .Ptr) : derefPointersType T = T := by
  cases T <;> simp_all [derefPointersType, RType.Kind]

theorem getTypeInfoWlock_of_present (env : Env) (cdc : Codec) (rt : RType) (p : Ptr)
    (h : cdc.getRegistedTypeInfoWLock rt = some p) :
    cdc.getTypeInfoWlock env rt = (.ok p, cdc) := by
  unfold Codec.getRegistedTypeInfoWLock at h
  simp [Codec.getTypeInfoWlock, h]

theorem readBytes_append (bs rest : List Byte) (stack : List ListPos) :
    readBytes bs.length ⟨bs ++ rest, stack⟩ = (.ok bs, ⟨rest, stack⟩) := by
  induction bs with
  | nil => rfl
  | cons b bs ih => simp [readBytes, Stream.readByte, ih]

/-- C2, as amended: in every reachable catalog, for a registered concrete type `T` whose
Disfix the by-Disfix index maps to `T`'s own descriptor. Binary path: a value of `T` held
in a field of a registered interface type in the form the registration prefers (the
value itself when `T` was registered by value, a non-nil pointer to it when registered
by pointer), that form being assignable to the interface, is written by
`writeCDCInterface` as the 7 tag bytes followed by the payload, and
`decodeCDCInterface` on these bytes, the stream not standing at the end of the list it
reads, yields that same value, the payload writer and decoder being inverse on the
value. JSON path: for every value `xj` whose type resolves to `T`'s descriptor,
`UnmarshalJSON` of the output of `MarshalJSON(xj)` into a destination of `xj`'s type
yields `xj`, the envelope reader and the JSON payload codec being inverse on it. Binary
path again: the value held in the field in any other form, behind one pointer or more
or behind none, is written as the same bytes, so that under the same conditions these
decode to the form the registration prefers, not to the form that was encoded. -/
theorem C2_roundtrip_when_shape_matches (K : Collab) (env : Env) (cdc : Codec)
    (iname : String) (ip cp : Ptr) (T : RType) (data payload rest w : List Byte)
    (stack stack1 : List ListPos) (dest : Value) (xj destj : Value) (body : String)
    (hr : Reachable env cdc)
    (hI : cdc.getRegistedTypeInfoWLock (.named iname .Interface) = some ip)
    (hT : cdc.getRegistedTypeInfoWLock T = some cp)
    (hk : T.Kind ≠ .Ptr ∧ T.Kind ≠ .Interface)
    (hR : (cdc.deref cp).ConcreteInfo.Registered = true)
    (hD : cdc.getTypeInfoFromDisfixRlock (cdc.deref cp).ConcreteInfo.GetDisfix = .ok cp)
    (himpl : env.implements
      (if (cdc.deref cp).ConcreteInfo.PointerPreferred then T.PtrTo else T)
      (.named iname .Interface) = true)
    (hdest : dest.Type = .named iname .Interface)
    (hend : (Stream.mk [] stack).atListEnd = false)
    (hw : K.writer T (.concrete T data)
        (w ++ (cdc.deref cp).ConcreteInfo.Disamb.Bytes ++ (cdc.deref cp).ConcreteInfo.Prefix.Bytes) =
      (.ok (), w ++ (cdc.deref cp).ConcreteInfo.Disamb.Bytes ++
        (cdc.deref cp).ConcreteInfo.Prefix.Bytes ++ payload))
    (hd : K.decoder T ⟨payload ++ rest, stack⟩ (Value.New T) =
      (.ok (), ⟨rest, stack1⟩, .concrete T data))
    (hxj : cdc.getRegistedTypeInfoWLock xj.Type = some cp)
    (hdj : destj.Type = xj.Type)
    (hje : K.encodeReflectJSON (cdc.deref cp) xj = .ok body)
    (hji : K.decodeInterfaceJSON
        ("\x7b\"type\":\"" ++ (cdc.deref cp).ConcreteInfo.Name ++ "\",\"value\":" ++ body ++ "\x7d") =
      .ok ((cdc.deref cp).ConcreteInfo.Name, body))
    (hjd : K.decodeReflectJSON body (cdc.deref cp) destj = .ok xj) :
    (writeCDCInterface K cdc
        (.iface (.named iname .Interface)
          (if (cdc.deref cp).ConcreteInfo.PointerPreferred then .ptrTo (.concrete T data)
           else .concrete T data)) w =
      (.ok (), w ++ (cdc.deref cp).ConcreteInfo.GetDisfix.Bytes ++ payload) ∧
     decodeCDCInterface K env cdc
        ⟨(cdc.deref cp).ConcreteInfo.GetDisfix.Bytes ++ payload ++ rest, stack⟩ dest =
      (.ok (), ⟨rest, stack1⟩,
        .iface (.named iname .Interface)
          (if (cdc.deref cp).ConcreteInfo.PointerPreferred then .ptrTo (.concrete T data)
           else .concrete T data))) ∧
    (cdc.MarshalJSON K env (some xj) =
      (.ok ("\x7b\"type\":\"" ++ (cdc.deref cp).ConcreteInfo.Name ++ "\",\"value\":" ++ body ++ "\x7d"),
        cdc) ∧
     cdc.UnmarshalJSON K env
        ("\x7b\"type\":\"" ++ (cdc.deref cp).ConcreteInfo.Name ++ "\",\"value\":" ++ body ++ "\x7d")
        (.ptrTo destj) = (.ok xj, cdc)) ∧
    (∀ dyn : Value, derefPointers dyn = some (.concrete T data) →
      writeCDCInterface K cdc (.iface (.named iname .Interface) dyn) w =
        (.ok (), w ++ (cdc.deref cp).ConcreteInfo.GetDisfix.Bytes ++ payload)) := by
  have hTd : derefPointersType T = T := derefPointersType_of_kind T hk.1
  have hkeyed := keyed_of_reachable env cdc hr
  have hty : (cdc.deref cp).Typ = T := by
    have := hkeyed.byType (derefPointersType T) cp hT
    rw [hTd] at this
    exact this.2
  have hz : (cdc.deref cp).ConcreteInfo.Disamb.b0 ≠ 0 :=
    (disfixOfDigest_nonzero _ _ _ (hkeyed.tagged cp hR)).1
  have hdisfix : (cdc.deref cp).ConcreteInfo.GetDisfix.Bytes =
      (cdc.deref cp).ConcreteInfo.Disamb.Bytes ++ (cdc.deref cp).ConcreteInfo.Prefix.Bytes := rfl
  refine ⟨⟨?_, ?_⟩, ⟨?_, ?_⟩, ?_⟩
  · -- encode
    unfold writeCDCInterface
    simp only [Value.Type, derefPointersType, hI]
    have hder : derefPointers
        (if (cdc.deref cp).ConcreteInfo.PointerPreferred then Value.ptrTo (.concrete T data)
         else .concrete T data) = some (.concrete T data) := by
      split_ifs <;> rfl
    rw [hder]
    simp only [Value.Kind, Value.Type, hk.2, if_false, hT, hR, Bool.not_true,
      hdisfix, List.append_assoc]
    simpa [List.append_assoc] using hw
  · -- decode
    unfold decodeCDCInterface
    simp only [hdest, derefPointersType, hI]
    have he2 : (Stream.mk ((cdc.deref cp).ConcreteInfo.GetDisfix.Bytes ++ payload ++ rest)
        stack).atListEnd = false := hend
    rw [he2]
    simp only [Bool.false_eq_true, if_false, Stream.readByte, ConcreteInfo.GetDisfix, toDisfix,
      DisfixBytes.Bytes, List.cons_append, List.nil_append, hz]
    have h6 := readBytes_append
      [(cdc.deref cp).ConcreteInfo.Disamb.b1, (cdc.deref cp).ConcreteInfo.Disamb.b2,
       (cdc.deref cp).ConcreteInfo.Prefix.b0, (cdc.deref cp).ConcreteInfo.Prefix.b1,
       (cdc.deref cp).ConcreteInfo.Prefix.b2, (cdc.deref cp).ConcreteInfo.Prefix.b3]
      (payload ++ rest) stack
    simp only [List.length_cons, List.length_nil, List.cons_append, List.nil_append] at h6
    simp only [Nat.reduceAdd] at h6
    rw [h6]
    have hD2 : cdc.getTypeInfoFromDisfixRlock
        (disfixOfBytes (cdc.deref cp).ConcreteInfo.Disamb.b0
          [(cdc.deref cp).ConcreteInfo.Disamb.b1, (cdc.deref cp).ConcreteInfo.Disamb.b2,
           (cdc.deref cp).ConcreteInfo.Prefix.b0, (cdc.deref cp).ConcreteInfo.Prefix.b1,
           (cdc.deref cp).ConcreteInfo.Prefix.b2, (cdc.deref cp).ConcreteInfo.Prefix.b3]) =
        .ok cp := hD
    simp only [hD2]
    unfold constructConcreteType
    have hnewT : (Value.New T).Type = T := by
      cases T with
      | named n k => cases k <;> simp_all [Value.New, Value.Zero, Value.Type, RType.Kind, BaseKind.toKind]
      | ptr e => simp [RType.Kind] at hk
      | array n e => rfl
      | slice e => rfl
    split_ifs with hpp
    · simp only [hty, hnewT, hd]
      simp only [hpp, if_true, RType.PtrTo] at himpl
      simp [Value.Set, Value.Type, himpl, hpp, hdest]
    · simp only [hty, hnewT, hd]
      simp only [hpp, Bool.false_eq_true, if_false] at himpl
      simp [Value.Set, Value.Type, himpl, hpp, hdest]
  · -- marshal
    unfold Codec.MarshalJSON
    simp only [getTypeInfoWlock_of_present env cdc xj.Type cp hxj, hje, hR, if_true]
  · -- unmarshal
    unfold Codec.UnmarshalJSON
    have hlen : ¬ ("\x7b\"type\":\"" ++ (cdc.deref cp).ConcreteInfo.Name ++ "\",\"value\":" ++ body ++
        "\x7d").length = 0 := by
      simp only [String.length_append]
      have : "\x7b\"type\":\"".length = 9 := by decide
      omega
    rw [if_neg hlen]
    simp only [hdj, getTypeInfoWlock_of_present env cdc xj.Type cp hxj, hR, if_true, hji, ne_eq,
      not_true_eq_false, if_false, hjd]
  · -- any form of the value
    intro dyn hdyn
    unfold writeCDCInterface
    simp only [Value.Type, derefPointersType, hI]
    rw [hdyn]
    simp only [Value.Kind, Value.Type, hk.2, if_false, hT, hR, Bool.not_true,
      hdisfix, List.append_assoc]
    simpa [List.append_assoc] using hw

/-- The catalog with `Foo` and `A` under `n`: the value `A` with the content `07` goes
through the binary path, the value `A` without content through the JSON path, and a
pointer to the value `A` with the content `07` is written as the bytes of the value. -/
theorem C2_roundtrip_when_shape_matches_witness :
    Reachable demoEnv demoCdcFooA ∧
    (writeCDCInterface demoCollab demoCdcFooA (.iface demoFoo (.concrete demoA [7])) [] =
        (.ok (), [27, 22, 177, 223, 83, 139, 161, 7]) ∧
     decodeCDCInterface demoCollab demoEnv demoCdcFooA
        ⟨[27, 22, 177, 223, 83, 139, 161, 7], []⟩ (.nilIface demoFoo) =
      (.ok (), ⟨[], []⟩, .iface demoFoo (.concrete demoA [7]))) ∧
    (demoCdcFooA.MarshalJSON demoCollab demoEnv (some (.concrete demoA [])) =
        (.ok "\x7b\"type\":\"n\",\"value\":\x7b\x7d\x7d", demoCdcFooA) ∧
     demoCdcFooA.UnmarshalJSON demoCollab demoEnv "\x7b\"type\":\"n\",\"value\":\x7b\x7d\x7d"
        (.ptrTo (.concrete demoA [])) = (.ok (.concrete demoA []), demoCdcFooA)) ∧
    writeCDCInterface demoCollab demoCdcFooA (.iface demoFoo (.ptrTo (.concrete demoA [7]))) [] =
      (.ok (), [27, 22, 177, 223, 83, 139, 161, 7]) :=
  ⟨reachable_demoCdcFooA,
   (C2_roundtrip_when_shape_matches demoCollab demoEnv demoCdcFooA "Foo" 0 1 demoA [7] [7] [] []
     [] [] (.nilIface demoFoo) (.concrete demoA []) (.concrete demoA []) "\x7b\x7d"
     reachable_demoCdcFooA rfl rfl (by decide) (by decide) rfl (by decide) rfl rfl rfl rfl
     rfl rfl rfl rfl rfl).1,
   (C2_roundtrip_when_shape_matches demoCollab demoEnv demoCdcFooA "Foo" 0 1 demoA [7] [7] [] []
     [] [] (.nilIface demoFoo) (.concrete demoA []) (.concrete demoA []) "\x7b\x7d"
     reachable_demoCdcFooA rfl rfl (by decide) (by decide) rfl (by decide) rfl rfl rfl rfl
     rfl rfl rfl rfl rfl).2.1,
   (C2_roundtrip_when_shape_matches demoCollab demoEnv demoCdcFooA "Foo" 0 1 demoA [7] [7] [] []
     [] [] (.nilIface demoFoo) (.concrete demoA []) (.concrete demoA []) "\x7b\x7d"
     reachable_demoCdcFooA rfl rfl (by decide) (by decide) rfl (by decide) rfl rfl rfl rfl
     rfl rfl rfl rfl rfl).2.2 (.ptrTo (.concrete demoA [7])) rfl⟩

/-- C2 as stated fails on the binary path: `A` is registered by value under `n`, the
payload codec is inverse on `A` values, and a `Foo` field holds a pointer to an `A`.
`writeCDCInterface` writes the tag of `A` and the payload; decoding these bytes yields
the `A` value itself, not a pointer to it, which is not the value that was encoded. -/
theorem C2_counterexample :
    Reachable demoEnv demoCdcFooA ∧
    demoCdcFooA.getRegistedTypeInfoWLock demoA = some 1 ∧
    (demoCdcFooA.deref 1).ConcreteInfo.Registered = true ∧
    (demoCdcFooA.deref 1).ConcreteInfo.PointerPreferred = false ∧
    demoEnv.implements demoA.PtrTo demoFoo = true ∧
    demoCollab.writer demoA (.concrete demoA [7]) [27, 22, 177, 223, 83, 139, 161] =
      (.ok (), [27, 22, 177, 223, 83, 139, 161, 7]) ∧
    demoCollab.decoder demoA ⟨[7], []⟩ (Value.New demoA) =
      (.ok (), ⟨[], []⟩, .concrete demoA [7]) ∧
    writeCDCInterface demoCollab demoCdcFooA (.iface demoFoo (.ptrTo (.concrete demoA [7]))) [] =
      (.ok (), [27, 22, 177, 223, 83, 139, 161, 7]) ∧
    decodeCDCInterface demoCollab demoEnv demoCdcFooA
        ⟨[27, 22, 177, 223, 83, 139, 161, 7], []⟩ (.nilIface demoFoo) =
      (.ok (), ⟨[], []⟩, .iface demoFoo (.concrete demoA [7])) ∧
    Value.iface demoFoo (.concrete demoA [7]) ≠
      Value.iface demoFoo (.ptrTo (.concrete demoA [7])) :=
  ⟨reachable_demoCdcFooA, rfl, rfl, rfl, rfl, rfl, rfl, rfl, rfl, by decide⟩

/-! ## Writing a value held in an interface field -/

theorem writeCDCInterface_of_concrete (K : Collab) (cdc : Codec) (iname : String) (ip : Ptr)
    (dyn crv : Value) (w : List Byte)
    (hI : cdc.getRegistedTypeInfoWLock (.named iname .Interface) = some ip)
    (hcrv : derefPointers dyn = some crv) (hkind : crv.Kind ≠ .Interface) :
    writeCDCInterface K cdc (.iface (.named iname .Interface) dyn) w =
      match cdc.getRegistedTypeInfoWLock crv.Type with
      | none => (.err (.cannotEncodeUnregistered crv.Type), w)
      | some cp =>
        if (cdc.deref cp).ConcreteInfo.Registered = true then
          K.writer crv.Type crv
            (w ++ (cdc.deref cp).ConcreteInfo.Disamb.Bytes ++ (cdc.deref cp).ConcreteInfo.Prefix.Bytes)
        else (.err (.cannotEncodeUnregistered crv.Type), w) := by
  simp only [writeCDCInterface, Value.Type, derefPointersType, hI, hcrv, hkind, if_false]
  cases cdc.getRegistedTypeInfoWLock crv.Type with
  | none => rfl
  | some cp => cases h : (cdc.deref cp).ConcreteInfo.Registered <;> simp [h]

/-- C11: in every reachable catalog, for a non-nil value held in a field of a registered
interface type, the value behind its pointers being of a concrete type registered under
the name `n`: `NameToDisfix(n)` yields a tag, and `writeCDCInterface` is the concrete
type's payload writer run on the buffer to which the 3 Disamb bytes and then the 4 Prefix
bytes of that tag have been appended; so when the writer appends `payload`, the call
appends exactly these 7 bytes followed by `payload`, and the first 7 bytes appended are
`Disamb‖Prefix` of `n`. -/
theorem C11_tag_then_payload (K : Collab) (env : Env) (cdc : Codec) (iname n : String)
    (ip cp : Ptr) (dyn crv : Value) (w : List Byte)
    (hr : Reachable env cdc)
    (hI : cdc.getRegistedTypeInfoWLock (.named iname .Interface) = some ip)
    (hcrv : derefPointers dyn = some crv) (hkind : crv.Kind ≠ .Interface)
    (hT : cdc.getRegistedTypeInfoWLock crv.Type = some cp)
    (hR : (cdc.deref cp).ConcreteInfo.Registered = true)
    (hn : (cdc.deref cp).ConcreteInfo.Name = n) :
    ∃ (db : DisambBytes) (pb : PrefixBytes),
      NameToDisfix env n = .ok (db, pb) ∧
      db.Bytes.length = 3 ∧ pb.Bytes.length = 4 ∧
      writeCDCInterface K cdc (.iface (.named iname .Interface) dyn) w =
        K.writer crv.Type crv (w ++ db.Bytes ++ pb.Bytes) ∧
      ∀ (r : Outcome Unit) (payload : List Byte),
        K.writer crv.Type crv (w ++ db.Bytes ++ pb.Bytes) =
          (r, w ++ db.Bytes ++ pb.Bytes ++ payload) →
        writeCDCInterface K cdc (.iface (.named iname .Interface) dyn) w =
          (r, w ++ (db.Bytes ++ pb.Bytes ++ payload)) ∧
        (db.Bytes ++ pb.Bytes ++ payload).take 7 = db.Bytes ++ pb.Bytes := by
  have htag := (keyed_of_reachable env cdc hr).tagged cp hR
  rw [hn] at htag
  have hw := writeCDCInterface_of_concrete K cdc iname ip dyn crv w hI hcrv hkind
  simp only [hT, hR, if_true] at hw
  refine ⟨_, _, htag, rfl, rfl, hw, ?_⟩
  intro r payload hp
  refine ⟨?_, ?_⟩
  · rw [hw, hp]; simp [List.append_assoc]
  · simp [DisambBytes.Bytes, PrefixBytes.Bytes]

/-- The catalog with `Foo` and `A` under `n`: a `Foo` field holding a pointer to an `A`
with the content `07` is written as the tag `1B 16 B1 DF 53 8B A1` of `n` and the payload
`07`. -/
theorem C11_tag_then_payload_witness :
    ∃ (db : DisambBytes) (pb : PrefixBytes),
      NameToDisfix demoEnv "n" = .ok (db, pb) ∧
      db.Bytes.length = 3 ∧ pb.Bytes.length = 4 ∧
      writeCDCInterface demoCollab demoCdcFooA
          (.iface (.named "Foo" .Interface) (.ptrTo (.concrete demoA [7]))) [9] =
        demoCollab.writer demoA (.concrete demoA [7]) ([9] ++ db.Bytes ++ pb.Bytes) ∧
      ∀ (r : Outcome Unit) (payload : List Byte),
        demoCollab.writer demoA (.concrete demoA [7]) ([9] ++ db.Bytes ++ pb.Bytes) =
          (r, [9] ++ db.Bytes ++ pb.Bytes ++ payload) →
        writeCDCInterface demoCollab demoCdcFooA
            (.iface (.named "Foo" .Interface) (.ptrTo (.concrete demoA [7]))) [9] =
          (r, [9] ++ (db.Bytes ++ pb.Bytes ++ payload)) ∧
        (db.Bytes ++ pb.Bytes ++ payload).take 7 = db.Bytes ++ pb.Bytes :=
  C11_tag_then_payload demoCollab demoEnv demoCdcFooA "Foo" "n" 0 1
    (.ptrTo (.concrete demoA [7])) (.concrete demoA [7]) [9] reachable_demoCdcFooA rfl rfl
    (by decide) rfl rfl rfl

/-- C12: for a non-nil value held in a field of a registered interface type, the value
behind its pointers being of a concrete type that is absent from the by-type index, or
present with a descriptor that is not marked `Registered`, `writeCDCInterface` returns
the error "Cannot encode unregistered concrete type" for that type and leaves the
output as it was. -/
theorem C12_unregistered_concrete_is_error (K : Collab) (cdc : Codec) (iname : String)
    (ip : Ptr) (dyn crv : Value) (w : List Byte)
    (hI : cdc.getRegistedTypeInfoWLock (.named iname .Interface) = some ip)
    (hcrv : derefPointers dyn = some crv) (hkind : crv.Kind ≠ .Interface)
    (hT : cdc.getRegistedTypeInfoWLock crv.Type = none ∨
      ∃ cp, cdc.getRegistedTypeInfoWLock crv.Type = some cp ∧
        (cdc.deref cp).ConcreteInfo.Registered = false) :
    writeCDCInterface K cdc (.iface (.named iname .Interface) dyn) w =
      (.err (.cannotEncodeUnregistered crv.Type), w) := by
  rw [writeCDCInterface_of_concrete K cdc iname ip dyn crv w hI hcrv hkind]
  rcases hT with h | ⟨cp, h, hreg⟩
  · simp only [h]
  · simp only [h, hreg, Bool.false_eq_true, if_false]

/-- The interface `Foo`: an `A` that is absent from the catalog, and a pointer to an `A`
whose descriptor is only cached by a lookup, are both refused, and the output keeps the
byte `09` it held. -/
theorem C12_unregistered_concrete_is_error_witness :
    demoCdcFoo.getRegistedTypeInfoWLock demoA = none ∧
    writeCDCInterface demoCollab demoCdcFoo
        (.iface (.named "Foo" .Interface) (.concrete demoA [7])) [9] =
      (.err (.cannotEncodeUnregistered demoA), [9]) ∧
    demoCdcFooLazyA.getRegistedTypeInfoWLock demoA = some 1 ∧
    (demoCdcFooLazyA.deref 1).ConcreteInfo.Registered = false ∧
    writeCDCInterface demoCollab demoCdcFooLazyA
        (.iface (.named "Foo" .Interface) (.ptrTo (.concrete demoA [7]))) [9] =
      (.err (.cannotEncodeUnregistered demoA), [9]) :=
  ⟨rfl,
   C12_unregistered_concrete_is_error demoCollab demoCdcFoo "Foo" 0 (.concrete demoA [7])
     (.concrete demoA [7]) [9] rfl rfl (by decide) (Or.inl rfl),
   rfl, rfl,
   C12_unregistered_concrete_is_error demoCollab demoCdcFooLazyA "Foo" 0
     (.ptrTo (.concrete demoA [7])) (.concrete demoA [7]) [9] rfl rfl (by decide)
     (Or.inr ⟨1, rfl, rfl⟩)⟩

/-- C13, as amended: for every registered interface type, `writeCDCInterface` writes a nil
value of the interface as one byte and returns; for a held value that is not nil behind
its pointers and is not an interface value, the call ends as the lookup of the concrete
type decides, with an error or with the outcome of the payload writer, so it does not
panic unless the payload writer does; for a held value that is a nil pointer, or a
pointer that leads to a nil pointer or to an interface value, the call panics with
"should not happen" and appends nothing. -/
theorem C13_panics_only_on_nil_pointers (K : Collab) (cdc : Codec) (iname : String)
    (ip : Ptr) (dyn : Value) (w : List Byte)
    (hI : cdc.getRegistedTypeInfoWLock (.named iname .Interface) = some ip) :
    writeCDCInterface K cdc (.nilIface (.named iname .Interface)) w = (.ok (), w ++ [0x00]) ∧
    (derefPointers dyn = none →
      writeCDCInterface K cdc (.iface (.named iname .Interface) dyn) w =
        (.panic .shouldNotHappen, w)) ∧
    (∀ crv, derefPointers dyn = some crv → crv.Kind = .Interface →
      writeCDCInterface K cdc (.iface (.named iname .Interface) dyn) w =
        (.panic .shouldNotHappen, w)) ∧
    (∀ crv, derefPointers dyn = some crv → crv.Kind ≠ .Interface →
      (∀ buf e, (K.writer crv.Type crv buf).1 ≠ .panic e) →
      ∀ e, (writeCDCInterface K cdc (.iface (.named iname .Interface) dyn) w).1 ≠ .panic e) := by
  refine ⟨?_, ?_, ?_, ?_⟩
  · simp [writeCDCInterface, Value.Type, derefPointersType, hI]
  · intro h
    simp [writeCDCInterface, Value.Type, derefPointersType, hI, h]
  · intro crv h hk
    simp [writeCDCInterface, Value.Type, derefPointersType, hI, h, hk]
  · intro crv h hk hwr e
    rw [writeCDCInterface_of_concrete K cdc iname ip dyn crv w hI h hk]
    split
    · simp
    · split_ifs
      · exact hwr _ e
      · simp

/-- The catalog with `Foo` and `A` under `n`: nil is written as `00`, a nil `*A` held in
the field makes the call panic, and a pointer to an `A` is written without a panic. -/
theorem C13_panics_only_on_nil_pointers_witness :
    demoCdcFooA.getRegistedTypeInfoWLock (.named "Foo" .Interface) = some 0 ∧
    writeCDCInterface demoCollab demoCdcFooA (.nilIface (.named "Foo" .Interface)) [9] =
      (.ok (), [9, 0x00]) ∧
    (∀ crv, derefPointers (.ptrTo (.concrete demoA [7])) = some crv → crv.Kind ≠ .Interface →
      (∀ buf e, (demoCollab.writer crv.Type crv buf).1 ≠ .panic e) →
      ∀ e, (writeCDCInterface demoCollab demoCdcFooA
        (.iface (.named "Foo" .Interface) (.ptrTo (.concrete demoA [7]))) [9]).1 ≠ .panic e) ∧
    writeCDCInterface demoCollab demoCdcFooA
        (.iface (.named "Foo" .Interface) (.ptrTo (.concrete demoA [7]))) [9] =
      (.ok (), [9, 27, 22, 177, 223, 83, 139, 161, 7]) :=
  ⟨rfl,
   (C13_panics_only_on_nil_pointers demoCollab demoCdcFooA "Foo" 0
      (.ptrTo (.concrete demoA [7])) [9] rfl).1,
   (C13_panics_only_on_nil_pointers demoCollab demoCdcFooA "Foo" 0
      (.ptrTo (.concrete demoA [7])) [9] rfl).2.2.2,
   rfl⟩

/-- C13 as stated fails: `Foo` is registered, `A` is registered under `n`, and a `Foo`
field holds a nil pointer of type `*A`; `writeCDCInterface` panics with "should not
happen". The same happens in the catalog in which `A` is not registered. -/
theorem C13_counterexample :
    Reachable demoEnv demoCdcFooA ∧
    demoCdcFooA.getRegistedTypeInfoWLock demoFoo = some 0 ∧
    demoCdcFooA.getRegistedTypeInfoWLock demoA = some 1 ∧
    (demoCdcFooA.deref 1).ConcreteInfo.Registered = true ∧
    (Value.iface demoFoo (.nilPtr demoA)).IsNil = false ∧
    writeCDCInterface demoCollab demoCdcFooA (.iface demoFoo (.nilPtr demoA)) [] =
      (.panic .shouldNotHappen, []) ∧
    writeCDCInterface demoCollab demoCdcFoo (.iface demoFoo (.nilPtr demoA)) [] =
      (.panic .shouldNotHappen, []) :=
  ⟨reachable_demoCdcFooA, rfl, rfl, rfl, rfl, rfl, rfl⟩

/-! ## The indexes by Disfix and by name in reachable catalogs -/

/-- The ways in which `setTypeInfoNoLock` leaves the catalog: as it was, or with the
descriptor filed under its type, which was absent, the concrete list at most longer, and
the indexes by Disfix and by name either as they were or both with the descriptor, which
is then marked `Registered` and stands in the concrete list. -/
theorem setTypeInfoNoLock_cases (cdc : Codec) (p : Ptr) :
    (cdc.setTypeInfoNoLock p).2 = cdc ∨
    (mapGet? cdc.typeInfos (cdc.deref p).Typ = none ∧
     (cdc.setTypeInfoNoLock p).2.heap = cdc.heap ∧
     (cdc.setTypeInfoNoLock p).2.typeInfos = mapSet cdc.typeInfos (cdc.deref p).Typ p ∧
     (∀ q ∈ cdc.concreteInfos, q ∈ (cdc.setTypeInfoNoLock p).2.concreteInfos) ∧
     (((cdc.setTypeInfoNoLock p).2.disfixToTypeInfo = cdc.disfixToTypeInfo ∧
       (cdc.setTypeInfoNoLock p).2.nameToTypeInfo = cdc.nameToTypeInfo) ∨
      ((cdc.deref p).ConcreteInfo.Registered = true ∧
       p ∈ (cdc.setTypeInfoNoLock p).2.concreteInfos ∧
       (cdc.setTypeInfoNoLock p).2.disfixToTypeInfo =
         mapSet cdc.disfixToTypeInfo (cdc.deref p).ConcreteInfo.GetDisfix p ∧
       (cdc.setTypeInfoNoLock p).2.nameToTypeInfo =
         mapSet cdc.nameToTypeInfo (cdc.deref p).ConcreteInfo.Name p))) := by
  unfold Codec.setTypeInfoNoLock
  simp only
  split_ifs with h1 h2 h3 h4
  · exact Or.inl rfl
  · exact Or.inl rfl
  · have h2n : mapGet? cdc.typeInfos (cdc.deref p).Typ = none := by
      cases h : mapGet? cdc.typeInfos (cdc.deref p).Typ with
      | none => rfl
      | some q => rw [h] at h2; simp at h2
    exact Or.inr ⟨h2n, rfl, rfl, fun q hq => hq, Or.inl ⟨rfl, rfl⟩⟩
  · have h2n : mapGet? cdc.typeInfos (cdc.deref p).Typ = none := by
      cases h : mapGet? cdc.typeInfos (cdc.deref p).Typ with
      | none => rfl
      | some q => rw [h] at h2; simp at h2
    split
    · exact Or.inr ⟨h2n, rfl, rfl, fun q hq => List.mem_append_left _ hq, Or.inl ⟨rfl, rfl⟩⟩
    · split
      · exact Or.inr ⟨h2n, rfl, rfl, fun q hq => List.mem_append_left _ hq, Or.inl ⟨rfl, rfl⟩⟩
      · exact Or.inr ⟨h2n, rfl, rfl, fun q hq => List.mem_append_left _ hq,
          Or.inr ⟨h4, by simp, rfl, rfl⟩⟩
  · have h2n : mapGet? cdc.typeInfos (cdc.deref p).Typ = none := by
      cases h : mapGet? cdc.typeInfos (cdc.deref p).Typ with
      | none => rfl
      | some q => rw [h] at h2; simp at h2
    exact Or.inr ⟨h2n, rfl, rfl, fun q hq => hq, Or.inl ⟨rfl, rfl⟩⟩

theorem indexed_alloc (cdc : Codec) (hk : cdc.Indexed) (info : TypeInfo) :
    (cdc.alloc info).2.Indexed := by
  have hlen : (cdc.alloc info).2.heap.length = cdc.heap.length + 1 := by simp [Codec.alloc]
  refine ⟨?_, ?_⟩
  · intro df p hp
    obtain ⟨h1, h2, h3, h4, h5⟩ := hk.byDisfix df p hp
    rw [hlen, deref_alloc_lt cdc info p h1]
    exact ⟨Nat.lt_succ_of_lt h1, h2, h3, h4, h5⟩
  · intro n p hp
    obtain ⟨h1, h2, h3, h4, h5⟩ := hk.byName n p hp
    rw [hlen, deref_alloc_lt cdc info p h1]
    exact ⟨Nat.lt_succ_of_lt h1, h2, h3, h4, h5⟩

theorem indexed_sameButImpl (a b : Codec) (hk : a.Indexed) (h : a.SameButImpl b) :
    b.Indexed := by
  have hti := h.2.1
  have hci := h.2.2.2.1
  have hdi := h.2.2.2.2.1
  have hni := h.2.2.2.2.2.1
  have hlen := h.2.2.2.2.2.2.1
  refine ⟨?_, ?_⟩
  · intro df p hp
    rw [hdi] at hp
    obtain ⟨h1, h2, h3, h4, h5⟩ := hk.byDisfix df p hp
    rw [hlen, hti, hci, sameButImpl_typ a b h, sameButImpl_concrete a b h]
    exact ⟨h1, h2, h3, h4, h5⟩
  · intro n p hp
    rw [hni] at hp
    obtain ⟨h1, h2, h3, h4, h5⟩ := hk.byName n p hp
    rw [hlen, hti, hci, sameButImpl_typ a b h, sameButImpl_concrete a b h]
    exact ⟨h1, h2, h3, h4, h5⟩

theorem indexed_setTypeInfoNoLock (cdc : Codec) (hk : cdc.Indexed) (p : Ptr)
    (hp : p < cdc.heap.length) : (cdc.setTypeInfoNoLock p).2.Indexed := by
  rcases setTypeInfoNoLock_cases cdc p with h | ⟨hfresh, hheap, hti, hci, hidx⟩
  · rw [h]; exact hk
  · have hd : ∀ q, (cdc.setTypeInfoNoLock p).2.deref q = cdc.deref q := by
      intro q; simp only [Codec.deref, hheap]
    have hold : ∀ q, mapGet? cdc.typeInfos (cdc.deref q).Typ = some q →
        mapGet? (mapSet cdc.typeInfos (cdc.deref p).Typ p) (cdc.deref q).Typ = some q := by
      intro q hq
      rw [mapGet?_mapSet_ne _ _ _ _ (fun he => by rw [he, hfresh] at hq; cases hq)]
      exact hq
    refine ⟨?_, ?_⟩
    · intro df q hq
      rw [hheap, hd, hti]
      rcases hidx with ⟨hdi, _⟩ | ⟨hreg, hmem, hdi, _⟩
      · rw [hdi] at hq
        obtain ⟨h1, h2, h3, h4, h5⟩ := hk.byDisfix df q hq
        exact ⟨h1, h2, h3, hold q h4, hci q h5⟩
      · rw [hdi] at hq
        by_cases hdf : df = (cdc.deref p).ConcreteInfo.GetDisfix
        · subst hdf
          rw [mapGet?_mapSet_self] at hq
          cases hq
          exact ⟨hp, hreg, rfl, mapGet?_mapSet_self _ _ _, hmem⟩
        · rw [mapGet?_mapSet_ne _ _ _ _ hdf] at hq
          obtain ⟨h1, h2, h3, h4, h5⟩ := hk.byDisfix df q hq
          exact ⟨h1, h2, h3, hold q h4, hci q h5⟩
    · intro n q hq
      rw [hheap, hd, hti]
      rcases hidx with ⟨_, hni⟩ | ⟨hreg, hmem, _, hni⟩
      · rw [hni] at hq
        obtain ⟨h1, h2, h3, h4, h5⟩ := hk.byName n q hq
        exact ⟨h1, h2, h3, hold q h4, hci q h5⟩
      · rw [hni] at hq
        by_cases hn : n = (cdc.deref p).ConcreteInfo.Name
        · subst hn
          rw [mapGet?_mapSet_self] at hq
          cases hq
          exact ⟨hp, hreg, rfl, mapGet?_mapSet_self _ _ _, hmem⟩
        · rw [mapGet?_mapSet_ne _ _ _ _ hn] at hq
          obtain ⟨h1, h2, h3, h4, h5⟩ := hk.byName n q hq
          exact ⟨h1, h2, h3, hold q h4, hci q h5⟩

theorem indexed_registerConcrete (env : Env) (ro : RangeOrder) (cdc : Codec) (hk : cdc.Indexed)
    (o : RType) (name : String) : (cdc.RegisterConcrete env ro o name).2.Indexed := by
  unfold Codec.RegisterConcrete
  split
  · exact hk
  · split
    · exact hk
    · split
      · exact hk
      · rename_i _ rt pp _ _ info hinfo
        have hk1 := indexed_alloc cdc hk info
        have hs := sameButImpl_addCheck env ro (cdc.alloc info).2 (cdc.alloc info).1
        have hk2 := indexed_sameButImpl _ _ hk1 hs
        simp only
        split
        · rename_i err cdc2 heq
          rw [heq] at hk2; exact hk2
        · rename_i cdc2 heq
          rw [heq] at hk2 hs
          exact indexed_setTypeInfoNoLock cdc2 hk2 _
            (by rw [hs.2.2.2.2.2.2.1]; simp [Codec.alloc])

theorem indexed_registerInterface (env : Env) (ro : RangeOrder) (cdc : Codec) (hk : cdc.Indexed)
    (ptr : RType) (iopts : Option InterfaceOptions) :
    (cdc.RegisterInterface env ro ptr iopts).2.Indexed := by
  unfold Codec.RegisterInterface
  split
  · exact hk
  · split
    · exact hk
    · split_ifs
      · exact hk
      · split
        · exact hk
        · rename_i info hinfo
          have hk1 := indexed_alloc cdc hk info
          have hs1 := sameButImpl_collect env (cdc.alloc info).2 (cdc.alloc info).1
          have hk2 := indexed_sameButImpl _ _ hk1 hs1
          have hs2 := sameButImpl_check ro
            ((cdc.alloc info).2.collectImplementersNolock env (cdc.alloc info).1) (cdc.alloc info).1
          have hk3 := indexed_sameButImpl _ _ hk2 hs2
          simp only
          split
          · rename_i err cdc3 heq
            rw [heq] at hk3; exact hk3
          · rename_i cdc3 heq
            rw [heq] at hk3 hs2
            exact indexed_setTypeInfoNoLock cdc3 hk3 _
              (by rw [hs2.2.2.2.2.2.2.1, hs1.2.2.2.2.2.2.1]; simp [Codec.alloc])

theorem indexed_getTypeInfoWlock (env : Env) (cdc : Codec) (hk : cdc.Indexed) (rt : RType) :
    (cdc.getTypeInfoWlock env rt).2.Indexed := by
  unfold Codec.getTypeInfoWlock
  simp only
  split
  · exact hk
  · split_ifs
    · exact hk
    · split
      · exact hk
      · rename_i info hinfo
        have hk1 := indexed_alloc cdc hk info
        have := indexed_setTypeInfoNoLock (cdc.alloc info).2 hk1 (cdc.alloc info).1
          (by simp [Codec.alloc])
        split <;> rename_i heq <;> (rw [heq] at this; exact this)

/-- In every reachable catalog the indexes by Disfix and by name hold registered
descriptors of the catalog, each under its own Disfix and its own name. -/
theorem indexed_of_reachable (env : Env) (cdc : Codec) (h : Reachable env cdc) : cdc.Indexed := by
  induction h with
  | newCodec =>
    exact ⟨by intro df p hp; simp [NewCodec, mapGet?] at hp,
      by intro n p hp; simp [NewCodec, mapGet?] at hp⟩
  | registerInterface ro cdc ptr iopts _ ih => exact indexed_registerInterface env ro cdc ih ptr iopts
  | registerConcrete ro cdc o name _ ih => exact indexed_registerConcrete env ro cdc ih o name
  | sealCall cdc _ ih => exact ⟨ih.byDisfix, ih.byName⟩
  | getTypeInfo cdc rt _ ih => exact indexed_getTypeInfoWlock env cdc ih rt

/-! ## Reading a value into an interface field -/

theorem readBytes_short (n : Nat) (s : Stream) (h : s.input.length < n) :
    readBytes n s = (.error .unexpectedEOF, ⟨[], s.stack⟩) := by
  induction n generalizing s with
  | zero => cases h
  | succ n ih =>
    obtain ⟨input, stack⟩ := s
    cases input with
    | nil => simp [readBytes, Stream.readByte]
    | cons b rest =>
      have h1 := ih ⟨rest, stack⟩ (by simpa using h)
      simp [readBytes, Stream.readByte, h1]

theorem value_new_type (T : RType) : (Value.New T).Type = T := by
  unfold Value.New Value.Zero
  split <;> rfl

/-- C14: in every reachable catalog, for every registered interface type, every stream
and every destination of that type: when the input ends before 7 bytes have been read
and does not start with `0x00`, and when the 7 bytes read do not start with `0x00` and
are the Disfix of no registered descriptor of the concrete list, `decodeCDCInterface`
returns an error (`EOL` when the stream stands at the end of the list it is reading,
else the error of the short read or "unrecognized disambiguation+prefix bytes") and
leaves the destination as it was. -/
theorem C14_short_or_unknown_tag_is_error (K : Collab) (env : Env) (cdc : Codec)
    (iname : String) (ip : Ptr) (s : Stream) (rv : Value)
    (hr : Reachable env cdc)
    (hI : cdc.getRegistedTypeInfoWLock (.named iname .Interface) = some ip)
    (hrv : rv.Type = .named iname .Interface) :
    (s.input.length < 7 → s.input.head? ≠ some 0x00 →
      decodeCDCInterface K env cdc s rv =
        if s.atListEnd then (.err .EOL, s, rv) else (.err .unexpectedEOF, ⟨[], s.stack⟩, rv)) ∧
    (∀ (b0 : Byte) (bs rest : List Byte), s.input = b0 :: bs ++ rest → bs.length = 6 →
      b0 ≠ 0x00 →
      (∀ cp ∈ cdc.concreteInfos, (cdc.deref cp).ConcreteInfo.Registered = true →
        (cdc.deref cp).ConcreteInfo.GetDisfix ≠ disfixOfBytes b0 bs) →
      decodeCDCInterface K env cdc s rv =
        if s.atListEnd then (.err .EOL, s, rv)
        else (.err (.unrecognizedDisfixBytes (disfixOfBytes b0 bs)), ⟨rest, s.stack⟩, rv)) := by
  refine ⟨?_, ?_⟩
  · intro hlen hhead
    unfold decodeCDCInterface
    simp only [hrv, derefPointersType, hI]
    split_ifs with he
    · rfl
    · obtain ⟨input, stack⟩ := s
      cases input with
      | nil => simp [Stream.readByte]
      | cons b0 rest =>
        have hb0 : b0 ≠ 0x00 := by simpa using hhead
        have h1 := readBytes_short 6 ⟨rest, stack⟩ (by simp at hlen ⊢; omega)
        simp [Stream.readByte, hb0, h1]
  · intro b0 bs rest hin hlen hb0 hno
    have hnone : mapGet? cdc.disfixToTypeInfo (disfixOfBytes b0 bs) = none := by
      cases hg : mapGet? cdc.disfixToTypeInfo (disfixOfBytes b0 bs) with
      | none => rfl
      | some p =>
        obtain ⟨_, h2, h3, _, h5⟩ := (indexed_of_reachable env cdc hr).byDisfix _ p hg
        exact absurd h3 (hno p h5 h2)
    unfold decodeCDCInterface
    simp only [hrv, derefPointersType, hI]
    split_ifs with he
    · rfl
    · obtain ⟨input, stack⟩ := s
      simp only at hin
      subst hin
      have hread := readBytes_append bs rest stack
      rw [hlen] at hread
      simp [Stream.readByte, hb0, hread, Codec.getTypeInfoFromDisfixRlock, hnone]

/-- The input of `TestPubKeyInvalidDataProperReturnsEmpty`, the three bytes of "foo",
read into a nil `Foo` in the catalog with `Foo` and `A` under `n`: an error, and the
destination stays nil; so do the seven bytes `01` to `07`, the tag of no registered
type. -/
theorem C14_short_or_unknown_tag_is_error_witness :
    decodeCDCInterface demoCollab demoEnv demoCdcFooA ⟨[0x66, 0x6f, 0x6f], []⟩
        (.nilIface (.named "Foo" .Interface)) =
      (.err .unexpectedEOF, ⟨[], []⟩, .nilIface (.named "Foo" .Interface)) ∧
    decodeCDCInterface demoCollab demoEnv demoCdcFooA ⟨[1, 2, 3, 4, 5, 6, 7, 8], []⟩
        (.nilIface (.named "Foo" .Interface)) =
      (.err (.unrecognizedDisfixBytes ⟨1, 2, 3, 4, 5, 6, 7⟩), ⟨[8], []⟩,
        .nilIface (.named "Foo" .Interface)) :=
  ⟨(C14_short_or_unknown_tag_is_error demoCollab demoEnv demoCdcFooA "Foo" 0
      ⟨[0x66, 0x6f, 0x6f], []⟩ (.nilIface (.named "Foo" .Interface))
      reachable_demoCdcFooA rfl rfl).1 (by decide) (by decide),
   (C14_short_or_unknown_tag_is_error demoCollab demoEnv demoCdcFooA "Foo" 0
      ⟨[1, 2, 3, 4, 5, 6, 7, 8], []⟩ (.nilIface (.named "Foo" .Interface))
      reachable_demoCdcFooA rfl rfl).2 1 [2, 3, 4, 5, 6, 7] [8] rfl rfl (by decide)
      (by decide)⟩

/-- C15 fails in the code: for every registered interface type and every stream that
starts with a Disfix found in the by-Disfix index, the stream not standing at the end of
the list it reads, when the payload decoder returns an error for the fresh instance,
`decodeCDCInterface` drops that error, sets the destination to the instance as the
decoder left it and returns no error. -/
theorem C15_decoder_error_is_dropped (K : Collab) (env : Env) (cdc : Codec) (iname : String)
    (ip cp : Ptr) (b0 : Byte) (bs rest : List Byte) (stack : List ListPos) (rv crv1 : Value)
    (e : Err) (s3 : Stream)
    (hI : cdc.getRegistedTypeInfoWLock (.named iname .Interface) = some ip)
    (hrv : rv.Type = .named iname .Interface)
    (hend : (Stream.mk (b0 :: bs ++ rest) stack).atListEnd = false)
    (hb0 : b0 ≠ 0x00) (hlen : bs.length = 6)
    (hD : cdc.getTypeInfoFromDisfixRlock (disfixOfBytes b0 bs) = .ok cp)
    (hdec : K.decoder (cdc.deref cp).Typ ⟨rest, stack⟩ (Value.New (cdc.deref cp).Typ) =
      (.err e, s3, crv1))
    (hset : env.implements ((constructConcreteType (cdc.deref cp)).2 crv1).Type
      (.named iname .Interface) = true) :
    decodeCDCInterface K env cdc ⟨b0 :: bs ++ rest, stack⟩ rv =
      (.ok (), s3, .iface (.named iname .Interface)
        ((constructConcreteType (cdc.deref cp)).2 crv1)) := by
  have hread := readBytes_append bs rest stack
  rw [hlen] at hread
  have hc1 : (constructConcreteType (cdc.deref cp)).1 = Value.New (cdc.deref cp).Typ := by
    unfold constructConcreteType; split <;> rfl
  have hend1 : (Stream.mk (b0 :: (bs ++ rest)) stack).atListEnd = false := hend
  unfold decodeCDCInterface
  simp only [hrv, derefPointersType, hI, hend1, Bool.false_eq_true, if_false, Stream.readByte,
    List.cons_append, hb0, hread, hD, hc1, value_new_type, hdec, Value.Set, hset, if_true]

/-- The catalog with `Foo` and `A` under `n` and a payload of a length byte and that many
bytes: the stream holds the tag of `A` and a payload that announces 3 bytes and has one.
The payload decoder returns an error; `decodeCDCInterface` returns no error and the nil
destination now holds the `A` with the one byte. -/
theorem C15_decoder_error_is_dropped_witness :
    Reachable demoEnv demoCdcFooA ∧
    demoStrictCollab.decoder demoA ⟨[3, 7], []⟩ (Value.New demoA) =
      (.err .unexpectedEOF, ⟨[], []⟩, .concrete demoA [7]) ∧
    decodeCDCInterface demoStrictCollab demoEnv demoCdcFooA
        ⟨[27, 22, 177, 223, 83, 139, 161, 3, 7], []⟩ (.nilIface (.named "Foo" .Interface)) =
      (.ok (), ⟨[], []⟩, .iface (.named "Foo" .Interface) (.concrete demoA [7])) :=
  ⟨reachable_demoCdcFooA, rfl,
   C15_decoder_error_is_dropped demoStrictCollab demoEnv demoCdcFooA "Foo" 0 1 27
     [22, 177, 223, 83, 139, 161] [3, 7] [] (.nilIface (.named "Foo" .Interface))
     (.concrete demoA [7]) .unexpectedEOF ⟨[], []⟩ rfl rfl rfl (by decide) rfl rfl rfl rfl⟩

/-! ## The JSON adapter -/

theorem getTypeInfoWlock_of_absent (env : Env) (cdc cdc1 : Codec) (rt : RType) (p : Ptr)
    (habs : cdc.getRegistedTypeInfoWLock rt = none)
    (h : cdc.getTypeInfoWlock env rt = (.ok p, cdc1)) :
    (cdc1.deref p).ConcreteInfo.Registered = false ∧
    (cdc1.deref p).Typ = derefPointersType rt := by
  unfold Codec.getRegistedTypeInfoWLock at habs
  unfold Codec.getTypeInfoWlock at h
  simp only [habs] at h
  split_ifs at h
  · cases h
  split at h
  · cases h
  · rename_i info hinfo
    have hu := newTypeInfoUnregistered_typ env _ info hinfo
    have hheap := (setTypeInfoNoLock_frame (cdc.alloc info).2 (cdc.alloc info).1).1
    split at h
    · cases h
    · rename_i cdc2 heq
      simp only [Prod.mk.injEq, Outcome.ok.injEq] at h
      obtain ⟨rfl, rfl⟩ := h
      rw [heq] at hheap
      have hd : cdc2.deref (cdc.alloc info).1 = info := by
        have := deref_alloc_self cdc info
        simp only [Codec.deref] at this ⊢
        rw [hheap]; exact this
      rw [hd]
      exact ⟨hu.2.1, hu.1⟩

/-- C16: for every non-nil value `v` whose type resolves to a descriptor and whose own
JSON encoding is `body`: `MarshalJSON(v)` returns exactly `{"type":"n","value":` followed
by `body` followed by `}` when the descriptor is marked `Registered`, `n` being its name,
and exactly `body` when it is not. A type that is absent from the by-type index resolves
to a descriptor that is not marked `Registered`; a type that is present resolves to its
entry, the catalog staying as it was. -/
theorem C16_json_envelope (K : Collab) (env : Env) (cdc cdc1 : Codec) (rv : Value) (p : Ptr)
    (body : String)
    (hres : cdc.getTypeInfoWlock env rv.Type = (.ok p, cdc1))
    (henc : K.encodeReflectJSON (cdc1.deref p) rv = .ok body) :
    cdc.MarshalJSON K env (some rv) =
      (.ok (if (cdc1.deref p).ConcreteInfo.Registered = true then
          "\x7b\"type\":\"" ++ (cdc1.deref p).ConcreteInfo.Name ++ "\",\"value\":" ++ body ++ "\x7d"
        else body), cdc1) ∧
    (cdc.getRegistedTypeInfoWLock rv.Type = none →
      (cdc1.deref p).ConcreteInfo.Registered = false) ∧
    (∀ q, cdc.getRegistedTypeInfoWLock rv.Type = some q → p = q ∧ cdc1 = cdc) := by
  refine ⟨?_, ?_, ?_⟩
  · simp only [Codec.MarshalJSON, hres, henc]
    split_ifs <;> rfl
  · intro habs
    exact (getTypeInfoWlock_of_absent env cdc cdc1 rv.Type p habs hres).1
  · intro q hq
    rw [getTypeInfoWlock_of_present env cdc rv.Type q hq] at hres
    simp only [Prod.mk.injEq, Outcome.ok.injEq] at hres
    exact ⟨hres.1.symm, hres.2.symm⟩

/-- The value `A` without content: in the catalog with `A` under `n` its JSON is the
envelope with the name `n` around `{}`; in the catalog in which `A` is not registered it
is `{}` alone, and the lookup leaves `A` cached. -/
theorem C16_json_envelope_witness :
    demoCdcFooA.MarshalJSON demoCollab demoEnv (some (.concrete demoA [])) =
      (.ok "\x7b\"type\":\"n\",\"value\":\x7b\x7d\x7d", demoCdcFooA) ∧
    demoCdcFoo.getRegistedTypeInfoWLock demoA = none ∧
    demoCdcFoo.MarshalJSON demoCollab demoEnv (some (.concrete demoA [])) =
      (.ok "\x7b\x7d", demoCdcFooLazyA) :=
  ⟨(C16_json_envelope demoCollab demoEnv demoCdcFooA demoCdcFooA (.concrete demoA []) 1
      "\x7b\x7d" rfl rfl).1,
   rfl,
   (C16_json_envelope demoCollab demoEnv demoCdcFoo demoCdcFooLazyA (.concrete demoA []) 1
      "\x7b\x7d" rfl rfl).1⟩

/-- C17: `UnmarshalJSON` of the empty input returns the error "cannot decode empty
bytes" for every destination; and for a destination whose type has a descriptor marked
`Registered` with the name `X`, when the envelope of a non-empty input parses to the
name `Y` and `Y` differs from `X`, it returns the error "wants to decode a X but found
a Y", whatever the decoder of the value payload is, which is therefore not run, and
leaves the catalog as it was. -/
theorem C17_unmarshal_failures (K : Collab) (env : Env) (cdc : Codec) (bz bz1 X Y : String)
    (rv : Value) (p : Ptr)
    (hbz : bz.length ≠ 0)
    (hT : cdc.getRegistedTypeInfoWLock rv.Type = some p)
    (hR : (cdc.deref p).ConcreteInfo.Registered = true)
    (hX : (cdc.deref p).ConcreteInfo.Name = X)
    (hY : K.decodeInterfaceJSON bz = .ok (Y, bz1))
    (hne : Y ≠ X) :
    (∀ ptr, cdc.UnmarshalJSON K env "" ptr = (.err .cannotDecodeEmptyBytes, cdc)) ∧
    (∀ f, cdc.UnmarshalJSON { K with decodeReflectJSON := f } env bz (.ptrTo rv) =
      (.err (.wantsToDecode X Y), cdc)) := by
  refine ⟨fun ptr => by simp [Codec.UnmarshalJSON], fun f => ?_⟩
  simp only [Codec.UnmarshalJSON, hbz, if_false, getTypeInfoWlock_of_present env cdc rv.Type p hT,
    hR, if_true, hY, hX, ne_eq, hne, not_false_eq_true]

/-- The catalog with `A` under `n`: the empty input is refused for a destination that
is not even a pointer, and an envelope that names `m` is refused for a destination of
type `A` with an error that names `n` and `m`. -/
theorem C17_unmarshal_failures_witness :
    demoCdcFooA.UnmarshalJSON demoCollab demoEnv "" (.concrete demoA []) =
      (.err .cannotDecodeEmptyBytes, demoCdcFooA) ∧
    demoCollab.decodeInterfaceJSON "\x7b\"type\":\"m\",\"value\":\x7b\x7d\x7d" =
      .ok ("m", "\x7b\x7d") ∧
    demoCdcFooA.UnmarshalJSON demoCollab demoEnv "\x7b\"type\":\"m\",\"value\":\x7b\x7d\x7d"
        (.ptrTo (.concrete demoA [])) =
      (.err (.wantsToDecode "n" "m"), demoCdcFooA) :=
  ⟨(C17_unmarshal_failures demoCollab demoEnv demoCdcFooA
      "\x7b\"type\":\"m\",\"value\":\x7b\x7d\x7d" "\x7b\x7d" "n" "m" (.concrete demoA []) 1
      (by decide) rfl rfl rfl rfl (by decide)).1 (.concrete demoA []),
   rfl,
   (C17_unmarshal_failures demoCollab demoEnv demoCdcFooA
      "\x7b\"type\":\"m\",\"value\":\x7b\x7d\x7d" "\x7b\x7d" "n" "m" (.concrete demoA []) 1
      (by decide) rfl rfl rfl rfl (by decide)).2 demoCollab.decodeReflectJSON⟩

/-! ## Sealing twice, and what `Seal` leaves as it is -/

theorem registerConcrete_sealed (env : Env) (ro : RangeOrder) (cdc : Codec) (o : RType)
    (name : String) : (cdc.RegisterConcrete env ro o name).2.sealed = cdc.sealed := by
  unfold Codec.RegisterConcrete
  split
  · rfl
  · split
    · rfl
    · split
      · rfl
      · rename_i _ rt pp _ _ info hinfo
        have hs := sameButImpl_addCheck env ro (cdc.alloc info).2 (cdc.alloc info).1
        simp only
        split
        · rename_i err cdc2 heq
          rw [heq] at hs; exact hs.1
        · rename_i cdc2 heq
          rw [heq] at hs
          rw [setTypeInfoNoLock_sealed]; exact hs.1

theorem registerInterface_sealed (env : Env) (ro : RangeOrder) (cdc : Codec) (ptr : RType)
    (iopts : Option InterfaceOptions) :
    (cdc.RegisterInterface env ro ptr iopts).2.sealed = cdc.sealed := by
  unfold Codec.RegisterInterface
  split
  · rfl
  · split
    · rfl
    · split_ifs
      · rfl
      · split
        · rfl
        · rename_i info hinfo
          have hs1 := sameButImpl_collect env (cdc.alloc info).2 (cdc.alloc info).1
          have hs2 := sameButImpl_check ro
            ((cdc.alloc info).2.collectImplementersNolock env (cdc.alloc info).1) (cdc.alloc info).1
          simp only
          split
          · rename_i err cdc3 heq
            rw [heq] at hs2; rw [hs2.1, hs1.1]; rfl
          · rename_i cdc3 heq
            rw [heq] at hs2
            rw [setTypeInfoNoLock_sealed, hs2.1, hs1.1]; rfl

theorem marshalJSON_sealed (K : Collab) (env : Env) (cdc : Codec) (o : Option Value) :
    (cdc.MarshalJSON K env o).2.sealed = cdc.sealed := by
  unfold Codec.MarshalJSON
  cases o with
  | none => rfl
  | some rv =>
    have h := getTypeInfoWlock_sealed env cdc rv.Type
    simp only
    split
    · rename_i heq; rw [heq] at h; exact h
    · rename_i heq; rw [heq] at h; exact h
    · rename_i heq; rw [heq] at h
      split
      · exact h
      · exact h
      · split_ifs <;> exact h

theorem unmarshalJSON_sealed (K : Collab) (env : Env) (cdc : Codec) (bz : String)
    (ptr : Value) : (cdc.UnmarshalJSON K env bz ptr).2.sealed = cdc.sealed := by
  unfold Codec.UnmarshalJSON
  split_ifs
  · rfl
  · split
    · rename_i rv
      have h := getTypeInfoWlock_sealed env cdc rv.Type
      split
      · rename_i heq; rw [heq] at h; exact h
      · rename_i heq; rw [heq] at h; exact h
      · rename_i heq; rw [heq] at h
        simp only
        split_ifs
        · split
          · exact h
          · split_ifs <;> exact h
        · exact h
    · rfl
    · rfl

theorem seal_setTypeInfoNoLock (cdc : Codec) (p : Ptr) :
    cdc.Seal.setTypeInfoNoLock p =
      ((cdc.setTypeInfoNoLock p).1, (cdc.setTypeInfoNoLock p).2.Seal) := by
  unfold Codec.setTypeInfoNoLock
  simp only [Codec.Seal, Codec.deref]
  split_ifs <;> try rfl
  split <;> try rfl
  split <;> rfl

theorem seal_getTypeInfoWlock (env : Env) (cdc : Codec) (rt : RType) :
    cdc.Seal.getTypeInfoWlock env rt =
      ((cdc.getTypeInfoWlock env rt).1, (cdc.getTypeInfoWlock env rt).2.Seal) := by
  unfold Codec.getTypeInfoWlock
  simp only
  have hti : cdc.Seal.typeInfos = cdc.typeInfos := rfl
  rw [hti]
  split
  · rfl
  · split_ifs
    · rfl
    · split
      · rfl
      · rename_i info hinfo
        have ha : (cdc.Seal.alloc info) = ((cdc.alloc info).1, (cdc.alloc info).2.Seal) := rfl
        rw [ha]
        simp only [seal_setTypeInfoNoLock]
        rcases (cdc.alloc info).2.setTypeInfoNoLock (cdc.alloc info).1 with ⟨r, c⟩
        cases r <;> rfl

/-- C18, as amended: `Seal` on a catalog that is already sealed returns normally and
leaves the whole catalog as it is, the sealed flag included; registration keeps
panicking with "codec sealed" afterwards. -/
theorem C18_second_seal_returns (env : Env) (ro : RangeOrder) (cdc : Codec)
    (h : cdc.sealed = true) :
    cdc.Seal = cdc ∧ cdc.Seal.sealed = true ∧
    (∀ ptr iopts, cdc.Seal.RegisterInterface env ro ptr iopts = (some .codecSealed, cdc)) ∧
    (∀ o name, cdc.Seal.RegisterConcrete env ro o name = (some .codecSealed, cdc)) := by
  have hs : cdc.Seal = cdc := by
    cases cdc
    simp only at h
    simp [Codec.Seal, h]
  rw [hs]
  exact ⟨rfl, h, fun ptr iopts => registerInterface_of_sealed env ro cdc h ptr iopts,
    fun o name => registerConcrete_of_sealed env ro cdc h o name⟩

/-- The catalog with `Foo`, sealed: a second `Seal` returns the same catalog, and the
registration of `Bar` still panics. -/
theorem C18_second_seal_returns_witness :
    demoCdcFoo.Seal.sealed = true ∧
    demoCdcFoo.Seal.Seal = demoCdcFoo.Seal ∧
    demoCdcFoo.Seal.Seal.RegisterInterface demoEnv .inOrder (.ptr demoBar) none =
      (some .codecSealed, demoCdcFoo.Seal) :=
  ⟨rfl,
   (C18_second_seal_returns demoEnv .inOrder demoCdcFoo.Seal rfl).1,
   (C18_second_seal_returns demoEnv .inOrder demoCdcFoo.Seal rfl).2.2.1 (.ptr demoBar) none⟩

/-- C18 as stated fails: the catalog with `Foo` is sealed and `Seal` is called again.
The call has no way to fail: it sets the flag, which is set already, and returns the
catalog, which is the sealed catalog it was given and can be reached by these calls. A
registration on the same catalog does fail, with the panic "codec sealed". -/
theorem C18_counterexample :
    demoCdcFoo.Seal.sealed = true ∧
    demoCdcFoo.Seal.Seal = demoCdcFoo.Seal ∧
    Reachable demoEnv demoCdcFoo.Seal.Seal ∧
    (demoCdcFoo.Seal.RegisterInterface demoEnv .inOrder (.ptr demoBar) none).1 =
      some .codecSealed :=
  ⟨rfl, rfl,
   Reachable.sealCall _ (Reachable.sealCall _
     (Reachable.registerInterface .inOrder NewCodec (.ptr demoFoo) none Reachable.newCodec)),
   rfl⟩

/-- C19: for every catalog, `Seal` sets the sealed flag and leaves the three indexes, the
interface list, the concrete list and every descriptor of the heap, hence every
implementers map, as they are; the lookups by type, by Disfix, by name and by Prefix
return after `Seal` what they returned before, a by-type lookup that caches a
descriptor caching the same one. No operation clears the flag: `RegisterInterface`,
`RegisterConcrete`, the by-type lookup, `MarshalJSON` and `UnmarshalJSON` leave it as
they find it. -/
theorem C19_seal_changes_only_the_flag (K : Collab) (env : Env) (ro : RangeOrder)
    (cdc : Codec) :
    (cdc.Seal.sealed = true ∧
     cdc.Seal.typeInfos = cdc.typeInfos ∧
     cdc.Seal.disfixToTypeInfo = cdc.disfixToTypeInfo ∧
     cdc.Seal.nameToTypeInfo = cdc.nameToTypeInfo ∧
     cdc.Seal.interfaceInfos = cdc.interfaceInfos ∧
     cdc.Seal.concreteInfos = cdc.concreteInfos ∧
     cdc.Seal.heap = cdc.heap ∧
     ∀ p, cdc.Seal.deref p = cdc.deref p) ∧
    ((∀ rt, cdc.Seal.getRegistedTypeInfoWLock rt = cdc.getRegistedTypeInfoWLock rt) ∧
     (∀ rt, cdc.Seal.getTypeInfoWlock env rt =
        ((cdc.getTypeInfoWlock env rt).1, (cdc.getTypeInfoWlock env rt).2.Seal)) ∧
     (∀ df, cdc.Seal.getTypeInfoFromDisfixRlock df = cdc.getTypeInfoFromDisfixRlock df) ∧
     (∀ name, cdc.Seal.getTypeInfoFromNameRlock name = cdc.getTypeInfoFromNameRlock name) ∧
     (∀ ip pb, cdc.Seal.getTypeInfoFromPrefixRlock ip pb =
        cdc.getTypeInfoFromPrefixRlock ip pb)) ∧
    ((∀ ptr iopts, (cdc.RegisterInterface env ro ptr iopts).2.sealed = cdc.sealed) ∧
     (∀ o name, (cdc.RegisterConcrete env ro o name).2.sealed = cdc.sealed) ∧
     (∀ rt, (cdc.getTypeInfoWlock env rt).2.sealed = cdc.sealed) ∧
     (∀ o, (cdc.MarshalJSON K env o).2.sealed = cdc.sealed) ∧
     (∀ bz ptr, (cdc.UnmarshalJSON K env bz ptr).2.sealed = cdc.sealed)) :=
  ⟨⟨rfl, rfl, rfl, rfl, rfl, rfl, rfl, fun _ => rfl⟩,
   ⟨fun _ => rfl, seal_getTypeInfoWlock env cdc, fun _ => rfl, fun _ => rfl, fun _ _ => rfl⟩,
   ⟨registerInterface_sealed env ro cdc, registerConcrete_sealed env ro cdc,
    getTypeInfoWlock_sealed env cdc, marshalJSON_sealed K env cdc,
    unmarshalJSON_sealed K env cdc⟩⟩

/-! ## Pointers at registration -/

/-- What a call of `RegisterConcrete` that returns does for a type that is not in the
by-type index: the index then yields a descriptor of the type with the pointer removed,
marked `Registered`, and `PointerPreferred` says whether the argument was a pointer. -/
theorem registerConcrete_fresh_pointerPreferred (env : Env) (ro : RangeOrder)
    (cdc cdc1 : Codec) (o : RType) (name : String)
    (hfresh : cdc.getRegistedTypeInfoWLock o = none)
    (hok : cdc.RegisterConcrete env ro o name = (none, cdc1)) :
    ∃ p, cdc1.getRegistedTypeInfoWLock o = some p ∧
      (cdc1.deref p).Typ = derefPointersType o ∧
      (cdc1.deref p).ConcreteInfo.Registered = true ∧
      (cdc1.deref p).ConcreteInfo.PointerPreferred = decide (o.Kind = .Ptr) := by
  unfold Codec.RegisterConcrete at hok
  split at hok
  · cases hok
  · split at hok
    · cases hok
    · rename_i rt pp hct
      split at hok
      · cases hok
      · rename_i info hinfo
        obtain ⟨hd, hkp, hpp⟩ := concreteTypeOf_deref o rt pp hct
        obtain ⟨hty, _, hki, hreg, hpref, _, _, _⟩ :=
          newTypeInfoFromRegistered_spec env rt pp name info hinfo
        simp only at hok
        split at hok
        · cases hok
        · rename_i cdc2 hadd
          have hs := sameButImpl_addCheck env ro (cdc.alloc info).2 (cdc.alloc info).1
          rw [hadd] at hs
          obtain ⟨_, hti, _, _, _, _, _, hfz⟩ := hs
          have hself : (cdc2.deref (cdc.alloc info).1).frozen = info.frozen := by
            rw [hfz, deref_alloc_self]
          have hT : (cdc2.deref (cdc.alloc info).1).Typ = rt := by
            rw [frozen_typ _ _ hself, hty]
          have hC : (cdc2.deref (cdc.alloc info).1).ConcreteInfo = info.ConcreteInfo :=
            frozen_concrete _ _ hself
          have hfr : mapGet? cdc2.typeInfos (cdc2.deref (cdc.alloc info).1).Typ = none := by
            rw [hT, hti]
            simpa [Codec.getRegistedTypeInfoWLock, hd, Codec.alloc] using hfresh
          obtain ⟨hheap, h1, _, _, _⟩ := setTypeInfoNoLock_fresh_registered cdc2 cdc1
            (cdc.alloc info).1 (by rw [hT]; exact hkp) (by rw [hT]; exact hki)
            (by rw [hC]; exact hreg) hfr hok
          have hderef : cdc1.deref (cdc.alloc info).1 = cdc2.deref (cdc.alloc info).1 := by
            simp [Codec.deref, hheap]
          refine ⟨(cdc.alloc info).1, ?_, ?_, ?_, ?_⟩
          · simpa [Codec.getRegistedTypeInfoWLock, hd, hT] using h1
          · rw [hderef, hT, hd]
          · rw [hderef, hC]; exact hreg
          · rw [hderef, hC, hpref, hpp]

theorem concreteTypeOf_ptr (rt : RType) :
    concreteTypeOf (.ptr rt) =
      if rt.Kind = .Ptr then .error (.pointerPointers rt)
      else if rt.Kind = .Interface then .error (.interfacePointers rt)
      else .ok (rt, true) := by
  have h : (RType.ptr rt).Kind ≠ .Interface := by simp [RType.Kind]
  unfold concreteTypeOf
  rw [if_neg h]

/-- C20, as amended: on an unsealed catalog, `RegisterConcrete` panics for a pointer to a
pointer and for a pointer to an interface, and `RegisterInterface` panics for a pointer
to a type that is not an interface, each leaving the catalog as it was. When the type,
with its pointer removed, is not yet in the by-type index and `RegisterConcrete` returns
without panicking, the type is registered with `PointerPreferred = true` for an argument
of pointer type and `PointerPreferred = false` for any other argument. When the type is
already in the by-type index, the existing descriptor stays in place, however the call
ends: the by-type lookup yields the descriptor it yielded before, and that descriptor,
when it is allocated, as it is in every reachable catalog, has the type and the concrete
part, `PointerPreferred` included, that it had. For a descriptor and an instance that is
not itself a pointer, `constructConcreteType` makes a fresh instance of the descriptor's
type and yields a pointer for the assignment exactly when `PointerPreferred` is true,
the instance itself otherwise. -/
theorem C20_pointers_at_registration (env : Env) (ro : RangeOrder) (cdc : Codec)
    (hs : cdc.sealed = false) :
    (∀ rt name, rt.Kind = .Ptr →
      cdc.RegisterConcrete env ro (.ptr rt) name = (some (.pointerPointers rt), cdc)) ∧
    (∀ rt name, rt.Kind = .Interface →
      cdc.RegisterConcrete env ro (.ptr rt) name = (some (.interfacePointers rt), cdc)) ∧
    (∀ rt iopts, rt.Kind ≠ .Interface →
      cdc.RegisterInterface env ro (.ptr rt) iopts = (some (.expectsInterface rt), cdc)) ∧
    (∀ T name cdc1, cdc.getRegistedTypeInfoWLock T = none →
      cdc.RegisterConcrete env ro (.ptr T) name = (none, cdc1) →
      ∃ p, cdc1.getRegistedTypeInfoWLock T = some p ∧ (cdc1.deref p).Typ = T ∧
        (cdc1.deref p).ConcreteInfo.Registered = true ∧
        (cdc1.deref p).ConcreteInfo.PointerPreferred = true) ∧
    (∀ T name cdc1, T.Kind ≠ .Ptr → cdc.getRegistedTypeInfoWLock T = none →
      cdc.RegisterConcrete env ro T name = (none, cdc1) →
      ∃ p, cdc1.getRegistedTypeInfoWLock T = some p ∧ (cdc1.deref p).Typ = T ∧
        (cdc1.deref p).ConcreteInfo.Registered = true ∧
        (cdc1.deref p).ConcreteInfo.PointerPreferred = false) ∧
    (∀ o name p0, cdc.getRegistedTypeInfoWLock o = some p0 →
      (cdc.RegisterConcrete env ro o name).2.getRegistedTypeInfoWLock o = some p0 ∧
      (Reachable env cdc → p0 < cdc.heap.length) ∧
      (p0 < cdc.heap.length →
        ((cdc.RegisterConcrete env ro o name).2.deref p0).Typ = (cdc.deref p0).Typ ∧
        ((cdc.RegisterConcrete env ro o name).2.deref p0).ConcreteInfo =
          (cdc.deref p0).ConcreteInfo ∧
        ((cdc.RegisterConcrete env ro o name).2.deref p0).ConcreteInfo.PointerPreferred =
          (cdc.deref p0).ConcreteInfo.PointerPreferred)) ∧
    (∀ (cinfo : TypeInfo) (crv : Value), crv.Kind ≠ .Ptr →
      (constructConcreteType cinfo).1 = Value.New cinfo.Typ ∧
      (constructConcreteType cinfo).2 crv =
        (if cinfo.ConcreteInfo.PointerPreferred then .ptrTo crv else crv) ∧
      (((constructConcreteType cinfo).2 crv).Kind = .Ptr ↔
        cinfo.ConcreteInfo.PointerPreferred = true)) := by
  refine ⟨?_, ?_, ?_, ?_, ?_, ?_, ?_⟩
  rotate_left 5
  · intro o name p0 hp0
    obtain ⟨h1, _, _, _, _, _, h7⟩ := registerConcrete_present env ro cdc o name p0 hp0
    refine ⟨?_, fun hr => ((keyed_of_reachable env cdc hr).byType _ p0 hp0).1,
      fun hlt => ⟨frozen_typ _ _ (h7 hlt), frozen_concrete _ _ (h7 hlt),
        by rw [frozen_concrete _ _ (h7 hlt)]⟩⟩
    unfold Codec.getRegistedTypeInfoWLock at hp0 ⊢
    rw [h1]
    exact hp0
  rotate_left 1
  · intro rt name hk
    simp [Codec.RegisterConcrete, Codec.assertNotSealed, hs, concreteTypeOf_ptr, hk]
  · intro rt name hk
    simp [Codec.RegisterConcrete, Codec.assertNotSealed, hs, concreteTypeOf_ptr, hk]
  · intro rt iopts hk
    simp [Codec.RegisterInterface, Codec.assertNotSealed, hs, getTypeFromPointer, hk]
  · intro T name cdc1 hfresh hok
    have hfresh1 : cdc.getRegistedTypeInfoWLock (.ptr T) = none := by
      simpa [Codec.getRegistedTypeInfoWLock, derefPointersType] using hfresh
    obtain ⟨p, h1, h2, h3, h4⟩ :=
      registerConcrete_fresh_pointerPreferred env ro cdc cdc1 (.ptr T) name hfresh1 hok
    have hT : derefPointersType T = T := by
      have hk : T.Kind ≠ .Ptr := by
        intro hk
        simp [Codec.RegisterConcrete, Codec.assertNotSealed, hs, concreteTypeOf_ptr, hk] at hok
      exact derefPointersType_of_kind T hk
    refine ⟨p, ?_, ?_, h3, ?_⟩
    · simpa [Codec.getRegistedTypeInfoWLock, derefPointersType] using h1
    · rw [h2]; simpa [derefPointersType] using hT
    · rw [h4]; simp [RType.Kind]
  · intro T name cdc1 hk hfresh hok
    obtain ⟨p, h1, h2, h3, h4⟩ :=
      registerConcrete_fresh_pointerPreferred env ro cdc cdc1 T name hfresh hok
    exact ⟨p, h1, by rw [h2, derefPointersType_of_kind T hk], h3, by rw [h4]; simp [hk]⟩
  · intro cinfo crv hk
    unfold constructConcreteType
    cases hp : cinfo.ConcreteInfo.PointerPreferred
    · simp [hk]
    · simp [Value.Kind, Value.Type, RType.Kind]

/-- The catalog with `Foo`: a `**A` and a `*Bar` are refused by `RegisterConcrete`, a `*A`
by `RegisterInterface`; `RegisterConcrete(&A{}, "n", nil)` registers `A` with
`PointerPreferred = true`, and the value to assign for a decoded `A` is then a pointer
to it. In the catalog with `Foo` and `A` registered by value,
`RegisterConcrete(&A{}, "m", nil)` leaves the descriptor of `A` in place. -/
theorem C20_pointers_at_registration_witness :
    demoCdcFoo.RegisterConcrete demoEnv .inOrder (.ptr (.ptr demoA)) "n" =
      (some (.pointerPointers (.ptr demoA)), demoCdcFoo) ∧
    demoCdcFoo.RegisterConcrete demoEnv .inOrder (.ptr demoBar) "n" =
      (some (.interfacePointers demoBar), demoCdcFoo) ∧
    demoCdcFoo.RegisterInterface demoEnv .inOrder (.ptr demoA) none =
      (some (.expectsInterface demoA), demoCdcFoo) ∧
    (∃ p, demoCdcFooPtrA.getRegistedTypeInfoWLock demoA = some p ∧
      (demoCdcFooPtrA.deref p).Typ = demoA ∧
      (demoCdcFooPtrA.deref p).ConcreteInfo.Registered = true ∧
      (demoCdcFooPtrA.deref p).ConcreteInfo.PointerPreferred = true) ∧
    (constructConcreteType (demoCdcFooPtrA.deref 1)).2 (.concrete demoA [7]) =
      .ptrTo (.concrete demoA [7]) ∧
    demoCdcFooA.getRegistedTypeInfoWLock (.ptr demoA) = some 1 ∧
    (demoCdcFooA.RegisterConcrete demoEnv .inOrder (.ptr demoA)
      "m").2.getRegistedTypeInfoWLock (.ptr demoA) = some 1 ∧
    ((demoCdcFooA.RegisterConcrete demoEnv .inOrder (.ptr demoA) "m").2.deref
      1).ConcreteInfo.PointerPreferred = (demoCdcFooA.deref 1).ConcreteInfo.PointerPreferred :=
  ⟨(C20_pointers_at_registration demoEnv .inOrder demoCdcFoo rfl).1 (.ptr demoA) "n" rfl,
   (C20_pointers_at_registration demoEnv .inOrder demoCdcFoo rfl).2.1 demoBar "n" rfl,
   (C20_pointers_at_registration demoEnv .inOrder demoCdcFoo rfl).2.2.1 demoA none (by decide),
   (C20_pointers_at_registration demoEnv .inOrder demoCdcFoo rfl).2.2.2.1 demoA "n"
     demoCdcFooPtrA rfl rfl,
   rfl, rfl,
   ((C20_pointers_at_registration demoEnv .inOrder demoCdcFooA (by decide)).2.2.2.2.2.1
     (.ptr demoA) "m" 1 rfl).1,
   (((C20_pointers_at_registration demoEnv .inOrder demoCdcFooA (by decide)).2.2.2.2.2.1
     (.ptr demoA) "m" 1 rfl).2.2 (by decide)).2.2⟩

/-- C20 as stated fails: `A` is registered by value under `n`, so with
`PointerPreferred = false`; `RegisterConcrete(&A{}, "m", nil)` on the unsealed catalog
returns without panicking, and afterwards `A` is still registered with
`PointerPreferred = false`, under the name `n`, and the value to assign for a decoded
`A` is the `A` itself, not a pointer. -/
theorem C20_counterexample :
    Reachable demoEnv demoCdcFooA ∧ demoCdcFooA.sealed = false ∧
    (demoCdcFooA.RegisterConcrete demoEnv .inOrder (.ptr demoA) "m").1 = none ∧
    (demoCdcFooA.RegisterConcrete demoEnv .inOrder (.ptr demoA) "m").2.getRegistedTypeInfoWLock
      demoA = some 1 ∧
    ((demoCdcFooA.RegisterConcrete demoEnv .inOrder (.ptr demoA) "m").2.deref
      1).ConcreteInfo.Registered = true ∧
    ((demoCdcFooA.RegisterConcrete demoEnv .inOrder (.ptr demoA) "m").2.deref
      1).ConcreteInfo.PointerPreferred = false ∧
    ((demoCdcFooA.RegisterConcrete demoEnv .inOrder (.ptr demoA) "m").2.deref
      1).ConcreteInfo.Name = "n" ∧
    (constructConcreteType
      ((demoCdcFooA.RegisterConcrete demoEnv .inOrder (.ptr demoA) "m").2.deref 1)).2
        (.concrete demoA [7]) = .concrete demoA [7] :=
  ⟨reachable_demoCdcFooA, by decide, by decide, by decide, by decide, by decide, by decide,
   by decide⟩

/-! ## The lazy lookup by type -/

theorem extends_refl (c : Codec) : c.Extends c :=
  ⟨Nat.le_refl _, fun _ _ h => h, fun _ _ => rfl⟩

theorem extends_trans (a b c : Codec) (h1 : a.Extends b) (h2 : b.Extends c) : a.Extends c :=
  ⟨Nat.le_trans h1.1 h2.1, fun t p h => h2.2.1 t p (h1.2.1 t p h),
   fun p hp => by rw [h2.2.2 p (Nat.lt_of_lt_of_le hp h1.1), h1.2.2 p hp]⟩

theorem extends_alloc (c : Codec) (info : TypeInfo) : c.Extends (c.alloc info).2 :=
  ⟨by simp [Codec.alloc], fun _ _ h => h, fun p hp => by rw [deref_alloc_lt c info p hp]⟩

theorem extends_sameButImpl (a b : Codec) (h : a.SameButImpl b) : a.Extends b :=
  ⟨Nat.le_of_eq h.2.2.2.2.2.2.1.symm, fun t p hp => by rw [h.2.1]; exact hp,
   fun p _ => h.2.2.2.2.2.2.2 p⟩

theorem extends_setTypeInfoNoLock (c : Codec) (p : Ptr) : c.Extends (c.setTypeInfoNoLock p).2 := by
  rcases setTypeInfoNoLock_cases c p with h | ⟨hfresh, hheap, hti, _, _⟩
  · rw [h]; exact extends_refl c
  · refine ⟨Nat.le_of_eq (by rw [hheap]), ?_, ?_⟩
    · intro t q hq
      rw [hti, mapGet?_mapSet_ne _ _ _ _ (fun he => by rw [he, hfresh] at hq; cases hq)]
      exact hq
    · intro q _
      simp only [Codec.deref, hheap]

theorem extends_registerConcrete (env : Env) (ro : RangeOrder) (cdc : Codec) (o : RType)
    (name : String) : cdc.Extends (cdc.RegisterConcrete env ro o name).2 := by
  unfold Codec.RegisterConcrete
  split
  · exact extends_refl cdc
  · split
    · exact extends_refl cdc
    · split
      · exact extends_refl cdc
      · rename_i _ rt pp _ _ info hinfo
        have h1 := extends_alloc cdc info
        have hs := sameButImpl_addCheck env ro (cdc.alloc info).2 (cdc.alloc info).1
        have h2 := extends_trans _ _ _ h1 (extends_sameButImpl _ _ hs)
        simp only
        split
        · rename_i err cdc2 heq
          rw [heq] at h2; exact h2
        · rename_i cdc2 heq
          rw [heq] at h2
          exact extends_trans _ _ _ h2 (extends_setTypeInfoNoLock cdc2 _)

theorem extends_registerInterface (env : Env) (ro : RangeOrder) (cdc : Codec) (ptr : RType)
    (iopts : Option InterfaceOptions) :
    cdc.Extends (cdc.RegisterInterface env ro ptr iopts).2 := by
  unfold Codec.RegisterInterface
  split
  · exact extends_refl cdc
  · split
    · exact extends_refl cdc
    · split_ifs
      · exact extends_refl cdc
      · split
        · exact extends_refl cdc
        · rename_i info hinfo
          have h1 := extends_alloc cdc info
          have hs1 := sameButImpl_collect env (cdc.alloc info).2 (cdc.alloc info).1
          have h2 := extends_trans _ _ _ h1 (extends_sameButImpl _ _ hs1)
          have hs2 := sameButImpl_check ro
            ((cdc.alloc info).2.collectImplementersNolock env (cdc.alloc info).1) (cdc.alloc info).1
          have h3 := extends_trans _ _ _ h2 (extends_sameButImpl _ _ hs2)
          simp only
          split
          · rename_i err cdc3 heq
            rw [heq] at h3; exact h3
          · rename_i cdc3 heq
            rw [heq] at h3
            exact extends_trans _ _ _ h3 (extends_setTypeInfoNoLock cdc3 _)

theorem extends_getTypeInfoWlock (env : Env) (cdc : Codec) (rt : RType) :
    cdc.Extends (cdc.getTypeInfoWlock env rt).2 := by
  unfold Codec.getTypeInfoWlock
  simp only
  split
  · exact extends_refl cdc
  · split_ifs
    · exact extends_refl cdc
    · split
      · exact extends_refl cdc
      · rename_i info hinfo
        have h := extends_trans _ _ _ (extends_alloc cdc info)
          (extends_setTypeInfoNoLock (cdc.alloc info).2 (cdc.alloc info).1)
        split <;> rename_i heq <;> (rw [heq] at h; exact h)

/-- Every later catalog keeps the entries of the by-type index and the descriptors. -/
theorem extends_of_later (env : Env) (c0 c : Codec) (h : Later env c0 c) : c0.Extends c := by
  induction h with
  | now => exact extends_refl c0
  | registerInterface ro cdc ptr iopts _ ih =>
    exact extends_trans _ _ _ ih (extends_registerInterface env ro cdc ptr iopts)
  | registerConcrete ro cdc o name _ ih =>
    exact extends_trans _ _ _ ih (extends_registerConcrete env ro cdc o name)
  | sealCall cdc _ ih => exact ⟨ih.1, ih.2.1, ih.2.2⟩
  | getTypeInfo cdc rt _ ih =>
    exact extends_trans _ _ _ ih (extends_getTypeInfoWlock env cdc rt)

/-- What `getTypeInfoWlock` does for a type that is absent from the by-type index and
whose descriptor can be built. -/
theorem getTypeInfoWlock_caches (env : Env) (cdc : Codec) (rt : RType) (info : TypeInfo)
    (habs : mapGet? cdc.typeInfos (derefPointersType rt) = none)
    (hinfo : newTypeInfoUnregistered env (derefPointersType rt) = .ok info) :
    cdc.getTypeInfoWlock env rt =
      (.ok cdc.heap.length,
        { cdc with
          heap := cdc.heap ++ [info]
          typeInfos := mapSet cdc.typeInfos (derefPointersType rt) cdc.heap.length }) := by
  obtain ⟨hty, hreg, hkp, hki, _⟩ := newTypeInfoUnregistered_typ env _ info hinfo
  have hd : derefHeap (cdc.heap ++ [info]) cdc.heap.length = info := derefHeap_append_self _ _
  unfold Codec.getTypeInfoWlock
  simp only [habs, hki, if_false, hinfo, Codec.alloc, Codec.setTypeInfoNoLock, Codec.deref, hd,
    hty, hkp, hreg, Option.isSome_none, Bool.false_eq_true]

theorem newTypeInfoUnregistered_noTag (env : Env) (rt : RType) (info : TypeInfo)
    (h : newTypeInfoUnregistered env rt = .ok info) :
    info.ConcreteInfo.Name = "" ∧ info.ConcreteInfo.Disamb = ⟨0, 0, 0⟩ ∧
    info.ConcreteInfo.Prefix = ⟨0, 0, 0, 0⟩ := by
  unfold newTypeInfoUnregistered at h
  by_cases h1 : rt.Kind = .Ptr
  · simp [h1] at h
  by_cases h2 : rt.Kind = .Interface
  · simp [h1, h2] at h
  simp only [h1, h2, if_false] at h
  split at h
  · cases h
  · split at h
    · cases h
    · split at h
      · cases h
      · simp only [Except.ok.injEq] at h
        subst h
        exact ⟨rfl, rfl, rfl⟩

/-- C21: for every catalog, sealed or not, and every type `T`, with `T'` the type behind
its pointers. When `T'` is in the by-type index, `getTypeInfoWlock` returns its entry and
leaves the catalog as it is. When `T'` is absent, is not an interface type and its
descriptor can be built, the call returns a new descriptor of type `T'` with `Registered
= false`, no name and no tag, files it under `T'` in the by-type index and leaves the
sealed flag, the indexes by Disfix and by name, both lists and all descriptors, hence
all implementers maps, as they are; in every later catalog the lookup of `T` returns
that same descriptor and changes nothing. When `T'` is absent and is an interface type,
the call returns the error "Unregistered interface" and leaves the catalog as it is. -/
theorem C21_lazy_lookup_by_type (env : Env) (cdc : Codec) (T : RType) :
    (∀ p, mapGet? cdc.typeInfos (derefPointersType T) = some p →
      cdc.getTypeInfoWlock env T = (.ok p, cdc)) ∧
    (mapGet? cdc.typeInfos (derefPointersType T) = none →
      (derefPointersType T).Kind ≠ .Interface →
      ∀ info, newTypeInfoUnregistered env (derefPointersType T) = .ok info →
      ∃ cdc1, cdc.getTypeInfoWlock env T = (.ok cdc.heap.length, cdc1) ∧
        cdc1.deref cdc.heap.length = info ∧
        info.Typ = derefPointersType T ∧
        info.ConcreteInfo.Registered = false ∧ info.ConcreteInfo.Name = "" ∧
        info.ConcreteInfo.Disamb = ⟨0, 0, 0⟩ ∧ info.ConcreteInfo.Prefix = ⟨0, 0, 0, 0⟩ ∧
        cdc1.typeInfos = mapSet cdc.typeInfos (derefPointersType T) cdc.heap.length ∧
        cdc1.sealed = cdc.sealed ∧
        cdc1.disfixToTypeInfo = cdc.disfixToTypeInfo ∧
        cdc1.nameToTypeInfo = cdc.nameToTypeInfo ∧
        cdc1.interfaceInfos = cdc.interfaceInfos ∧
        cdc1.concreteInfos = cdc.concreteInfos ∧
        cdc1.heap = cdc.heap ++ [info] ∧
        ∀ c2, Later env cdc1 c2 →
          c2.getTypeInfoWlock env T = (.ok cdc.heap.length, c2) ∧
          (c2.deref cdc.heap.length).frozen = info.frozen) ∧
    (mapGet? cdc.typeInfos (derefPointersType T) = none →
      (derefPointersType T).Kind = .Interface →
      cdc.getTypeInfoWlock env T = (.err (.unregisteredInterface (derefPointersType T)), cdc)) := by
  refine ⟨?_, ?_, ?_⟩
  · intro p hp
    exact getTypeInfoWlock_of_present env cdc T p hp
  · intro habs _ info hinfo
    have hg := getTypeInfoWlock_caches env cdc T info habs hinfo
    obtain ⟨hty, hreg, _, _, _⟩ := newTypeInfoUnregistered_typ env _ info hinfo
    have hc := newTypeInfoUnregistered_noTag env _ info hinfo
    have hd : derefHeap (cdc.heap ++ [info]) cdc.heap.length = info := derefHeap_append_self _ _
    refine ⟨_, hg, hd, hty, hreg, hc.1, hc.2.1, hc.2.2, rfl, rfl, rfl, rfl, rfl, rfl, rfl, ?_⟩
    intro c2 hl
    obtain ⟨_, hti, hfz⟩ := extends_of_later env _ c2 hl
    refine ⟨?_, ?_⟩
    · exact getTypeInfoWlock_of_present env c2 T _ (hti _ _ (mapGet?_mapSet_self _ _ _))
    · have := hfz cdc.heap.length (by simp)
      rw [this]
      simp only [Codec.deref, hd]
  · intro habs hk
    simp [Codec.getTypeInfoWlock, habs, hk]

/-! ## Wire categories and the fields of a struct -/

/-- C22: `typeToTyp3` gives `ByteLength` for the kinds interface, array, slice, string,
struct and map; `8Byte` for float64 and `4Byte` for float32, whatever the options;
for int64 and uint64 `8Byte` when `BinFixed64` is set and `Varint` otherwise; for int32
and uint32 `4Byte` when `BinFixed32` is set and `Varint` otherwise; `Varint` for bool,
int, uint, int8, int16, uint8 and uint16, whatever the options; and it panics with
"unsupported field type" for every other kind, pointers included. -/
theorem C22_typeToTyp3_table (rt : RType) (opts : FieldOptions) :
    (rt.Kind ∈ [Kind.Interface, .Array, .Slice, .String, .Struct, .Map] →
      typeToTyp3 rt opts = .ok .Typ3_ByteLength) ∧
    (rt.Kind = .Float64 → typeToTyp3 rt opts = .ok .Typ3_8Byte) ∧
    (rt.Kind = .Float32 → typeToTyp3 rt opts = .ok .Typ3_4Byte) ∧
    (rt.Kind ∈ [Kind.Int64, .Uint64] →
      typeToTyp3 rt opts = .ok (if opts.BinFixed64 then .Typ3_8Byte else .Typ3_Varint)) ∧
    (rt.Kind ∈ [Kind.Int32, .Uint32] →
      typeToTyp3 rt opts = .ok (if opts.BinFixed32 then .Typ3_4Byte else .Typ3_Varint)) ∧
    (rt.Kind ∈ [Kind.Bool, .Int, .Uint, .Int8, .Int16, .Uint8, .Uint16] →
      typeToTyp3 rt opts = .ok .Typ3_Varint) ∧
    (rt.Kind ∉ [Kind.Interface, .Array, .Slice, .String, .Struct, .Map, .Float64, .Float32,
        .Int64, .Uint64, .Int32, .Uint32, .Bool, .Int, .Uint, .Int8, .Int16, .Uint8, .Uint16] →
      typeToTyp3 rt opts = .error (.unsupportedFieldType rt)) := by
  unfold typeToTyp3
  cases h : rt.Kind <;> cases h64 : opts.BinFixed64 <;> cases h32 : opts.BinFixed32 <;> simp

theorem parseFieldOptions_skip (f : StructField) :
    (parseFieldOptions f).1 = decide (tagGet f.Tag "json" = "-") := by
  unfold parseFieldOptions
  simp only
  split_ifs with h <;> simp [h]

/-- What the loop of `parseStructInfo` appends, from position `i` on, to the entries
`acc`, when it ends without a panic and the field numbers stay below `2 ^ 32`. -/
theorem parseStructFields_spec (env : Env) (fields : List StructField) :
    ∀ (i : Nat) (acc out : List FieldInfo),
      parseStructFields env fields i acc = .ok out →
      acc.length + fields.length < 2 ^ 32 →
      ∃ new, out = acc ++ new ∧
        new.map (fun fi => (fi.Index, fi.Name, fi.Typ)) =
          (specKeptFields env fields i).map (fun x => (x.1, x.2.Name, x.2.Typ)) ∧
        new.map (fun fi => fi.FieldOptions.BinFieldNum) =
          (List.range new.length).map (fun k => acc.length + k + 1) := by
  induction fields with
  | nil =>
    intro i acc out h _
    simp only [parseStructFields, Except.ok.injEq] at h
    subst h
    exact ⟨[], by simp, rfl, rfl⟩
  | cons f rest ih =>
    intro i acc out h hlen
    simp only [List.length_cons] at hlen
    unfold parseStructFields at h
    unfold specKeptFields
    by_cases hex : isExported env f = true
    · by_cases hskip : tagGet f.Tag "json" = "-"
      · have hs : (parseFieldOptions f).1 = true := by rw [parseFieldOptions_skip]; simp [hskip]
        simp only [hex, Bool.not_true, Bool.false_eq_true, if_false, hs, if_true] at h
        simp only [hex, hskip, ne_eq, not_true_eq_false, decide_False, Bool.and_false,
          Bool.false_eq_true, if_false]
        exact ih (i + 1) acc out h (by omega)
      · have hs : (parseFieldOptions f).1 = false := by rw [parseFieldOptions_skip]; simp [hskip]
        simp only [hex, Bool.not_true, Bool.false_eq_true, if_false, hs] at h
        simp only [hex, hskip, ne_eq, not_false_eq_true, decide_True, Bool.and_self, if_true]
        have key : ∀ X : FieldInfo, X.Index = i → X.Name = f.Name → X.Typ = f.Typ →
            X.FieldOptions.BinFieldNum = (acc.length + 1) % 2 ^ 32 →
            parseStructFields env rest (i + 1) (acc ++ [X]) = .ok out →
            ∃ new, out = acc ++ new ∧
              new.map (fun fi => (fi.Index, fi.Name, fi.Typ)) =
                ((i, f) :: specKeptFields env rest (i + 1)).map
                  (fun x => (x.1, x.2.Name, x.2.Typ)) ∧
              new.map (fun fi => fi.FieldOptions.BinFieldNum) =
                (List.range new.length).map (fun k => acc.length + k + 1) := by
          intro X h1 h2 h3 h4 hX
          obtain ⟨new, hout, hmap, hnum⟩ := ih (i + 1) _ out hX
            (by simp only [List.length_append, List.length_singleton]; omega)
          refine ⟨X :: new, by rw [hout]; simp, ?_, ?_⟩
          · simp only [List.map_cons, hmap, h1, h2, h3]
          · simp only [List.map_cons, hnum, List.length_append, List.length_singleton,
              List.length_cons]
            rw [List.range_succ_eq_map]
            simp only [List.map_cons, List.map_map]
            refine congrArg₂ _ ?_ ?_
            · rw [h4]
              simp only [Nat.add_zero]
              exact Nat.mod_eq_of_lt (by omega)
            · apply List.map_congr_left
              intro k _
              simp only [Function.comp, List.length_nil, Nat.succ_eq_add_one]
              omega
        split at h
        · cases h
        · rename_i unpacked _
          split at h
          · cases h
          · exact key _ rfl rfl rfl rfl h
    · have hex1 : isExported env f = false := by simpa using hex
      simp only [hex1, Bool.not_false, if_true] at h
      simp only [hex1, Bool.false_and, Bool.false_eq_true, if_false]
      exact ih (i + 1) acc out h (by omega)

theorem specKeptFields_index (env : Env) (fields : List StructField) :
    ∀ i, (∀ x ∈ specKeptFields env fields i, i ≤ x.1 ∧ x.1 < i + fields.length) ∧
      ((specKeptFields env fields i).map Prod.fst).Pairwise (· < ·) := by
  induction fields with
  | nil => intro i; simp [specKeptFields]
  | cons f rest ih =>
    intro i
    obtain ⟨hb, hp⟩ := ih (i + 1)
    unfold specKeptFields
    split_ifs
    · refine ⟨?_, ?_⟩
      · intro x hx
        rcases List.mem_cons.mp hx with rfl | hx
        · simp
        · have := hb x hx
          simp only [List.length_cons]
          omega
      · simp only [List.map_cons, List.pairwise_cons]
        refine ⟨?_, hp⟩
        intro j hj
        obtain ⟨x, hx, rfl⟩ := List.mem_map.mp hj
        have := hb x hx
        omega
    · refine ⟨?_, hp⟩
      intro x hx
      have := hb x hx
      simp only [List.length_cons]
      omega

/-- C23: for every struct type with fewer than `2 ^ 32` fields on which
`parseStructInfo` ends without a panic, the entries of the returned list are, in
declaration order, exactly the declared fields that are exported and whose json tag is
not `-`, each with its name, its type and, as `Index`, its position in the declaration;
the entry at place `k`, counted from 0, has `BinFieldNum = k + 1`; and `Index` is
strictly increasing along the list. -/
theorem C23_kept_fields_in_order (env : Env) (rt : RType) (infos : List FieldInfo)
    (hok : parseStructInfo env rt = .ok infos)
    (hlen : (env.fields rt).length < 2 ^ 32) :
    infos.map (fun fi => (fi.Index, fi.Name, fi.Typ)) =
      (specKeptFields env (env.fields rt) 0).map (fun x => (x.1, x.2.Name, x.2.Typ)) ∧
    infos.map (fun fi => fi.FieldOptions.BinFieldNum) =
      (List.range infos.length).map (fun k => k + 1) ∧
    (infos.map (fun fi => fi.Index)).Pairwise (· < ·) := by
  unfold parseStructInfo at hok
  split_ifs at hok
  obtain ⟨new, hout, hmap, hnum⟩ :=
    parseStructFields_spec env (env.fields rt) 0 [] infos hok (by simpa using hlen)
  simp only [List.nil_append] at hout
  subst hout
  refine ⟨hmap, ?_, ?_⟩
  · rw [hnum]
    simp
  · have hidx : infos.map (fun fi => fi.Index) =
        (specKeptFields env (env.fields rt) 0).map Prod.fst := by
      have := congrArg (List.map Prod.fst) hmap
      simpa [List.map_map, Function.comp] using this
    rw [hidx]
    exact (specKeptFields_index env (env.fields rt) 0).2

/-- The struct `S{a int; B string; C int json:"-"; D int64 binary:"fixed64"}`: the list
holds `B` with index 1 and number 1 and `D` with index 3 and number 2. -/
theorem C23_kept_fields_in_order_witness :
    (∃ infos, parseStructInfo demoFieldsEnv demoStruct = .ok infos ∧
      infos.map (fun fi => (fi.Index, fi.Name, fi.FieldOptions.BinFieldNum)) =
        [(1, "B", 1), (3, "D", 2)]) ∧
    ((specKeptFields demoFieldsEnv (demoFieldsEnv.fields demoStruct) 0).map
        (fun x => (x.1, x.2.Name, x.2.Typ)) =
      [(1, "B", .named "string" .String), (3, "D", .named "int64" .Int64)]) ∧
    ([(⟨"B", .named "string" .String, 1, false, ⟨"B", false, false, false, 1, false⟩⟩ :
          FieldInfo),
        ⟨"D", .named "int64" .Int64, 3, false, ⟨"D", false, true, false, 2, false⟩⟩].map
        (fun fi => (fi.Index, fi.Name, fi.Typ)) =
      (specKeptFields demoFieldsEnv (demoFieldsEnv.fields demoStruct) 0).map
        (fun x => (x.1, x.2.Name, x.2.Typ))) :=
  ⟨⟨_, rfl, rfl⟩, by decide,
   (C23_kept_fields_in_order demoFieldsEnv demoStruct
      [⟨"B", .named "string" .String, 1, false, ⟨"B", false, false, false, 1, false⟩⟩,
       ⟨"D", .named "int64" .Int64, 3, false, ⟨"D", false, true, false, 2, false⟩⟩]
      rfl (by decide)).1⟩

/-! ## Floating-point fields -/

theorem parseFieldOptions_optIn (f : StructField) (h : tagGet f.Tag "json" ≠ "-") :
    (parseFieldOptions f).2.Unsafe = decide (tagGet f.Tag "amino" = "unsafe") := by
  unfold parseFieldOptions
  simp only [h, if_false]

theorem unpackedListOf_float (ftype : RType) (fopts : FieldOptions)
    (h : ftype.Kind = .Float32 ∨ ftype.Kind = .Float64) :
    unpackedListOf ftype fopts = .ok false := by
  cases ftype with
  | named n k => rfl
  | ptr e => simp [RType.Kind] at h
  | array n e => simp [RType.Kind] at h
  | slice e => simp [RType.Kind] at h

/-- The loop of `parseStructInfo` panics when a field still to be visited is exported,
not skipped, of a floating-point kind and without the opt-in. -/
theorem parseStructFields_float (env : Env) (fields : List StructField) (f : StructField)
    (hf : f ∈ fields) (hex : isExported env f = true) (hskip : tagGet f.Tag "json" ≠ "-")
    (hk : f.Typ.Kind = .Float32 ∨ f.Typ.Kind = .Float64)
    (hu : tagGet f.Tag "amino" ≠ "unsafe") :
    ∀ (i : Nat) (acc : List FieldInfo), ∃ e, parseStructFields env fields i acc = .error e := by
  induction fields with
  | nil => cases hf
  | cons g rest ih =>
    intro i acc
    rcases List.mem_cons.mp hf with rfl | hrest
    · have hs : (parseFieldOptions f).1 = false := by rw [parseFieldOptions_skip]; simp [hskip]
      have hun : (parseFieldOptions f).2.Unsafe = false := by
        rw [parseFieldOptions_optIn f hskip]; simp [hu]
      refine ⟨.floatingPointUnsafe, ?_⟩
      unfold parseStructFields
      simp only [hex, Bool.not_true, Bool.false_eq_true, if_false, hs,
        unpackedListOf_float f.Typ _ hk, checkUnsafe, hun]
      rcases hk with hk | hk <;> simp [hk]
    · unfold parseStructFields
      by_cases hx : isExported env g = true
      · simp only [hx, Bool.not_true, Bool.false_eq_true, if_false]
        cases hs : (parseFieldOptions g).1
        · simp only [Bool.false_eq_true, if_false]
          split
          · exact ⟨_, rfl⟩
          · split
            · exact ⟨_, rfl⟩
            · exact ih hrest _ _
        · simp only [if_true]
          exact ih hrest _ _
      · have hx1 : isExported env g = false := by simpa using hx
        simp only [hx1, Bool.not_false, if_true]
        exact ih hrest _ _

/-- C24: for every struct type that has an exported field, not skipped by its json tag,
of kind float32 or float64 and without the amino tag `unsafe`: `parseStructInfo` panics,
and `RegisterConcrete` of the type, given by value or by pointer, panics on every
catalog and leaves it as it was. A field whose options carry `Unsafe` passes
`checkUnsafe`, whatever its kind, and the amino tag `unsafe` sets that option. -/
theorem C24_float_field_needs_opt_in (env : Env) (rt : RType) (f : StructField)
    (hstruct : rt.Kind = .Struct)
    (hf : f ∈ env.fields rt) (hex : isExported env f = true)
    (hskip : tagGet f.Tag "json" ≠ "-")
    (hk : f.Typ.Kind = .Float32 ∨ f.Typ.Kind = .Float64)
    (hu : tagGet f.Tag "amino" ≠ "unsafe") :
    (∃ e, parseStructInfo env rt = .error e) ∧
    (∀ (ro : RangeOrder) (cdc : Codec) (name : String),
      (∃ e, cdc.RegisterConcrete env ro rt name = (some e, cdc)) ∧
      (∃ e, cdc.RegisterConcrete env ro (.ptr rt) name = (some e, cdc))) ∧
    (∀ fi : FieldInfo, fi.FieldOptions.Unsafe = true → checkUnsafe fi = none) ∧
    (∀ g : StructField, tagGet g.Tag "json" ≠ "-" → tagGet g.Tag "amino" = "unsafe" →
      (parseFieldOptions g).2.Unsafe = true) := by
  obtain ⟨e, he⟩ := parseStructFields_float env (env.fields rt) f hf hex hskip hk hu 0 []
  have hp : parseStructInfo env rt = .error e := by
    unfold parseStructInfo
    simp only [hstruct, ne_eq, not_true_eq_false, if_false, he]
  have hnew : ∀ pp name, newTypeInfoFromRegisteredConcreteType env rt pp name = .error e := by
    intro pp name
    unfold newTypeInfoFromRegisteredConcreteType newTypeInfoUnregistered
    simp [hstruct, hp]
  have hct : concreteTypeOf rt = .ok (rt, false) := by
    unfold concreteTypeOf
    cases rt with
    | named n k => simp [hstruct]
    | ptr e => simp [RType.Kind] at hstruct
    | array n e => simp [RType.Kind] at hstruct
    | slice e => simp [RType.Kind] at hstruct
  have hctp : concreteTypeOf (.ptr rt) = .ok (rt, true) := by
    rw [concreteTypeOf_ptr]; simp [hstruct]
  refine ⟨⟨e, hp⟩, ?_, ?_, ?_⟩
  · intro ro cdc name
    refine ⟨?_, ?_⟩
    · unfold Codec.RegisterConcrete
      cases hs : cdc.assertNotSealed with
      | some e1 => exact ⟨e1, rfl⟩
      | none => exact ⟨e, by simp only [hct, hnew]⟩
    · unfold Codec.RegisterConcrete
      cases hs : cdc.assertNotSealed with
      | some e1 => exact ⟨e1, rfl⟩
      | none => exact ⟨e, by simp only [hctp, hnew]⟩
  · intro fi h
    simp [checkUnsafe, h]
  · intro g h1 h2
    rw [parseFieldOptions_optIn g h1]; simp [h2]

/-- The struct `F{X int; Y float64}`: introspection panics and the registration of `F`
in the catalog with `Foo` panics and leaves the catalog as it was; the struct
`U{Y float64 amino:"unsafe"}` is introspected and registered. -/
theorem C24_float_field_needs_opt_in_witness :
    parseStructInfo demoFieldsEnv demoFloatStruct = .error .floatingPointUnsafe ∧
    (∃ e, parseStructInfo demoFieldsEnv demoFloatStruct = .error e) ∧
    (∃ e, demoCdcFoo.RegisterConcrete demoFieldsEnv .inOrder demoFloatStruct "f" =
      (some e, demoCdcFoo)) ∧
    (NewCodec.RegisterConcrete demoFieldsEnv .inOrder demoUnsafeStruct "n").1 = none :=
  ⟨rfl,
   (C24_float_field_needs_opt_in demoFieldsEnv demoFloatStruct
      ⟨"Y", "", .named "float64" .Float64, []⟩ rfl (by decide) (by decide) (by decide)
      (Or.inr rfl) (by decide)).1,
   ((C24_float_field_needs_opt_in demoFieldsEnv demoFloatStruct
      ⟨"Y", "", .named "float64" .Float64, []⟩ rfl (by decide) (by decide) (by decide)
      (Or.inr rfl) (by decide)).2.1 .inOrder demoCdcFoo "f").1,
   by decide⟩

/-! ## The table of registered types -/

theorem writeChecked_buffer (l : List String) (out : String) :
    writeChecked bufferWrite l out = (none, out ++ concatStrings l) := by
  induction l generalizing out with
  | nil => simp [writeChecked, concatStrings]
  | cons s rest ih =>
    simp only [writeChecked, bufferWrite, concatStrings]
    rw [← String.append_assoc]
    exact ih (out ++ s)

theorem printTypesRow_buffer (R : TypeFacts) (i : TypeInfo) (out : String) :
    printTypesRow R bufferWrite i out = (none, out ++ specRow R i) := by
  unfold printTypesRow
  simp only [writeChecked_buffer]
  simp only [bufferWrite, concatStrings, specRow, String.append_assoc, String.append_empty]

theorem printTypesRows_buffer (R : TypeFacts) (l : List TypeInfo) (out : String) :
    printTypesRows R bufferWrite l out = (none, out ++ concatStrings (l.map (specRow R))) := by
  induction l generalizing out with
  | nil => simp [printTypesRows, concatStrings]
  | cons i rest ih =>
    simp only [printTypesRows, printTypesRow_buffer, List.map_cons, concatStrings]
    rw [← String.append_assoc]
    exact ih (out ++ specRow R i)

/-- C25, as amended: on a writer that never fails, `PrintTypes` returns no error and
writes the two header lines and then one row for every descriptor of the concrete list,
in the order of the list, which is the order of registration. A row holds the Go type
name, the registered name, the Prefix as `0x` and eight upper-case hex digits, and the
size column; the size column is `0x` and the byte size of the type in upper-case hex for
the kinds array, int8, int16, int32, int64, float32, float64, complex64 and complex128,
and the string `variable` for every other kind, bool, int and the unsigned integers
among them. -/
theorem C25_table_of_registered_types (R : TypeFacts) (cdc : Codec) (out : String)
    (info : TypeInfo) :
    cdc.PrintTypes R bufferWrite out =
      (none, out ++ ("| Type | Name | Prefix | Length | Notes |\n" ++
        ("| ---- | ---- | ------ | ----- | ------ |\n" ++
          concatStrings ((cdc.concreteInfos.map cdc.deref).map (specRow R))))) ∧
    specRow R info =
      "| " ++ R.Name info.Typ ++ " | " ++ info.ConcreteInfo.Name ++ " | " ++ "0x" ++
        sprintfXBytes info.ConcreteInfo.Prefix.Bytes ++ " | " ++ getLengthStr R info ++
        " | " ++ " |\n" ∧
    (sprintfXBytes info.ConcreteInfo.Prefix.Bytes).length = 8 ∧
    (info.Typ.Kind ∈ [Kind.Array, .Int8, .Int16, .Int32, .Int64, .Float32, .Float64,
        .Complex64, .Complex128] →
      getLengthStr R info = "0x" ++ sprintfX (R.Size info.Typ)) ∧
    (info.Typ.Kind ∉ [Kind.Array, .Int8, .Int16, .Int32, .Int64, .Float32, .Float64,
        .Complex64, .Complex128] →
      getLengthStr R info = "variable") := by
  refine ⟨?_, rfl, ?_, ?_, ?_⟩
  · unfold Codec.PrintTypes
    simp only [writeChecked_buffer, printTypesRows_buffer, concatStrings, String.append_assoc,
      String.append_empty]
  · simp [sprintfXBytes, PrefixBytes.Bytes, String.length]
  · intro h
    unfold getLengthStr
    cases hk : info.Typ.Kind <;> simp_all
  · intro h
    unfold getLengthStr
    cases hk : info.Typ.Kind <;> simp_all

set_option maxRecDepth 4000 in
/-- C25 as stated fails: `MyInt32` is registered under `n` and `MyUint32`, an unsigned
integer of 4 bytes, under `m`. The row of `MyInt32` shows the size `0x4`, the row of
`MyUint32` shows `variable`. -/
theorem C25_counterexample :
    Reachable demoEnv demoCdcInts ∧
    (demoCdcInts.deref 1).Typ = .named "MyUint32" .Uint32 ∧
    (demoCdcInts.deref 1).ConcreteInfo.Registered = true ∧
    demoTypeFacts.Size (.named "MyUint32" .Uint32) = 4 ∧
    getLengthStr demoTypeFacts (demoCdcInts.deref 1) = "variable" ∧
    (demoCdcInts.PrintTypes demoTypeFacts bufferWrite "").1 = none ∧
    (demoCdcInts.PrintTypes demoTypeFacts bufferWrite "").2 =
      "| Type | Name | Prefix | Length | Notes |\n| ---- | ---- | ------ | ----- | ------ |\n| MyInt32 | n | 0xDF538BA1 | 0x4 |  |\n| MyUint32 | m | 0x7A5DD70C | variable |  |\n" :=
  ⟨Reachable.registerConcrete _ _ _ _ (Reachable.registerConcrete _ _ _ _ Reachable.newCodec),
   by decide, by decide, rfl, by decide, by decide, by decide⟩

/-! ## Padding and the symmetric cipher -/

theorem padding_bounds (n : Nat) (b : Int) (hb : 1 ≤ b) :
    1 ≤ b - (n : Int) % b ∧ b - (n : Int) % b ≤ b ∧ ((n : Int) + (b - (n : Int) % b)) % b = 0 := by
  have h0 : 0 ≤ (n : Int) % b := Int.emod_nonneg _ (by omega)
  have h1 : (n : Int) % b < b := Int.emod_lt_of_pos _ (by omega)
  refine ⟨by omega, by omega, ?_⟩
  have h2 : (n : Int) + (b - (n : Int) % b) = b * ((n : Int) / b + 1) := by
    have := Int.emod_add_ediv (n : Int) b
    rw [Int.mul_add]
    omega
  rw [h2]
  exact Int.mul_emod_right _ _

theorem PKCS5Padding_eq (p : List Byte) (b : Int) (hb1 : 1 ≤ b) (hb2 : b ≤ 255) :
    ∃ k : Nat, 1 ≤ k ∧ (k : Int) ≤ b ∧ ((p.length + k : Nat) : Int) % b = 0 ∧
      PKCS5Padding p b = .ok (p ++ List.replicate k (Fin.ofNat k)) := by
  obtain ⟨h1, h2, h3⟩ := padding_bounds p.length b hb1
  refine ⟨(b - (p.length : Int) % b).toNat, by omega, by omega, ?_, ?_⟩
  · have : (((p.length + (b - (p.length : Int) % b).toNat : Nat)) : Int) =
        (p.length : Int) + (b - (p.length : Int) % b) := by omega
    rw [this]; exact h3
  · unfold PKCS5Padding
    have hne : b ≠ 0 := by omega
    have hnn : ¬ (b - (p.length : Int) % b < 0) := by omega
    simp only [hne, if_false, hnn]
    have : (b - (p.length : Int) % b) % 256 = b - (p.length : Int) % b := by omega
    rw [this]

theorem PKCS5UnPadding_padded (p : List Byte) (k : Nat) (hk1 : 1 ≤ k) (hk2 : k ≤ 255) :
    PKCS5UnPadding (p ++ List.replicate k (Fin.ofNat k)) = .ok p := by
  obtain ⟨j, rfl⟩ : ∃ j, k = j + 1 := ⟨k - 1, by omega⟩
  have hval : (Fin.ofNat (j + 1) : Byte).val = j + 1 := by
    simp only [Fin.ofNat, Fin.val_mk]
    exact Nat.mod_eq_of_lt (by omega)
  have hlast : (p ++ List.replicate (j + 1) (Fin.ofNat (j + 1) : Byte)).getLast? =
      some (Fin.ofNat (j + 1)) := by
    rw [List.replicate_succ', ← List.append_assoc, List.getLast?_append]
    simp
  unfold PKCS5UnPadding
  simp only [hlast, hval, List.length_append, List.length_replicate]
  have h1 : ¬ (j + 1 > p.length + (j + 1)) := by omega
  simp only [h1, if_false]
  have h2 : p.length + (j + 1) - (j + 1) = p.length := by omega
  rw [h2, List.take_left']
  rfl

/-- C26: for every byte string `p`, the empty one included, and every block size `b`
with `1 ≤ b ≤ 255`, `PKCS5Padding(p, b)` returns a text whose length is a multiple of `b`
and exceeds the length of `p` by at least 1 and at most `b`, and `PKCS5UnPadding` of that
text returns `p` without error. Hence, for a key that `aes.NewCipher` accepts and a CBC
mode whose decrypter inverts its encrypter on texts made of full blocks,
`AesCipher.Encrypt(p, key)` returns a cipher text and `AesCipher.Decrypt` of it with the
same key returns `p`. -/
theorem C26_padding_roundtrip {C : Type} (L : CipherLib C) (p key : List Byte) (b : Int)
    (c : C) (hb : 1 ≤ b ∧ b ≤ 255) (hkey : L.NewCipher key = .ok c) (hL : L.Inverts c) :
    (∃ padded, PKCS5Padding p b = .ok padded ∧ (padded.length : Int) % b = 0 ∧
      p.length + 1 ≤ padded.length ∧ (padded.length : Int) ≤ p.length + b ∧
      PKCS5UnPadding padded = .ok p) ∧
    (∃ cipherText, AesCipher.Encrypt L p key = .ok cipherText ∧
      AesCipher.Decrypt L cipherText key = .ok p) := by
  refine ⟨?_, ?_⟩
  · obtain ⟨k, hk1, hk2, hmod, hpad⟩ := PKCS5Padding_eq p b hb.1 hb.2
    refine ⟨_, hpad, ?_, ?_, ?_, PKCS5UnPadding_padded p k hk1 (by omega)⟩
    · simpa using hmod
    · simp; omega
    · simp; omega
  · obtain ⟨hb1, hb2, hinv⟩ := hL
    obtain ⟨k, hk1, hk2, hmod, hpad⟩ := PKCS5Padding_eq p (L.BlockSize c) hb1 hb2
    obtain ⟨y, hy1, hy2⟩ := hinv CommonIV (p ++ List.replicate k (Fin.ofNat k))
      (by simpa using hmod)
    refine ⟨y, ?_, ?_⟩
    · simp only [AesCipher.Encrypt, hkey, hpad, hy1]
    · simp only [AesCipher.Decrypt, hkey, hy2]
      exact PKCS5UnPadding_padded p k hk1 (by omega)

/-- The text `01 02 03` and the block size 16 of the cipher of the examples, with a key
of 32 bytes `05`: the padded text has 16 bytes, and decryption returns the text. -/
theorem C26_padding_roundtrip_witness :
    PKCS5Padding [1, 2, 3] 16 =
      .ok [1, 2, 3, 13, 13, 13, 13, 13, 13, 13, 13, 13, 13, 13, 13, 13] ∧
    (∃ padded, PKCS5Padding [1, 2, 3] 16 = .ok padded ∧ (padded.length : Int) % 16 = 0 ∧
      [1, 2, (3 : Byte)].length + 1 ≤ padded.length ∧
      (padded.length : Int) ≤ [1, 2, (3 : Byte)].length + 16 ∧
      PKCS5UnPadding padded = .ok [1, 2, 3]) ∧
    (∃ cipherText, AesCipher.Encrypt demoCipherLib [1, 2, 3] (List.replicate 32 5) =
        .ok cipherText ∧
      AesCipher.Decrypt demoCipherLib cipherText (List.replicate 32 5) = .ok [1, 2, 3]) :=
  ⟨rfl,
   C26_padding_roundtrip demoCipherLib [1, 2, 3] (List.replicate 32 5) 16 5 (by decide) rfl
     ⟨by decide, by decide, fun iv x hx => ⟨x.map (· + 5), by
        have h16 : x.length % 16 = 0 := by
          have : ((x.length : Int) % 16) = ((x.length % 16 : Nat) : Int) := by omega
          simp only [demoCipherLib] at hx
          omega
        have hid : ((fun b : Byte => b - 5) ∘ fun b => b + 5) = id := by
          funext b; simp [Function.comp]
        simp [demoCipherLib, h16, hid]⟩⟩⟩

/-! ## The escrow of the symmetric key -/

/-- C27: over a commutative group of points with a ring of scalars and faithful
encodings, for every regulator key pair `(x, Y)` with `Y = x • G` and every result
`(k, C1, C2, symk)` of `GenerateAndEncryptSymmetricKey(Y)`, where `C1 = k • G`,
`C2 = M + k • Y` and `symk` encodes the point `M`: `GetSymmetricKeyWithK(C2, Y, k)`
and `GetSymmetricKeyWithX(C1, C2, x)` both return `symk`, without error. -/
theorem C27_escrow_roundtrip {S P : Type} [CommRing S] [AddCommGroup P] [Module S P]
    (L : CurveLib S P) (x seed k : S) (hL : L.Faithful) :
    ∃ kBytes C1 C2 symk,
      GenerateAndEncryptSymmetricKey L seed k (GenerateRegulationKey L x).2 =
        .ok (kBytes, C1, C2, symk) ∧
      C1 = L.PointBytes (k • L.base) ∧
      C2 = L.PointBytes (seed • L.base + k • (x • L.base)) ∧
      symk = L.PointBytes (seed • L.base) ∧
      GetSymmetricKeyWithK L C2 (GenerateRegulationKey L x).2 kBytes = .ok symk ∧
      GetSymmetricKeyWithX L C1 C2 (GenerateRegulationKey L x).1 = .ok symk := by
  obtain ⟨hP, hS⟩ := hL
  refine ⟨L.ScalarBytes k, _, _, _, ?_, rfl, rfl, rfl, ?_, ?_⟩
  · simp only [GenerateAndEncryptSymmetricKey, GenerateRegulationKey, hP]
  · simp only [GetSymmetricKeyWithK, GenerateRegulationKey, hP, hS, add_sub_cancel_right]
  · simp only [GetSymmetricKeyWithX, GenerateRegulationKey, hP, hS]
    rw [smul_comm x k L.base, add_sub_cancel_right]

/-- The group of the integers modulo 7 with the base point 1: the key pair of `x = 3`,
the point `M = 2` and `k = 5` give `C1 = 5` and `C2 = 3`, and both ways of recovery
return the encoding of `M`. -/
theorem C27_escrow_roundtrip_witness :
    demoCurveLib.Faithful ∧
    GenerateRegulationKey demoCurveLib 3 = ([3], [3]) ∧
    GenerateAndEncryptSymmetricKey demoCurveLib 2 5 [3] = .ok ([5], [5], [3], [2]) ∧
    GetSymmetricKeyWithK demoCurveLib [3] [3] [5] = .ok [2] ∧
    GetSymmetricKeyWithX demoCurveLib [5] [3] [3] = .ok [2] ∧
    ∃ kBytes C1 C2 symk,
      GenerateAndEncryptSymmetricKey demoCurveLib 2 5 (GenerateRegulationKey demoCurveLib 3).2 =
        .ok (kBytes, C1, C2, symk) ∧
      C1 = demoCurveLib.PointBytes ((5 : ZMod 7) • demoCurveLib.base) ∧
      C2 = demoCurveLib.PointBytes ((2 : ZMod 7) • demoCurveLib.base +
        (5 : ZMod 7) • ((3 : ZMod 7) • demoCurveLib.base)) ∧
      symk = demoCurveLib.PointBytes ((2 : ZMod 7) • demoCurveLib.base) ∧
      GetSymmetricKeyWithK demoCurveLib C2 (GenerateRegulationKey demoCurveLib 3).2 kBytes =
        .ok symk ∧
      GetSymmetricKeyWithX demoCurveLib C1 C2 (GenerateRegulationKey demoCurveLib 3).1 =
        .ok symk :=
  ⟨⟨by decide, by decide⟩, rfl, rfl, rfl, rfl,
   C27_escrow_roundtrip demoCurveLib 3 2 5 ⟨by decide, by decide⟩⟩

/-! ## The values of a signature -/

/-- C28: with `N` the order of the secp256k1 group. For `v` 0 or 1,
`ValidateSignatureValues(v, r, s, homestead)` is true exactly when `1 ≤ r < N`,
`1 ≤ s < N` and, when `homestead` is set, `s ≤ N / 2` rounded down; for every other `v`
it is true exactly when `r ≥ 1`, `s ≥ 1` and `v` is 8 or 9. -/
theorem C28_validate_signature_values (v : Byte) (r s : Int) (homestead : Bool) :
    ((v = 0 ∨ v = 1) →
      (ValidateSignatureValues v r s homestead = true ↔
        1 ≤ r ∧ r < secp256k1N ∧ 1 ≤ s ∧ s < secp256k1N ∧
          (homestead = true → s ≤ secp256k1N / 2))) ∧
    (¬ (v = 0 ∨ v = 1) →
      (ValidateSignatureValues v r s homestead = true ↔ 1 ≤ r ∧ 1 ≤ s ∧ (v = 8 ∨ v = 9))) ∧
    secp256k1N = 115792089237316195423570985008687907852837564279074904382605163141518161494337 ∧
    secp256k1N / 2 = 57896044618658097711785492504343953926418782139537452191302581570759080747168 := by
  have hhalf : secp256k1N / 2 = secp256k1halfN := rfl
  refine ⟨?_, ?_, by decide, by decide⟩
  · intro hv
    rw [hhalf]
    unfold ValidateSignatureValues
    by_cases h1 : r < 1 ∨ s < 1
    · simp only [h1, if_true, Bool.false_eq_true, false_iff]
      omega
    · simp only [h1, if_false, hv, if_true]
      by_cases h2 : homestead = true ∧ s > secp256k1halfN
      · simp only [h2, and_self, if_true, Bool.false_eq_true, false_iff]
        intro h
        have := h.2.2.2.2 trivial
        omega
      · simp only [h2, if_false, Bool.and_eq_true, decide_eq_true_eq, decide_True, and_true]
        constructor
        · intro h
          refine ⟨by omega, h.1, by omega, h.2, ?_⟩
          intro hh
          by_contra hc
          exact h2 ⟨hh, by omega⟩
        · intro h
          exact ⟨h.2.1, h.2.2.2.1⟩
  · intro hv
    unfold ValidateSignatureValues
    by_cases h1 : r < 1 ∨ s < 1
    · simp only [h1, if_true, Bool.false_eq_true, false_iff]
      omega
    · simp only [h1, if_false, hv, decide_eq_true_eq, SM2Magic]
      constructor
      · intro h
        exact ⟨by omega, by omega, h⟩
      · intro h
        exact h.2.2

/-! ## The signers -/

/-- C29: for every signature `sig` of 65 bytes in the format `R ‖ S ‖ V` with `sig[64]`
0 or 1. `SignatureValues` of the signer `NewSTDEIP155Signer(c)` returns `R` and `S` as
the big-endian integers of `sig[0:32]` and `sig[32:64]`, and `V = sig[64] + 35 + 2c`
when `c` is not zero and `V = sig[64] + 27` when `c` is zero, a nil `c` counting as
zero; the Frontier and the Homestead signer return the same `R` and `S` and
`V = sig[64] + 27`. For a signature whose length is not 65 all three panic. -/
theorem C29_signature_values (sig : List Byte) (c : Option Int)
    (hlen : sig.length = 65) (hv : sig.getD 64 0 = 0 ∨ sig.getD 64 0 = 1) :
    (NewSTDEIP155Signer c).SignatureValues sig =
      .ok (bigSetBytes (sig.take 32), bigSetBytes ((sig.drop 32).take 32),
        if c.getD 0 ≠ 0 then ((sig.getD 64 0).val : Int) + 35 + 2 * c.getD 0
        else ((sig.getD 64 0).val : Int) + 27) ∧
    STDFrontierSigner.SignatureValues sig =
      .ok (bigSetBytes (sig.take 32), bigSetBytes ((sig.drop 32).take 32),
        ((sig.getD 64 0).val : Int) + 27) ∧
    STDHomesteadSigner.SignatureValues sig =
      .ok (bigSetBytes (sig.take 32), bigSetBytes ((sig.drop 32).take 32),
        ((sig.getD 64 0).val : Int) + 27) ∧
    (∀ bad : List Byte, bad.length ≠ 65 →
      (NewSTDEIP155Signer c).SignatureValues bad = .panic (.wrongSignatureSize bad.length) ∧
      STDFrontierSigner.SignatureValues bad = .panic (.wrongSignatureSize bad.length) ∧
      STDHomesteadSigner.SignatureValues bad = .panic (.wrongSignatureSize bad.length)) := by
  have hF : STDFrontierSigner.SignatureValues sig =
      .ok (bigSetBytes (sig.take 32), bigSetBytes ((sig.drop 32).take 32),
        ((sig.getD 64 0).val : Int) + 27) := by
    unfold STDFrontierSigner.SignatureValues
    simp only [hlen, ne_eq, not_true_eq_false, if_false]
    rcases hv with h | h <;> rw [h] <;> rfl
  have h35 : (((sig.getD 64 0 + 35 : Byte)).val : Int) = ((sig.getD 64 0).val : Int) + 35 := by
    rcases hv with h | h <;> rw [h] <;> rfl
  refine ⟨?_, hF, hF, ?_⟩
  · unfold STDEIP155Signer.SignatureValues STDHomesteadSigner.SignatureValues
    rw [hF]
    cases c with
    | none => simp [NewSTDEIP155Signer]
    | some c0 =>
      by_cases hc : c0 = 0
      · simp [NewSTDEIP155Signer, hc]
      · simp only [NewSTDEIP155Signer, ne_eq, hc, not_false_eq_true, if_true, h35, Option.getD_some]
        rw [Int.mul_comm]
  · intro bad hbad
    have hFb : STDFrontierSigner.SignatureValues bad = .panic (.wrongSignatureSize bad.length) := by
      unfold STDFrontierSigner.SignatureValues
      simp only [ne_eq, hbad, not_false_eq_true, if_true]
    refine ⟨?_, hFb, hFb⟩
    unfold STDEIP155Signer.SignatureValues STDHomesteadSigner.SignatureValues
    rw [hFb]

/-- The signature of 64 bytes `00` followed by `01`, with the signers of `c = 3`, of
`c = 0` and of a nil `c`, and the Frontier signer. -/
theorem C29_signature_values_witness :
    (NewSTDEIP155Signer (some 3)).SignatureValues (List.replicate 64 0 ++ [1]) =
      .ok (0, 0, 42) ∧
    (NewSTDEIP155Signer (some 0)).SignatureValues (List.replicate 64 0 ++ [1]) =
      .ok (0, 0, 28) ∧
    (NewSTDEIP155Signer none).SignatureValues (List.replicate 64 0 ++ [1]) = .ok (0, 0, 28) ∧
    STDFrontierSigner.SignatureValues (List.replicate 64 0 ++ [1]) = .ok (0, 0, 28) ∧
    STDFrontierSigner.SignatureValues [1, 2] = .panic (.wrongSignatureSize 2) :=
  ⟨(C29_signature_values (List.replicate 64 0 ++ [1]) (some 3) (by decide) (Or.inr (by decide))).1,
   (C29_signature_values (List.replicate 64 0 ++ [1]) (some 0) (by decide) (Or.inr (by decide))).1,
   (C29_signature_values (List.replicate 64 0 ++ [1]) none (by decide) (Or.inr (by decide))).1,
   (C29_signature_values (List.replicate 64 0 ++ [1]) none (by decide) (Or.inr (by decide))).2.1,
   ((C29_signature_values (List.replicate 64 0 ++ [1]) none (by decide) (Or.inr (by decide))).2.2.2
      [1, 2] (by decide)).2.1⟩

/-! ## Goroutines and the lock of the catalog -/

theorem registerInterface_eq_body (env : Env) (ro : RangeOrder) (cdc : Codec) (ptr : RType)
    (iopts : Option InterfaceOptions) :
    cdc.RegisterInterface env ro ptr iopts =
      match cdc.assertNotSealed with
      | some e => (some e, cdc)
      | none => cdc.registerInterfaceBody env ro ptr iopts := rfl

theorem registerConcrete_eq_body (env : Env) (ro : RangeOrder) (cdc : Codec) (o : RType)
    (name : String) :
    cdc.RegisterConcrete env ro o name =
      match cdc.assertNotSealed with
      | some e => (some e, cdc)
      | none => cdc.registerConcreteBody env ro o name := rfl

/-- A goroutine that runs alone does what the call does: the two steps of a
registration are the call of `RegisterInterface`. -/
theorem run_alone_registerInterface (env : Env) (ro : RangeOrder) (cdc : Codec) (ptr : RType)
    (iopts : Option InterfaceOptions) :
    (Sys.run env ro ⟨cdc, [.start (.registerInterface ptr iopts)]⟩ [0, 0]).cdc =
      (cdc.RegisterInterface env ro ptr iopts).2 ∧
    (Sys.run env ro ⟨cdc, [.start (.registerInterface ptr iopts)]⟩ [0, 0]).goroutines =
      [.returned (registrationResult (cdc.RegisterInterface env ro ptr iopts).1)] := by
  rw [registerInterface_eq_body]
  cases h : cdc.assertNotSealed with
  | some e => simp [Sys.run, Sys.step, Goroutine.step, h, registrationResult]
  | none => simp [Sys.run, Sys.step, Goroutine.step, h]

theorem registerInterfaceBody_sealed (env : Env) (ro : RangeOrder) (cdc : Codec) (ptr : RType)
    (iopts : Option InterfaceOptions) :
    (cdc.registerInterfaceBody env ro ptr iopts).2.sealed = cdc.sealed := by
  unfold Codec.registerInterfaceBody
  split
  · rfl
  · split_ifs
    · rfl
    · split
      · rfl
      · rename_i info hinfo
        have hs1 := sameButImpl_collect env (cdc.alloc info).2 (cdc.alloc info).1
        have hs2 := sameButImpl_check ro
          ((cdc.alloc info).2.collectImplementersNolock env (cdc.alloc info).1) (cdc.alloc info).1
        simp only
        split
        · rename_i err cdc3 heq
          rw [heq] at hs2; rw [hs2.1, hs1.1]; rfl
        · rename_i cdc3 heq
          rw [heq] at hs2
          rw [setTypeInfoNoLock_sealed, hs2.1, hs1.1]; rfl

/-- C30 fails in the code: the sealed check of a registration and its commit are two
critical sections. For every unsealed catalog and every call of `RegisterInterface`, in
the interleaving in which the registering goroutine passes `assertNotSealed`, then a
second goroutine calls `Seal` and returns, then the registering goroutine goes on: after
the second step `Seal` has returned, the flag is set and the catalog is otherwise as it
was; the third step then runs conflict check and commit on the sealed catalog and ends
as they end, where the same call made after `Seal` panics with "codec sealed" and
changes nothing. -/
theorem C30_registration_commits_after_seal (env : Env) (ro : RangeOrder) (cdc : Codec)
    (ptr : RType) (iopts : Option InterfaceOptions) (h : cdc.sealed = false) :
    Sys.run env ro ⟨cdc, [.start (.registerInterface ptr iopts), .start .sealCall]⟩ [0, 1] =
      ⟨cdc.Seal, [.checked (.registerInterface ptr iopts), .returned (.ok none)]⟩ ∧
    Sys.run env ro ⟨cdc, [.start (.registerInterface ptr iopts), .start .sealCall]⟩ [0, 1, 0] =
      ⟨(cdc.Seal.registerInterfaceBody env ro ptr iopts).2,
        [.returned (registrationResult (cdc.Seal.registerInterfaceBody env ro ptr iopts).1),
         .returned (.ok none)]⟩ ∧
    (cdc.Seal.registerInterfaceBody env ro ptr iopts).2.sealed = true ∧
    cdc.Seal.RegisterInterface env ro ptr iopts = (some .codecSealed, cdc.Seal) := by
  have ha : cdc.assertNotSealed = none := by simp [Codec.assertNotSealed, h]
  refine ⟨?_, ?_, ?_, registerInterface_of_sealed env ro cdc.Seal rfl ptr iopts⟩
  · simp [Sys.run, Sys.step, Goroutine.step, ha]
  · simp [Sys.run, Sys.step, Goroutine.step, ha]
  · rw [registerInterfaceBody_sealed]; rfl

/-- The empty catalog, one goroutine that registers `Foo` and one that calls `Seal`:
after `Seal` has returned the catalog is sealed and does not hold `Foo`; after the next
step of the registering goroutine the catalog is sealed and holds `Foo`, and the
registration has returned without a panic. -/
theorem C30_registration_commits_after_seal_witness :
    (Sys.run demoEnv .inOrder
        ⟨NewCodec, [.start (.registerInterface (.ptr demoFoo) none), .start .sealCall]⟩
        [0, 1]).goroutines =
      [.checked (.registerInterface (.ptr demoFoo) none), .returned (.ok none)] ∧
    (Sys.run demoEnv .inOrder
        ⟨NewCodec, [.start (.registerInterface (.ptr demoFoo) none), .start .sealCall]⟩
        [0, 1]).cdc.sealed = true ∧
    (Sys.run demoEnv .inOrder
        ⟨NewCodec, [.start (.registerInterface (.ptr demoFoo) none), .start .sealCall]⟩
        [0, 1]).cdc.getRegistedTypeInfoWLock demoFoo = none ∧
    (Sys.run demoEnv .inOrder
        ⟨NewCodec, [.start (.registerInterface (.ptr demoFoo) none), .start .sealCall]⟩
        [0, 1, 0]).goroutines = [.returned (.ok none), .returned (.ok none)] ∧
    (Sys.run demoEnv .inOrder
        ⟨NewCodec, [.start (.registerInterface (.ptr demoFoo) none), .start .sealCall]⟩
        [0, 1, 0]).cdc.sealed = true ∧
    (Sys.run demoEnv .inOrder
        ⟨NewCodec, [.start (.registerInterface (.ptr demoFoo) none), .start .sealCall]⟩
        [0, 1, 0]).cdc.getRegistedTypeInfoWLock demoFoo = some 0 ∧
    (Sys.run demoEnv .inOrder
        ⟨NewCodec, [.start (.registerInterface (.ptr demoFoo) none), .start .sealCall]⟩
        [1, 0, 0]).goroutines = [.returned (.panic .codecSealed), .returned (.ok none)] :=
  ⟨by rw [(C30_registration_commits_after_seal demoEnv .inOrder NewCodec (.ptr demoFoo) none
      rfl).1],
   by decide, by decide, by decide, by decide, by decide, by decide⟩

/-! ## C34: lists that are written unpacked -/

theorem typeToTyp3_congr (rt : RType) (a b : FieldOptions) (h64 : a.BinFixed64 = b.BinFixed64)
    (h32 : a.BinFixed32 = b.BinFixed32) : typeToTyp3 rt a = typeToTyp3 rt b := by
  unfold typeToTyp3
  rw [h64, h32]

/-- Every entry that the loop of `parseStructInfo` appends comes from a declared field:
it has the type of the field, the options that `parseFieldOptions` read from its tags,
up to the field number, and the `UnpackedList` that the loop body computed from them. -/
theorem parseStructFields_mem (env : Env) (fields : List StructField) :
    ∀ (i : Nat) (acc out : List FieldInfo),
      parseStructFields env fields i acc = .ok out →
      ∀ fi ∈ out, fi ∈ acc ∨ ∃ f ∈ fields, fi.Typ = f.Typ ∧
        unpackedListOf f.Typ (parseFieldOptions f).2 = .ok fi.UnpackedList ∧
        fi.FieldOptions.BinFixed64 = (parseFieldOptions f).2.BinFixed64 ∧
        fi.FieldOptions.BinFixed32 = (parseFieldOptions f).2.BinFixed32 := by
  induction fields with
  | nil =>
    intro i acc out h fi hfi
    simp only [parseStructFields, Except.ok.injEq] at h
    subst h
    exact Or.inl hfi
  | cons f rest ih =>
    intro i acc out h fi hfi
    have lift : (fi ∈ acc ∨ ∃ g ∈ rest, fi.Typ = g.Typ ∧
        unpackedListOf g.Typ (parseFieldOptions g).2 = .ok fi.UnpackedList ∧
        fi.FieldOptions.BinFixed64 = (parseFieldOptions g).2.BinFixed64 ∧
        fi.FieldOptions.BinFixed32 = (parseFieldOptions g).2.BinFixed32) →
        (fi ∈ acc ∨ ∃ g ∈ f :: rest, fi.Typ = g.Typ ∧
        unpackedListOf g.Typ (parseFieldOptions g).2 = .ok fi.UnpackedList ∧
        fi.FieldOptions.BinFixed64 = (parseFieldOptions g).2.BinFixed64 ∧
        fi.FieldOptions.BinFixed32 = (parseFieldOptions g).2.BinFixed32) := by
      rintro (h1 | ⟨g, hg, h2⟩)
      · exact Or.inl h1
      · exact Or.inr ⟨g, List.mem_cons_of_mem _ hg, h2⟩
    unfold parseStructFields at h
    by_cases hex : isExported env f = true
    · cases hs : (parseFieldOptions f).1 with
      | true =>
        simp only [hex, Bool.not_true, Bool.false_eq_true, if_false, hs, if_true] at h
        exact lift (ih (i + 1) acc out h fi hfi)
      | false =>
        simp only [hex, Bool.not_true, Bool.false_eq_true, if_false, hs] at h
        cases hu : unpackedListOf f.Typ (parseFieldOptions f).2 with
        | error e => rw [hu] at h; cases h
        | ok unpacked =>
          rw [hu] at h
          simp only at h
          split at h
          · cases h
          · rcases ih (i + 1) _ out h fi hfi with h1 | h1
            · rcases List.mem_append.mp h1 with h2 | h2
              · exact Or.inl h2
              · right
                rw [List.mem_singleton.mp h2]
                exact ⟨f, by simp, rfl, hu, rfl, rfl⟩
            · exact lift (Or.inr h1)
    · have hex1 : isExported env f = false := by simpa using hex
      simp only [hex1, Bool.not_false, if_true] at h
      exact lift (ih (i + 1) acc out h fi hfi)

theorem unpackedListOf_true (ftype : RType) (fopts : FieldOptions) (b : Bool)
    (h : unpackedListOf ftype fopts = .ok b) :
    b = true ↔ ∃ elem, ((∃ n, ftype = .array n elem) ∨ ftype = .slice elem) ∧
      elem.Kind ≠ .Uint8 ∧ typeToTyp3 (derefPointersType elem) fopts = .ok .Typ3_ByteLength := by
  have key : ∀ elem, (ftype = .slice elem ∨ ∃ n, ftype = .array n elem) →
      (if elem.Kind = .Uint8 then Except.ok false
        else (typeToTyp3 (derefPointersType elem) fopts).map fun typ3 =>
          decide (typ3 = .Typ3_ByteLength)) = .ok b →
      (b = true ↔ ∃ elem, ((∃ n, ftype = .array n elem) ∨ ftype = .slice elem) ∧
        elem.Kind ≠ .Uint8 ∧
        typeToTyp3 (derefPointersType elem) fopts = .ok .Typ3_ByteLength) := by
    intro elem hty h
    have huniq : ∀ e2, ((∃ n, ftype = .array n e2) ∨ ftype = .slice e2) → e2 = elem := by
      intro e2 h2
      rcases hty with h1 | ⟨n, h1⟩ <;> rcases h2 with ⟨m, h2⟩ | h2 <;> rw [h1] at h2 <;>
        cases h2 <;> rfl
    have hty2 : (∃ n, ftype = .array n elem) ∨ ftype = .slice elem := by
      rcases hty with h1 | h1
      · exact Or.inr h1
      · exact Or.inl h1
    by_cases hk : elem.Kind = .Uint8
    · simp only [hk, if_true, Except.ok.injEq] at h
      subst h
      constructor
      · intro hf; cases hf
      · rintro ⟨e2, h2, hne, _⟩
        rw [huniq e2 h2] at hne
        exact absurd hk hne
    · simp only [hk, if_false] at h
      cases ht : typeToTyp3 (derefPointersType elem) fopts with
      | error e => rw [ht] at h; cases h
      | ok typ3 =>
        rw [ht] at h
        simp only [Except.map, Except.ok.injEq] at h
        subst h
        constructor
        · intro hd
          have := of_decide_eq_true hd
          subst this
          exact ⟨elem, hty2, hk, ht⟩
        · rintro ⟨e2, h2, _, h3⟩
          rw [huniq e2 h2, ht] at h3
          injection h3 with h3
          simp [h3]
  cases ftype with
  | named name k =>
    simp only [unpackedListOf, Except.ok.injEq] at h
    subst h
    constructor
    · intro hf; cases hf
    · rintro ⟨e2, ⟨n, h2⟩ | h2, _⟩ <;> cases h2
  | ptr e =>
    simp only [unpackedListOf, Except.ok.injEq] at h
    subst h
    constructor
    · intro hf; cases hf
    · rintro ⟨e2, ⟨n, h2⟩ | h2, _⟩ <;> cases h2
  | array n elem => exact key elem (Or.inr ⟨n, rfl⟩) h
  | slice elem => exact key elem (Or.inl rfl) h

/-- C34: for every entry of the list that `parseStructInfo` returns, `UnpackedList` is
set exactly when the type of the field is an array or a slice whose element kind is not
`uint8` and `typeToTyp3` of the element type, all pointer levels removed, under the
options of the entry, is `Typ3_ByteLength`. It is not set for an array or slice of
bytes, nor for a field that is neither an array nor a slice. -/
theorem C34_unpacked_list_flag (env : Env) (rt : RType) (infos : List FieldInfo)
    (hok : parseStructInfo env rt = .ok infos) (fi : FieldInfo) (hfi : fi ∈ infos) :
    (fi.UnpackedList = true ↔
      ∃ elem, ((∃ n, fi.Typ = .array n elem) ∨ fi.Typ = .slice elem) ∧
        elem.Kind ≠ .Uint8 ∧
        typeToTyp3 (derefPointersType elem) fi.FieldOptions = .ok .Typ3_ByteLength) ∧
    (∀ elem, ((∃ n, fi.Typ = .array n elem) ∨ fi.Typ = .slice elem) →
      elem.Kind = .Uint8 → fi.UnpackedList = false) ∧
    (fi.Typ.Kind ≠ .Array → fi.Typ.Kind ≠ .Slice → fi.UnpackedList = false) := by
  unfold parseStructInfo at hok
  split_ifs at hok with hk
  rcases parseStructFields_mem env (env.fields rt) 0 [] infos hok fi hfi with h | h
  · simp at h
  obtain ⟨f, _, hty, hu, h64, h32⟩ := h
  rw [← hty] at hu
  have hiff := unpackedListOf_true fi.Typ (parseFieldOptions f).2 fi.UnpackedList hu
  have hcongr : ∀ elem, typeToTyp3 (derefPointersType elem) fi.FieldOptions =
      typeToTyp3 (derefPointersType elem) (parseFieldOptions f).2 :=
    fun elem => typeToTyp3_congr _ _ _ h64 h32
  have h1 : fi.UnpackedList = true ↔
      ∃ elem, ((∃ n, fi.Typ = .array n elem) ∨ fi.Typ = .slice elem) ∧
        elem.Kind ≠ .Uint8 ∧
        typeToTyp3 (derefPointersType elem) fi.FieldOptions = .ok .Typ3_ByteLength := by
    rw [hiff]
    constructor
    · rintro ⟨e, a, b, c⟩; exact ⟨e, a, b, by rw [hcongr]; exact c⟩
    · rintro ⟨e, a, b, c⟩; exact ⟨e, a, b, by rw [← hcongr]; exact c⟩
  refine ⟨h1, ?_, ?_⟩
  · intro elem hty2 hk8
    cases hb : fi.UnpackedList with
    | false => rfl
    | true =>
      obtain ⟨e2, h2, hne, _⟩ := h1.mp hb
      exfalso
      apply hne
      rcases hty2 with ⟨n, h3⟩ | h3 <;> rcases h2 with ⟨m, h4⟩ | h4 <;> rw [h3] at h4 <;>
        cases h4 <;> exact hk8
  · intro ha hs
    cases hb : fi.UnpackedList with
    | false => rfl
    | true =>
      obtain ⟨e2, h2, _, _⟩ := h1.mp hb
      exfalso
      rcases h2 with ⟨n, h4⟩ | h4
      · rw [h4] at ha; exact ha rfl
      · rw [h4] at hs; exact hs rfl

/-- The struct `L{Names []string; Raw []byte; Nums []int64; Ptrs [2]*S; N int}`: the
flag is set for `Names` and `Ptrs` and for no other field; the theorem is applied to the
entry of `Names`. -/
theorem C34_unpacked_list_flag_witness :
    (∃ infos, parseStructInfo demoListEnv demoListStruct = .ok infos ∧
      infos.map (fun fi => (fi.Name, fi.UnpackedList)) =
        [("Names", true), ("Raw", false), ("Nums", false), ("Ptrs", true), ("N", false)]) ∧
    ∃ elem, ((∃ n, RType.slice (.named "string" .String) = .array n elem) ∨
        RType.slice (.named "string" .String) = .slice elem) ∧
      elem.Kind ≠ .Uint8 ∧
      typeToTyp3 (derefPointersType elem) ⟨"Names", false, false, false, 1, false⟩ =
        .ok .Typ3_ByteLength :=
  ⟨⟨_, rfl, rfl⟩,
   (C34_unpacked_list_flag demoListEnv demoListStruct
      [⟨"Names", .slice (.named "string" .String), 0, true, ⟨"Names", false, false, false, 1, false⟩⟩,
       ⟨"Raw", .slice (.named "uint8" .Uint8), 1, false, ⟨"Raw", false, false, false, 2, false⟩⟩,
       ⟨"Nums", .slice (.named "int64" .Int64), 2, false, ⟨"Nums", false, false, false, 3, false⟩⟩,
       ⟨"Ptrs", .array 2 (.ptr (.named "S" .Struct)), 3, true, ⟨"Ptrs", false, false, false, 4, false⟩⟩,
       ⟨"N", .named "int" .Int, 4, false, ⟨"N", false, false, false, 5, false⟩⟩]
      rfl
      ⟨"Names", .slice (.named "string" .String), 0, true, ⟨"Names", false, false, false, 1, false⟩⟩
      (by simp)).1.mp rfl⟩

/-! ## C35: the options read from the tags of a field -/

theorem splitComma_eq (s : List Char) :
    splitComma s = specBeforeComma s ::
      (if ',' ∈ s then splitComma ((s.dropWhile (· ≠ ',')).drop 1) else []) := by
  induction s with
  | nil => simp [splitComma, specBeforeComma]
  | cons c cs ih =>
    obtain ⟨p, ps, hp⟩ : ∃ p ps, splitComma cs = p :: ps := ⟨_, _, ih⟩
    by_cases hc : c = ','
    · subst hc
      have e1 : specBeforeComma (',' :: cs) = [] := by simp [specBeforeComma]
      have e2 : ((',' :: cs).dropWhile (· ≠ ',')).drop 1 = cs := by simp
      rw [e1, e2, splitComma, hp]
      simp
    · have hc2 : ¬ ',' = c := fun h => hc h.symm
      have e1 : specBeforeComma (c :: cs) = c :: specBeforeComma cs := by
        simp [specBeforeComma, hc]
      have e2 : (c :: cs).dropWhile (· ≠ ',') = cs.dropWhile (· ≠ ',') := by simp [hc]
      rw [e1, e2, splitComma, hp]
      rw [hp] at ih
      simp only [hc, if_false]
      injection ih with h1 h2
      rw [h1, h2]
      by_cases hm : ',' ∈ cs <;> simp [hm, hc2]

theorem parseFieldOptions_omitEmpty (f : StructField) (h : tagGet f.Tag "json" ≠ "-") :
    (parseFieldOptions f).2.JSONOmitEmpty =
      decide ((specSecondPart (tagGet f.Tag "json").data).map String.mk = some "omitempty") := by
  simp only [parseFieldOptions, h, if_false]
  rw [splitComma_eq (tagGet f.Tag "json").data]
  unfold specSecondPart
  by_cases hc : ',' ∈ (tagGet f.Tag "json").data
  · simp only [hc, if_true]
    rw [splitComma_eq (((tagGet f.Tag "json").data.dropWhile (· ≠ ',')).drop 1)]
    simp only [List.map_cons, Option.map_some', Option.some.injEq]
  · simp [hc]

/-- C35: `parseFieldOptions` reports skip exactly when the json tag is `-`, and then
returns the zero options. Otherwise `JSONName` is the text of the json tag before its
first comma, or the name of the field when that text is empty; `JSONOmitEmpty` is set
exactly when the json tag has a second comma-separated part and that part is
`omitempty`; `BinFixed64` is set exactly when the binary tag is `fixed64` and
`BinFixed32` exactly when it is `fixed32`, so that they are never both set; `Unsafe` is
set exactly when the amino tag is `unsafe`; the field number is left at zero. -/
theorem C35_field_options_from_tags (f : StructField) :
    ((parseFieldOptions f).1 = true ↔ tagGet f.Tag "json" = "-") ∧
    (tagGet f.Tag "json" = "-" → (parseFieldOptions f).2 = FieldOptions.zero) ∧
    (tagGet f.Tag "json" ≠ "-" →
      (parseFieldOptions f).2.JSONName =
        (if specBeforeComma (tagGet f.Tag "json").data = [] then f.Name
         else String.mk (specBeforeComma (tagGet f.Tag "json").data)) ∧
      ((parseFieldOptions f).2.JSONOmitEmpty = true ↔
        (specSecondPart (tagGet f.Tag "json").data).map String.mk = some "omitempty") ∧
      ((parseFieldOptions f).2.BinFixed64 = true ↔ tagGet f.Tag "binary" = "fixed64") ∧
      ((parseFieldOptions f).2.BinFixed32 = true ↔ tagGet f.Tag "binary" = "fixed32") ∧
      ((parseFieldOptions f).2.Unsafe = true ↔ tagGet f.Tag "amino" = "unsafe") ∧
      (parseFieldOptions f).2.BinFieldNum = 0) ∧
    ¬ ((parseFieldOptions f).2.BinFixed64 = true ∧ (parseFieldOptions f).2.BinFixed32 = true) := by
  refine ⟨?_, ?_, ?_, ?_⟩
  · rw [parseFieldOptions_skip]; simp
  · intro h
    simp [parseFieldOptions, h]
  · intro h
    have hhead := splitComma_eq (tagGet f.Tag "json").data
    refine ⟨?_, ?_, ?_, ?_, ?_, ?_⟩
    · simp only [parseFieldOptions, h, if_false]
      rw [hhead]
      simp only [List.map_cons, List.headD_cons]
      by_cases he : specBeforeComma (tagGet f.Tag "json").data = []
      · simp [he]
      · have : String.mk (specBeforeComma (tagGet f.Tag "json").data) ≠ "" := by
          intro hh
          apply he
          have := congrArg String.data hh
          simpa using this
        simp [he, this]
    · rw [parseFieldOptions_omitEmpty f h]
      simp
    · simp [parseFieldOptions, h]
    · simp only [parseFieldOptions, h, if_false]
      by_cases h64 : tagGet f.Tag "binary" = "fixed64"
      · simp [h64]
      · simp [h64]
    · simp [parseFieldOptions, h]
    · simp [parseFieldOptions, h]
  · by_cases h : tagGet f.Tag "json" = "-"
    · simp [parseFieldOptions, h, FieldOptions.zero]
    · simp only [parseFieldOptions, h, if_false]
      intro hb
      by_cases h64 : tagGet f.Tag "binary" = "fixed64"
      · simp [h64] at hb
      · simp [h64] at hb

/-! ## C36: the tag written and skipped outside an interface field -/

theorem readBytes_seven (bs rest : List Byte) (stack : List ListPos) (h : bs.length = 7) :
    readBytes 7 ⟨bs ++ rest, stack⟩ = (.ok bs, ⟨rest, stack⟩) := by
  rw [← h]
  exact readBytes_append bs rest stack

theorem readBytes_error_short (n : Nat) (s : Stream) (e : Err) (s1 : Stream)
    (h : readBytes n s = (.error e, s1)) : s.input.length < n := by
  induction n generalizing s e s1 with
  | zero => simp [readBytes] at h
  | succ n ih =>
    obtain ⟨input, stack⟩ := s
    cases input with
    | nil => simp
    | cons b rest =>
      simp only [readBytes, Stream.readByte] at h
      cases hr : readBytes n ⟨rest, stack⟩ with
      | mk r s2 =>
        rw [hr] at h
        cases r with
        | error e2 =>
          have := ih ⟨rest, stack⟩ e2 s2 hr
          simp only [List.length_cons]
          simp only at this
          omega
        | ok bs => simp at h

/-- C36: for a value whose type, pointers removed, has a descriptor in the by-type index
that is marked `Registered`, `addDisfix` returns no error and appends to the buffer the
3 bytes of Disamb and the 4 bytes of Prefix, 7 bytes in all; `consumeDisfix` on a
stream that holds at least 7 bytes returns no error and leaves the stream 7 bytes
further, whatever these bytes are; it returns an error when the stream holds fewer than
7 bytes, and in no other case. For every other value `addDisfix` leaves the buffer as it
is and `consumeDisfix` leaves the stream as it is, both without error. Hence for every
value `consumeDisfix` on the bytes that `addDisfix` wrote, followed by a payload, leaves
the stream at the payload. -/
theorem C36_tag_of_seven_bytes_written_and_skipped (cdc : Codec) (val : Value) :
    (cdc.isRegisteredConcrete val.Type = true →
      ∃ cp, cdc.getRegistedTypeInfoWLock val.Type = some cp ∧
        (∀ w, cdc.addDisfix val w =
          (none, w ++ ((cdc.deref cp).ConcreteInfo.Disamb.Bytes ++
            (cdc.deref cp).ConcreteInfo.Prefix.Bytes))) ∧
        ((cdc.deref cp).ConcreteInfo.Disamb.Bytes ++
          (cdc.deref cp).ConcreteInfo.Prefix.Bytes).length = 7 ∧
        (∀ (bs rest : List Byte) (stack : List ListPos), bs.length = 7 →
          cdc.consumeDisfix ⟨bs ++ rest, stack⟩ val = (none, ⟨rest, stack⟩)) ∧
        (∀ s : Stream, s.input.length < 7 →
          cdc.consumeDisfix s val = (some .unexpectedEOF, ⟨[], s.stack⟩)) ∧
        (∀ s : Stream, (cdc.consumeDisfix s val).1 ≠ none → s.input.length < 7)) ∧
    (cdc.isRegisteredConcrete val.Type = false →
      (∀ w, cdc.addDisfix val w = (none, w)) ∧
      (∀ s, cdc.consumeDisfix s val = (none, s))) ∧
    (∀ (payload : List Byte) (stack : List ListPos),
      cdc.consumeDisfix ⟨(cdc.addDisfix val []).2 ++ payload, stack⟩ val =
        (none, ⟨payload, stack⟩)) := by
  have hreg : ∀ cp, cdc.getRegistedTypeInfoWLock val.Type = some cp →
      (cdc.deref cp).ConcreteInfo.Registered = true →
      ∀ (bs rest : List Byte) (stack : List ListPos), bs.length = 7 →
        cdc.consumeDisfix ⟨bs ++ rest, stack⟩ val = (none, ⟨rest, stack⟩) := by
    intro cp hcp hr bs rest stack hbs
    simp [Codec.consumeDisfix, hcp, hr, readBytes_seven bs rest stack hbs]
  refine ⟨?_, ?_, ?_⟩
  · intro h
    unfold Codec.isRegisteredConcrete at h
    cases hcp : cdc.getRegistedTypeInfoWLock val.Type with
    | none => rw [hcp] at h; cases h
    | some cp =>
      rw [hcp] at h
      simp only at h
      refine ⟨cp, rfl, ?_, rfl, hreg cp hcp h, ?_, ?_⟩
      · intro w
        simp [Codec.addDisfix, hcp, h]
      · intro s hs
        simp [Codec.consumeDisfix, hcp, h, readBytes_short 7 s hs]
      · intro s hne
        simp only [Codec.consumeDisfix, hcp, h, if_true] at hne
        cases hr : readBytes 7 s with
        | mk r s1 =>
          rw [hr] at hne
          cases r with
          | error e => exact readBytes_error_short 7 s e s1 hr
          | ok bs => simp at hne
  · intro h
    unfold Codec.isRegisteredConcrete at h
    cases hcp : cdc.getRegistedTypeInfoWLock val.Type with
    | none => simp [Codec.addDisfix, Codec.consumeDisfix, hcp]
    | some cp =>
      rw [hcp] at h
      simp only at h
      simp [Codec.addDisfix, Codec.consumeDisfix, hcp, h]
  · intro payload stack
    cases hcp : cdc.getRegistedTypeInfoWLock val.Type with
    | none => simp [Codec.addDisfix, Codec.consumeDisfix, hcp]
    | some cp =>
      cases hr : (cdc.deref cp).ConcreteInfo.Registered with
      | false => simp [Codec.addDisfix, Codec.consumeDisfix, hcp, hr]
      | true =>
        have hw : (cdc.addDisfix val []).2 = (cdc.deref cp).ConcreteInfo.Disamb.Bytes ++
            (cdc.deref cp).ConcreteInfo.Prefix.Bytes := by
          simp [Codec.addDisfix, hcp, hr]
        rw [hw]
        exact hreg cp hcp hr _ payload stack rfl

/-! ## C37: the layout of a GM signature -/

theorem bigSetBytes_bounds (l : List Byte) :
    0 ≤ bigSetBytes l ∧ bigSetBytes l < 256 ^ l.length := by
  induction l with
  | nil => simp [bigSetBytes]
  | cons b rest ih =>
    have hb : (b.val : Int) < 256 := by exact_mod_cast b.isLt
    have hb0 : (0 : Int) ≤ (b.val : Int) := by positivity
    have hp : (0 : Int) < 256 ^ rest.length := by positivity
    simp only [bigSetBytes, List.length_cons, pow_succ]
    constructor
    · have := mul_nonneg hb0 hp.le
      omega
    · have h1 : (b.val : Int) * 256 ^ rest.length ≤ 255 * 256 ^ rest.length :=
        mul_le_mul_of_nonneg_right (by omega) hp.le
      omega

theorem bigSetBytes_append (a b : List Byte) :
    bigSetBytes (a ++ b) = bigSetBytes a * 256 ^ b.length + bigSetBytes b := by
  induction a with
  | nil => simp [bigSetBytes]
  | cons x rest ih =>
    have e : bigSetBytes (x :: (rest ++ b)) =
        (x.val : Int) * 256 ^ (rest ++ b).length + bigSetBytes (rest ++ b) := rfl
    have e2 : bigSetBytes (x :: rest) = (x.val : Int) * 256 ^ rest.length + bigSetBytes rest := rfl
    rw [List.cons_append, e, e2, ih, List.length_append, pow_add]
    ring

theorem bigSetBytes_zeros (k : Nat) (l : List Byte) :
    bigSetBytes (List.replicate k 0 ++ l) = bigSetBytes l := by
  induction k with
  | zero => simp
  | succ k ih => simp [List.replicate_succ, bigSetBytes, ih]

theorem bigSetBytes_inj (l1 l2 : List Byte) (hlen : l1.length = l2.length)
    (h : bigSetBytes l1 = bigSetBytes l2) : l1 = l2 := by
  induction l1 generalizing l2 with
  | nil =>
    cases l2 with
    | nil => rfl
    | cons _ _ => simp at hlen
  | cons a r1 ih =>
    cases l2 with
    | nil => simp at hlen
    | cons b r2 =>
      simp only [List.length_cons, Nat.add_right_cancel_iff] at hlen
      simp only [bigSetBytes] at h
      rw [hlen] at h
      have b1 := bigSetBytes_bounds r1
      have b2 := bigSetBytes_bounds r2
      rw [hlen] at b1
      have hp : (0 : Int) < 256 ^ r2.length := by positivity
      have hab : (a.val : Int) = (b.val : Int) := by
        by_contra hne
        rcases lt_or_gt_of_ne hne with hlt | hgt
        · have : ((a.val : Int) + 1) * 256 ^ r2.length ≤ (b.val : Int) * 256 ^ r2.length :=
            mul_le_mul_of_nonneg_right (by omega) hp.le
          have e : ((a.val : Int) + 1) * 256 ^ r2.length =
            (a.val : Int) * 256 ^ r2.length + 256 ^ r2.length := by ring
          omega
        · have : ((b.val : Int) + 1) * 256 ^ r2.length ≤ (a.val : Int) * 256 ^ r2.length :=
            mul_le_mul_of_nonneg_right (by omega) hp.le
          have e : ((b.val : Int) + 1) * 256 ^ r2.length =
            (b.val : Int) * 256 ^ r2.length + 256 ^ r2.length := by ring
          omega
      have hab2 : a = b := Fin.ext (by exact_mod_cast hab)
      subst hab2
      have hrest : bigSetBytes r1 = bigSetBytes r2 := by omega
      rw [ih r2 hlen hrest]

theorem natBytesAux_value (fuel : Nat) : ∀ (n : Nat) (acc : List Byte), n ≤ fuel →
    bigSetBytes (natBytesAux fuel n acc) = (n : Int) * 256 ^ acc.length + bigSetBytes acc := by
  induction fuel with
  | zero =>
    intro n acc h
    have : n = 0 := by omega
    subst this
    simp [natBytesAux]
  | succ fuel ih =>
    intro n acc h
    unfold natBytesAux
    by_cases hn : n = 0
    · subst hn; simp
    · simp only [hn, if_false]
      rw [ih (n / 256) _ (by omega)]
      have hd : (n : Int) = ((n / 256 : Nat) : Int) * 256 + ((n % 256 : Nat) : Int) := by omega
      have hv : ((Fin.ofNat (n % 256) : Byte).val : Int) = ((n % 256 : Nat) : Int) := by
        simp [Fin.ofNat]
      simp only [bigSetBytes, List.length_cons, pow_succ, hv]
      linear_combination (-(256 : Int) ^ acc.length) * hd

theorem natBytesAux_length (fuel : Nat) : ∀ (n k : Nat) (acc : List Byte), n < 256 ^ k →
    (natBytesAux fuel n acc).length ≤ k + acc.length := by
  induction fuel with
  | zero => intro n k acc _; simp [natBytesAux]
  | succ fuel ih =>
    intro n k acc h
    unfold natBytesAux
    by_cases hn : n = 0
    · simp [hn]
    · simp only [hn, if_false]
      cases k with
      | zero => simp at h; exact absurd h hn
      | succ k =>
        have h1 : n / 256 < 256 ^ k := by
          rw [pow_succ] at h
          exact Nat.div_lt_of_lt_mul (by rw [Nat.mul_comm]; exact h)
        have := ih (n / 256) k (Fin.ofNat (n % 256) :: acc) h1
        simp only [List.length_cons] at this
        omega

theorem bigBytes_value (x : Int) (h : 0 ≤ x) : bigSetBytes (bigBytes x) = x := by
  unfold bigBytes
  rw [natBytesAux_value _ _ _ (Nat.le_refl _)]
  simp [bigSetBytes]
  omega

theorem bigBytes_length (x : Int) (h0 : 0 ≤ x) (h : x < 2 ^ 256) : (bigBytes x).length ≤ 32 := by
  unfold bigBytes
  have hn : x.natAbs < 256 ^ 32 := by
    have e : (256 : Nat) ^ 32 = 2 ^ 256 := by norm_num
    rw [e]
    omega
  simpa using natBytesAux_length x.natAbs x.natAbs 32 [] hn

/-- The big-endian digits of `n` in `k` bytes. -/
theorem bigSetBytes_digits (n : Nat) : ∀ k : Nat,
    bigSetBytes ((List.range k).map fun i => (Fin.ofNat (n / 256 ^ (k - 1 - i) % 256) : Byte)) =
      ((n % 256 ^ k : Nat) : Int) := by
  intro k
  induction k with
  | zero => simp [bigSetBytes, Nat.mod_one]
  | succ k ih =>
    rw [List.range_succ_eq_map]
    simp only [List.map_cons, List.map_map, bigSetBytes, List.length_map, List.length_range]
    have e : ((fun i => (Fin.ofNat (n / 256 ^ (k + 1 - 1 - i) % 256) : Byte)) ∘ Nat.succ) =
        fun i => (Fin.ofNat (n / 256 ^ (k - 1 - i) % 256) : Byte) := by
      funext i
      simp only [Function.comp, Nat.succ_eq_add_one]
      have : k + 1 - 1 - (i + 1) = k - 1 - i := by omega
      rw [this]
    rw [e, ih]
    have hv : ((Fin.ofNat (n / 256 ^ (k + 1 - 1 - 0) % 256) : Byte).val : Int) =
        ((n / 256 ^ k % 256 : Nat) : Int) := by
      simp [Fin.ofNat]
    rw [hv]
    have := Nat.mod_pow_succ (x := n) (b := 256) (k := k)
    rw [this]
    push_cast
    ring

theorem specBigEndian32_value (n : Nat) (h : n < 2 ^ 256) :
    bigSetBytes (specBigEndian32 n) = (n : Int) := by
  have := bigSetBytes_digits n 32
  unfold specBigEndian32
  simp only [Nat.add_one_sub_one] at this ⊢
  rw [this]
  have e : (256 : Nat) ^ 32 = 2 ^ 256 := by norm_num
  rw [e, Nat.mod_eq_of_lt h]

theorem pad_bigBytes (x : Int) (h0 : 0 ≤ x) (h : x < 2 ^ 256) :
    List.replicate (32 - (bigBytes x).length) 0 ++ bigBytes x = specBigEndian32 x.toNat := by
  have hl := bigBytes_length x h0 h
  apply bigSetBytes_inj
  · simp [specBigEndian32]
    omega
  · rw [bigSetBytes_zeros, bigBytes_value x h0, specBigEndian32_value _ (by omega)]
    omega

theorem makeSignatureGM_eq (r s v : Int) (hr : (bigBytes r).length ≤ 32)
    (hs : (bigBytes s).length ≤ 32) :
    makeSignatureGM r s v =
      .ok ((List.replicate (32 - (bigBytes r).length) 0 ++ bigBytes r) ++
        (List.replicate (32 - (bigBytes s).length) 0 ++ bigBytes s) ++
        [SM2Magic + Fin.ofNat (v.natAbs % 2 ^ 64 % 256)]) := by
  have h1 : ¬ 32 < (bigBytes r).length := by omega
  have h2 : ¬ 64 < (bigBytes s).length := by omega
  simp only [makeSignatureGM, h1, h2, if_false, SignatureGMSize]
  congr 1
  generalize bigBytes r = rb at hr
  generalize bigBytes s = sb at hs
  have hR : (List.replicate (32 - rb.length) (0 : Byte) ++ rb).length = 32 := by
    simp only [List.length_append, List.length_replicate]; omega
  have step1 : copyAt (List.replicate 65 (0 : Byte)) (32 - rb.length) 32 rb =
      (List.replicate (32 - rb.length) 0 ++ rb) ++ List.replicate 33 0 := by
    unfold copyAt
    have e1 : 32 - (32 - rb.length) = rb.length := by omega
    have e2 : min (32 - rb.length) 65 = 32 - rb.length := by omega
    have e3 : 65 - (32 - rb.length + rb.length) = 33 := by omega
    simp only [e1, List.take_replicate, List.drop_replicate, e2, List.take_length, Nat.min_self,
      e3]
  rw [step1]
  have step2 : copyAt ((List.replicate (32 - rb.length) (0 : Byte) ++ rb) ++ List.replicate 33 0)
      (64 - sb.length) 64 sb =
      (List.replicate (32 - rb.length) 0 ++ rb) ++ (List.replicate (32 - sb.length) 0 ++ sb) ++
        [0] := by
    unfold copyAt
    have e1 : 64 - (64 - sb.length) = sb.length := by omega
    have e2 : 64 - sb.length =
        (List.replicate (32 - rb.length) (0 : Byte) ++ rb).length + (32 - sb.length) := by
      rw [hR]; omega
    have e3 : 64 - sb.length + sb.length =
        (List.replicate (32 - rb.length) (0 : Byte) ++ rb).length + 32 := by
      rw [hR]; omega
    have e4 : min (32 - sb.length) 33 = 32 - sb.length := by omega
    rw [e1, List.take_length, Nat.min_self, e3, List.drop_append, e2, List.take_append]
    simp only [List.take_replicate, List.drop_replicate, e4, List.append_assoc]
    rfl
  rw [step2]
  have hlen : ((List.replicate (32 - rb.length) (0 : Byte) ++ rb) ++
      (List.replicate (32 - sb.length) 0 ++ sb)).length = 64 := by
    simp only [List.length_append, List.length_replicate]; omega
  generalize (List.replicate (32 - rb.length) (0 : Byte) ++ rb) ++
      (List.replicate (32 - sb.length) 0 ++ sb) = X at hlen
  rw [← hlen]
  simp

/-- C37: for all integers `r` and `s` with `0 ≤ r, s < 2 ^ 256` and `v` in `{0, 1}`,
`makeSignatureGM(r, s, v)` returns the 65 bytes that hold `r` and `s` as 32-byte
big-endian values left-padded with zeros, followed by the byte `8 + v`, and
`ParseSignatureGM` of these bytes returns `(r, s, v, true)`. `ParseSignatureGM` and
`NewSignatureGM` return `ok = false` exactly when the input does not have 65 bytes, the
integers of `ParseSignatureGM` being nil then. -/
theorem C37_gm_signature_layout (r s v : Int) (hr0 : 0 ≤ r) (hr : r < 2 ^ 256)
    (hs0 : 0 ≤ s) (hs : s < 2 ^ 256) (hv : v = 0 ∨ v = 1) :
    makeSignatureGM r s v =
      .ok (specBigEndian32 r.toNat ++ specBigEndian32 s.toNat ++ [Fin.ofNat (8 + v.toNat)]) ∧
    (specBigEndian32 r.toNat ++ specBigEndian32 s.toNat ++
      [(Fin.ofNat (8 + v.toNat) : Byte)]).length = 65 ∧
    ParseSignatureGM
        (specBigEndian32 r.toNat ++ specBigEndian32 s.toNat ++ [Fin.ofNat (8 + v.toNat)]) =
      (some r, some s, some v, true) ∧
    (∀ sig, (ParseSignatureGM sig).2.2.2 = false ↔ sig.length ≠ 65) ∧
    (∀ sig, sig.length ≠ 65 → ParseSignatureGM sig = (none, none, none, false)) ∧
    (∀ data, (NewSignatureGM data).2 = false ↔ data.length ≠ 65) := by
  have hlr : (specBigEndian32 r.toNat).length = 32 := by simp [specBigEndian32]
  have hls : (specBigEndian32 s.toNat).length = 32 := by simp [specBigEndian32]
  have hvb : SM2Magic + (Fin.ofNat (v.natAbs % 2 ^ 64 % 256) : Byte) = Fin.ofNat (8 + v.toNat) := by
    rcases hv with rfl | rfl <;> decide
  refine ⟨?_, ?_, ?_, ?_, ?_, ?_⟩
  · rw [makeSignatureGM_eq r s v (bigBytes_length r hr0 hr) (bigBytes_length s hs0 hs),
      pad_bigBytes r hr0 hr, pad_bigBytes s hs0 hs, hvb]
  · simp [hlr, hls]
  · have hlen : (specBigEndian32 r.toNat ++ specBigEndian32 s.toNat ++
        [(Fin.ofNat (8 + v.toNat) : Byte)]).length = SignatureGMSize := by
      simp [hlr, hls, SignatureGMSize]
    have ht : (specBigEndian32 r.toNat ++ specBigEndian32 s.toNat ++
        [(Fin.ofNat (8 + v.toNat) : Byte)]).take 32 = specBigEndian32 r.toNat := by
      rw [List.append_assoc, ← hlr, List.take_left]
    have hd : ((specBigEndian32 r.toNat ++ specBigEndian32 s.toNat ++
        [(Fin.ofNat (8 + v.toNat) : Byte)]).drop 32).take 32 = specBigEndian32 s.toNat := by
      have hdrop : (specBigEndian32 r.toNat ++ (specBigEndian32 s.toNat ++
          [(Fin.ofNat (8 + v.toNat) : Byte)])).drop 32 =
          specBigEndian32 s.toNat ++ [(Fin.ofNat (8 + v.toNat) : Byte)] := by
        rw [← hlr]
        exact List.drop_left _ _
      rw [List.append_assoc, hdrop, ← hls, List.take_left]
    have hg : (specBigEndian32 r.toNat ++ specBigEndian32 s.toNat ++
        [(Fin.ofNat (8 + v.toNat) : Byte)]).getD 64 0 = Fin.ofNat (8 + v.toNat) := by
      have h64 : (specBigEndian32 r.toNat ++ specBigEndian32 s.toNat).length = 64 := by
        simp [hlr, hls]
      rw [List.getD_eq_getElem?_getD, List.getElem?_append_right (by omega), h64]
      simp
    have hval : (((Fin.ofNat (8 + v.toNat) : Byte) - SM2Magic : Byte).val : Int) = v := by
      rcases hv with rfl | rfl <;> decide
    simp only [ParseSignatureGM, hlen, ne_eq, not_true_eq_false, if_false, ht, hd, hg, hval,
      specBigEndian32_value r.toNat (by omega), specBigEndian32_value s.toNat (by omega)]
    have e1 : ((r.toNat : Nat) : Int) = r := Int.toNat_of_nonneg hr0
    have e2 : ((s.toNat : Nat) : Int) = s := Int.toNat_of_nonneg hs0
    rw [e1, e2]
  · intro sig
    unfold ParseSignatureGM SignatureGMSize
    split_ifs with h <;> simp [h]
  · intro sig h
    simp [ParseSignatureGM, SignatureGMSize, h]
  · intro data
    unfold NewSignatureGM SignatureGMSize
    split_ifs with h <;> simp [h]

/-- The example `r = 258`, `s = 1`, `v = 1`: 30 zero bytes, `01 02`, 31 zero bytes, `01`
and the byte `09`. -/
theorem C37_gm_signature_layout_witness :
    makeSignatureGM 258 1 1 =
      .ok (List.replicate 30 0 ++ [1, 2] ++ List.replicate 31 0 ++ [1] ++ [9]) ∧
    ParseSignatureGM (List.replicate 30 0 ++ [1, 2] ++ List.replicate 31 0 ++ [1] ++ [9]) =
      (some 258, some 1, some 1, true) :=
  ⟨(C37_gm_signature_layout 258 1 1 (by decide) (by norm_num) (by decide) (by norm_num)
      (Or.inr rfl)).1,
   (C37_gm_signature_layout 258 1 1 (by decide) (by norm_num) (by decide) (by norm_num)
      (Or.inr rfl)).2.2.1⟩

/-! ## C38: the hash of a list -/

theorem hashList_two {Hash Receipt : Type} (L : HashLib Hash Receipt) (l : List Hash)
    (h : 2 ≤ l.length) :
    HashList.Hash L l = L.BytesToHash (L.SimpleHashFromTwoHashes
      (L.Bytes (HashList.Hash L (l.take ((l.length + 1) / 2))))
      (L.Bytes (HashList.Hash L (l.drop ((l.length + 1) / 2))))) := by
  match l, h with
  | a :: b :: rest, _ => rw [HashList.Hash]

theorem receiptList_two {Hash Receipt : Type} (L : HashLib Hash Receipt) (l : List Receipt)
    (h : 2 ≤ l.length) :
    ReceiptList.Hash L l = L.BytesToHash (L.SimpleHashFromTwoHashes
      (L.Bytes (ReceiptList.Hash L (l.take ((l.length + 1) / 2))))
      (L.Bytes (ReceiptList.Hash L (l.drop ((l.length + 1) / 2))))) := by
  match l, h with
  | a :: b :: rest, _ => rw [ReceiptList.Hash]

theorem receiptList_hash_eq {Hash Receipt : Type} (L : HashLib Hash Receipt) :
    ∀ (n : Nat) (rs : List Receipt), rs.length ≤ n →
      ReceiptList.Hash L rs = HashList.Hash L (rs.map L.receiptHash) := by
  intro n
  induction n with
  | zero =>
    intro rs h
    have : rs = [] := List.length_eq_zero.mp (by omega)
    subst this
    rw [ReceiptList.Hash, List.map_nil, HashList.Hash]
  | succ n ih =>
    intro rs h
    match rs, h with
    | [], _ => rw [ReceiptList.Hash, List.map_nil, HashList.Hash]
    | [r0], _ => rw [ReceiptList.Hash, List.map_cons, List.map_nil, HashList.Hash]
    | a :: b :: rest, h =>
      have h2 : 2 ≤ (a :: b :: rest).length := by simp
      rw [receiptList_two L _ h2, hashList_two L _ (by simp)]
      simp only [List.length_cons] at h
      rw [ih _ (by simp only [List.length_take, List.length_cons]; omega),
        ih _ (by simp only [List.length_drop, List.length_cons]; omega)]
      simp only [List.map_take, List.map_drop, List.length_map]

/-- C38: `HashList.Hash` and `ReceiptList.Hash` are total: for a list of two elements or
more both slices of the recursion, `l[:(n+1)/2]` and `l[(n+1)/2:]`, are strictly shorter
than the list, `(n+1)/2` being `n/2` rounded up. The empty list hashes to the empty
hash, a list of one element to that element, a list of one receipt to the hash of that
receipt, and a list of two elements or more to `SimpleHashFromTwoHashes` of the bytes
of the hashes of the two slices, converted by `BytesToHash`. Hence `ReceiptList.Hash` of
a list of receipts is `HashList.Hash` of the list of their hashes. -/
theorem C38_hash_of_a_list {Hash Receipt : Type} (L : HashLib Hash Receipt) :
    (∀ n : Nat, 2 ≤ n → (n + 1) / 2 < n ∧ n - (n + 1) / 2 < n ∧ (n + 1) / 2 * 2 - n ≤ 1 ∧
      n ≤ (n + 1) / 2 * 2) ∧
    (∀ {α : Type} (l : List α), 2 ≤ l.length →
      (l.take ((l.length + 1) / 2)).length < l.length ∧
      (l.drop ((l.length + 1) / 2)).length < l.length) ∧
    HashList.Hash L [] = L.EmptyHash ∧
    ReceiptList.Hash L [] = L.EmptyHash ∧
    (∀ h, HashList.Hash L [h] = h) ∧
    (∀ r, ReceiptList.Hash L [r] = L.receiptHash r) ∧
    (∀ l : List Hash, 2 ≤ l.length →
      HashList.Hash L l = L.BytesToHash (L.SimpleHashFromTwoHashes
        (L.Bytes (HashList.Hash L (l.take ((l.length + 1) / 2))))
        (L.Bytes (HashList.Hash L (l.drop ((l.length + 1) / 2)))))) ∧
    (∀ l : List Receipt, 2 ≤ l.length →
      ReceiptList.Hash L l = L.BytesToHash (L.SimpleHashFromTwoHashes
        (L.Bytes (ReceiptList.Hash L (l.take ((l.length + 1) / 2))))
        (L.Bytes (ReceiptList.Hash L (l.drop ((l.length + 1) / 2)))))) ∧
    (∀ rs : List Receipt, ReceiptList.Hash L rs = HashList.Hash L (rs.map L.receiptHash)) := by
  refine ⟨?_, ?_, ?_, ?_, ?_, ?_, hashList_two L, receiptList_two L, ?_⟩
  · intro n hn
    omega
  · intro α l hl
    simp only [List.length_take, List.length_drop]
    omega
  · rw [HashList.Hash]
  · rw [ReceiptList.Hash]
  · intro h; rw [HashList.Hash]
  · intro r; rw [ReceiptList.Hash]
  · intro rs
    exact receiptList_hash_eq L rs.length rs (Nat.le_refl _)

/-! ## C40: the indexes by Disfix and by name hold the same descriptors -/

/-- The two ways in which `setTypeInfoNoLock` leaves the indexes by Disfix and by name:
both as they were, or both with the descriptor added under its Disfix and its name, which
were absent from them. -/
theorem setTypeInfoNoLock_indexes (cdc : Codec) (p : Ptr) :
    (cdc.setTypeInfoNoLock p).2.heap = cdc.heap ∧
    (((cdc.setTypeInfoNoLock p).2.disfixToTypeInfo = cdc.disfixToTypeInfo ∧
      (cdc.setTypeInfoNoLock p).2.nameToTypeInfo = cdc.nameToTypeInfo) ∨
     (mapGet? cdc.disfixToTypeInfo (cdc.deref p).ConcreteInfo.GetDisfix = none ∧
      mapGet? cdc.nameToTypeInfo (cdc.deref p).ConcreteInfo.Name = none ∧
      (cdc.setTypeInfoNoLock p).2.disfixToTypeInfo =
        mapSet cdc.disfixToTypeInfo (cdc.deref p).ConcreteInfo.GetDisfix p ∧
      (cdc.setTypeInfoNoLock p).2.nameToTypeInfo =
        mapSet cdc.nameToTypeInfo (cdc.deref p).ConcreteInfo.Name p)) := by
  unfold Codec.setTypeInfoNoLock
  simp only
  split_ifs with h1 h2 h3 h4
  · exact ⟨rfl, Or.inl ⟨rfl, rfl⟩⟩
  · exact ⟨rfl, Or.inl ⟨rfl, rfl⟩⟩
  · exact ⟨rfl, Or.inl ⟨rfl, rfl⟩⟩
  · split
    · exact ⟨rfl, Or.inl ⟨rfl, rfl⟩⟩
    · rename_i hd
      split
      · exact ⟨rfl, Or.inl ⟨rfl, rfl⟩⟩
      · rename_i hn
        exact ⟨rfl, Or.inr ⟨hd, hn, rfl, rfl⟩⟩
  · exact ⟨rfl, Or.inl ⟨rfl, rfl⟩⟩

theorem coherent_alloc (cdc : Codec) (hk : cdc.Coherent) (info : TypeInfo) :
    (cdc.alloc info).2.Coherent := by
  refine ⟨indexed_alloc cdc hk.indexed info, ?_, ?_⟩
  · intro df p hp
    have h1 := (hk.indexed.byDisfix df p hp).1
    rw [deref_alloc_lt cdc info p h1]
    exact hk.nameOfDisfix df p hp
  · intro n p hp
    have h1 := (hk.indexed.byName n p hp).1
    rw [deref_alloc_lt cdc info p h1]
    exact hk.disfixOfName n p hp

theorem coherent_sameButImpl (a b : Codec) (hk : a.Coherent) (h : a.SameButImpl b) :
    b.Coherent := by
  have hdi := h.2.2.2.2.1
  have hni := h.2.2.2.2.2.1
  refine ⟨indexed_sameButImpl a b hk.indexed h, ?_, ?_⟩
  · intro df p hp
    rw [hdi] at hp
    rw [hni, sameButImpl_concrete a b h]
    exact hk.nameOfDisfix df p hp
  · intro n p hp
    rw [hni] at hp
    rw [hdi, sameButImpl_concrete a b h]
    exact hk.disfixOfName n p hp

theorem coherent_setTypeInfoNoLock (cdc : Codec) (hk : cdc.Coherent) (p : Ptr)
    (hp : p < cdc.heap.length) : (cdc.setTypeInfoNoLock p).2.Coherent := by
  obtain ⟨hheap, hidx⟩ := setTypeInfoNoLock_indexes cdc p
  have hd : ∀ q, (cdc.setTypeInfoNoLock p).2.deref q = cdc.deref q := by
    intro q; simp only [Codec.deref, hheap]
  refine ⟨indexed_setTypeInfoNoLock cdc hk.indexed p hp, ?_, ?_⟩
  · intro df q hq
    rw [hd]
    rcases hidx with ⟨hdi, hni⟩ | ⟨hdn, hnn, hdi, hni⟩
    · rw [hdi] at hq
      rw [hni]
      exact hk.nameOfDisfix df q hq
    · rw [hdi] at hq
      rw [hni]
      by_cases hdf : df = (cdc.deref p).ConcreteInfo.GetDisfix
      · subst hdf
        rw [mapGet?_mapSet_self] at hq
        cases hq
        exact mapGet?_mapSet_self _ _ _
      · rw [mapGet?_mapSet_ne _ _ _ _ hdf] at hq
        have hold := hk.nameOfDisfix df q hq
        rw [mapGet?_mapSet_ne _ _ _ _ (fun he => by rw [he, hnn] at hold; cases hold)]
        exact hold
  · intro n q hq
    rw [hd]
    rcases hidx with ⟨hdi, hni⟩ | ⟨hdn, hnn, hdi, hni⟩
    · rw [hni] at hq
      rw [hdi]
      exact hk.disfixOfName n q hq
    · rw [hni] at hq
      rw [hdi]
      by_cases hn : n = (cdc.deref p).ConcreteInfo.Name
      · subst hn
        rw [mapGet?_mapSet_self] at hq
        cases hq
        exact mapGet?_mapSet_self _ _ _
      · rw [mapGet?_mapSet_ne _ _ _ _ hn] at hq
        have hold := hk.disfixOfName n q hq
        rw [mapGet?_mapSet_ne _ _ _ _ (fun he => by rw [he, hdn] at hold; cases hold)]
        exact hold

theorem coherent_registerConcrete (env : Env) (ro : RangeOrder) (cdc : Codec)
    (hk : cdc.Coherent) (o : RType) (name : String) :
    (cdc.RegisterConcrete env ro o name).2.Coherent := by
  unfold Codec.RegisterConcrete
  split
  · exact hk
  · split
    · exact hk
    · split
      · exact hk
      · rename_i _ rt pp _ _ info hinfo
        have hk1 := coherent_alloc cdc hk info
        have hs := sameButImpl_addCheck env ro (cdc.alloc info).2 (cdc.alloc info).1
        have hk2 := coherent_sameButImpl _ _ hk1 hs
        simp only
        split
        · rename_i err cdc2 heq
          rw [heq] at hk2; exact hk2
        · rename_i cdc2 heq
          rw [heq] at hk2 hs
          exact coherent_setTypeInfoNoLock cdc2 hk2 _
            (by rw [hs.2.2.2.2.2.2.1]; simp [Codec.alloc])

theorem coherent_registerInterface (env : Env) (ro : RangeOrder) (cdc : Codec)
    (hk : cdc.Coherent) (ptr : RType) (iopts : Option InterfaceOptions) :
    (cdc.RegisterInterface env ro ptr iopts).2.Coherent := by
  unfold Codec.RegisterInterface
  split
  · exact hk
  · split
    · exact hk
    · split_ifs
      · exact hk
      · split
        · exact hk
        · rename_i info hinfo
          have hk1 := coherent_alloc cdc hk info
          have hs1 := sameButImpl_collect env (cdc.alloc info).2 (cdc.alloc info).1
          have hk2 := coherent_sameButImpl _ _ hk1 hs1
          have hs2 := sameButImpl_check ro
            ((cdc.alloc info).2.collectImplementersNolock env (cdc.alloc info).1) (cdc.alloc info).1
          have hk3 := coherent_sameButImpl _ _ hk2 hs2
          simp only
          split
          · rename_i err cdc3 heq
            rw [heq] at hk3; exact hk3
          · rename_i cdc3 heq
            rw [heq] at hk3 hs2
            exact coherent_setTypeInfoNoLock cdc3 hk3 _
              (by rw [hs2.2.2.2.2.2.2.1, hs1.2.2.2.2.2.2.1]; simp [Codec.alloc])

theorem coherent_getTypeInfoWlock (env : Env) (cdc : Codec) (hk : cdc.Coherent) (rt : RType) :
    (cdc.getTypeInfoWlock env rt).2.Coherent := by
  unfold Codec.getTypeInfoWlock
  simp only
  split
  · exact hk
  · split_ifs
    · exact hk
    · split
      · exact hk
      · rename_i info hinfo
        have hk1 := coherent_alloc cdc hk info
        have := coherent_setTypeInfoNoLock (cdc.alloc info).2 hk1 (cdc.alloc info).1
          (by simp [Codec.alloc])
        split <;> rename_i heq <;> (rw [heq] at this; exact this)

/-- In every reachable catalog the indexes by Disfix and by name yield the same
descriptors. -/
theorem coherent_of_reachable (env : Env) (cdc : Codec) (h : Reachable env cdc) :
    cdc.Coherent := by
  induction h with
  | newCodec =>
    exact ⟨indexed_of_reachable env _ Reachable.newCodec,
      by intro df p hp; simp [NewCodec, mapGet?] at hp,
      by intro n p hp; simp [NewCodec, mapGet?] at hp⟩
  | registerInterface ro cdc ptr iopts _ ih =>
    exact coherent_registerInterface env ro cdc ih ptr iopts
  | registerConcrete ro cdc o name _ ih => exact coherent_registerConcrete env ro cdc ih o name
  | sealCall cdc _ ih =>
    exact ⟨⟨ih.indexed.byDisfix, ih.indexed.byName⟩, ih.nameOfDisfix, ih.disfixOfName⟩
  | getTypeInfo cdc rt _ ih => exact coherent_getTypeInfoWlock env cdc ih rt

/-- C40: in every reachable catalog the indexes by Disfix and by name hold the same
descriptors: a descriptor is a value of the one exactly when it is a value of the other,
the by-name index holding it under its own name and the by-Disfix index under its own
Disfix. A descriptor that the by-Disfix index yields for `d` is marked `Registered` and
has `GetDisfix() = d`; one that the by-name index yields for `n` has the name `n`; and
every such descriptor is the entry of the by-type index for its own type and an element
of the concrete list. -/
theorem C40_indexes_are_coherent (env : Env) (cdc : Codec) (h : Reachable env cdc) :
    (∀ p, (∃ df, mapGet? cdc.disfixToTypeInfo df = some p) ↔
      (∃ n, mapGet? cdc.nameToTypeInfo n = some p)) ∧
    (∀ df p, mapGet? cdc.disfixToTypeInfo df = some p →
      mapGet? cdc.nameToTypeInfo (cdc.deref p).ConcreteInfo.Name = some p) ∧
    (∀ n p, mapGet? cdc.nameToTypeInfo n = some p →
      mapGet? cdc.disfixToTypeInfo (cdc.deref p).ConcreteInfo.GetDisfix = some p) ∧
    (∀ df p, mapGet? cdc.disfixToTypeInfo df = some p →
      (cdc.deref p).ConcreteInfo.Registered = true ∧
      (cdc.deref p).ConcreteInfo.GetDisfix = df ∧
      mapGet? cdc.typeInfos (cdc.deref p).Typ = some p ∧ p ∈ cdc.concreteInfos) ∧
    (∀ n p, mapGet? cdc.nameToTypeInfo n = some p →
      (cdc.deref p).ConcreteInfo.Registered = true ∧
      (cdc.deref p).ConcreteInfo.Name = n ∧
      mapGet? cdc.typeInfos (cdc.deref p).Typ = some p ∧ p ∈ cdc.concreteInfos) := by
  have hk := coherent_of_reachable env cdc h
  refine ⟨?_, hk.nameOfDisfix, hk.disfixOfName, ?_, ?_⟩
  · intro p
    constructor
    · rintro ⟨df, hdf⟩
      exact ⟨_, hk.nameOfDisfix df p hdf⟩
    · rintro ⟨n, hn⟩
      exact ⟨_, hk.disfixOfName n p hn⟩
  · intro df p hp
    exact (hk.indexed.byDisfix df p hp).2
  · intro n p hp
    exact (hk.indexed.byName n p hp).2

/-- The catalog of the examples with `Foo` and `A` registered under the name `n`: both
indexes hold the descriptor of `A` and nothing else. -/
theorem C40_indexes_are_coherent_witness :
    Reachable demoEnv demoCdcFooA ∧
    demoCdcFooA.disfixToTypeInfo.map Prod.snd = [1] ∧
    demoCdcFooA.nameToTypeInfo = [("n", 1)] ∧
    ((∃ df, mapGet? demoCdcFooA.disfixToTypeInfo df = some 1) ↔
      (∃ n, mapGet? demoCdcFooA.nameToTypeInfo n = some 1)) :=
  ⟨reachable_demoCdcFooA, by decide, by decide,
    (C40_indexes_are_coherent demoEnv demoCdcFooA reachable_demoCdcFooA).1 1⟩

/-! ## C31: the conflict check taken alone -/

/-- What `setTypeInfoNoLock` does for a registered concrete descriptor whose type,
Disfix and name are all absent from the indexes: it returns, having filed the descriptor
in the three indexes and in the concrete list. -/
theorem setTypeInfoNoLock_fresh_ok (cdc : Codec) (p : Ptr)
    (hk : (cdc.deref p).Typ.Kind ≠ .Ptr) (hi : (cdc.deref p).Typ.Kind ≠ .Interface)
    (hr : (cdc.deref p).ConcreteInfo.Registered = true)
    (hT : mapGet? cdc.typeInfos (cdc.deref p).Typ = none)
    (hD : mapGet? cdc.disfixToTypeInfo (cdc.deref p).ConcreteInfo.GetDisfix = none)
    (hN : mapGet? cdc.nameToTypeInfo (cdc.deref p).ConcreteInfo.Name = none) :
    ∃ cdc1, cdc.setTypeInfoNoLock p = (none, cdc1) ∧
      cdc1.sealed = cdc.sealed ∧ cdc1.heap = cdc.heap ∧
      cdc1.interfaceInfos = cdc.interfaceInfos ∧
      cdc1.typeInfos = mapSet cdc.typeInfos (cdc.deref p).Typ p ∧
      cdc1.disfixToTypeInfo =
        mapSet cdc.disfixToTypeInfo (cdc.deref p).ConcreteInfo.GetDisfix p ∧
      cdc1.nameToTypeInfo = mapSet cdc.nameToTypeInfo (cdc.deref p).ConcreteInfo.Name p ∧
      cdc1.concreteInfos = cdc.concreteInfos ++ [p] := by
  unfold Codec.setTypeInfoNoLock
  simp only [hk, hi, hr, hT, hD, hN, if_false, if_true, Option.isSome_none, Bool.false_eq_true]
  exact ⟨_, rfl, rfl, rfl, rfl, rfl, rfl, rfl, rfl⟩

theorem getDisfix_ne_of_disamb (a b : ConcreteInfo) (h : a.Disamb ≠ b.Disamb) :
    a.GetDisfix ≠ b.GetDisfix := by
  intro he
  apply h
  unfold ConcreteInfo.GetDisfix toDisfix at he
  simp only [DisfixBytes.mk.injEq] at he
  have e : ∀ x y : DisambBytes, x.b0 = y.b0 → x.b1 = y.b1 → x.b2 = y.b2 → x = y := by
    intro x y h0 h1 h2
    cases x
    cases y
    simp only at h0 h1 h2
    rw [h0, h1, h2]
  exact e _ _ he.1 he.2.1 he.2.2.1

/-- The loop of `addCheckConflictsWithConcreteNolock` returns without an error when, for
every interface of the list that the concrete type implements, the bucket with the
descriptor appended passes the check or is one type held twice; it has then appended
the descriptor to the buckets of the first kind, left those of the second kind with
their one entry, and written nothing else. -/
theorem addCheckLoop_returns (env : Env) (ro : RangeOrder) (cp : Ptr) (l : List Ptr) :
    ∀ (cdc : Codec), cdc.Inv → cp < cdc.heap.length →
      (∀ j ∈ l, j ∈ cdc.interfaceInfos) → l.Nodup →
      (∀ j ∈ l, env.implements (cdc.deref cp).PtrToType (cdc.deref j).Typ = true →
        cdc.BucketOk j ((cdc.deref j).bucket (cdc.deref cp).ConcreteInfo.Prefix ++ [cp]) ∨
        ∃ c0, sameTypeTwice cdc.heap
          ((cdc.deref j).bucket (cdc.deref cp).ConcreteInfo.Prefix ++ [cp]) = some c0) →
      ∃ cdc1, addCheckConflictsLoop env ro cp l cdc = (none, cdc1) ∧ cdc.SameButImpl cdc1 ∧
        cdc1.Inv ∧
        (∀ j, j ∉ l → cdc1.deref j = cdc.deref j) ∧
        (∀ j ∈ l, env.implements (cdc.deref cp).PtrToType (cdc.deref j).Typ = false →
          cdc1.deref j = cdc.deref j) ∧
        (∀ j ∈ l, env.implements (cdc.deref cp).PtrToType (cdc.deref j).Typ = true →
          cdc1.deref j = (cdc.deref j).setBucket (cdc.deref cp).ConcreteInfo.Prefix
            (((sameTypeTwice cdc.heap
                ((cdc.deref j).bucket (cdc.deref cp).ConcreteInfo.Prefix ++ [cp])).map
              fun c0 => [c0]).getD
              ((cdc.deref j).bucket (cdc.deref cp).ConcreteInfo.Prefix ++ [cp]))) := by
  induction l with
  | nil =>
    intro cdc hinv _ _ _ _
    exact ⟨cdc, rfl, sameButImpl_refl cdc, hinv, fun _ _ => rfl, by simp, by simp⟩
  | cons j rest ih =>
    intro cdc hinv hcp hl hnd hok
    have hj : j ∈ cdc.interfaceInfos := hl j (by simp)
    have hjrest : j ∉ rest := (List.nodup_cons.mp hnd).1
    have hnd1 : rest.Nodup := (List.nodup_cons.mp hnd).2
    have hl1 : ∀ q ∈ rest, q ∈ cdc.interfaceInfos := fun q hq => hl q (List.mem_cons_of_mem _ hq)
    cases himp : env.implements (cdc.deref cp).PtrToType (cdc.deref j).Typ with
    | false =>
      obtain ⟨cdc1, h1, h2, h3, h4, h5, h6⟩ := ih cdc hinv hcp hl1 hnd1
        (fun q hq => hok q (List.mem_cons_of_mem _ hq))
      refine ⟨cdc1, ?_, h2, h3, ?_, ?_, ?_⟩
      · rw [addCheckConflictsLoop_skip env ro cp j rest cdc himp]; exact h1
      · intro q hq
        exact h4 q (fun h => hq (List.mem_cons_of_mem _ h))
      · intro q hq hqi
        rcases List.mem_cons.mp hq with rfl | hq
        · exact h4 _ hjrest
        · exact h5 q hq hqi
      · intro q hq hqi
        rcases List.mem_cons.mp hq with rfl | hq
        · rw [himp] at hqi; cases hqi
        · exact h6 q hq hqi
    | true =>
      have hbok := hok j (by simp) himp
      have hb := inv_bucket cdc hinv j hj (cdc.deref cp).ConcreteInfo.Prefix
      have hvalid : ∀ c ∈ (cdc.deref j).bucket (cdc.deref cp).ConcreteInfo.Prefix ++ [cp],
          c < cdc.heap.length := by
        intro c hc
        rcases List.mem_append.mp hc with h | h
        · exact hb.1 c h
        · rw [List.mem_singleton.mp h]; exact hcp
      -- continuing in a catalog that differs in the bucket of `j` only
      have key : ∀ (nb : List Ptr),
          (cdc.store j ((cdc.deref j).setBucket (cdc.deref cp).ConcreteInfo.Prefix nb)).Inv →
          addCheckConflictsLoop env ro cp (j :: rest) cdc =
            addCheckConflictsLoop env ro cp rest
              (cdc.store j ((cdc.deref j).setBucket (cdc.deref cp).ConcreteInfo.Prefix nb)) →
          nb = ((sameTypeTwice cdc.heap
                ((cdc.deref j).bucket (cdc.deref cp).ConcreteInfo.Prefix ++ [cp])).map
              fun c0 => [c0]).getD
              ((cdc.deref j).bucket (cdc.deref cp).ConcreteInfo.Prefix ++ [cp]) →
          ∃ cdc1, addCheckConflictsLoop env ro cp (j :: rest) cdc = (none, cdc1) ∧
            cdc.SameButImpl cdc1 ∧ cdc1.Inv ∧
            (∀ q, q ∉ j :: rest → cdc1.deref q = cdc.deref q) ∧
            (∀ q ∈ j :: rest,
              env.implements (cdc.deref cp).PtrToType (cdc.deref q).Typ = false →
              cdc1.deref q = cdc.deref q) ∧
            (∀ q ∈ j :: rest,
              env.implements (cdc.deref cp).PtrToType (cdc.deref q).Typ = true →
              cdc1.deref q = (cdc.deref q).setBucket (cdc.deref cp).ConcreteInfo.Prefix
                (((sameTypeTwice cdc.heap
                    ((cdc.deref q).bucket (cdc.deref cp).ConcreteInfo.Prefix ++ [cp])).map
                  fun c0 => [c0]).getD
                  ((cdc.deref q).bucket (cdc.deref cp).ConcreteInfo.Prefix ++ [cp]))) := by
        intro nb hinv1 heq hnb
        have hs := sameButImpl_store cdc j (cdc.deref cp).ConcreteInfo.Prefix nb
        have hd : ∀ q, q ≠ j → (cdc.store j ((cdc.deref j).setBucket
            (cdc.deref cp).ConcreteInfo.Prefix nb)).deref q = cdc.deref q :=
          fun q hq => deref_store_ne cdc j q _ hq
        have hC := sameButImpl_concrete _ _ hs
        have hT := sameButImpl_typ _ _ hs
        have hST := sameButImpl_sameTypeTwice _ _ hs
        have hPT : ∀ q, ((cdc.store j ((cdc.deref j).setBucket
            (cdc.deref cp).ConcreteInfo.Prefix nb)).deref q).PtrToType =
            (cdc.deref q).PtrToType := by
          intro q; unfold TypeInfo.PtrToType; rw [hT]
        obtain ⟨cdc2, g1, g2, g3, g4, g5, g6⟩ := ih _ hinv1
          (by rw [hs.2.2.2.2.2.2.1]; exact hcp)
          (by intro q hq; rw [hs.2.2.1]; exact hl1 q hq) hnd1
          (by
            intro q hq hqi
            have hqj : q ≠ j := fun h => hjrest (h ▸ hq)
            rw [hPT, hT] at hqi
            rw [hC, hd q hqj, hST]
            rcases hok q (List.mem_cons_of_mem _ hq) hqi with h | h
            · exact Or.inl (sameButImpl_bucketOk _ _ hs q _ h)
            · exact Or.inr h)
        refine ⟨cdc2, heq.trans g1, sameButImpl_trans _ _ _ hs g2, g3, ?_, ?_, ?_⟩
        · intro q hq
          have hqj : q ≠ j := fun h => hq (by rw [h]; simp)
          rw [g4 q (fun h => hq (List.mem_cons_of_mem _ h)), hd q hqj]
        · intro q hq hqi
          rcases List.mem_cons.mp hq with rfl | hq
          · rw [himp] at hqi; cases hqi
          · have hqj : q ≠ j := fun h => hjrest (h ▸ hq)
            rw [g5 q hq (by rw [hPT, hT]; exact hqi), hd q hqj]
        · intro q hq hqi
          rcases List.mem_cons.mp hq with rfl | hq
          · rw [g4 _ hjrest, deref_store_self _ _ _ (hinv.ifaceValid _ hj), hnb]
          · have hqj : q ≠ j := fun h => hjrest (h ▸ hq)
            rw [g6 q hq (by rw [hPT, hT]; exact hqi), hC, hd q hqj, hST]
      rcases checkAfterAppend_cases ro cdc hinv j cp hj (cdc.deref cp).ConcreteInfo.Prefix with
        ⟨xp, hxp, h1, h2, h3, _⟩ | ⟨c0, h1, h2⟩ | ⟨h1, h2⟩
      · exfalso
        rcases hbok with hb1 | ⟨c0, hb1⟩
        · have := hb1.2 (by simp only [List.length_append, List.length_singleton]; omega) xp hxp
          rw [h3] at this; cases this
        · rw [h2] at hb1; cases hb1
      · have hc0 := (sameTypeTwice_length _ _ _ h1).2
        exact key [c0]
          (inv_store_bucket cdc hinv j hj (cdc.deref cp).ConcreteInfo.Prefix [c0]
            (by intro c hc; rw [List.mem_singleton.mp hc]; exact hvalid c0 hc0)
            (bucketOk_of_short cdc j [c0] (by simp)))
          (addCheckConflictsLoop_pass env ro cp j rest cdc _ himp h2)
          (by rw [h1]; rfl)
      · exact key _
          (inv_store_bucket cdc hinv j hj (cdc.deref cp).ConcreteInfo.Prefix _ hvalid h2)
          (addCheckConflictsLoop_pass env ro cp j rest cdc _ himp h1)
          (by rw [h2.1]; rfl)

/-- When the loop of `addCheckConflictsWithConcreteNolock` returns without an error, the
bucket of every interface of the list that the concrete type implements, with the
descriptor appended, passes the check or is one type held twice. -/
theorem addCheckLoop_returns_only_if (env : Env) (ro : RangeOrder) (cp : Ptr) (l : List Ptr) :
    ∀ (cdc cdc1 : Codec), cdc.Inv → cp < cdc.heap.length →
      (∀ j ∈ l, j ∈ cdc.interfaceInfos) → l.Nodup →
      addCheckConflictsLoop env ro cp l cdc = (none, cdc1) →
      ∀ j ∈ l, env.implements (cdc.deref cp).PtrToType (cdc.deref j).Typ = true →
        cdc.BucketOk j ((cdc.deref j).bucket (cdc.deref cp).ConcreteInfo.Prefix ++ [cp]) ∨
        ∃ c0, sameTypeTwice cdc.heap
          ((cdc.deref j).bucket (cdc.deref cp).ConcreteInfo.Prefix ++ [cp]) = some c0 := by
  induction l with
  | nil => intro _ _ _ _ _ _ _ j hj; simp at hj
  | cons j rest ih =>
    intro cdc cdc1 hinv hcp hl hnd hret
    have hj : j ∈ cdc.interfaceInfos := hl j (by simp)
    have hjrest : j ∉ rest := (List.nodup_cons.mp hnd).1
    have hnd1 : rest.Nodup := (List.nodup_cons.mp hnd).2
    have hl1 : ∀ q ∈ rest, q ∈ cdc.interfaceInfos := fun q hq => hl q (List.mem_cons_of_mem _ hq)
    cases himp : env.implements (cdc.deref cp).PtrToType (cdc.deref j).Typ with
    | false =>
      rw [addCheckConflictsLoop_skip env ro cp j rest cdc himp] at hret
      intro q hq hqi
      rcases List.mem_cons.mp hq with rfl | hq
      · rw [himp] at hqi; cases hqi
      · exact ih cdc cdc1 hinv hcp hl1 hnd1 hret q hq hqi
    | true =>
      have hb := inv_bucket cdc hinv j hj (cdc.deref cp).ConcreteInfo.Prefix
      have hvalid : ∀ c ∈ (cdc.deref j).bucket (cdc.deref cp).ConcreteInfo.Prefix ++ [cp],
          c < cdc.heap.length := by
        intro c hc
        rcases List.mem_append.mp hc with h | h
        · exact hb.1 c h
        · rw [List.mem_singleton.mp h]; exact hcp
      have key : ∀ (nb : List Ptr),
          (cdc.store j ((cdc.deref j).setBucket (cdc.deref cp).ConcreteInfo.Prefix nb)).Inv →
          addCheckConflictsLoop env ro cp rest
              (cdc.store j ((cdc.deref j).setBucket (cdc.deref cp).ConcreteInfo.Prefix nb)) =
            (none, cdc1) →
          ∀ q ∈ rest, env.implements (cdc.deref cp).PtrToType (cdc.deref q).Typ = true →
            cdc.BucketOk q ((cdc.deref q).bucket (cdc.deref cp).ConcreteInfo.Prefix ++ [cp]) ∨
            ∃ c0, sameTypeTwice cdc.heap
              ((cdc.deref q).bucket (cdc.deref cp).ConcreteInfo.Prefix ++ [cp]) = some c0 := by
        intro nb hinv1 hret1 q hq hqi
        have hs := sameButImpl_store cdc j (cdc.deref cp).ConcreteInfo.Prefix nb
        have hd : ∀ q, q ≠ j → (cdc.store j ((cdc.deref j).setBucket
            (cdc.deref cp).ConcreteInfo.Prefix nb)).deref q = cdc.deref q :=
          fun q hq => deref_store_ne cdc j q _ hq
        have hC := sameButImpl_concrete _ _ hs
        have hT := sameButImpl_typ _ _ hs
        have hST := sameButImpl_sameTypeTwice _ _ hs
        have hPT : ∀ q, ((cdc.store j ((cdc.deref j).setBucket
            (cdc.deref cp).ConcreteInfo.Prefix nb)).deref q).PtrToType =
            (cdc.deref q).PtrToType := by
          intro q; unfold TypeInfo.PtrToType; rw [hT]
        have hqj : q ≠ j := fun h => hjrest (h ▸ hq)
        have := ih _ cdc1 hinv1 (by rw [hs.2.2.2.2.2.2.1]; exact hcp)
          (by intro q hq; rw [hs.2.2.1]; exact hl1 q hq) hnd1 hret1 q hq
          (by rw [hPT, hT]; exact hqi)
        rw [hC, hd q hqj, hST] at this
        rcases this with h | h
        · exact Or.inl (sameButImpl_bucketOk _ _ (sameButImpl_symm _ _ hs) q _ h)
        · exact Or.inr h
      rcases checkAfterAppend_cases ro cdc hinv j cp hj (cdc.deref cp).ConcreteInfo.Prefix with
        ⟨xp, hxp, h1, h2, h3, h4⟩ | ⟨c0, h1, h2⟩ | ⟨h1, h2⟩
      · rw [addCheckConflictsLoop_err env ro cp j rest cdc _ _ himp h4] at hret
        cases hret
      · have hc0 := (sameTypeTwice_length _ _ _ h1).2
        rw [addCheckConflictsLoop_pass env ro cp j rest cdc _ himp h2] at hret
        intro q hq hqi
        rcases List.mem_cons.mp hq with rfl | hq
        · exact Or.inr ⟨c0, h1⟩
        · exact key [c0]
            (inv_store_bucket cdc hinv j hj (cdc.deref cp).ConcreteInfo.Prefix [c0]
              (by intro c hc; rw [List.mem_singleton.mp hc]; exact hvalid c0 hc0)
              (bucketOk_of_short cdc j [c0] (by simp))) hret q hq hqi
      · rw [addCheckConflictsLoop_pass env ro cp j rest cdc _ himp h1] at hret
        intro q hq hqi
        rcases List.mem_cons.mp hq with rfl | hq
        · exact Or.inl h2
        · exact key _
            (inv_store_bucket cdc hinv j hj (cdc.deref cp).ConcreteInfo.Prefix _ hvalid h2)
            hret q hq hqi

theorem sameTypeTwice_append (heap : List TypeInfo) (old : List Ptr) (cp : Ptr) :
    sameTypeTwice heap (old ++ [cp]) =
      match old with
      | [ap] => if (derefHeap heap ap).Typ = (derefHeap heap cp).Typ then some ap else none
      | _ => none := by
  match old with
  | [] => rfl
  | [ap] => rfl
  | [_, _] => rfl
  | _ :: _ :: _ :: _ => rfl

/-- What the conflict check of one interface asks of a bucket, read in the catalog
before the new descriptor was allocated: the bucket with the new descriptor appended
passes the check or is one type held twice exactly when the bucket admits the type and
the Disfix of the new descriptor. -/
theorem admits_iff (cdc : Codec) (info : TypeInfo) (j : Ptr) (old : List Ptr)
    (hj : j < cdc.heap.length) (hold : ∀ ap ∈ old, ap < cdc.heap.length) :
    ((cdc.alloc info).2.BucketOk j (old ++ [cdc.heap.length]) ∨
      ∃ c0, sameTypeTwice (cdc.alloc info).2.heap (old ++ [cdc.heap.length]) = some c0) ↔
    cdc.admits j old info.Typ info.ConcreteInfo.GetDisfix = true := by
  have hself : (cdc.alloc info).2.deref cdc.heap.length = info := deref_alloc_self cdc info
  have hlt : ∀ q, q < cdc.heap.length → (cdc.alloc info).2.deref q = cdc.deref q :=
    fun q hq => deref_alloc_lt cdc info q hq
  have hcov : ∀ ap, ap < cdc.heap.length →
      (cdc.alloc info).2.covered j ap = cdc.covered j ap := by
    intro ap hap
    unfold Codec.covered
    rw [hlt j hj, hlt ap hap]
  have hcovn : (cdc.alloc info).2.covered j cdc.heap.length =
      inPrio (cdc.deref j).InterfaceInfo.Priority info.ConcreteInfo.GetDisfix := by
    unfold Codec.covered
    rw [hlt j hj, hself]
  have hTy : ∀ ap, ap < cdc.heap.length →
      (derefHeap (cdc.alloc info).2.heap ap).Typ = (cdc.deref ap).Typ := by
    intro ap hap
    have := hlt ap hap
    unfold Codec.deref at this
    rw [this]
    rfl
  have hTn : (derefHeap (cdc.alloc info).2.heap cdc.heap.length).Typ = info.Typ := by
    have := hself
    unfold Codec.deref at this
    rw [this]
  unfold Codec.BucketOk
  rw [sameTypeTwice_append]
  match old, hold with
  | [], _ => simp [Codec.admits]
  | [ap], hold =>
    have hap : ap < cdc.heap.length := hold ap (by simp)
    simp only [hTy ap hap, hTn]
    by_cases ht : (cdc.deref ap).Typ = info.Typ
    · simp [ht, Codec.admits, Codec.singleOf]
    · simp [ht, Codec.admits, Codec.singleOf, hcov ap hap, hcovn]
  | a :: b :: rest, hold =>
    have key : (∀ cp ∈ a :: b :: rest ++ [cdc.heap.length],
        (cdc.alloc info).2.covered j cp = true) ↔
        ((a :: b :: rest).all (fun ap => cdc.covered j ap) = true ∧
          inPrio (cdc.deref j).InterfaceInfo.Priority info.ConcreteInfo.GetDisfix = true) := by
      constructor
      · intro h
        refine ⟨?_, ?_⟩
        · rw [List.all_eq_true]
          intro x hx
          rw [← hcov x (hold x hx)]
          exact h x (List.mem_append_left _ hx)
        · rw [← hcovn]
          exact h _ (by simp)
      · rintro ⟨h1, h2⟩ x hx
        rcases List.mem_append.mp hx with hx | hx
        · rw [hcov x (hold x hx)]
          exact List.all_eq_true.mp h1 x hx
        · rw [List.mem_singleton.mp hx, hcovn]
          exact h2
    have hlen : 2 ≤ (a :: b :: rest ++ [cdc.heap.length]).length := by simp
    have hadm : cdc.admits j (a :: b :: rest) info.Typ info.ConcreteInfo.GetDisfix =
        ((a :: b :: rest).all (fun ap => cdc.covered j ap) &&
          inPrio (cdc.deref j).InterfaceInfo.Priority info.ConcreteInfo.GetDisfix) := by
      simp [Codec.admits, Codec.singleOf]
    rw [hadm, Bool.and_eq_true, ← key]
    constructor
    · rintro (⟨_, h⟩ | ⟨c0, h⟩)
      · exact h hlen
      · cases h
    · intro h
      exact Or.inl ⟨rfl, fun _ => h⟩

/-- Read in the catalog before the allocation, the bucket that a turn of the loop which
returns leaves: the old bucket when it is a single descriptor of the new type, the old
bucket with the new descriptor appended otherwise. -/
theorem bucket_after_turn (cdc : Codec) (info : TypeInfo) (old : List Ptr)
    (hold : ∀ ap ∈ old, ap < cdc.heap.length) :
    ((sameTypeTwice (cdc.alloc info).2.heap (old ++ [cdc.heap.length])).map
        fun c0 => [c0]).getD (old ++ [cdc.heap.length]) =
      if cdc.singleOf old info.Typ then old else old ++ [cdc.heap.length] := by
  have hself : (cdc.alloc info).2.deref cdc.heap.length = info := deref_alloc_self cdc info
  have hTn : (derefHeap (cdc.alloc info).2.heap cdc.heap.length).Typ = info.Typ := by
    have := hself
    unfold Codec.deref at this
    rw [this]
  rw [sameTypeTwice_append]
  match old, hold with
  | [], _ => simp [Codec.singleOf]
  | [ap], hold =>
    have hap : ap < cdc.heap.length := hold ap (by simp)
    have hTy : (derefHeap (cdc.alloc info).2.heap ap).Typ = (cdc.deref ap).Typ := by
      have := deref_alloc_lt cdc info ap hap
      unfold Codec.deref at this
      rw [this]
      rfl
    simp only [hTy, hTn, Codec.singleOf]
    by_cases ht : (cdc.deref ap).Typ = info.Typ
    · simp [ht]
    · simp [ht]
  | _ :: _ :: _, _ => simp [Codec.singleOf]

theorem setTypeInfoNoLock_present (cdc : Codec) (p : Ptr)
    (hk : (cdc.deref p).Typ.Kind ≠ .Ptr)
    (hT : (mapGet? cdc.typeInfos (cdc.deref p).Typ).isSome = true) :
    cdc.setTypeInfoNoLock p = (none, cdc) := by
  unfold Codec.setTypeInfoNoLock
  simp only [hk, if_false, hT, if_true]

theorem setTypeInfoNoLock_fresh_returns (cdc cdc1 : Codec) (p : Ptr)
    (hk : (cdc.deref p).Typ.Kind ≠ .Ptr) (hi : (cdc.deref p).Typ.Kind ≠ .Interface)
    (hr : (cdc.deref p).ConcreteInfo.Registered = true)
    (hT : mapGet? cdc.typeInfos (cdc.deref p).Typ = none)
    (h : cdc.setTypeInfoNoLock p = (none, cdc1)) :
    mapGet? cdc.disfixToTypeInfo (cdc.deref p).ConcreteInfo.GetDisfix = none ∧
    mapGet? cdc.nameToTypeInfo (cdc.deref p).ConcreteInfo.Name = none := by
  unfold Codec.setTypeInfoNoLock at h
  simp only [hk, hi, hr, hT, if_false, if_true, Option.isSome_none, Bool.false_eq_true] at h
  cases hd : mapGet? cdc.disfixToTypeInfo (cdc.deref p).ConcreteInfo.GetDisfix with
  | some q => rw [hd] at h; cases h
  | none =>
    rw [hd] at h
    cases hn : mapGet? cdc.nameToTypeInfo (cdc.deref p).ConcreteInfo.Name with
    | some q => rw [hn] at h; cases h
    | none => exact ⟨rfl, rfl⟩

/-- A registration returns without a panic when every registered interface that the type
implements admits it under its Prefix and, the type being new to the by-type index, its
Disfix and its name are new to their indexes. The descriptor is then allocated at the
end of the heap and appended to the bucket of each of these interfaces, but for a bucket
that is a single descriptor of the same type, which stays as it is; the indexes get the
descriptor when the type is new to the by-type index and stay as they are otherwise. -/
theorem registerConcrete_returns (env : Env) (ro : RangeOrder) (cdc : Codec) (hinv : cdc.Inv)
    (hs : cdc.sealed = false) (o T : RType) (pp : Bool) (name : String) (info : TypeInfo)
    (ho : concreteTypeOf o = .ok (T, pp))
    (hinfo : newTypeInfoFromRegisteredConcreteType env T pp name = .ok info)
    (hok : ∀ j ∈ cdc.interfaceInfos, env.implements T.PtrTo (cdc.deref j).Typ = true →
      cdc.admits j ((cdc.deref j).bucket info.ConcreteInfo.Prefix) T
        info.ConcreteInfo.GetDisfix = true)
    (hidx : mapGet? cdc.typeInfos T = none →
      mapGet? cdc.disfixToTypeInfo info.ConcreteInfo.GetDisfix = none ∧
      mapGet? cdc.nameToTypeInfo name = none) :
    ∃ cdc1, cdc.RegisterConcrete env ro o name = (none, cdc1) ∧
      cdc1.sealed = false ∧ cdc1.heap.length = cdc.heap.length + 1 ∧
      cdc1.interfaceInfos = cdc.interfaceInfos ∧
      cdc1.deref cdc.heap.length = info ∧
      (∀ q, q < cdc.heap.length → (cdc1.deref q).frozen = (cdc.deref q).frozen) ∧
      (∀ q, q < cdc.heap.length → q ∉ cdc.interfaceInfos → cdc1.deref q = cdc.deref q) ∧
      (∀ j ∈ cdc.interfaceInfos, env.implements T.PtrTo (cdc.deref j).Typ = false →
        cdc1.deref j = cdc.deref j) ∧
      (∀ j ∈ cdc.interfaceInfos, env.implements T.PtrTo (cdc.deref j).Typ = true →
        cdc1.deref j = (cdc.deref j).setBucket info.ConcreteInfo.Prefix
          (if cdc.singleOf ((cdc.deref j).bucket info.ConcreteInfo.Prefix) T then
            (cdc.deref j).bucket info.ConcreteInfo.Prefix
           else (cdc.deref j).bucket info.ConcreteInfo.Prefix ++ [cdc.heap.length])) ∧
      ((mapGet? cdc.typeInfos T).isSome = true →
        cdc1.typeInfos = cdc.typeInfos ∧ cdc1.disfixToTypeInfo = cdc.disfixToTypeInfo ∧
        cdc1.nameToTypeInfo = cdc.nameToTypeInfo) ∧
      (mapGet? cdc.typeInfos T = none →
        cdc1.typeInfos = mapSet cdc.typeInfos T cdc.heap.length ∧
        cdc1.disfixToTypeInfo =
          mapSet cdc.disfixToTypeInfo info.ConcreteInfo.GetDisfix cdc.heap.length ∧
        cdc1.nameToTypeInfo = mapSet cdc.nameToTypeInfo name cdc.heap.length) := by
  obtain ⟨hty, hkp, hki, hreg, _, hname, _, _⟩ :=
    newTypeInfoFromRegistered_spec env T pp name info hinfo
  have hseal : cdc.assertNotSealed = none := by simp [Codec.assertNotSealed, hs]
  have hinv0 := inv_alloc cdc hinv info
  have hlen0 : (cdc.alloc info).2.heap.length = cdc.heap.length + 1 := by simp [Codec.alloc]
  have hself : (cdc.alloc info).2.deref cdc.heap.length = info := deref_alloc_self cdc info
  have hlt : ∀ q, q < cdc.heap.length → (cdc.alloc info).2.deref q = cdc.deref q :=
    fun q hq => deref_alloc_lt cdc info q hq
  have hifl : ∀ j ∈ cdc.interfaceInfos, j < cdc.heap.length := hinv.ifaceValid
  have hPT : info.PtrToType = T.PtrTo := by unfold TypeInfo.PtrToType; rw [hty]
  have hcpn : cdc.heap.length ∉ cdc.interfaceInfos := fun h => Nat.lt_irrefl _ (hifl _ h)
  have hbv : ∀ j ∈ cdc.interfaceInfos, ∀ ap ∈ (cdc.deref j).bucket info.ConcreteInfo.Prefix,
      ap < cdc.heap.length := fun j hj => (inv_bucket cdc hinv j hj info.ConcreteInfo.Prefix).1
  obtain ⟨cdc1, g1, g2, _, g4, g5, g6⟩ := addCheckLoop_returns env ro cdc.heap.length
    cdc.interfaceInfos (cdc.alloc info).2 hinv0 (by rw [hlen0]; exact Nat.lt_succ_self _)
    (fun j hj => hj) hinv.ifaceNodup
    (by
      intro j hj himp
      rw [hself, hPT, hlt j (hifl j hj)] at himp
      rw [hself, hlt j (hifl j hj)]
      have := (admits_iff cdc info j _ (hifl j hj) (hbv j hj)).mpr
        (by rw [hty]; exact hok j hj himp)
      exact this)
  have hd1 : cdc1.deref cdc.heap.length = info := by rw [g4 _ hcpn]; exact hself
  have hti1 : cdc1.typeInfos = cdc.typeInfos := g2.2.1
  have hdi1 : cdc1.disfixToTypeInfo = cdc.disfixToTypeInfo := g2.2.2.2.2.1
  have hni1 : cdc1.nameToTypeInfo = cdc.nameToTypeInfo := g2.2.2.2.2.2.1
  have hfz1 : ∀ q, q < cdc.heap.length → (cdc1.deref q).frozen = (cdc.deref q).frozen := by
    intro q hq
    rw [g2.2.2.2.2.2.2.2 q, hlt q hq]
  have hun : ∀ q, q < cdc.heap.length → q ∉ cdc.interfaceInfos →
      cdc1.deref q = cdc.deref q := by
    intro q hq hqi
    rw [g4 q hqi]
    exact hlt q hq
  have hno : ∀ j ∈ cdc.interfaceInfos, env.implements T.PtrTo (cdc.deref j).Typ = false →
      cdc1.deref j = cdc.deref j := by
    intro j hj himp
    rw [g5 j hj (by rw [hself, hPT, hlt j (hifl j hj)]; exact himp)]
    exact hlt j (hifl j hj)
  have hyes : ∀ j ∈ cdc.interfaceInfos, env.implements T.PtrTo (cdc.deref j).Typ = true →
      cdc1.deref j = (cdc.deref j).setBucket info.ConcreteInfo.Prefix
        (if cdc.singleOf ((cdc.deref j).bucket info.ConcreteInfo.Prefix) T then
          (cdc.deref j).bucket info.ConcreteInfo.Prefix
         else (cdc.deref j).bucket info.ConcreteInfo.Prefix ++ [cdc.heap.length]) := by
    intro j hj himp
    rw [g6 j hj (by rw [hself, hPT, hlt j (hifl j hj)]; exact himp), hself,
      hlt j (hifl j hj), bucket_after_turn cdc info _ (hbv j hj), hty]
  have hreg0 : cdc.RegisterConcrete env ro o name = cdc1.setTypeInfoNoLock cdc.heap.length := by
    unfold Codec.RegisterConcrete
    simp only [hseal, ho, hinfo]
    have e : (cdc.alloc info).2.addCheckConflictsWithConcreteNolock env ro (cdc.alloc info).1 =
        (none, cdc1) := g1
    rw [e]
    rfl
  cases hT : mapGet? cdc.typeInfos T with
  | some p0 =>
    have hret := setTypeInfoNoLock_present cdc1 cdc.heap.length
      (by rw [hd1, hty]; exact hkp) (by rw [hd1, hty, hti1, hT]; rfl)
    refine ⟨cdc1, by rw [hreg0, hret], ?_, ?_, g2.2.2.1, hd1, hfz1, hun, hno, hyes, ?_, ?_⟩
    · rw [g2.1]; exact hs
    · rw [g2.2.2.2.2.2.2.1, hlen0]
    · intro _; exact ⟨hti1, hdi1, hni1⟩
    · intro h; cases h
  | none =>
    obtain ⟨hD, hN⟩ := hidx hT
    obtain ⟨cdc2, k1, k2, k3, k4, k5, k6, k7, _⟩ :=
      setTypeInfoNoLock_fresh_ok cdc1 cdc.heap.length
        (by rw [hd1, hty]; exact hkp) (by rw [hd1, hty]; exact hki) (by rw [hd1]; exact hreg)
        (by rw [hd1, hty, hti1]; exact hT) (by rw [hd1, hdi1]; exact hD)
        (by rw [hd1, hname, hni1]; exact hN)
    have hd2 : ∀ q, cdc2.deref q = cdc1.deref q := by
      intro q; simp only [Codec.deref, k3]
    rw [hd1] at k5 k6 k7
    rw [hty, hti1] at k5
    rw [hdi1] at k6
    rw [hname, hni1] at k7
    refine ⟨cdc2, by rw [hreg0, k1], ?_, ?_, ?_, ?_, ?_, ?_, ?_, ?_, ?_, ?_⟩
    · rw [k2, g2.1]; exact hs
    · rw [k3, g2.2.2.2.2.2.2.1, hlen0]
    · rw [k4, g2.2.2.1]; rfl
    · rw [hd2]; exact hd1
    · intro q hq; rw [hd2]; exact hfz1 q hq
    · intro q hq hqi; rw [hd2]; exact hun q hq hqi
    · intro j hj himp; rw [hd2]; exact hno j hj himp
    · intro j hj himp; rw [hd2]; exact hyes j hj himp
    · intro h; simp at h
    · intro _; exact ⟨k5, k6, k7⟩

/-- When a registration returns without a panic, every registered interface that the type
implements admitted it under its Prefix, and its Disfix and its name were new to their
indexes if the type was new to the by-type index. -/
theorem registerConcrete_returns_only_if (env : Env) (ro : RangeOrder) (cdc cdc1 : Codec)
    (hinv : cdc.Inv) (o T : RType) (pp : Bool) (name : String) (info : TypeInfo)
    (ho : concreteTypeOf o = .ok (T, pp))
    (hinfo : newTypeInfoFromRegisteredConcreteType env T pp name = .ok info)
    (hret : cdc.RegisterConcrete env ro o name = (none, cdc1)) :
    (∀ j ∈ cdc.interfaceInfos, env.implements T.PtrTo (cdc.deref j).Typ = true →
      cdc.admits j ((cdc.deref j).bucket info.ConcreteInfo.Prefix) T
        info.ConcreteInfo.GetDisfix = true) ∧
    (mapGet? cdc.typeInfos T = none →
      mapGet? cdc.disfixToTypeInfo info.ConcreteInfo.GetDisfix = none ∧
      mapGet? cdc.nameToTypeInfo name = none) := by
  obtain ⟨hty, hkp, hki, hreg, _, hname, _, _⟩ :=
    newTypeInfoFromRegistered_spec env T pp name info hinfo
  have hinv0 := inv_alloc cdc hinv info
  have hlen0 : (cdc.alloc info).2.heap.length = cdc.heap.length + 1 := by simp [Codec.alloc]
  have hself : (cdc.alloc info).2.deref cdc.heap.length = info := deref_alloc_self cdc info
  have hlt : ∀ q, q < cdc.heap.length → (cdc.alloc info).2.deref q = cdc.deref q :=
    fun q hq => deref_alloc_lt cdc info q hq
  have hifl : ∀ j ∈ cdc.interfaceInfos, j < cdc.heap.length := hinv.ifaceValid
  have hPT : info.PtrToType = T.PtrTo := by unfold TypeInfo.PtrToType; rw [hty]
  have hbv : ∀ j ∈ cdc.interfaceInfos, ∀ ap ∈ (cdc.deref j).bucket info.ConcreteInfo.Prefix,
      ap < cdc.heap.length := fun j hj => (inv_bucket cdc hinv j hj info.ConcreteInfo.Prefix).1
  unfold Codec.RegisterConcrete at hret
  split at hret
  · cases hret
  · simp only [ho, hinfo] at hret
    cases hadd : (cdc.alloc info).2.addCheckConflictsWithConcreteNolock env ro
        (cdc.alloc info).1 with
    | mk r c2 =>
      rw [hadd] at hret
      cases r with
      | some e => cases hret
      | none =>
        simp only at hret
        have hs2 := sameButImpl_addCheck env ro (cdc.alloc info).2 (cdc.alloc info).1
        rw [hadd] at hs2
        have hloop : addCheckConflictsLoop env ro cdc.heap.length cdc.interfaceInfos
            (cdc.alloc info).2 = (none, c2) := hadd
        have hcond := addCheckLoop_returns_only_if env ro cdc.heap.length cdc.interfaceInfos
          (cdc.alloc info).2 c2 hinv0 (by rw [hlen0]; exact Nat.lt_succ_self _)
          (fun j hj => hj) hinv.ifaceNodup hloop
        refine ⟨?_, ?_⟩
        · intro j hj himp
          have := hcond j hj (by rw [hself, hPT, hlt j (hifl j hj)]; exact himp)
          rw [hself, hlt j (hifl j hj)] at this
          have h2 := (admits_iff cdc info j _ (hifl j hj) (hbv j hj)).mp this
          rw [hty] at h2
          exact h2
        · intro hT
          have hd2 : c2.deref cdc.heap.length = info := by
            have hcpn : cdc.heap.length ∉ cdc.interfaceInfos :=
              fun h => Nat.lt_irrefl _ (hifl _ h)
            obtain ⟨c3, g1, _, _, g4, _, _⟩ := addCheckLoop_returns env ro cdc.heap.length
              cdc.interfaceInfos (cdc.alloc info).2 hinv0
              (by rw [hlen0]; exact Nat.lt_succ_self _) (fun j hj => hj) hinv.ifaceNodup hcond
            rw [hloop] at g1
            injection g1 with _ g1
            rw [g1, g4 _ hcpn]
            exact hself
          have := setTypeInfoNoLock_fresh_returns c2 cdc1 cdc.heap.length
            (by rw [hd2, hty]; exact hkp) (by rw [hd2, hty]; exact hki)
            (by rw [hd2]; exact hreg) (by rw [hd2, hty, hs2.2.1]; exact hT) hret
          rw [hd2, hs2.2.2.2.2.1, hs2.2.2.2.2.2.1, hname] at this
          exact this

/-- What the second registration meets: whether the bucket that the first registration
left admits the second type, read in the catalog before the first registration. -/
theorem admits_after_first (cdc cdc1 : Codec) (j : Ptr) (A B : RType) (hAB : A ≠ B)
    (old : List Ptr) (dfA dfB : DisfixBytes) (iA : Bool)
    (hj : j < cdc.heap.length) (hold : ∀ ap ∈ old, ap < cdc.heap.length)
    (hfz : ∀ q, q < cdc.heap.length → (cdc1.deref q).frozen = (cdc.deref q).frozen)
    (hnewT : (cdc1.deref cdc.heap.length).Typ = A)
    (hnewD : (cdc1.deref cdc.heap.length).ConcreteInfo.GetDisfix = dfA) :
    cdc1.admits j
        (if iA then (if cdc.singleOf old A then old else old ++ [cdc.heap.length]) else old)
        B dfB =
      if iA then
        (old.all (fun ap => cdc.covered j ap) &&
          inPrio (cdc.deref j).InterfaceInfo.Priority dfB &&
          (cdc.singleOf old A || inPrio (cdc.deref j).InterfaceInfo.Priority dfA))
      else cdc.admits j old B dfB := by
  have hprio : (cdc1.deref j).InterfaceInfo.Priority = (cdc.deref j).InterfaceInfo.Priority :=
    frozen_priority _ _ (hfz j hj)
  have hcov : ∀ ap, ap < cdc.heap.length → cdc1.covered j ap = cdc.covered j ap := by
    intro ap hap
    unfold Codec.covered
    rw [hprio, frozen_concrete _ _ (hfz ap hap)]
  have hcovn : cdc1.covered j cdc.heap.length =
      inPrio (cdc.deref j).InterfaceInfo.Priority dfA := by
    unfold Codec.covered
    rw [hprio, hnewD]
  have hty : ∀ ap, ap < cdc.heap.length → (cdc1.deref ap).Typ = (cdc.deref ap).Typ :=
    fun ap hap => frozen_typ _ _ (hfz ap hap)
  have hBA : ¬ A = B := hAB
  have hall : ∀ l : List Ptr, (∀ ap ∈ l, ap < cdc.heap.length) →
      l.all (fun ap => cdc1.covered j ap) = l.all (fun ap => cdc.covered j ap) := by
    intro l hl
    induction l with
    | nil => rfl
    | cons a rest ih =>
      simp only [List.all_cons]
      rw [hcov a (hl a (by simp)), ih (fun ap hap => hl ap (List.mem_cons_of_mem _ hap))]
  cases iA with
  | false =>
    simp only [Bool.false_eq_true, if_false]
    unfold Codec.admits
    rw [hall old hold, hprio]
    match old, hold with
    | [], _ => rfl
    | [ap], hold => simp only [Codec.singleOf, hty ap (hold ap (by simp))]
    | _ :: _ :: _, _ => rfl
  | true =>
    simp only [if_true]
    match old, hold with
    | [], _ =>
      simp only [Codec.singleOf, Bool.false_eq_true, if_false, List.nil_append, Codec.admits,
        List.isEmpty_cons, hnewT, hBA, decide_False, Bool.false_or, List.all_cons, List.all_nil,
        Bool.and_true, hcovn, hprio, Bool.true_and]
      exact Bool.and_comm _ _
    | [ap], hold =>
      have hap : ap < cdc.heap.length := hold ap (by simp)
      by_cases ht : (cdc.deref ap).Typ = A
      · simp [Codec.singleOf, Codec.admits, ht, hty ap hap, hBA, hcov ap hap, hprio]
      · simp only [Codec.singleOf, ht, decide_False, Bool.false_eq_true, if_false,
          List.singleton_append, Codec.admits, List.isEmpty_cons, Bool.false_or, List.all_cons,
          List.all_nil, Bool.and_true, hcov ap hap, hcovn, hprio]
        cases cdc.covered j ap <;>
          cases inPrio (cdc.deref j).InterfaceInfo.Priority dfA <;>
          cases inPrio (cdc.deref j).InterfaceInfo.Priority dfB <;> rfl
    | a :: b :: rest, hold =>
      have h1 : cdc.singleOf (a :: b :: rest) A = false := rfl
      have h2 : cdc1.singleOf (a :: b :: rest ++ [cdc.heap.length]) B = false := by
        cases rest <;> rfl
      simp only [h1, Bool.false_eq_true, if_false, Codec.admits, h2, Bool.false_or,
        List.cons_append, List.isEmpty_cons, hprio]
      have h3 : (a :: b :: (rest ++ [cdc.heap.length])).all (fun ap => cdc1.covered j ap) =
          ((a :: b :: rest).all (fun ap => cdc.covered j ap) &&
            inPrio (cdc.deref j).InterfaceInfo.Priority dfA) := by
        have e : a :: b :: (rest ++ [cdc.heap.length]) = (a :: b :: rest) ++ [cdc.heap.length] :=
          rfl
        rw [e, List.all_append, hall _ hold]
        simp [hcovn]
      rw [h3]
      cases (a :: b :: rest).all (fun ap => cdc.covered j ap) <;>
        cases inPrio (cdc.deref j).InterfaceInfo.Priority dfA <;>
        cases inPrio (cdc.deref j).InterfaceInfo.Priority dfB <;> rfl

theorem singleOf_after_first (cdc cdc1 : Codec) (A B : RType) (hAB : A ≠ B) (old : List Ptr)
    (hold : ∀ ap ∈ old, ap < cdc.heap.length)
    (hfz : ∀ q, q < cdc.heap.length → (cdc1.deref q).frozen = (cdc.deref q).frozen)
    (hnewT : (cdc1.deref cdc.heap.length).Typ = A) :
    cdc1.singleOf (if cdc.singleOf old A then old else old ++ [cdc.heap.length]) B = false ∧
    ∃ pa ∈ (if cdc.singleOf old A then old else old ++ [cdc.heap.length]),
      pa < cdc.heap.length + 1 ∧ (cdc1.deref pa).Typ = A := by
  have hBA : ¬ A = B := hAB
  match old, hold with
  | [], _ =>
    refine ⟨by simp [Codec.singleOf, hnewT, hBA], cdc.heap.length, by simp [Codec.singleOf],
      Nat.lt_succ_self _, hnewT⟩
  | [ap], hold =>
    have hap : ap < cdc.heap.length := hold ap (by simp)
    have hty : (cdc1.deref ap).Typ = (cdc.deref ap).Typ := frozen_typ _ _ (hfz ap hap)
    by_cases ht : (cdc.deref ap).Typ = A
    · refine ⟨by simp [Codec.singleOf, ht, hty, hBA], ap, by simp [Codec.singleOf, ht],
        Nat.lt_succ_of_lt hap, by rw [hty, ht]⟩
    · refine ⟨by simp [Codec.singleOf, ht], cdc.heap.length, by simp [Codec.singleOf, ht],
        Nat.lt_succ_self _, hnewT⟩
  | a :: b :: rest, _ =>
    have h1 : cdc.singleOf (a :: b :: rest) A = false := rfl
    refine ⟨?_, cdc.heap.length, by simp [h1], Nat.lt_succ_self _, hnewT⟩
    simp only [h1, Bool.false_eq_true, if_false]
    cases rest <;> rfl

/-- C32, as amended: in every reachable catalog that is not sealed, for a registered
interface `I` and two distinct concrete types `A` and `B` that both implement `I`, whose
names `nA` and `nB` give the same Prefix and different Disamb and whose descriptors can
be built: registering `A` under `nA` and then `B` under `nB` both return without a panic,
in every visiting order, if and only if (1) every registered interface that `A`
implements admits `A`: its bucket for the Prefix is empty, or is a single descriptor of
`A`, or holds only descriptors whose Disfix is in its priority list, which then holds
the Disfix of `nA` too; (2) every registered interface that `B` implements and `A` does
not admits `B` in the same way; (3) every registered interface that both implement, `I`
among them, has in its priority list the Disfix of `nB` and that of every descriptor of
its bucket for the Prefix, and the Disfix of `nA` as well unless that bucket is a single
descriptor of `A`; (4) for each of the two types, if the type is not yet in the by-type
index, its Disfix is not in the by-Disfix index and its name is not in the by-name
index. When both calls return, the bucket of `I` for the Prefix is its old bucket,
followed by the new descriptor of `A` unless the old bucket was a single descriptor of
`A`, followed by the new descriptor of `B`; so it holds a descriptor of `A` and the
descriptor of `B`. -/
theorem C32_two_types_of_one_prefix (env : Env) (ro : RangeOrder) (cdc : Codec)
    (hr : Reachable env cdc) (hs : cdc.sealed = false)
    (ip : Ptr) (hip : ip ∈ cdc.interfaceInfos)
    (oA oB A B : RType) (ppA ppB : Bool) (nA nB : String) (infoA infoB : TypeInfo)
    (hoA : concreteTypeOf oA = .ok (A, ppA)) (hoB : concreteTypeOf oB = .ok (B, ppB))
    (hiA : newTypeInfoFromRegisteredConcreteType env A ppA nA = .ok infoA)
    (hiB : newTypeInfoFromRegisteredConcreteType env B ppB nB = .ok infoB)
    (hAB : A ≠ B)
    (hpre : infoA.ConcreteInfo.Prefix = infoB.ConcreteInfo.Prefix)
    (hdis : infoA.ConcreteInfo.Disamb ≠ infoB.ConcreteInfo.Disamb)
    (himpA : env.implements A.PtrTo (cdc.deref ip).Typ = true)
    (himpB : env.implements B.PtrTo (cdc.deref ip).Typ = true) :
    ((∃ cdc1 cdc2, cdc.RegisterConcrete env ro oA nA = (none, cdc1) ∧
        cdc1.RegisterConcrete env ro oB nB = (none, cdc2)) ↔
      ((∀ j ∈ cdc.interfaceInfos, env.implements A.PtrTo (cdc.deref j).Typ = true →
          cdc.admits j ((cdc.deref j).bucket infoA.ConcreteInfo.Prefix) A
            infoA.ConcreteInfo.GetDisfix = true) ∧
       (∀ j ∈ cdc.interfaceInfos, env.implements B.PtrTo (cdc.deref j).Typ = true →
          env.implements A.PtrTo (cdc.deref j).Typ = false →
          cdc.admits j ((cdc.deref j).bucket infoA.ConcreteInfo.Prefix) B
            infoB.ConcreteInfo.GetDisfix = true) ∧
       (∀ j ∈ cdc.interfaceInfos, env.implements B.PtrTo (cdc.deref j).Typ = true →
          env.implements A.PtrTo (cdc.deref j).Typ = true →
          ((cdc.deref j).bucket infoA.ConcreteInfo.Prefix).all (fun ap => cdc.covered j ap) =
            true ∧
          inPrio (cdc.deref j).InterfaceInfo.Priority infoB.ConcreteInfo.GetDisfix = true ∧
          (cdc.singleOf ((cdc.deref j).bucket infoA.ConcreteInfo.Prefix) A = true ∨
            inPrio (cdc.deref j).InterfaceInfo.Priority infoA.ConcreteInfo.GetDisfix = true)) ∧
       (mapGet? cdc.typeInfos A = none →
          mapGet? cdc.disfixToTypeInfo infoA.ConcreteInfo.GetDisfix = none ∧
          mapGet? cdc.nameToTypeInfo nA = none) ∧
       (mapGet? cdc.typeInfos B = none →
          mapGet? cdc.disfixToTypeInfo infoB.ConcreteInfo.GetDisfix = none ∧
          mapGet? cdc.nameToTypeInfo nB = none))) ∧
    (∀ cdc1 cdc2, cdc.RegisterConcrete env ro oA nA = (none, cdc1) →
      cdc1.RegisterConcrete env ro oB nB = (none, cdc2) →
      (cdc2.deref ip).bucket infoA.ConcreteInfo.Prefix =
        (if cdc.singleOf ((cdc.deref ip).bucket infoA.ConcreteInfo.Prefix) A then
          (cdc.deref ip).bucket infoA.ConcreteInfo.Prefix
         else (cdc.deref ip).bucket infoA.ConcreteInfo.Prefix ++ [cdc.heap.length]) ++
          [cdc.heap.length + 1] ∧
      cdc2.deref (cdc.heap.length + 1) = infoB ∧
      (cdc.singleOf ((cdc.deref ip).bucket infoA.ConcreteInfo.Prefix) A = false →
        cdc2.deref cdc.heap.length = infoA) ∧
      (∃ pa ∈ (cdc2.deref ip).bucket infoA.ConcreteInfo.Prefix, (cdc2.deref pa).Typ = A) ∧
      (∃ pb ∈ (cdc2.deref ip).bucket infoA.ConcreteInfo.Prefix, (cdc2.deref pb).Typ = B)) := by
  have hinv := inv_of_reachable env cdc hr
  obtain ⟨htyA, _, _, _, _, hnameA, hndA, _⟩ :=
    newTypeInfoFromRegistered_spec env A ppA nA infoA hiA
  obtain ⟨htyB, _, _, _, _, hnameB, hndB, _⟩ :=
    newTypeInfoFromRegistered_spec env B ppB nB infoB hiB
  have hifl : ∀ j ∈ cdc.interfaceInfos, j < cdc.heap.length := hinv.ifaceValid
  have hcpn : cdc.heap.length ∉ cdc.interfaceInfos := fun h => Nat.lt_irrefl _ (hifl _ h)
  have hbv : ∀ j ∈ cdc.interfaceInfos, ∀ ap ∈ (cdc.deref j).bucket infoA.ConcreteInfo.Prefix,
      ap < cdc.heap.length := fun j hj => (inv_bucket cdc hinv j hj infoA.ConcreteInfo.Prefix).1
  have hnn : nB ≠ nA := by
    intro h
    rw [h, hndA] at hndB
    injection hndB with h1
    injection h1 with h2 _
    exact hdis h2
  have hdd : infoB.ConcreteInfo.GetDisfix ≠ infoA.ConcreteInfo.GetDisfix :=
    getDisfix_ne_of_disamb _ _ (fun h => hdis h.symm)
  -- what the catalog left by the first registration looks like to the second
  have key : ∀ cdc1, cdc.RegisterConcrete env ro oA nA = (none, cdc1) →
      cdc1.Inv ∧ cdc1.sealed = false ∧ cdc1.interfaceInfos = cdc.interfaceInfos ∧
      cdc1.heap.length = cdc.heap.length + 1 ∧ cdc1.deref cdc.heap.length = infoA ∧
      (∀ q, q < cdc.heap.length → (cdc1.deref q).frozen = (cdc.deref q).frozen) ∧
      (∀ j ∈ cdc.interfaceInfos,
        (cdc1.deref j).bucket infoB.ConcreteInfo.Prefix =
          if env.implements A.PtrTo (cdc.deref j).Typ then
            (if cdc.singleOf ((cdc.deref j).bucket infoA.ConcreteInfo.Prefix) A then
              (cdc.deref j).bucket infoA.ConcreteInfo.Prefix
             else (cdc.deref j).bucket infoA.ConcreteInfo.Prefix ++ [cdc.heap.length])
          else (cdc.deref j).bucket infoA.ConcreteInfo.Prefix) ∧
      ((mapGet? cdc1.typeInfos B = none ↔ mapGet? cdc.typeInfos B = none) ∧
        mapGet? cdc1.disfixToTypeInfo infoB.ConcreteInfo.GetDisfix =
          mapGet? cdc.disfixToTypeInfo infoB.ConcreteInfo.GetDisfix ∧
        mapGet? cdc1.nameToTypeInfo nB = mapGet? cdc.nameToTypeInfo nB) := by
    intro cdc1 hregA
    obtain ⟨w1, w4⟩ := registerConcrete_returns_only_if env ro cdc cdc1 hinv oA A ppA nA infoA
      hoA hiA hregA
    obtain ⟨c1, a1, a2, a3, a4, a5, a6, _, a8, a9, a10, a11⟩ :=
      registerConcrete_returns env ro cdc hinv hs oA A ppA nA infoA hoA hiA w1 w4
    rw [hregA] at a1
    injection a1 with _ a1
    subst a1
    have hinv1 : cdc1.Inv := by
      have := inv_registerConcrete env ro cdc hinv oA nA
      rw [hregA] at this
      exact this
    refine ⟨hinv1, a2, a4, a3, a5, a6, ?_, ?_⟩
    · intro j hj
      rw [← hpre]
      cases hA : env.implements A.PtrTo (cdc.deref j).Typ with
      | false => rw [a8 j hj hA]; simp
      | true => rw [a9 j hj hA, bucket_setBucket]; simp
    · cases hT : mapGet? cdc.typeInfos A with
      | some p0 =>
        obtain ⟨e1, e2, e3⟩ := a10 (by rw [hT]; rfl)
        rw [e1, e2, e3]
        exact ⟨Iff.rfl, rfl, rfl⟩
      | none =>
        obtain ⟨e1, e2, e3⟩ := a11 hT
        rw [e1, e2, e3, mapGet?_mapSet_ne _ _ _ _ (Ne.symm hAB),
          mapGet?_mapSet_ne _ _ _ _ hdd, mapGet?_mapSet_ne _ _ _ _ hnn]
        exact ⟨Iff.rfl, rfl, rfl⟩
  -- the test of the second registration, read in the catalog before the first
  have test : ∀ cdc1, cdc.RegisterConcrete env ro oA nA = (none, cdc1) →
      ∀ j ∈ cdc.interfaceInfos,
        (env.implements B.PtrTo (cdc1.deref j).Typ =
          env.implements B.PtrTo (cdc.deref j).Typ) ∧
        cdc1.admits j ((cdc1.deref j).bucket infoB.ConcreteInfo.Prefix) B
            infoB.ConcreteInfo.GetDisfix =
          if env.implements A.PtrTo (cdc.deref j).Typ then
            (((cdc.deref j).bucket infoA.ConcreteInfo.Prefix).all (fun ap => cdc.covered j ap) &&
              inPrio (cdc.deref j).InterfaceInfo.Priority infoB.ConcreteInfo.GetDisfix &&
              (cdc.singleOf ((cdc.deref j).bucket infoA.ConcreteInfo.Prefix) A ||
                inPrio (cdc.deref j).InterfaceInfo.Priority infoA.ConcreteInfo.GetDisfix))
          else cdc.admits j ((cdc.deref j).bucket infoA.ConcreteInfo.Prefix) B
            infoB.ConcreteInfo.GetDisfix := by
    intro cdc1 hregA j hj
    obtain ⟨_, _, _, _, k5, k6, k7, _⟩ := key cdc1 hregA
    refine ⟨by rw [frozen_typ _ _ (k6 j (hifl j hj))], ?_⟩
    rw [k7 j hj]
    exact admits_after_first cdc cdc1 j A B hAB _ _ _ _ (hifl j hj) (hbv j hj) k6
      (by rw [k5, htyA]) (by rw [k5])
  refine ⟨⟨?_, ?_⟩, ?_⟩
  · -- both return: the conditions hold
    rintro ⟨cdc1, cdc2, hregA, hregB⟩
    obtain ⟨w1, w4⟩ := registerConcrete_returns_only_if env ro cdc cdc1 hinv oA A ppA nA infoA
      hoA hiA hregA
    obtain ⟨hinv1, _, k3, _, _, _, _, t1, t2, t3⟩ := key cdc1 hregA
    obtain ⟨v1, v2⟩ := registerConcrete_returns_only_if env ro cdc1 cdc2 hinv1 oB B ppB nB infoB
      hoB hiB hregB
    refine ⟨w1, ?_, ?_, w4, ?_⟩
    · intro j hj hB hA
      obtain ⟨e1, e2⟩ := test cdc1 hregA j hj
      have := v1 j (by rw [k3]; exact hj) (by rw [e1]; exact hB)
      rw [e2, hA] at this
      simpa using this
    · intro j hj hB hA
      obtain ⟨e1, e2⟩ := test cdc1 hregA j hj
      have := v1 j (by rw [k3]; exact hj) (by rw [e1]; exact hB)
      rw [e2, hA] at this
      simpa [Bool.and_eq_true, Bool.or_eq_true, and_assoc] using this
    · intro hT
      have := v2 (t1.mpr hT)
      rw [t2, t3] at this
      exact this
  · -- the conditions hold: both return
    rintro ⟨w1, w2, w3, w4, w5⟩
    obtain ⟨cdc1, hregA, _⟩ :=
      registerConcrete_returns env ro cdc hinv hs oA A ppA nA infoA hoA hiA w1 w4
    obtain ⟨hinv1, k2, k3, _, _, _, _, t1, t2, t3⟩ := key cdc1 hregA
    obtain ⟨cdc2, hregB, _⟩ :=
      registerConcrete_returns env ro cdc1 hinv1 k2 oB B ppB nB infoB hoB hiB
        (by
          intro j hj hB
          rw [k3] at hj
          obtain ⟨e1, e2⟩ := test cdc1 hregA j hj
          rw [e1] at hB
          rw [e2]
          cases hA : env.implements A.PtrTo (cdc.deref j).Typ with
          | false => simpa using w2 j hj hB hA
          | true =>
            obtain ⟨x1, x2, x3⟩ := w3 j hj hB hA
            simp only [if_true, Bool.and_eq_true, Bool.or_eq_true]
            exact ⟨⟨x1, x2⟩, x3⟩)
        (by
          intro hT
          rw [t2, t3]
          exact w5 (t1.mp hT))
    exact ⟨cdc1, cdc2, hregA, hregB⟩
  · -- the bucket of `I`
    intro cdc1 cdc2 hregA hregB
    obtain ⟨hinv1, k2, k3, k4, k5, k6, k7, _⟩ := key cdc1 hregA
    obtain ⟨v1, v2⟩ := registerConcrete_returns_only_if env ro cdc1 cdc2 hinv1 oB B ppB nB infoB
      hoB hiB hregB
    obtain ⟨c2, b1, _, _, _, b5, b6, b7, _, b9, _, _⟩ :=
      registerConcrete_returns env ro cdc1 hinv1 k2 oB B ppB nB infoB hoB hiB v1 v2
    rw [hregB] at b1
    injection b1 with _ b1
    subst b1
    obtain ⟨s1, pa, hpa, hpalt, hpaT⟩ := singleOf_after_first cdc cdc1 A B hAB
      ((cdc.deref ip).bucket infoA.ConcreteInfo.Prefix) (hbv ip hip) k6 (by rw [k5, htyA])
    have hipB : env.implements B.PtrTo (cdc1.deref ip).Typ = true := by
      rw [(test cdc1 hregA ip hip).1]; exact himpB
    have hb1 := k7 ip hip
    rw [himpA] at hb1
    simp only [if_true] at hb1
    have hfinal : (cdc2.deref ip).bucket infoA.ConcreteInfo.Prefix =
        (if cdc.singleOf ((cdc.deref ip).bucket infoA.ConcreteInfo.Prefix) A then
          (cdc.deref ip).bucket infoA.ConcreteInfo.Prefix
         else (cdc.deref ip).bucket infoA.ConcreteInfo.Prefix ++ [cdc.heap.length]) ++
          [cdc.heap.length + 1] := by
      rw [b9 ip (by rw [k3]; exact hip) hipB, hpre, bucket_setBucket, hb1, ← hpre, s1, k4]
      simp
    refine ⟨hfinal, ?_, ?_, ?_, ?_⟩
    · rw [← k4]; exact b5
    · intro _
      rw [b7 _ (by rw [k4]; exact Nat.lt_succ_self _) (by rw [k3]; exact hcpn)]
      exact k5
    · refine ⟨pa, by rw [hfinal]; exact List.mem_append_left _ hpa, ?_⟩
      rw [frozen_typ _ _ (b6 pa (by rw [k4]; exact hpalt))]
      exact hpaT
    · refine ⟨cdc.heap.length + 1, by rw [hfinal]; simp, ?_⟩
      rw [← k4, b5, htyB]

theorem reachable_demoCdcFooPrio : Reachable demoEnv demoCdcFooPrio :=
  Reachable.registerInterface _ _ _ _ Reachable.newCodec

theorem reachable_demoCdcPrioBarA : Reachable demoEnv demoCdcPrioBarA :=
  Reachable.registerConcrete _ _ _ _
    (Reachable.registerInterface _ _ _ _ reachable_demoCdcFooPrio)

theorem reachable_demoCdcFooThreeC : Reachable demoEnvThree demoCdcFooThreeC :=
  Reachable.registerConcrete _ _ _ _ (Reachable.registerInterface _ _ _ _ Reachable.newCodec)

theorem reachable_demoCdcFooTwoC : Reachable demoEnvThree demoCdcFooTwoC :=
  Reachable.registerConcrete _ _ _ _ (Reachable.registerInterface _ _ _ _ Reachable.newCodec)

theorem reachable_demoCdcFooPrioC : Reachable demoEnv demoCdcFooPrioC :=
  Reachable.registerConcrete _ _ _ _ reachable_demoCdcFooPrio

/-- The catalog in which `Foo` is registered with a priority list of three names of one
Prefix, `0B 47 85 12`, and `C` under the second of them: the bucket of `Foo` for the
Prefix holds the descriptor of `C` already. `A` under the first name and then `B` under
the third are registered, and the bucket then holds the descriptors of `C`, `A` and
`B`. -/
theorem C32_two_types_of_one_prefix_witness :
    Reachable demoEnvThree demoCdcFooThreeC ∧
    (demoCdcFooThreeC.deref 0).Typ = demoFoo ∧
    (demoCdcFooThreeC.deref 0).bucket demoInfoAThree.ConcreteInfo.Prefix = [1] ∧
    (demoCdcFooThreeC.deref 1).Typ = demoC ∧
    ∃ cdc1 cdc2,
      demoCdcFooThreeC.RegisterConcrete demoEnvThree .inOrder demoA "pkg/U1631166" =
        (none, cdc1) ∧
      cdc1.RegisterConcrete demoEnvThree .inOrder demoB "pkg/U3528201" = (none, cdc2) ∧
      (cdc2.deref 0).bucket demoInfoAThree.ConcreteInfo.Prefix = [1, 2, 3] ∧
      cdc2.deref 2 = demoInfoAThree ∧ cdc2.deref 3 = demoInfoBThree := by
  have h := C32_two_types_of_one_prefix demoEnvThree .inOrder demoCdcFooThreeC
    reachable_demoCdcFooThreeC (by decide) 0 (by decide) demoA demoB demoA demoB false false
    "pkg/U1631166" "pkg/U3528201" demoInfoAThree demoInfoBThree rfl rfl rfl rfl
    (by decide) (by decide) (by decide) (by decide) (by decide)
  obtain ⟨cdc1, cdc2, h1, h2⟩ :=
    h.1.mpr ⟨by decide, by decide, by decide, by decide, by decide⟩
  obtain ⟨k1, k2, k3, _, _⟩ := h.2 cdc1 cdc2 h1 h2
  exact ⟨reachable_demoCdcFooThreeC, by decide, by decide, by decide, cdc1, cdc2, h1, h2,
    k1.trans (by decide), k3 (by decide), k2⟩

/-- C32 as stated fails, in three ways. (1) `Foo` is registered with a priority list that
holds both names, `Bar` without a priority list, and `A` under `pkg/T83812`; `A` and `B`
are two types that implement `Foo` and the names have one Prefix and different Disamb.
The registration of `B` under `pkg/T123317` panics, because `A` and `B` collide under
`Bar` too, and `B` is in no index afterwards. (2) `Foo` alone is registered, with the
priority list `pkg/U1631166`, `pkg/U3528201`, and a third type `C` under a third name of
the same Prefix: the registration of `A` under `pkg/U1631166` panics, because the
descriptor of `C` in the bucket is outside the priority list. (3) `Foo` alone is
registered, with a priority list that holds both names, and `C` under `pkg/T83812`: the
registration of `A` under `pkg/T83812` panics, because the Disfix is taken. -/
theorem C32_counterexample :
    (Reachable demoEnv demoCdcPrioBarA ∧ demoCdcPrioBarA.sealed = false ∧
    demoCdcPrioBarA.interfaceInfos = [0, 1] ∧
    (demoCdcPrioBarA.deref 0).Typ = demoFoo ∧
    (demoCdcPrioBarA.deref 0).InterfaceInfo.InterfaceOptions.Priority =
      ["pkg/T83812", "pkg/T123317"] ∧
    (demoCdcPrioBarA.deref 0).InterfaceInfo.Priority =
      [demoInfoAPrio.ConcreteInfo.GetDisfix, demoInfoB.ConcreteInfo.GetDisfix] ∧
    demoEnv.implements demoA.PtrTo demoFoo = true ∧
    demoEnv.implements demoB.PtrTo demoFoo = true ∧
    NameToDisfix demoEnv "pkg/T83812" = .ok (⟨203, 242, 230⟩, ⟨8, 135, 95, 43⟩) ∧
    NameToDisfix demoEnv "pkg/T123317" = .ok (⟨126, 14, 211⟩, ⟨8, 135, 95, 43⟩) ∧
    mapGet? demoCdcPrioBarA.nameToTypeInfo "pkg/T83812" = some 2 ∧
    (demoCdcPrioBarA.deref 2).Typ = demoA ∧
    (demoCdcPrioBarA.RegisterConcrete demoEnv .inOrder demoB "pkg/T123317").1 =
      some (.conflicts demoA 2 demoBar) ∧
    mapGet? (demoCdcPrioBarA.RegisterConcrete demoEnv .inOrder demoB
      "pkg/T123317").2.typeInfos demoB = none) ∧
    (Reachable demoEnvThree demoCdcFooTwoC ∧ demoCdcFooTwoC.sealed = false ∧
    demoCdcFooTwoC.interfaceInfos = [0] ∧
    (demoCdcFooTwoC.deref 0).Typ = demoFoo ∧
    (demoCdcFooTwoC.deref 0).InterfaceInfo.InterfaceOptions.Priority =
      ["pkg/U1631166", "pkg/U3528201"] ∧
    (demoCdcFooTwoC.deref 0).InterfaceInfo.Priority =
      [demoInfoAThree.ConcreteInfo.GetDisfix, demoInfoBThree.ConcreteInfo.GetDisfix] ∧
    demoEnvThree.implements demoA.PtrTo demoFoo = true ∧
    demoEnvThree.implements demoB.PtrTo demoFoo = true ∧
    NameToDisfix demoEnvThree "pkg/U1631166" = .ok (⟨239, 179, 101⟩, ⟨11, 71, 133, 18⟩) ∧
    NameToDisfix demoEnvThree "pkg/U3528201" = .ok (⟨24, 221, 193⟩, ⟨11, 71, 133, 18⟩) ∧
    NameToDisfix demoEnvThree "pkg/U1747074" = .ok (⟨251, 59, 80⟩, ⟨11, 71, 133, 18⟩) ∧
    mapGet? demoCdcFooTwoC.typeInfos demoA = none ∧
    mapGet? demoCdcFooTwoC.typeInfos demoB = none ∧
    (demoCdcFooTwoC.deref 0).bucket ⟨11, 71, 133, 18⟩ = [1] ∧
    (demoCdcFooTwoC.deref 1).Typ = demoC ∧
    (demoCdcFooTwoC.RegisterConcrete demoEnvThree .inOrder demoA "pkg/U1631166").1 =
      some (.conflicts demoC 2 demoFoo)) ∧
    (Reachable demoEnv demoCdcFooPrioC ∧ demoCdcFooPrioC.sealed = false ∧
    demoCdcFooPrioC.interfaceInfos = [0] ∧
    (demoCdcFooPrioC.deref 0).Typ = demoFoo ∧
    (demoCdcFooPrioC.deref 0).InterfaceInfo.InterfaceOptions.Priority =
      ["pkg/T83812", "pkg/T123317"] ∧
    mapGet? demoCdcFooPrioC.typeInfos demoA = none ∧
    mapGet? demoCdcFooPrioC.typeInfos demoB = none ∧
    mapGet? demoCdcFooPrioC.nameToTypeInfo "pkg/T83812" = some 1 ∧
    (demoCdcFooPrioC.deref 1).Typ = demoC ∧
    (demoCdcFooPrioC.RegisterConcrete demoEnv .inOrder demoA "pkg/T83812").1 =
      some (.disfixAlreadyRegistered demoInfoAPrio.ConcreteInfo.GetDisfix demoC)) :=
  ⟨⟨reachable_demoCdcPrioBarA, by decide, by decide, by decide, by decide, by decide, by decide,
   by decide, rfl, rfl, by decide, by decide, by decide, by decide⟩,
   ⟨reachable_demoCdcFooTwoC, by decide, by decide, by decide, by decide, by decide, by decide,
   by decide, rfl, rfl, rfl, by decide, by decide, by decide, by decide, by decide⟩,
   ⟨reachable_demoCdcFooPrioC, by decide, by decide, by decide, by decide, by decide,
   by decide, by decide, by decide, by decide⟩⟩

/-! ## C33: registered concretes and the buckets of the interfaces they implement -/

theorem reachable_demoCdcShadowed : Reachable demoEnvThree demoCdcShadowed :=
  Reachable.registerConcrete _ _ _ _ (Reachable.registerConcrete _ _ _ _
    (Reachable.registerConcrete _ _ _ _ (Reachable.registerInterface _ _ _ _
      (Reachable.registerInterface _ _ _ _ Reachable.newCodec))))

/-- C33, the code at the failing input. `Shape`, which `B` alone implements, and `Foo`
with the priority list `pkg/U1631166`, `pkg/U3528201` are registered, then `A` under
`pkg/U1631166`. The three names have the Prefix `0B 47 85 12`. The registration of `B`
under `pkg/U1747074` panics on the conflict with `A` under `Foo`, after the descriptor
built for it was appended to the bucket of `Shape`, which is not restored. The
registration of `B` under `pkg/U3528201` then returns: `checkConflictsInPrioNolock`
finds the bucket of `Shape` to be one type twice and keeps the older descriptor. In the
catalog so reached the descriptor of `B` in the concrete list implements `Shape`, and the
bucket of `Shape` for its Prefix holds the rejected descriptor instead of it. -/
theorem C33_rejected_descriptor_shadows_the_registered :
    Reachable demoEnvThree demoCdcShadowed ∧
    (demoCdcShapeFooA.RegisterConcrete demoEnvThree .inOrder demoB "pkg/U1747074").1 =
      some (.conflicts demoB 2 demoFoo) ∧
    ((demoCdcShapeFooA.RegisterConcrete demoEnvThree .inOrder demoB
      "pkg/U1747074").2.RegisterConcrete demoEnvThree .inOrder demoB "pkg/U3528201").1 = none ∧
    demoCdcShadowed.interfaceInfos = [0, 1] ∧
    demoCdcShadowed.concreteInfos = [2, 4] ∧
    (demoCdcShadowed.deref 0).Typ = demoShape ∧
    (demoCdcShadowed.deref 4).Typ = demoB ∧
    (demoCdcShadowed.deref 4).ConcreteInfo.Name = "pkg/U3528201" ∧
    (demoCdcShadowed.deref 4).ConcreteInfo.Prefix = ⟨11, 71, 133, 18⟩ ∧
    demoEnvThree.implements (demoCdcShadowed.deref 4).PtrToType (demoCdcShadowed.deref 0).Typ =
      true ∧
    (demoCdcShadowed.deref 0).bucket (demoCdcShadowed.deref 4).ConcreteInfo.Prefix = [3] ∧
    4 ∉ (demoCdcShadowed.deref 0).bucket (demoCdcShadowed.deref 4).ConcreteInfo.Prefix ∧
    (demoCdcShadowed.deref 3).ConcreteInfo.Name = "pkg/U1747074" ∧
    mapGet? demoCdcShadowed.nameToTypeInfo "pkg/U1747074" = none ∧
    demoCdcShadowed.getTypeInfoFromPrefixRlock 0 ⟨11, 71, 133, 18⟩ = .ok 3 := by
  refine ⟨reachable_demoCdcShadowed, ?_⟩
  decide

/-! ## C39: the descriptors in the buckets and the index by Disfix -/

theorem reachable_demoCdcFooLazyA : Reachable demoEnv demoCdcFooLazyA :=
  Reachable.getTypeInfo _ _ (Reachable.registerInterface _ _ _ _ Reachable.newCodec)

/-- C39, the code at the failing input. `Foo` is registered and `A` is looked up by type,
which caches an unregistered descriptor for it. `RegisterConcrete(A{}, "n", nil)` then
returns without a panic: the descriptor it built is appended to the bucket of `Foo`, and
`setTypeInfoNoLock` returns at once because the type is in the by-type index. In the
catalog so reached the bucket of `Foo` holds a descriptor that is filed under its own
Prefix and marked `Registered`, while the by-Disfix index and the by-name index are
empty, the concrete list is empty and the by-type index yields the cached descriptor,
which is not registered. -/
theorem C39_bucket_entry_outside_the_indexes :
    Reachable demoEnv (demoCdcFooLazyA.RegisterConcrete demoEnv .inOrder demoA "n").2 ∧
    (demoCdcFooLazyA.RegisterConcrete demoEnv .inOrder demoA "n").1 = none ∧
    (demoCdcFooLazyA.RegisterConcrete demoEnv .inOrder demoA "n").2.interfaceInfos = [0] ∧
    ((demoCdcFooLazyA.RegisterConcrete demoEnv .inOrder demoA "n").2.deref
      0).InterfaceInfo.Implementers = [(⟨223, 83, 139, 161⟩, [2])] ∧
    ((demoCdcFooLazyA.RegisterConcrete demoEnv .inOrder demoA "n").2.deref
      2).ConcreteInfo.Prefix = ⟨223, 83, 139, 161⟩ ∧
    ((demoCdcFooLazyA.RegisterConcrete demoEnv .inOrder demoA "n").2.deref
      2).ConcreteInfo.Registered = true ∧
    ((demoCdcFooLazyA.RegisterConcrete demoEnv .inOrder demoA "n").2.deref 2).Typ = demoA ∧
    mapGet? (demoCdcFooLazyA.RegisterConcrete demoEnv .inOrder demoA "n").2.disfixToTypeInfo
      ((demoCdcFooLazyA.RegisterConcrete demoEnv .inOrder demoA "n").2.deref
        2).ConcreteInfo.GetDisfix = none ∧
    (demoCdcFooLazyA.RegisterConcrete demoEnv .inOrder demoA "n").2.disfixToTypeInfo = [] ∧
    (demoCdcFooLazyA.RegisterConcrete demoEnv .inOrder demoA "n").2.nameToTypeInfo = [] ∧
    (demoCdcFooLazyA.RegisterConcrete demoEnv .inOrder demoA "n").2.concreteInfos = [] ∧
    mapGet? (demoCdcFooLazyA.RegisterConcrete demoEnv .inOrder demoA "n").2.typeInfos demoA =
      some 1 ∧
    ((demoCdcFooLazyA.RegisterConcrete demoEnv .inOrder demoA "n").2.deref
      1).ConcreteInfo.Registered = false := by
  refine ⟨Reachable.registerConcrete _ _ _ _ reachable_demoCdcFooLazyA, ?_⟩
  decide

end Bal
